import Mathlib

/-!
Buffer manager (buffer_mgr.c over storage_mgr.c): a shallow embedding.

The C program is a fixed-capacity page cache over a page file.  This file embeds
the frame table, the open-addressing page table, the three replacement
policies and the public buffer-pool operations as Lean functions, one Lean
definition per C function, and proves properties of them.

Conventions of the embedding.

* C `int` and `long long` values are `Int`.  The `int` computations that a client
  can drive out of range through the public operations (`fixCount + 1` in
  `pinPage`, `numReadIO + 1`, `numWriteIO + 1`, and `p + 1` in `ensurePageExists`)
  are reduced to the 32-bit range by `wrapInt`, as the compiled program does.
  The `long long` counter `tick` would need `2 ^ 63` pins to leave its range;
  theorems that depend on it staying in range carry the range as a hypothesis.
  `unsigned` arithmetic (only in `hash_page`) is arithmetic modulo `2 ^ 32` on
  `Nat`.
* C arrays are lists; `a[i]` is `getD`-style access and `a[i] = v` is `List.set`.
* A `char *` page buffer is a value of type `PageData`.  A frame owns its buffer
  for the life of the pool, so the pointer stored in a page handle is modelled
  by the index of the frame whose buffer it aliases.
* Out-parameters and mutated structures are returned next to the return code.
* The C library file behind `FILE *` is an `OSFile`: its pages, its position
  and a schedule `faults` of outcomes of the coming fallible library calls
  (`fseek`, `ftell`, `fread`, `fwrite`, `fclose`, and `calloc` in storage_mgr.c);
  `true` means the call fails, and an exhausted schedule means success.  A
  failed `fwrite` is taken to leave the file as it was.
* The mutex is not modelled: every public operation runs atomically.  The
  registry of open files in storage_mgr.c only serves `destroyPageFile` and is
  left out.  `NULL` arguments (`!bm`, `!page`, `!memPage`) are excluded by the
  types; a pool whose `mgmtData` is `NULL` is `mgmtData = none`.
-/

namespace BufferManager

/-! ## Constants and types of the missing headers -/

/-- Modelled from the spec: `PAGE_SIZE` is declared in a header that is not among
the sources; the spec fixes it to 4096 bytes by convention. -/
def PAGE_SIZE : Nat := 4096

/-- A page buffer: exactly `PAGE_SIZE` bytes. -/
abbrev PageData := { l : List (Fin 256) // l.length = PAGE_SIZE }

/-- The all-zero page (`calloc (PAGE_SIZE, 1)`, `memset (buf, 0, PAGE_SIZE)`). -/
def zeroPage : PageData := ⟨List.replicate PAGE_SIZE 0, List.length_replicate _ _⟩

/-- Modelled from the spec: the return codes of dberror.h (not among the sources),
named as the sources use them; the spec lists the error kinds `FileNotFound`,
`FileHandleNotInit`, `WriteFailed` and `ReadOfNonExistingPage`. -/
inductive RC where
  | RC_OK
  | RC_FILE_NOT_FOUND
  | RC_FILE_HANDLE_NOT_INIT
  | RC_WRITE_FAILED
  | RC_READ_NON_EXISTING_PAGE
  deriving DecidableEq, Repr

/-- Modelled from the spec: the strategies of buffer_mgr.h (not among the sources);
the spec lists FIFO, LRU, LRU_K and CLOCK. -/
inductive ReplacementStrategy where
  | RS_FIFO
  | RS_LRU
  | RS_CLOCK
  | RS_LRU_K
  deriving DecidableEq, Repr

/-- Modelled from the spec: the sentinel `NO_PAGE` of buffer_mgr.h is `-1`. -/
def NO_PAGE : Int := -1

/-- The value that a 32-bit `int` holds after a computation whose mathematical
result is `x`: the representative of `x` modulo `2 ^ 32` between `INT_MIN` and
`INT_MAX` (two's complement wrap-around). -/
def wrapInt (x : Int) : Int := (x + 2147483648) % 4294967296 - 2147483648

/-! ## storage_mgr.c -/

/-- The file behind a `FILE *`: whole pages, the current position (in pages) and
the outcomes of the coming fallible library calls. -/
structure OSFile where
  pages : List PageData
  pos : Nat
  faults : List Bool

/-- One fallible library call: its outcome (`true` = success) and the file with
the schedule advanced. -/
def OSFile.call (fp : OSFile) : Bool × OSFile :=
  (!(fp.faults.headD false), { fp with faults := fp.faults.tail })

/-- The call `fseek (fp, pageOffset (pageNum), SEEK_SET)`. -/
def fseek_set (fp : OSFile) (pageNum : Nat) : Bool × OSFile :=
  let r := fp.call
  if r.1 then (true, { r.2 with pos := pageNum }) else (false, r.2)

/-- The call `fseek (fp, 0, SEEK_END)`. -/
def fseek_end (fp : OSFile) : Bool × OSFile :=
  let r := fp.call
  if r.1 then (true, { r.2 with pos := r.2.pages.length }) else (false, r.2)

/-- Struct `FileCtx`: the `FILE *` and a copy of the file name. -/
structure FileCtx where
  fp : OSFile
  fname : String

/-- Struct `SM_FileHandle` (storage_mgr.h); `mgmtInfo = none` is `NULL`. -/
structure SM_FileHandle where
  fileName : String
  totalNumPages : Int
  curPagePos : Int
  mgmtInfo : Option FileCtx

/-- C `fread_page`: read one full page at the current position; a short read
(position at or past the end of the file) or a failing `fread` gives
`RC_READ_NON_EXISTING_PAGE`. -/
def fread_page (fp : OSFile) (buf : PageData) : RC × OSFile × PageData :=
  let r := fp.call
  match r.2.pages[r.2.pos]? with
  | some d => if r.1 then (RC.RC_OK, { r.2 with pos := r.2.pos + 1 }, d)
              else (RC.RC_READ_NON_EXISTING_PAGE, r.2, buf)
  | none => (RC.RC_READ_NON_EXISTING_PAGE, r.2, buf)

/-- C `fwrite_page`: write one full page at the current position (a position
past the end leaves a hole of zero pages). -/
def fwrite_page (fp : OSFile) (buf : PageData) : RC × OSFile :=
  let r := fp.call
  if r.1 then
    let padded := r.2.pages ++ List.replicate (r.2.pos + 1 - r.2.pages.length) zeroPage
    (RC.RC_OK, { r.2 with pages := padded.set r.2.pos buf, pos := r.2.pos + 1 })
  else (RC.RC_WRITE_FAILED, r.2)

/-- C `openPageFile`, applied to the result of `fopen (fileName, "rb+")`
(`none` when the file does not exist).  The fallible calls are `fseek`, `ftell`
and the `calloc` of the `FileCtx`.  The file holds whole pages, so
`(fsize + PAGE_SIZE - 1) / PAGE_SIZE` is the number of pages. -/
def openPageFile (fileName : String) (file : Option OSFile) : RC × Option SM_FileHandle :=
  match file with
  | none => (RC.RC_FILE_NOT_FOUND, none)
  | some fp =>
    let r := fseek_end fp
    if !r.1 then (RC.RC_FILE_NOT_FOUND, none) else
    let t := r.2.call
    if !t.1 then (RC.RC_FILE_NOT_FOUND, none) else
    let pages : Int := t.2.pages.length
    let a := t.2.call
    if !a.1 then (RC.RC_FILE_HANDLE_NOT_INIT, none) else
    (RC.RC_OK, some { fileName := fileName, totalNumPages := pages,
                      curPagePos := if pages > 0 then 0 else -1,
                      mgmtInfo := some { fp := a.2, fname := fileName } })

/-- C `closePageFile`; the third component is the file as it is left behind. -/
def closePageFile (fHandle : SM_FileHandle) : RC × SM_FileHandle × Option OSFile :=
  match fHandle.mgmtInfo with
  | none => (RC.RC_FILE_HANDLE_NOT_INIT, fHandle, none)
  | some c =>
    let r := c.fp.call
    (if r.1 then RC.RC_OK else RC.RC_FILE_HANDLE_NOT_INIT,
     { fHandle with mgmtInfo := none, curPagePos := -1, totalNumPages := 0 }, some r.2)

/-- C `readBlock`: the page read is returned as the new content of `memPage`. -/
def readBlock (pageNum : Int) (fHandle : SM_FileHandle) (memPage : PageData) :
    RC × SM_FileHandle × PageData :=
  match fHandle.mgmtInfo with
  | none => (RC.RC_FILE_HANDLE_NOT_INIT, fHandle, memPage)
  | some c =>
    if pageNum < 0 ∨ pageNum ≥ fHandle.totalNumPages then
      (RC.RC_READ_NON_EXISTING_PAGE, fHandle, memPage)
    else
      let s := fseek_set c.fp pageNum.toNat
      if !s.1 then
        (RC.RC_READ_NON_EXISTING_PAGE, { fHandle with mgmtInfo := some { c with fp := s.2 } }, memPage)
      else
        let r := fread_page s.2 memPage
        if r.1 = RC.RC_OK then
          (r.1, { fHandle with mgmtInfo := some { c with fp := r.2.1 }, curPagePos := pageNum }, r.2.2)
        else
          (r.1, { fHandle with mgmtInfo := some { c with fp := r.2.1 } }, r.2.2)

/-- C `writeBlock`. -/
def writeBlock (pageNum : Int) (fHandle : SM_FileHandle) (memPage : PageData) :
    RC × SM_FileHandle :=
  match fHandle.mgmtInfo with
  | none => (RC.RC_FILE_HANDLE_NOT_INIT, fHandle)
  | some c =>
    if pageNum < 0 ∨ pageNum ≥ fHandle.totalNumPages then (RC.RC_WRITE_FAILED, fHandle)
    else
      let s := fseek_set c.fp pageNum.toNat
      if !s.1 then
        (RC.RC_WRITE_FAILED, { fHandle with mgmtInfo := some { c with fp := s.2 } })
      else
        let r := fwrite_page s.2 memPage
        if r.1 = RC.RC_OK then
          (r.1, { fHandle with mgmtInfo := some { c with fp := r.2 }, curPagePos := pageNum })
        else
          (r.1, { fHandle with mgmtInfo := some { c with fp := r.2 } })

/-- C `appendEmptyBlock`: `fseek` to the end, `calloc` a blank page, write it. -/
def appendEmptyBlock (fHandle : SM_FileHandle) : RC × SM_FileHandle :=
  match fHandle.mgmtInfo with
  | none => (RC.RC_FILE_HANDLE_NOT_INIT, fHandle)
  | some c =>
    let s := fseek_end c.fp
    if !s.1 then
      (RC.RC_WRITE_FAILED, { fHandle with mgmtInfo := some { c with fp := s.2 } })
    else
      let a := s.2.call
      if !a.1 then
        (RC.RC_WRITE_FAILED, { fHandle with mgmtInfo := some { c with fp := a.2 } })
      else
        let r := fwrite_page a.2 zeroPage
        if r.1 = RC.RC_OK then
          (r.1, { fHandle with mgmtInfo := some { c with fp := r.2 },
                               totalNumPages := fHandle.totalNumPages + 1 })
        else
          (r.1, { fHandle with mgmtInfo := some { c with fp := r.2 } })

/-- The `while` loop of `ensureCapacity`; `fuel` bounds the number of rounds, and
`numberOfPages - totalNumPages` rounds are always enough. -/
def ensureCapacity.loop (numberOfPages : Int) : Nat → SM_FileHandle → RC × SM_FileHandle
  | 0, fHandle => (RC.RC_OK, fHandle)
  | fuel + 1, fHandle =>
    if fHandle.totalNumPages < numberOfPages then
      let r := appendEmptyBlock fHandle
      if r.1 ≠ RC.RC_OK then r else ensureCapacity.loop numberOfPages fuel r.2
    else (RC.RC_OK, fHandle)

/-- C `ensureCapacity`. -/
def ensureCapacity (numberOfPages : Int) (fHandle : SM_FileHandle) : RC × SM_FileHandle :=
  match fHandle.mgmtInfo with
  | none => (RC.RC_FILE_HANDLE_NOT_INIT, fHandle)
  | some _ =>
    ensureCapacity.loop numberOfPages (numberOfPages - fHandle.totalNumPages).toNat fHandle

/-! ## buffer_mgr.c: data structures -/

/-- Struct `Frame`. -/
structure Frame where
  pageNum : Int
  data : PageData
  dirty : Bool
  fixCount : Int
  lastUsed : Int
  fifoPos : Int
  refbit : Bool

instance : Inhabited Frame :=
  ⟨{ pageNum := NO_PAGE, data := zeroPage, dirty := false, fixCount := 0,
     lastUsed := 0, fifoPos := 0, refbit := false }⟩

/-- Struct `PageTable`: `state` is 0 = empty, 1 = occupied, 2 = tombstone. -/
structure PageTable where
  keys : List Int
  vals : List Int
  state : List Nat
  cap : Int
  count : Int

/-- Struct `PoolMgmt`; the field `open` of the source is `isOpen` here. -/
structure PoolMgmt where
  fhandle : SM_FileHandle
  frames : List Frame
  capacity : Int
  strategy : ReplacementStrategy
  tick : Int
  frameContents : List Int
  dirtyFlags : List Bool
  fixCounts : List Int
  numReadIO : Int
  numWriteIO : Int
  ptab : PageTable
  clockHand : Int
  isOpen : Bool

/-- Struct `BM_BufferPool` (buffer_mgr.h). -/
structure BM_BufferPool where
  pageFile : String
  numPages : Int
  strategy : ReplacementStrategy
  mgmtData : Option PoolMgmt

/-- Struct `BM_PageHandle` (buffer_mgr.h): `data` is the index of the frame whose
buffer the handle points to (`none`: not set by the pool). -/
structure BM_PageHandle where
  pageNum : Int
  data : Option Nat

/-- The frame `frames[i]`. -/
def frameAt (frames : List Frame) (i : Nat) : Frame := frames[i]?.getD default

/-! ## The page table (open addressing) -/

/-- C `hash_page`: 32-bit `unsigned` arithmetic. -/
def hash_page (p : Int) : Nat :=
  let x := (p % 4294967296).toNat
  let x := x ^^^ (x >>> 16)
  let x := (x * 0x7feb352d) % 4294967296
  let x := x ^^^ (x >>> 15)
  let x := (x * 0x846ca68b) % 4294967296
  let x := x ^^^ (x >>> 16)
  x

/-- The loop `while (cap < approx * 3) cap <<= 1` of `ptab_init`. -/
def ptab_init.grow (approx : Int) : Nat → Int → Int
  | 0, cap => cap
  | fuel + 1, cap => if cap < approx * 3 then ptab_init.grow approx fuel (cap * 2) else cap

/-- C `ptab_init` (the allocations succeed): all slots empty.  The doubling loop
needs fewer than `approx * 3` rounds. -/
def ptab_init (approx : Int) : PageTable :=
  let cap := ptab_init.grow approx (approx * 3).toNat 1
  { keys := List.replicate cap.toNat 0, vals := List.replicate cap.toNat 0,
    state := List.replicate cap.toNat 0, cap := cap, count := 0 }

/-- The probe loop of `ptab_find_slot`, with `n` probes left; the result is
`(slot, found)`, where `found` is what the source stores in `*found`. -/
def ptab_find_slot.loop (t : PageTable) (key : Int) : Nat → Nat → Int → Int × Int
  | 0, _, firstDel => (if firstDel ≥ 0 then firstDel else -1, -1)
  | n + 1, idx, firstDel =>
    let st := t.state.getD idx 0
    if st = 0 then (if firstDel ≥ 0 then firstDel else (idx : Int), -1)
    else if st = 2 then
      ptab_find_slot.loop t key n ((idx + 1) &&& (t.cap - 1).toNat)
        (if firstDel < 0 then (idx : Int) else firstDel)
    else if t.keys.getD idx 0 = key then ((idx : Int), (idx : Int))
    else ptab_find_slot.loop t key n ((idx + 1) &&& (t.cap - 1).toNat) firstDel

/-- C `ptab_find_slot`: `(slot, found)`. -/
def ptab_find_slot (t : PageTable) (key : Int) : Int × Int :=
  ptab_find_slot.loop t key t.cap.toNat (hash_page key &&& (t.cap - 1).toNat) (-1)

/-- C `ptab_put`. -/
def ptab_put (t : PageTable) (key : Int) (val : Int) : RC × PageTable :=
  let r := ptab_find_slot t key
  if r.1 < 0 then (RC.RC_WRITE_FAILED, t)
  else if r.2 ≥ 0 then (RC.RC_OK, { t with vals := t.vals.set r.2.toNat val })
  else (RC.RC_OK, { t with keys := t.keys.set r.1.toNat key, vals := t.vals.set r.1.toNat val,
                           state := t.state.set r.1.toNat 1, count := t.count + 1 })

/-- C `ptab_get`. -/
def ptab_get (t : PageTable) (key : Int) : Int :=
  let r := ptab_find_slot t key
  if r.2 < 0 then -1 else t.vals.getD r.2.toNat 0

/-- C `ptab_del`. -/
def ptab_del (t : PageTable) (key : Int) : PageTable :=
  let r := ptab_find_slot t key
  if r.2 ≥ 0 ∧ t.state.getD r.2.toNat 0 = 1 then
    { t with state := t.state.set r.2.toNat 2, count := t.count - 1 }
  else t

/-! ## Internal helpers of the pool -/

/-- C `refreshSnapshots`. -/
def refreshSnapshots (pm : PoolMgmt) : PoolMgmt :=
  { pm with
    frameContents := (List.range pm.capacity.toNat).map fun i => (frameAt pm.frames i).pageNum
    dirtyFlags := (List.range pm.capacity.toNat).map fun i => (frameAt pm.frames i).dirty
    fixCounts := (List.range pm.capacity.toNat).map fun i => (frameAt pm.frames i).fixCount }

/-- C `findEmptyFrame`: the first `i < capacity` whose frame is empty and
unpinned, or `-1`. -/
def findEmptyFrame (pm : PoolMgmt) : Int :=
  match (List.range pm.capacity.toNat).find? fun i =>
      decide ((frameAt pm.frames i).pageNum = NO_PAGE ∧ (frameAt pm.frames i).fixCount = 0) with
  | some i => (i : Int)
  | none => -1

/-- One round of the loop of `selectVictim_FIFO` on the pair `(v, best)`. -/
def selectVictim_FIFO.step (pm : PoolMgmt) (acc : Int × Int) (i : Nat) : Int × Int :=
  let f := frameAt pm.frames i
  if f.fixCount = 0 ∧ f.pageNum ≠ NO_PAGE ∧ f.fifoPos < acc.2 then ((i : Int), f.fifoPos) else acc

/-- C `selectVictim_FIFO`. -/
def selectVictim_FIFO (pm : PoolMgmt) : Int :=
  ((List.range pm.capacity.toNat).foldl (selectVictim_FIFO.step pm) (-1, 0x7fffffffffffffff)).1

/-- One round of the loop of `selectVictim_LRU` on the pair `(v, best)`. -/
def selectVictim_LRU.step (pm : PoolMgmt) (acc : Int × Int) (i : Nat) : Int × Int :=
  let f := frameAt pm.frames i
  if f.fixCount = 0 ∧ f.pageNum ≠ NO_PAGE ∧ f.lastUsed < acc.2 then ((i : Int), f.lastUsed) else acc

/-- C `selectVictim_LRU`. -/
def selectVictim_LRU (pm : PoolMgmt) : Int :=
  ((List.range pm.capacity.toNat).foldl (selectVictim_LRU.step pm) (-1, 0x7fffffffffffffff)).1

/-- The sweep of `selectVictim_CLOCK` with `k` steps left and the hand at `hand`;
C `%` is `Int.tmod`. -/
def selectVictim_CLOCK.loop (n : Int) : Nat → PoolMgmt → Int → Int × PoolMgmt
  | 0, pm, _ => (-1, pm)
  | k + 1, pm, hand =>
    let f := frameAt pm.frames hand.toNat
    if f.pageNum ≠ NO_PAGE ∧ f.fixCount = 0 then
      if f.refbit = false then (hand, { pm with clockHand := (hand + 1).tmod n })
      else
        selectVictim_CLOCK.loop n k
          { pm with frames := pm.frames.set hand.toNat { f with refbit := false } }
          ((hand + 1).tmod n)
    else selectVictim_CLOCK.loop n k pm ((hand + 1).tmod n)

/-- C `selectVictim_CLOCK`: the victim and the pool with the swept reference bits
and the new hand. -/
def selectVictim_CLOCK (pm : PoolMgmt) : Int × PoolMgmt :=
  selectVictim_CLOCK.loop pm.capacity (2 * pm.capacity).toNat pm (pm.clockHand.tmod pm.capacity)

/-- C `selectVictim`; the `default:` branch of the `switch` (FIFO) has no strategy
value left to serve. -/
def selectVictim (pm : PoolMgmt) : Int × PoolMgmt :=
  match pm.strategy with
  | ReplacementStrategy.RS_FIFO => (selectVictim_FIFO pm, pm)
  | ReplacementStrategy.RS_LRU => (selectVictim_LRU pm, pm)
  | ReplacementStrategy.RS_LRU_K => (selectVictim_LRU pm, pm)
  | ReplacementStrategy.RS_CLOCK => selectVictim_CLOCK pm

/-- C `ensurePageExists`. -/
def ensurePageExists (fh : SM_FileHandle) (p : Int) : RC × SM_FileHandle :=
  if p < 0 then (RC.RC_READ_NON_EXISTING_PAGE, fh)
  else if fh.totalNumPages ≤ p then
    let r := ensureCapacity (wrapInt (p + 1)) fh
    if r.1 ≠ RC.RC_OK then r else (RC.RC_OK, r.2)
  else (RC.RC_OK, fh)

/-- C `flushIfDirty`. -/
def flushIfDirty (pm : PoolMgmt) (idx : Nat) : RC × PoolMgmt :=
  let f := frameAt pm.frames idx
  if f.pageNum = NO_PAGE ∨ f.dirty = false then (RC.RC_OK, pm)
  else
    let e := ensurePageExists pm.fhandle f.pageNum
    if e.1 ≠ RC.RC_OK then (e.1, { pm with fhandle := e.2 })
    else
      let w := writeBlock f.pageNum e.2 f.data
      if w.1 ≠ RC.RC_OK then (w.1, { pm with fhandle := w.2 })
      else
        (RC.RC_OK, { pm with fhandle := w.2, numWriteIO := wrapInt (pm.numWriteIO + 1),
                             frames := pm.frames.set idx { f with dirty := false } })

/-- C `loadIntoFrame`; the return code of `ptab_put` is ignored, as in the source. -/
def loadIntoFrame (pm : PoolMgmt) (idx : Nat) (p : Int) : RC × PoolMgmt :=
  let f := frameAt pm.frames idx
  let e := ensurePageExists pm.fhandle p
  if e.1 ≠ RC.RC_OK then (e.1, { pm with fhandle := e.2 })
  else
    let r := readBlock p e.2 f.data
    let reads : Int := if r.1 = RC.RC_OK then wrapInt (pm.numReadIO + 1) else pm.numReadIO
    let buf : PageData := if r.1 = RC.RC_OK then r.2.2 else zeroPage
    let g : Frame := { pageNum := p, data := buf, dirty := false, fixCount := 0,
                       lastUsed := pm.tick, fifoPos := pm.tick, refbit := true }
    (RC.RC_OK, { pm with fhandle := r.2.1, numReadIO := reads, frames := pm.frames.set idx g,
                         ptab := (ptab_put pm.ptab p (idx : Int)).2 })

/-! ## Public API -/

/-- The frame table that `initBufferPool` builds: `numPages` empty frames with
zeroed buffers. -/
def initFrames (numPages : Int) : List Frame :=
  List.replicate numPages.toNat
    { pageNum := NO_PAGE, data := zeroPage, dirty := false, fixCount := 0,
      lastUsed := 0, fifoPos := 0, refbit := false }

/-- C `initBufferPool`.  `file` is what `fopen` finds under `pageFileName`, and
`heap` schedules the outcomes of the allocations of this function and of
`ptab_init` (`true` = the allocation fails): first the `PoolMgmt`, then the four
arrays, then one buffer per frame, then the three arrays of the page table. -/
def initBufferPool (bm : BM_BufferPool) (pageFileName : String) (file : Option OSFile)
    (numPages : Int) (strategy : ReplacementStrategy) (heap : List Bool) : RC × BM_BufferPool :=
  if numPages ≤ 0 then (RC.RC_FILE_HANDLE_NOT_INIT, bm)
  else if heap.headD false then (RC.RC_WRITE_FAILED, bm)
  else
    match openPageFile pageFileName file with
    | (rc, none) => (rc, bm)
    | (_, some fh) =>
      if ((heap.drop 1).take 4).any id then (RC.RC_WRITE_FAILED, bm)
      else if ((heap.drop 5).take numPages.toNat).any id then (RC.RC_WRITE_FAILED, bm)
      else if ((heap.drop (5 + numPages.toNat)).take 3).any id then (RC.RC_WRITE_FAILED, bm)
      else
        let pm : PoolMgmt :=
          { fhandle := fh, frames := initFrames numPages, capacity := numPages,
            strategy := if strategy = ReplacementStrategy.RS_LRU_K
                        then ReplacementStrategy.RS_LRU else strategy,
            tick := 0, frameContents := List.replicate numPages.toNat 0,
            dirtyFlags := List.replicate numPages.toNat false,
            fixCounts := List.replicate numPages.toNat 0,
            numReadIO := 0, numWriteIO := 0, ptab := ptab_init numPages,
            clockHand := 0, isOpen := true }
        (RC.RC_OK, { pageFile := pageFileName, numPages := numPages, strategy := strategy,
                     mgmtData := some (refreshSnapshots pm) })

/-- The flush loops of `shutdownBufferPool` (`onlyUnpinned = false`) and of
`forceFlushPool` (`onlyUnpinned = true`, the guard `fixCount == 0`) over the frame
indices still to visit; the first failing flush ends the loop with its code. -/
def flushFrames (onlyUnpinned : Bool) : List Nat → PoolMgmt → RC × PoolMgmt
  | [], pm => (RC.RC_OK, pm)
  | i :: rest, pm =>
    if onlyUnpinned = false ∨ (frameAt pm.frames i).fixCount = 0 then
      let r := flushIfDirty pm i
      if r.1 ≠ RC.RC_OK then r else flushFrames onlyUnpinned rest r.2
    else flushFrames onlyUnpinned rest pm

/-- The first loop of `shutdownBufferPool`: every positive `fixCount` is reset. -/
def releasePins (pm : PoolMgmt) : PoolMgmt :=
  let step := fun (fs : List Frame) (i : Nat) =>
    if (frameAt fs i).fixCount > 0 then fs.set i { (frameAt fs i) with fixCount := 0 } else fs
  { pm with frames := (List.range pm.capacity.toNat).foldl step pm.frames }

/-- C `shutdownBufferPool`.  The third component is the page file as the pool
leaves it when it has been closed.  After a failed flush the pool stays
allocated (with the pins released and the earlier frames flushed). -/
def shutdownBufferPool (bm : BM_BufferPool) : RC × BM_BufferPool × Option OSFile :=
  match bm.mgmtData with
  | none => (RC.RC_FILE_HANDLE_NOT_INIT, bm, none)
  | some pm =>
    let r := flushFrames false (List.range pm.capacity.toNat) (releasePins pm)
    if r.1 ≠ RC.RC_OK then (r.1, { bm with mgmtData := some r.2 }, none)
    else (RC.RC_OK, { bm with mgmtData := none }, (closePageFile r.2.fhandle).2.2)

/-- C `forceFlushPool`.  On a failed flush the function returns before
`refreshSnapshots`. -/
def forceFlushPool (bm : BM_BufferPool) : RC × BM_BufferPool :=
  match bm.mgmtData with
  | none => (RC.RC_FILE_HANDLE_NOT_INIT, bm)
  | some pm =>
    let r := flushFrames true (List.range pm.capacity.toNat) pm
    if r.1 ≠ RC.RC_OK then (r.1, { bm with mgmtData := some r.2 })
    else (RC.RC_OK, { bm with mgmtData := some (refreshSnapshots r.2) })

/-- C `markDirty`. -/
def markDirty (bm : BM_BufferPool) (page : BM_PageHandle) : RC × BM_BufferPool :=
  match bm.mgmtData with
  | none => (RC.RC_FILE_HANDLE_NOT_INIT, bm)
  | some pm =>
    let idx := ptab_get pm.ptab page.pageNum
    if idx < 0 then (RC.RC_READ_NON_EXISTING_PAGE, bm)
    else
      let f := frameAt pm.frames idx.toNat
      (RC.RC_OK, { bm with mgmtData := some (refreshSnapshots
        { pm with frames := pm.frames.set idx.toNat { f with dirty := true } }) })

/-- C `unpinPage`. -/
def unpinPage (bm : BM_BufferPool) (page : BM_PageHandle) : RC × BM_BufferPool :=
  match bm.mgmtData with
  | none => (RC.RC_FILE_HANDLE_NOT_INIT, bm)
  | some pm =>
    let idx := ptab_get pm.ptab page.pageNum
    if idx < 0 then (RC.RC_READ_NON_EXISTING_PAGE, bm)
    else
      let f := frameAt pm.frames idx.toNat
      let pm1 := if f.fixCount > 0
        then { pm with frames := pm.frames.set idx.toNat { f with fixCount := f.fixCount - 1 } }
        else pm
      (RC.RC_OK, { bm with mgmtData := some (refreshSnapshots pm1) })

/-- C `forcePage`. -/
def forcePage (bm : BM_BufferPool) (page : BM_PageHandle) : RC × BM_BufferPool :=
  match bm.mgmtData with
  | none => (RC.RC_FILE_HANDLE_NOT_INIT, bm)
  | some pm =>
    let idx := ptab_get pm.ptab page.pageNum
    if idx < 0 then (RC.RC_READ_NON_EXISTING_PAGE, bm)
    else
      let r := flushIfDirty pm idx.toNat
      if r.1 ≠ RC.RC_OK then (r.1, { bm with mgmtData := some r.2 })
      else (RC.RC_OK, { bm with mgmtData := some (refreshSnapshots r.2) })

/-- The tail of `pinPage` once the target frame is chosen: `loadIntoFrame`, then
the pin of the loaded frame and the filling of the page handle. -/
def pinPage.load (bm : BM_BufferPool) (page : BM_PageHandle) (pageNum : Int)
    (pm : PoolMgmt) (target : Nat) : RC × BM_BufferPool × BM_PageHandle :=
  let l := loadIntoFrame pm target pageNum
  if l.1 ≠ RC.RC_OK then (l.1, { bm with mgmtData := some l.2 }, page)
  else
    let h := frameAt l.2.frames target
    let g := { h with fixCount := 1, lastUsed := l.2.tick, refbit := true }
    (RC.RC_OK,
     { bm with mgmtData := some (refreshSnapshots { l.2 with frames := l.2.frames.set target g }) },
     { pageNum := pageNum, data := some target })

/-- C `pinPage`: the return code, the pool and the page handle (an
out-parameter, left as it was on every error path). -/
def pinPage (bm : BM_BufferPool) (page : BM_PageHandle) (pageNum : Int) :
    RC × BM_BufferPool × BM_PageHandle :=
  match bm.mgmtData with
  | none => (RC.RC_FILE_HANDLE_NOT_INIT, bm, page)
  | some pm0 =>
    if pageNum < 0 then (RC.RC_READ_NON_EXISTING_PAGE, bm, page)
    else
      let pm := { pm0 with tick := pm0.tick + 1 }
      let idx := ptab_get pm.ptab pageNum
      if idx ≥ 0 then
        let f := frameAt pm.frames idx.toNat
        let g := { f with fixCount := wrapInt (f.fixCount + 1), lastUsed := pm.tick, refbit := true }
        (RC.RC_OK,
         { bm with mgmtData := some (refreshSnapshots { pm with frames := pm.frames.set idx.toNat g }) },
         { pageNum := pageNum, data := some idx.toNat })
      else
        let target := findEmptyFrame pm
        if target < 0 then
          let v := selectVictim pm
          if v.1 < 0 then (RC.RC_WRITE_FAILED, { bm with mgmtData := some v.2 }, page)
          else
            let fl := flushIfDirty v.2 v.1.toNat
            if fl.1 ≠ RC.RC_OK then (fl.1, { bm with mgmtData := some fl.2 }, page)
            else
              let old := (frameAt fl.2.frames v.1.toNat).pageNum
              let pm2 := if old ≠ NO_PAGE then { fl.2 with ptab := ptab_del fl.2.ptab old } else fl.2
              pinPage.load bm page pageNum pm2 v.1.toNat
        else pinPage.load bm page pageNum pm target.toNat

/-- C `getFrameContents`. -/
def getFrameContents (bm : BM_BufferPool) : BM_BufferPool × List Int :=
  match bm.mgmtData with
  | none => (bm, [])
  | some pm => ({ bm with mgmtData := some (refreshSnapshots pm) }, (refreshSnapshots pm).frameContents)

/-- C `getDirtyFlags`. -/
def getDirtyFlags (bm : BM_BufferPool) : BM_BufferPool × List Bool :=
  match bm.mgmtData with
  | none => (bm, [])
  | some pm => ({ bm with mgmtData := some (refreshSnapshots pm) }, (refreshSnapshots pm).dirtyFlags)

/-- C `getFixCounts`. -/
def getFixCounts (bm : BM_BufferPool) : BM_BufferPool × List Int :=
  match bm.mgmtData with
  | none => (bm, [])
  | some pm => ({ bm with mgmtData := some (refreshSnapshots pm) }, (refreshSnapshots pm).fixCounts)

/-- C `getNumReadIO`. -/
def getNumReadIO (bm : BM_BufferPool) : Int :=
  match bm.mgmtData with
  | none => 0
  | some pm => pm.numReadIO

/-- C `getNumWriteIO`. -/
def getNumWriteIO (bm : BM_BufferPool) : Int :=
  match bm.mgmtData with
  | none => 0
  | some pm => pm.numWriteIO

/-- A client writing `B` through the data pointer of a page handle: the buffer of
the frame the handle aliases is overwritten (`memcpy (page->data, B, PAGE_SIZE)`). -/
def clientWrite (bm : BM_BufferPool) (page : BM_PageHandle) (B : PageData) : BM_BufferPool :=
  match bm.mgmtData, page.data with
  | some pm, some i =>
    if i < pm.frames.length then
      { bm with mgmtData := some { pm with frames := pm.frames.set i { (frameAt pm.frames i) with data := B } } }
    else bm
  | _, _ => bm

/-! ## Specification predicates -/

/-- The slot that the probe sequence of `key` visits at step `j`. -/
def probe (t : PageTable) (key : Int) (j : Nat) : Nat := (hash_page key + j) % t.cap.toNat

/-- Well-formedness of the open-addressing table. -/
structure PTInv (t : PageTable) : Prop where
  pow : ∃ k : Nat, t.cap = 2 ^ k
  hk : t.keys.length = t.cap.toNat
  hv : t.vals.length = t.cap.toNat
  hs : t.state.length = t.cap.toNat
  st : ∀ s, t.state.getD s 0 ≤ 2
  reach : ∀ s, s < t.cap.toNat → t.state.getD s 0 = 1 →
    ∃ j, j < t.cap.toNat ∧ probe t (t.keys.getD s 0) j = s ∧
      ∀ j2, j2 < j → t.state.getD (probe t (t.keys.getD s 0) j2) 0 ≠ 0
  uniq : ∀ s s2, s < t.cap.toNat → s2 < t.cap.toNat → t.state.getD s 0 = 1 →
    t.state.getD s2 0 = 1 → t.keys.getD s 0 = t.keys.getD s2 0 → s = s2

/-- The table holds the entry `key ↦ val` in an occupied slot. -/
def PageTable.has (t : PageTable) (key val : Int) : Prop :=
  ∃ s, s < t.cap.toNat ∧ t.state.getD s 0 = 1 ∧ t.keys.getD s 0 = key ∧ t.vals.getD s 0 = val

/-! ## The page table as a finite map -/

/-- An update of the page table: `ptab_put (key, val)` or `ptab_del (key)`. -/
inductive PtabOp where
  | put (key val : Int)
  | del (key : Int)
  deriving DecidableEq, Repr

/-- One update carried out by the functions of the source; the return code of
`ptab_put` is dropped, as `loadIntoFrame` drops it. -/
def ptabStep (t : PageTable) : PtabOp → PageTable
  | PtabOp.put key val => (ptab_put t key val).2
  | PtabOp.del key => ptab_del t key

/-- A sequence of updates, oldest first, carried out on the table `t`. -/
def ptabRun (t : PageTable) (ops : List PtabOp) : PageTable := ops.foldl ptabStep t

/-- The number of occupied slots (`state[s] == 1`) of the table. -/
def ptab_occupied (t : PageTable) : Nat :=
  (List.range t.cap.toNat).countP fun s => decide (t.state.getD s 0 = 1)

/-- The number of occupied slots is below `cap` before the sequence of updates,
between any two of them and after it. -/
def staysBelow : PageTable → List PtabOp → Bool
  | t, [] => decide (ptab_occupied t < t.cap.toNat)
  | t, op :: rest => decide (ptab_occupied t < t.cap.toNat) && staysBelow (ptabStep t op) rest

/-- The finite map of the spec, read off a history of updates given newest first:
the value of the most recent `put` of `k` that no `del` of `k` follows, and `-1`
when there is none. -/
def mostRecent : List PtabOp → Int → Int
  | [], _ => -1
  | PtabOp.put key val :: older, k => if key = k then val else mostRecent older k
  | PtabOp.del key :: older, k => if key = k then -1 else mostRecent older k

/-- What the spec says `ptab_get (k)` returns after the updates `ops` (oldest
first) on an empty map. -/
def spec_get (ops : List PtabOp) (k : Int) : Int := mostRecent ops.reverse k

/-- The pages of the file behind an open file handle. -/
def storePages (fh : SM_FileHandle) : List PageData :=
  match fh.mgmtInfo with
  | some c => c.fp.pages
  | none => []

/-- The page of the store at page number `p`, if the file has it. -/
def storePage (fh : SM_FileHandle) (p : Int) : Option PageData :=
  if p < 0 then none else (storePages fh)[p.toNat]?

/-- No failure is scheduled: every coming library call on the file succeeds. -/
def NoFaults (fp : OSFile) : Prop := ∀ b, b ∈ fp.faults → b = false

/-- The handle is open and its page count is the length of the file. -/
def FileWF (fh : SM_FileHandle) : Prop :=
  ∃ c, fh.mgmtInfo = some c ∧ fh.totalNumPages = (c.fp.pages.length : Int)

/-- A page-file adapter whose operations succeed: the handle is open, its page
count is the length of the file, and no library call on the file fails. -/
def FileOk (fh : SM_FileHandle) : Prop :=
  ∃ c, fh.mgmtInfo = some c ∧ fh.totalNumPages = (c.fp.pages.length : Int) ∧ NoFaults c.fp

/-- A frame that a replacement policy may evict: unpinned and resident. -/
def Eligible (f : Frame) : Prop := f.fixCount = 0 ∧ f.pageNum ≠ NO_PAGE

/-- The frame `g` is the frame `f` up to its reference bit. -/
def SameButRefbit (f g : Frame) : Prop :=
  g.pageNum = f.pageNum ∧ g.data = f.data ∧ g.dirty = f.dirty ∧ g.fixCount = f.fixCount ∧
    g.lastUsed = f.lastUsed ∧ g.fifoPos = f.fifoPos

/-- The frame `g` is the frame `f` up to its dirty flag and its reference bit. -/
def SameButFlags (f g : Frame) : Prop :=
  g.pageNum = f.pageNum ∧ g.data = f.data ∧ g.fixCount = f.fixCount ∧
    g.lastUsed = f.lastUsed ∧ g.fifoPos = f.fifoPos

/-- The invariant of the pool that every reachable state satisfies, whatever the
page file does: the frame table has `capacity` frames, the page table is well
formed and larger than the frame table, every index entry points to a frame
holding that page, the pin counts and the two I/O counters are 32-bit values,
empty frames are unpinned and clean, the stamps are bounded by `tick`, and every
resident page lies inside the file unless its number is `INT_MAX` or more (the
file cannot be grown to cover such a page, because `p + 1` wraps). -/
structure WInv (pm : PoolMgmt) : Prop where
  cap_pos : 0 < pm.capacity
  len : pm.frames.length = pm.capacity.toNat
  pt : PTInv pm.ptab
  room : pm.capacity < pm.ptab.cap
  sound : ∀ k v, pm.ptab.has k v →
    0 ≤ k ∧ 0 ≤ v ∧ v < pm.capacity ∧ (frameAt pm.frames v.toNat).pageNum = k
  pages : ∀ i, -1 ≤ (frameAt pm.frames i).pageNum
  fix : ∀ i, -2147483648 ≤ (frameAt pm.frames i).fixCount ∧
    (frameAt pm.frames i).fixCount ≤ 2147483647
  io : (-2147483648 ≤ pm.numReadIO ∧ pm.numReadIO ≤ 2147483647) ∧
    (-2147483648 ≤ pm.numWriteIO ∧ pm.numWriteIO ≤ 2147483647)
  empty : ∀ i, (frameAt pm.frames i).pageNum = NO_PAGE →
    (frameAt pm.frames i).fixCount = 0 ∧ (frameAt pm.frames i).dirty = false
  tick0 : 0 ≤ pm.tick
  stamps : ∀ i, (frameAt pm.frames i).fifoPos ≤ pm.tick ∧ (frameAt pm.frames i).lastUsed ≤ pm.tick
  hand : 0 ≤ pm.clockHand ∧ pm.clockHand < pm.capacity
  file : FileWF pm.fhandle
  covered : ∀ i, (frameAt pm.frames i).pageNum < pm.fhandle.totalNumPages ∨
    2147483647 ≤ (frameAt pm.frames i).pageNum

/-- The invariant of a pool over a page file whose library calls never fail: on
top of `WInv`, every resident frame is in the index, and no failure is
scheduled. -/
structure SInv (pm : PoolMgmt) : Prop where
  w : WInv pm
  complete : ∀ i, i < pm.frames.length → (frameAt pm.frames i).pageNum ≠ NO_PAGE →
    pm.ptab.has (frameAt pm.frames i).pageNum (i : Int)
  ok : FileOk pm.fhandle

/-- Every dirty frame of the pool holds a page whose number is below `INT_MAX`,
so that `ensurePageExists` can grow the file to cover the page and the frame can
be written back. -/
def Writable (pm : PoolMgmt) : Prop :=
  ∀ i, (frameAt pm.frames i).dirty = true → (frameAt pm.frames i).pageNum < 2147483647

/-- On a miss, `pinPage` calls `loadIntoFrame` on frame `t` in state `pmT`: either
`t` is the frame found by `findEmptyFrame` and the state is unchanged, or there
is no empty frame, `t` is the victim of `selectVictim`, its flush succeeded and
its page number (when it has one) has been deleted from the page table. -/
def IsTarget (pm : PoolMgmt) (t : Nat) (pmT : PoolMgmt) : Prop :=
  (findEmptyFrame pm = (t : Int) ∧ pmT = pm) ∨
  (findEmptyFrame pm < 0 ∧ (selectVictim pm).1 = (t : Int) ∧
    (flushIfDirty (selectVictim pm).2 t).1 = RC.RC_OK ∧
    pmT = if (frameAt (flushIfDirty (selectVictim pm).2 t).2.frames t).pageNum ≠ NO_PAGE
      then { (flushIfDirty (selectVictim pm).2 t).2 with
             ptab := ptab_del (flushIfDirty (selectVictim pm).2 t).2.ptab
               (frameAt (flushIfDirty (selectVictim pm).2 t).2.frames t).pageNum }
      else (flushIfDirty (selectVictim pm).2 t).2)

/-- One step of a client: a public operation of the pool (with any arguments and
any outcome), a getter, or a write through the data pointer of a page handle. -/
inductive Step : BM_BufferPool → BM_BufferPool → Prop where
  | pin (bm : BM_BufferPool) (page : BM_PageHandle) (p : Int) : Step bm (pinPage bm page p).2.1
  | unpin (bm : BM_BufferPool) (page : BM_PageHandle) : Step bm (unpinPage bm page).2
  | dirty (bm : BM_BufferPool) (page : BM_PageHandle) : Step bm (markDirty bm page).2
  | force (bm : BM_BufferPool) (page : BM_PageHandle) : Step bm (forcePage bm page).2
  | flush (bm : BM_BufferPool) : Step bm (forceFlushPool bm).2
  | contents (bm : BM_BufferPool) : Step bm (getFrameContents bm).1
  | flags (bm : BM_BufferPool) : Step bm (getDirtyFlags bm).1
  | counts (bm : BM_BufferPool) : Step bm (getFixCounts bm).1
  | write (bm : BM_BufferPool) (page : BM_PageHandle) (B : PageData) : Step bm (clientWrite bm page B)

/-- The pools reachable from a successful `initBufferPool` on the page file
`file` by any sequence of steps. -/
inductive ReachableFrom (file : OSFile) : BM_BufferPool → Prop where
  | init (bm0 : BM_BufferPool) (name : String) (numPages : Int) (strategy : ReplacementStrategy)
      (heap : List Bool) (bm : BM_BufferPool) :
      initBufferPool bm0 name (some file) numPages strategy heap = (RC.RC_OK, bm) →
      ReachableFrom file bm
  | step (bm bm2 : BM_BufferPool) : ReachableFrom file bm → Step bm bm2 → ReachableFrom file bm2

/-- A state reachable from a successful init, whatever the page file does. -/
def Reachable (bm : BM_BufferPool) : Prop := ∃ file, ReachableFrom file bm

/-- A state reachable from a successful init over a page file whose operations
all succeed. -/
def ReachableReliable (bm : BM_BufferPool) : Prop := ∃ file, NoFaults file ∧ ReachableFrom file bm

/-- The frame is one that a flush loop writes: it is dirty, and it is unpinned when
the loop has the guard `fixCount == 0` (`onlyUnpinned = true`). -/
def Flushed (onlyUnpinned : Bool) (f : Frame) : Prop :=
  (onlyUnpinned = false ∨ f.fixCount = 0) ∧ f.dirty = true

instance (b : Bool) (f : Frame) : Decidable (Flushed b f) := by
  unfold Flushed; infer_instance

/-- No page is held by two frames. -/
def UniquePages (frames : List Frame) : Prop :=
  ∀ i j, (frameAt frames i).pageNum = (frameAt frames j).pageNum →
    (frameAt frames i).pageNum ≠ NO_PAGE → i = j

/-- The content `B` of page `P` is held: either a frame holds page `P` with the
buffer `B` and is dirty, or no frame holds page `P`, the store has `B` at page
`P`, and some frame is unpinned. -/
def Kept (P : Int) (B : PageData) (pm : PoolMgmt) : Prop :=
  (∃ i, i < pm.frames.length ∧ (frameAt pm.frames i).pageNum = P ∧
      (frameAt pm.frames i).data = B ∧ (frameAt pm.frames i).dirty = true) ∨
    ((∀ i, (frameAt pm.frames i).pageNum ≠ P) ∧ storePage pm.fhandle P = some B ∧
      ∃ i, i < pm.frames.length ∧ (frameAt pm.frames i).fixCount = 0)

/-- The three snapshot arrays have length `capacity` and hold, element by element,
the `pageNum`, `dirty` and `fixCount` fields of the frame table. -/
def SnapshotsCurrent (pm : PoolMgmt) : Prop :=
  pm.frameContents.length = pm.capacity.toNat ∧ pm.dirtyFlags.length = pm.capacity.toNat ∧
    pm.fixCounts.length = pm.capacity.toNat ∧
    ∀ i, i < pm.capacity.toNat →
      pm.frameContents[i]? = some (frameAt pm.frames i).pageNum ∧
      pm.dirtyFlags[i]? = some (frameAt pm.frames i).dirty ∧
      pm.fixCounts[i]? = some (frameAt pm.frames i).fixCount

/-- The three snapshot arrays of `pm1` are those of `pm0`. -/
def SnapshotsUnchanged (pm0 pm1 : PoolMgmt) : Prop :=
  pm1.frameContents = pm0.frameContents ∧ pm1.dirtyFlags = pm0.dirtyFlags ∧
    pm1.fixCounts = pm0.fixCounts

/-- Every page the store had behind `fh` is unchanged behind `fh2` (the file may
have grown). -/
def StoreKept (fh fh2 : SM_FileHandle) : Prop :=
  fh.totalNumPages ≤ fh2.totalNumPages ∧
    ∀ q, q < fh.totalNumPages → storePage fh2 q = storePage fh q

/-- Between `pm0` and `pm1` nothing was written back: every dirty flag is as it
was, `numWriteIO` is unchanged and every page of the store is unchanged. -/
def NoWrite (pm0 pm1 : PoolMgmt) : Prop :=
  (∀ i, (frameAt pm1.frames i).dirty = (frameAt pm0.frames i).dirty) ∧
    pm1.numWriteIO = pm0.numWriteIO ∧ StoreKept pm0.fhandle pm1.fhandle

/-- Between `pm0` and `pm1` exactly frame `t` was written back: it was dirty and is
clean, the other dirty flags are as they were, `numWriteIO` has grown by 1 (as
a 32-bit `int`), the store holds the buffer that frame `t` had at the page it held, and the other
pages of the store are unchanged. -/
def WroteOne (pm0 pm1 : PoolMgmt) (t : Nat) : Prop :=
  (frameAt pm0.frames t).dirty = true ∧ (frameAt pm1.frames t).dirty = false ∧
    (∀ i, i ≠ t → (frameAt pm1.frames i).dirty = (frameAt pm0.frames i).dirty) ∧
    pm1.numWriteIO = wrapInt (pm0.numWriteIO + 1) ∧
    0 ≤ (frameAt pm0.frames t).pageNum ∧
    (frameAt pm0.frames t).pageNum < pm0.fhandle.totalNumPages ∧
    storePage pm1.fhandle (frameAt pm0.frames t).pageNum = some (frameAt pm0.frames t).data ∧
    ∀ q, q ≠ (frameAt pm0.frames t).pageNum → q < pm0.fhandle.totalNumPages →
      storePage pm1.fhandle q = storePage pm0.fhandle q


/-- The flush loop over the slots `l`, started in the state `pm`, writes the slot
`k` back: the slot passes the guard of the loop, the loop reaches it with every
earlier flush successful and the frame as it was in `pm`, and the flush of `k`
there is a `WroteOne` event. -/
def WrittenBack (onlyUnpinned : Bool) (l : List Nat) (pm : PoolMgmt) (k : Nat) : Prop :=
  (onlyUnpinned = false ∨ (frameAt pm.frames k).fixCount = 0) ∧
    ∃ l1 l2, l = l1 ++ k :: l2 ∧ (flushFrames onlyUnpinned l1 pm).1 = RC.RC_OK ∧
      frameAt (flushFrames onlyUnpinned l1 pm).2.frames k = frameAt pm.frames k ∧
      WroteOne (flushFrames onlyUnpinned l1 pm).2
        (flushIfDirty (flushFrames onlyUnpinned l1 pm).2 k).2 k

/-- The number of slots of the pool that are dirty in `pm0` and clean in `pm1`. -/
def cleaned (pm0 pm1 : PoolMgmt) : Nat :=
  (List.range pm0.capacity.toNat).countP fun k =>
    decide ((frameAt pm0.frames k).dirty = true ∧ (frameAt pm1.frames k).dirty = false)

/-- The frame `g` holds the same page as `f` with the same two stamps. -/
def SameStamps (f g : Frame) : Prop :=
  g.pageNum = f.pageNum ∧ g.fifoPos = f.fifoPos ∧ g.lastUsed = f.lastUsed

/-- No two distinct resident frames share a `fifoPos` or a `lastUsed`. -/
def DistinctStamps (frames : List Frame) : Prop :=
  ∀ i j, i ≠ j → (frameAt frames i).pageNum ≠ NO_PAGE → (frameAt frames j).pageNum ≠ NO_PAGE →
    (frameAt frames i).fifoPos ≠ (frameAt frames j).fifoPos ∧
      (frameAt frames i).lastUsed ≠ (frameAt frames j).lastUsed

/-- The states a client can reach from a successful `initBufferPool` by any
sequence of public operations, including the states in which a
`shutdownBufferPool` that returned an error leaves the pool (it stays
allocated, with its pins released and the frames before the failure flushed),
and what the client does from there. -/
inductive ReachableAny : BM_BufferPool → Prop where
  | init (bm0 : BM_BufferPool) (name : String) (file : OSFile) (numPages : Int)
      (strategy : ReplacementStrategy) (heap : List Bool) (bm : BM_BufferPool) :
      initBufferPool bm0 name (some file) numPages strategy heap = (RC.RC_OK, bm) →
      ReachableAny bm
  | step (bm bm2 : BM_BufferPool) : ReachableAny bm → Step bm bm2 → ReachableAny bm2
  | aborted (bm : BM_BufferPool) : ReachableAny bm → (shutdownBufferPool bm).1 ≠ RC.RC_OK →
      ReachableAny (shutdownBufferPool bm).2.1

/-! ## Example pools -/

/-- The pool descriptor before `initBufferPool`. -/
def blankPool : BM_BufferPool :=
  { pageFile := "", numPages := 0, strategy := ReplacementStrategy.RS_FIFO, mgmtData := none }

/-- A page handle that no call has filled yet. -/
def blankHandle : BM_PageHandle := { pageNum := NO_PAGE, data := none }

/-- The `PoolMgmt` behind `bm->mgmtData` of an initialised pool (an empty
zero-capacity pool stands in for `NULL`). -/
def mgmtOf (bm : BM_BufferPool) : PoolMgmt :=
  bm.mgmtData.getD
    { fhandle := { fileName := "", totalNumPages := 0, curPagePos := -1, mgmtInfo := none },
      frames := [], capacity := 0, strategy := ReplacementStrategy.RS_FIFO, tick := 0,
      frameContents := [], dirtyFlags := [], fixCounts := [], numReadIO := 0, numWriteIO := 0,
      ptab := { keys := [], vals := [], state := [], cap := 0, count := 0 },
      clockHand := 0, isOpen := false }

/-- A page file of one blank page on which every library call succeeds. -/
def oneBlankPage : OSFile := { pages := [zeroPage], pos := 0, faults := [] }

/-- A pool of `n` frames over `oneBlankPage`. -/
def freshPool (n : Int) (s : ReplacementStrategy) : BM_BufferPool :=
  (initBufferPool blankPool "pages.bin" (some oneBlankPage) n s []).2

/-- The client sequence `pinPage (p); unpinPage (p)` with a handle of its own. -/
def pinUnpin (bm : BM_BufferPool) (p : Int) : BM_BufferPool :=
  (unpinPage (pinPage bm blankHandle p).2.1 { pageNum := p, data := (pinPage bm blankHandle p).2.2.data }).2

/-- A page whose bytes are all `0xff`. -/
def onesPage : PageData := ⟨List.replicate PAGE_SIZE 255, List.length_replicate _ _⟩

/-- A page file of one blank page on which the thirteenth library call fails: the
three calls of `openPageFile`, two reads of a page (two calls each) and one
`appendEmptyBlock` (three calls) succeed, then the next `appendEmptyBlock` seeks,
allocates its blank page and fails in `fwrite` (a full disk). -/
def diskFullFile : OSFile :=
  { pages := [zeroPage], pos := 0, faults := List.replicate 12 false ++ [true] }

/-- A CLOCK pool of two frames over `diskFullFile` after the client has pinned and
unpinned pages 0 and 1 and then tried to pin page 2, which needs the file to
grow and fails. -/
def afterFailedLoad : BM_BufferPool :=
  (pinPage (pinUnpin (pinUnpin
    (initBufferPool blankPool "pages.bin" (some diskFullFile) 2 ReplacementStrategy.RS_CLOCK []).2 0) 1)
    blankHandle 2).2.1

/-- A FIFO pool of two frames in which page 0 is pinned in frame 0 and page 1 sits
unpinned in frame 1. -/
def onePinned : BM_BufferPool :=
  pinUnpin (pinPage (freshPool 2 ReplacementStrategy.RS_FIFO) blankHandle 0).2.1 1

/-- A FIFO pool of two frames in which pages 0 and 1 are both pinned. -/
def bothPinned : BM_BufferPool :=
  (pinPage (pinPage (freshPool 2 ReplacementStrategy.RS_FIFO) blankHandle 0).2.1 blankHandle 1).2.1

/-- The client sequence `pinPage (p); memcpy (h.data, B, PAGE_SIZE); markDirty (h)`:
the page stays pinned. -/
def pinWrite (bm : BM_BufferPool) (p : Int) (B : PageData) : BM_BufferPool :=
  (markDirty (clientWrite (pinPage bm blankHandle p).2.1 (pinPage bm blankHandle p).2.2 B)
    (pinPage bm blankHandle p).2.2).2

/-- A FIFO pool of two frames in which page 0 is pinned in frame 0, overwritten
with `onesPage` and marked dirty. -/
def dirtyPinned : BM_BufferPool := pinWrite (freshPool 2 ReplacementStrategy.RS_FIFO) 0 onesPage

/-- A FIFO pool of two frames in which page 0 sits unpinned and clean in frame 0
with a buffer that the client has overwritten with `onesPage` and not marked
dirty: `pinPage (0); memcpy (h.data, onesPage, PAGE_SIZE); unpinPage (h)`. -/
def unmarkedWrite : BM_BufferPool :=
  (unpinPage
    (clientWrite (pinPage (freshPool 2 ReplacementStrategy.RS_FIFO) blankHandle 0).2.1
      (pinPage (freshPool 2 ReplacementStrategy.RS_FIFO) blankHandle 0).2.2 onesPage)
    (pinPage (freshPool 2 ReplacementStrategy.RS_FIFO) blankHandle 0).2.2).2

/-- A FIFO pool of two frames in which page 0 is pinned and dirty in frame 0 and
page 1 is unpinned and dirty in frame 1, both overwritten with `onesPage`. -/
def twoDirty : BM_BufferPool :=
  (unpinPage (pinWrite dirtyPinned 1 onesPage) { pageNum := 1, data := some 1 }).2

/-- The client sequence `pinPage (p); memcpy (h.data, B, PAGE_SIZE); markDirty (h);
unpinPage (h)`, with the handle `h` that `pinPage` filled. -/
def writeBack (bm : BM_BufferPool) (p : Int) (B : PageData) : BM_BufferPool :=
  (unpinPage (pinWrite bm p B) (pinPage bm blankHandle p).2.2).2

/-- A page file of one blank page on which the sixth library call fails: the three
calls of `openPageFile` and one read of a page (two calls) succeed, then the
`fseek` of the next `writeBlock` fails. -/
def writeFailsFile : OSFile :=
  { pages := [zeroPage], pos := 0, faults := List.replicate 5 false ++ [true] }

/-- A FIFO pool of one frame over `writeFailsFile` in which page 0 sits unpinned and
dirty, overwritten with `onesPage`. -/
def dirtyOverFailing : BM_BufferPool :=
  writeBack (initBufferPool blankPool "pages.bin" (some writeFailsFile) 1
    ReplacementStrategy.RS_FIFO []).2 0 onesPage

/-- A CLOCK pool of two frames over `diskFullFile` after the client has pinned and
unpinned pages 0 and 1: both frames are resident, unpinned and clean, and the
next growth of the file fails. -/
def beforeFailedLoad : BM_BufferPool :=
  pinUnpin (pinUnpin
    (initBufferPool blankPool "pages.bin" (some diskFullFile) 2 ReplacementStrategy.RS_CLOCK []).2 0) 1

/-- A page file of one blank page on which the eighth library call fails: the
three calls of `openPageFile`, one read of a page (two calls) and one
`writeBlock` (two calls) succeed, then the `fseek` of the next
`appendEmptyBlock` fails. -/
def growFailsFile : OSFile :=
  { pages := [zeroPage], pos := 0, faults := List.replicate 7 false ++ [true] }

/-- A FIFO pool of one frame over `growFailsFile` in which page 0 sits unpinned and
dirty, overwritten with `onesPage`. -/
def dirtyOverFull : BM_BufferPool :=
  writeBack (initBufferPool blankPool "pages.bin" (some growFailsFile) 1
    ReplacementStrategy.RS_FIFO []).2 0 onesPage

/-- A pool of three frames after `pinPage`/`unpinPage` of pages 0, 1 and 2: the
frames hold pages 0, 1, 2 in load order, all unpinned. -/
def threeLoaded (s : ReplacementStrategy) : BM_BufferPool :=
  pinUnpin (pinUnpin (pinUnpin (freshPool 3 s) 0) 1) 2

/-- A CLOCK pool of two frames after `pinPage`/`unpinPage` of pages 0 and 1: both
frames are resident and unpinned with `refbit` set, and the hand is at 0. -/
def twoClock : BM_BufferPool :=
  pinUnpin (pinUnpin (freshPool 2 ReplacementStrategy.RS_CLOCK) 0) 1

/-- A page file of one blank page on which the fourth library call fails: the three
calls of `openPageFile` succeed, then the `fseek` of the first `readBlock` fails. -/
def readFailsFile : OSFile :=
  { pages := [zeroPage], pos := 0, faults := List.replicate 3 false ++ [true] }

/-- A FIFO pool of one frame over `readFailsFile`, just initialised. -/
def overUnreadable : BM_BufferPool :=
  (initBufferPool blankPool "pages.bin" (some readFailsFile) 1 ReplacementStrategy.RS_FIFO []).2

/-- The page-table history of a pool of one frame that loads and evicts the pages
1, 2, 5 and 6, whose probe sequences start at the slots 0, 1, 2 and 3 of a table
of four slots: afterwards every slot is a tombstone. -/
def fourEvictions : List PtabOp :=
  [PtabOp.put 1 0, PtabOp.del 1, PtabOp.put 2 0, PtabOp.del 2,
   PtabOp.put 5 0, PtabOp.del 5, PtabOp.put 6 0, PtabOp.del 6]

/-- A CLOCK pool of two frames in which page `INT_MAX` sits unpinned and dirty in
frame 0, overwritten with `onesPage`; frame 1 is empty. No library call has
failed: the file could not be grown to cover the page (`p + 1` wraps in
`ensurePageExists`), the read was refused and the buffer zeroed. -/
def largeDirtyClock : BM_BufferPool :=
  writeBack (freshPool 2 ReplacementStrategy.RS_CLOCK) 2147483647 onesPage

/-- A FIFO pool of one frame in which page `INT_MAX` sits unpinned and dirty,
overwritten with `onesPage`. -/
def largeDirty : BM_BufferPool :=
  writeBack (freshPool 1 ReplacementStrategy.RS_FIFO) 2147483647 onesPage

/-- The client calls `pinPage (0)` `n` times and never unpins. -/
def pinTimes : Nat → BM_BufferPool → BM_BufferPool
  | 0, bm => bm
  | n + 1, bm => (pinPage (pinTimes n bm) blankHandle 0).2.1

/-- A FIFO pool of one frame whose page 0 has been pinned `INT_MAX` times. -/
def maxPinned : BM_BufferPool := pinTimes 2147483647 (freshPool 1 ReplacementStrategy.RS_FIFO)

/-- A FIFO pool of one frame whose page 0 has been pinned `INT_MAX + 1` times. -/
def overPinned : BM_BufferPool := pinTimes 2147483648 (freshPool 1 ReplacementStrategy.RS_FIFO)

/-- A FIFO pool of two frames over `oneBlankPage` after a `forceFlushPool` that
returned an error: page 0 was written back from frame 0 and is clean, the
write-back of page `INT_MAX` from frame 1 failed, and the function returned
without refreshing the snapshot arrays, which still show frame 0 as dirty. -/
def staleSnapshots : BM_BufferPool :=
  (forceFlushPool (writeBack (writeBack (freshPool 2 ReplacementStrategy.RS_FIFO) 0 onesPage)
    2147483647 onesPage)).2
/-! ## Client programs -/

/-- One call of a client on the pool: a public operation with its arguments, a
getter, or a write through the data pointer of a page handle. -/
inductive Op where
  | pin (page : BM_PageHandle) (pageNum : Int)
  | unpin (page : BM_PageHandle)
  | dirty (page : BM_PageHandle)
  | force (page : BM_PageHandle)
  | flush
  | contents
  | flags
  | counts
  | readIO
  | writeIO
  | write (page : BM_PageHandle) (B : PageData)
  | shutdown

/-- What a call gives back to the client. -/
inductive Answer where
  | code (rc : RC)
  | pinned (rc : RC) (page : BM_PageHandle)
  | numbers (l : List Int)
  | bools (l : List Bool)
  | number (n : Int)
  | closed (rc : RC) (file : Option OSFile)
  | done

/-- The pool after one call, and the answer of the call. -/
def applyOp (bm : BM_BufferPool) : Op → BM_BufferPool × Answer
  | Op.pin page p => ((pinPage bm page p).2.1, Answer.pinned (pinPage bm page p).1 (pinPage bm page p).2.2)
  | Op.unpin page => ((unpinPage bm page).2, Answer.code (unpinPage bm page).1)
  | Op.dirty page => ((markDirty bm page).2, Answer.code (markDirty bm page).1)
  | Op.force page => ((forcePage bm page).2, Answer.code (forcePage bm page).1)
  | Op.flush => ((forceFlushPool bm).2, Answer.code (forceFlushPool bm).1)
  | Op.contents => ((getFrameContents bm).1, Answer.numbers (getFrameContents bm).2)
  | Op.flags => ((getDirtyFlags bm).1, Answer.bools (getDirtyFlags bm).2)
  | Op.counts => ((getFixCounts bm).1, Answer.numbers (getFixCounts bm).2)
  | Op.readIO => (bm, Answer.number ( getNumReadIO bm))
  | Op.writeIO => (bm, Answer.number ( getNumWriteIO bm))
  | Op.write page B => (clientWrite bm page B, Answer.done)
  | Op.shutdown =>
    ((shutdownBufferPool bm).2.1, Answer.closed (shutdownBufferPool bm).1 (shutdownBufferPool bm).2.2)

/-- A client program: the pool after the calls, and their answers in order. -/
def runOps : List Op → BM_BufferPool → BM_BufferPool × List Answer
  | [], bm => (bm, [])
  | op :: rest, bm => ((runOps rest (applyOp bm op).1).1, (applyOp bm op).2 :: (runOps rest (applyOp bm op).1).2)


/-! ## The page table refines a finite map -/

theorem cap_pos_of_pow {t : PageTable} (h : ∃ k : Nat, t.cap = 2 ^ k) : 0 < t.cap.toNat := by
  obtain ⟨k, hk⟩ := h
  have : (0 : Int) < 2 ^ k := by positivity
  omega

theorem mask_eq {t : PageTable} (h : ∃ k : Nat, t.cap = 2 ^ k) (x : Nat) :
    x &&& (t.cap - 1).toNat = x % t.cap.toNat := by
  obtain ⟨k, hk⟩ := h
  have h1 : t.cap.toNat = 2 ^ k := by
    rw [hk]; exact_mod_cast Int.toNat_natCast (2 ^ k)
  have h2 : (t.cap - 1).toNat = 2 ^ k - 1 := by
    have : (0 : Nat) < 2 ^ k := by positivity
    omega
  rw [h1, h2, Nat.and_pow_two_sub_one_eq_mod]

theorem probe_lt {t : PageTable} (h : ∃ k : Nat, t.cap = 2 ^ k) (key : Int) (j : Nat) :
    probe t key j < t.cap.toNat := Nat.mod_lt _ (cap_pos_of_pow h)

theorem probe_succ {t : PageTable} (h : ∃ k : Nat, t.cap = 2 ^ k) (key : Int) (j : Nat) :
    (probe t key j + 1) &&& (t.cap - 1).toNat = probe t key (j + 1) := by
  rw [mask_eq h]; unfold probe; rw [Nat.mod_add_mod]; rfl

theorem probe_zero {t : PageTable} (h : ∃ k : Nat, t.cap = 2 ^ k) (key : Int) :
    hash_page key &&& (t.cap - 1).toNat = probe t key 0 := by
  rw [mask_eq h]; rfl

theorem probe_inj {t : PageTable} (key : Int) {i j : Nat} (hi : i < t.cap.toNat)
    (hj : j < t.cap.toNat) (h : probe t key i = probe t key j) : i = j := by
  unfold probe at h
  have h1 : (hash_page key + i) ≡ (hash_page key + j) [MOD t.cap.toNat] := h
  have h2 : i ≡ j [MOD t.cap.toNat] := Nat.ModEq.add_left_cancel (Nat.ModEq.refl _) h1
  unfold Nat.ModEq at h2
  rwa [Nat.mod_eq_of_lt hi, Nat.mod_eq_of_lt hj] at h2

theorem probe_surj {t : PageTable} (key : Int) {s : Nat} (hs : s < t.cap.toNat) :
    ∃ j, j < t.cap.toNat ∧ probe t key j = s := by
  refine ⟨(s + (t.cap.toNat - hash_page key % t.cap.toNat)) % t.cap.toNat, Nat.mod_lt _ (by omega), ?_⟩
  unfold probe
  rw [Nat.add_mod_mod]
  have hm : hash_page key % t.cap.toNat < t.cap.toNat := Nat.mod_lt _ (by omega)
  have : hash_page key + (s + (t.cap.toNat - hash_page key % t.cap.toNat))
      = s + t.cap.toNat * (hash_page key / t.cap.toNat + 1) := by
    have := Nat.div_add_mod (hash_page key) t.cap.toNat
    have h3 : t.cap.toNat * (hash_page key / t.cap.toNat + 1)
        = t.cap.toNat * (hash_page key / t.cap.toNat) + t.cap.toNat := by ring
    omega
  rw [this, Nat.add_mul_mod_self_left, Nat.mod_eq_of_lt hs]


theorem state_cases {t : PageTable} (hst : ∀ s, t.state.getD s 0 ≤ 2) (s : Nat) :
    t.state.getD s 0 = 0 ∨ t.state.getD s 0 = 1 ∨ t.state.getD s 0 = 2 := by
  have := hst s; omega

theorem loop_step_empty (t : PageTable) (key : Int) (n idx : Nat) (fd : Int)
    (h : t.state.getD idx 0 = 0) :
    ptab_find_slot.loop t key (n + 1) idx fd = (if fd ≥ 0 then fd else (idx : Int), -1) := by
  simp only [ptab_find_slot.loop, h, if_true]

theorem loop_step_tomb (t : PageTable) (key : Int) (n idx : Nat) (fd : Int)
    (h : t.state.getD idx 0 = 2) :
    ptab_find_slot.loop t key (n + 1) idx fd
      = ptab_find_slot.loop t key n ((idx + 1) &&& (t.cap - 1).toNat)
          (if fd < 0 then (idx : Int) else fd) := by
  simp only [ptab_find_slot.loop, h, if_true, (by decide : (2 : Nat) ≠ 0), if_false]

theorem loop_step_hit (t : PageTable) (key : Int) (n idx : Nat) (fd : Int)
    (h : t.state.getD idx 0 = 1) (hk : t.keys.getD idx 0 = key) :
    ptab_find_slot.loop t key (n + 1) idx fd = ((idx : Int), (idx : Int)) := by
  simp only [ptab_find_slot.loop, h, hk, if_true, (by decide : (1 : Nat) ≠ 0),
    (by decide : (1 : Nat) ≠ 2), if_false]

theorem loop_step_miss (t : PageTable) (key : Int) (n idx : Nat) (fd : Int)
    (h : t.state.getD idx 0 = 1) (hk : t.keys.getD idx 0 ≠ key) :
    ptab_find_slot.loop t key (n + 1) idx fd
      = ptab_find_slot.loop t key n ((idx + 1) &&& (t.cap - 1).toNat) fd := by
  simp only [ptab_find_slot.loop, h, hk, (by decide : (1 : Nat) ≠ 0),
    (by decide : (1 : Nat) ≠ 2), if_false]

theorem loop_found {t : PageTable} (hp : ∃ k : Nat, t.cap = 2 ^ k)
    (hst : ∀ s, t.state.getD s 0 ≤ 2) (key : Int) :
    ∀ (d n j0 : Nat) (fd : Int), d < n →
      t.state.getD (probe t key (j0 + d)) 0 = 1 →
      t.keys.getD (probe t key (j0 + d)) 0 = key →
      (∀ j, j0 ≤ j → j < j0 + d → t.state.getD (probe t key j) 0 ≠ 0 ∧
        (t.state.getD (probe t key j) 0 = 1 → t.keys.getD (probe t key j) 0 ≠ key)) →
      ptab_find_slot.loop t key n (probe t key j0) fd
        = ((probe t key (j0 + d) : Int), (probe t key (j0 + d) : Int)) := by
  intro d
  induction d with
  | zero =>
    intro n j0 fd hn h1 h2 _
    obtain ⟨m, rfl⟩ : ∃ m, n = m + 1 := ⟨n - 1, by omega⟩
    exact loop_step_hit t key m _ fd h1 h2
  | succ d ih =>
    intro n j0 fd hn h1 h2 h3
    obtain ⟨m, rfl⟩ : ∃ m, n = m + 1 := ⟨n - 1, by omega⟩
    have h0 := h3 j0 (le_refl _) (by omega)
    have e : j0 + (d + 1) = (j0 + 1) + d := by omega
    rw [e] at h1 h2 ⊢
    have hrec : ∀ fd2, ptab_find_slot.loop t key m (probe t key (j0 + 1)) fd2
        = ((probe t key (j0 + 1 + d) : Int), (probe t key (j0 + 1 + d) : Int)) := fun fd2 =>
      ih m (j0 + 1) fd2 (by omega) h1 h2 (fun j hj1 hj2 => h3 j (by omega) (by omega))
    rcases state_cases hst (probe t key j0) with h | h | h
    · exact absurd h h0.1
    · rw [loop_step_miss t key m _ fd h (h0.2 h), probe_succ hp, hrec]
    · rw [loop_step_tomb t key m _ fd h, probe_succ hp, hrec]

theorem loop_found_sound {t : PageTable} (hp : ∃ k : Nat, t.cap = 2 ^ k)
    (hst : ∀ s, t.state.getD s 0 ≤ 2) (key : Int) :
    ∀ (n j0 : Nat) (fd : Int),
      0 ≤ (ptab_find_slot.loop t key n (probe t key j0) fd).2 →
      (ptab_find_slot.loop t key n (probe t key j0) fd).1
          = (ptab_find_slot.loop t key n (probe t key j0) fd).2 ∧
        ∃ s : Nat, (ptab_find_slot.loop t key n (probe t key j0) fd).2 = (s : Int) ∧
          s < t.cap.toNat ∧ t.state.getD s 0 = 1 ∧ t.keys.getD s 0 = key := by
  intro n
  induction n with
  | zero => intro j0 fd h; simp [ptab_find_slot.loop] at h
  | succ n ih =>
    intro j0 fd h
    rcases state_cases hst (probe t key j0) with h1 | h1 | h1
    · rw [loop_step_empty t key n _ fd h1] at h; simp at h
    · by_cases hk : t.keys.getD (probe t key j0) 0 = key
      · rw [loop_step_hit t key n _ fd h1 hk]
        exact ⟨rfl, probe t key j0, rfl, probe_lt hp _ _, h1, hk⟩
      · rw [loop_step_miss t key n _ fd h1 hk, probe_succ hp] at h ⊢
        exact ih (j0 + 1) fd h
    · rw [loop_step_tomb t key n _ fd h1, probe_succ hp] at h ⊢
      exact ih (j0 + 1) _ h

theorem loop_absent {t : PageTable} (hp : ∃ k : Nat, t.cap = 2 ^ k)
    (hst : ∀ s, t.state.getD s 0 ≤ 2) (key : Int) :
    ∀ (n j0 : Nat) (fd : Int),
      (∀ j, j < j0 → t.state.getD (probe t key j) 0 ≠ 0) →
      (fd = -1 ∨ ∃ jd, jd < j0 ∧ fd = (probe t key jd : Int) ∧ t.state.getD (probe t key jd) 0 = 2) →
      (ptab_find_slot.loop t key n (probe t key j0) fd).2 < 0 →
      (ptab_find_slot.loop t key n (probe t key j0) fd).2 = -1 ∧
      (((ptab_find_slot.loop t key n (probe t key j0) fd).1 = -1 ∧ fd = -1 ∧
          ∀ j, j0 ≤ j → j < j0 + n → t.state.getD (probe t key j) 0 = 1) ∨
        ∃ j, j < j0 + n ∧ (ptab_find_slot.loop t key n (probe t key j0) fd).1 = (probe t key j : Int) ∧
          t.state.getD (probe t key j) 0 ≠ 1 ∧
          ∀ j2, j2 < j → t.state.getD (probe t key j2) 0 ≠ 0) := by
  intro n
  induction n with
  | zero =>
    intro j0 fd hpre hfd _
    rcases hfd with rfl | ⟨jd, hjd, rfl, h2⟩
    · refine ⟨by simp [ptab_find_slot.loop], Or.inl ⟨by simp [ptab_find_slot.loop], rfl, ?_⟩⟩
      intro j h1 h2; omega
    · refine ⟨by simp [ptab_find_slot.loop], Or.inr ⟨jd, by omega, ?_, by omega, ?_⟩⟩
      · simp [ptab_find_slot.loop]
      · intro j2 hj2; exact hpre j2 (by omega)
  | succ n ih =>
    intro j0 fd hpre hfd hneg
    rcases state_cases hst (probe t key j0) with h1 | h1 | h1
    · rw [loop_step_empty t key n _ fd h1]
      refine ⟨rfl, Or.inr ?_⟩
      rcases hfd with rfl | ⟨jd, hjd, rfl, h2⟩
      · exact ⟨j0, by omega, by simp, by omega, hpre⟩
      · refine ⟨jd, by omega, ?_, by omega, fun j2 hj2 => hpre j2 (by omega)⟩
        simp
    · by_cases hk : t.keys.getD (probe t key j0) 0 = key
      · rw [loop_step_hit t key n _ fd h1 hk] at hneg
        simp at hneg
        omega
      · rw [loop_step_miss t key n _ fd h1 hk, probe_succ hp] at hneg ⊢
        have hpre2 : ∀ j, j < j0 + 1 → t.state.getD (probe t key j) 0 ≠ 0 := by
          intro j hj
          rcases Nat.lt_succ_iff_lt_or_eq.mp hj with h | h
          · exact hpre j h
          · subst h; omega
        have hfd2 : fd = -1 ∨ ∃ jd, jd < j0 + 1 ∧ fd = (probe t key jd : Int) ∧
            t.state.getD (probe t key jd) 0 = 2 := by
          rcases hfd with h | ⟨jd, hjd, h, h2⟩
          · exact Or.inl h
          · exact Or.inr ⟨jd, by omega, h, h2⟩
        obtain ⟨r1, r2⟩ := ih (j0 + 1) fd hpre2 hfd2 hneg
        refine ⟨r1, ?_⟩
        rcases r2 with ⟨a, b, c⟩ | ⟨j, a, b, c, d⟩
        · refine Or.inl ⟨a, b, fun j hj1 hj2 => ?_⟩
          rcases Nat.eq_or_lt_of_le hj1 with h | h
          · subst h; exact h1
          · exact c j (by omega) (by omega)
        · exact Or.inr ⟨j, by omega, b, c, d⟩
    · rw [loop_step_tomb t key n _ fd h1, probe_succ hp] at hneg ⊢
      have hpre2 : ∀ j, j < j0 + 1 → t.state.getD (probe t key j) 0 ≠ 0 := by
        intro j hj
        rcases Nat.lt_succ_iff_lt_or_eq.mp hj with h | h
        · exact hpre j h
        · subst h; omega
      have hfd2 : (if fd < 0 then (probe t key j0 : Int) else fd) = -1 ∨
          ∃ jd, jd < j0 + 1 ∧ (if fd < 0 then (probe t key j0 : Int) else fd) = (probe t key jd : Int) ∧
            t.state.getD (probe t key jd) 0 = 2 := by
        rcases hfd with h | ⟨jd, hjd, h, h2⟩
        · subst h; exact Or.inr ⟨j0, by omega, by simp, h1⟩
        · refine Or.inr ⟨jd, by omega, ?_, h2⟩
          subst h
          have : ¬ ((probe t key jd : Int) < 0) := by omega
          simp [this]
      obtain ⟨r1, r2⟩ := ih (j0 + 1) _ hpre2 hfd2 hneg
      refine ⟨r1, ?_⟩
      rcases r2 with ⟨a, b, c⟩ | ⟨j, a, b, c, d⟩
      · exfalso
        split at b <;> omega
      · exact Or.inr ⟨j, by omega, b, c, d⟩


theorem getD_set_self {α : Type} {l : List α} {i : Nat} (h : i < l.length) (a d : α) :
    (l.set i a).getD i d = a := by
  simp [List.getD_eq_getElem?_getD, List.getElem?_set, h]

theorem getD_set_other {α : Type} {l : List α} {i j : Nat} (h : i ≠ j) (a d : α) :
    (l.set i a).getD j d = l.getD j d := by
  simp [List.getD_eq_getElem?_getD, List.getElem?_set, h]

theorem getD_replicate_self {α : Type} (n i : Nat) (d : α) :
    (List.replicate n d).getD i d = d := by
  by_cases h : i < n
  · simp [List.getD_eq_getElem?_getD, List.getElem?_replicate, h]
  · simp [List.getD_eq_getElem?_getD, List.getElem?_replicate, h]

theorem find_found {t : PageTable} (ht : PTInv t) {s : Nat} (hs : s < t.cap.toNat)
    (h1 : t.state.getD s 0 = 1) :
    ptab_find_slot t (t.keys.getD s 0) = ((s : Int), (s : Int)) := by
  obtain ⟨j, hj, hpj, hpre⟩ := ht.reach s hs h1
  unfold ptab_find_slot
  rw [probe_zero ht.pow]
  have := loop_found ht.pow ht.st (t.keys.getD s 0) j t.cap.toNat 0 (-1) hj
    (by rw [Nat.zero_add, hpj]; exact h1) (by rw [Nat.zero_add, hpj])
    (by
      intro j2 _ hj2
      rw [Nat.zero_add] at hj2
      refine ⟨hpre j2 hj2, fun hocc hkey => ?_⟩
      have := ht.uniq (probe t (t.keys.getD s 0) j2) s (probe_lt ht.pow _ _) hs hocc h1 hkey
      have := probe_inj _ (by omega) hj (this.trans hpj.symm)
      omega)
  rw [this, Nat.zero_add, hpj]

theorem find_sound {t : PageTable} (ht : PTInv t) (key : Int)
    (h : 0 ≤ (ptab_find_slot t key).2) :
    (ptab_find_slot t key).1 = (ptab_find_slot t key).2 ∧
      ∃ s : Nat, (ptab_find_slot t key).2 = (s : Int) ∧ s < t.cap.toNat ∧
        t.state.getD s 0 = 1 ∧ t.keys.getD s 0 = key := by
  unfold ptab_find_slot at h ⊢
  rw [probe_zero ht.pow] at h ⊢
  exact loop_found_sound ht.pow ht.st key _ 0 _ h

theorem find_absent {t : PageTable} (ht : PTInv t) (key : Int)
    (h : (ptab_find_slot t key).2 < 0) :
    (ptab_find_slot t key).2 = -1 ∧
      (((ptab_find_slot t key).1 = -1 ∧ ∀ s, s < t.cap.toNat → t.state.getD s 0 = 1) ∨
        ∃ s : Nat, s < t.cap.toNat ∧ (ptab_find_slot t key).1 = (s : Int) ∧
          t.state.getD s 0 ≠ 1 ∧
          ∃ j, j < t.cap.toNat ∧ probe t key j = s ∧
            ∀ j2, j2 < j → t.state.getD (probe t key j2) 0 ≠ 0) := by
  unfold ptab_find_slot at h ⊢
  rw [probe_zero ht.pow] at h ⊢
  obtain ⟨r1, r2⟩ := loop_absent ht.pow ht.st key t.cap.toNat 0 (-1)
    (fun j hj => absurd hj (Nat.not_lt_zero _)) (Or.inl rfl) h
  refine ⟨r1, ?_⟩
  rcases r2 with ⟨a, _, c⟩ | ⟨j, a, b, c, d⟩
  · refine Or.inl ⟨a, fun s hs => ?_⟩
    obtain ⟨j, hj, rfl⟩ := probe_surj key hs
    exact c j (Nat.zero_le _) (by omega)
  · exact Or.inr ⟨probe t key j, probe_lt ht.pow _ _, b, c, j, by omega, rfl, d⟩

theorem find_of_no_key {t : PageTable} (ht : PTInv t) (key : Int)
    (h : ∀ s, s < t.cap.toNat → t.state.getD s 0 = 1 → t.keys.getD s 0 ≠ key) :
    (ptab_find_slot t key).2 < 0 := by
  by_contra hc
  obtain ⟨_, s, _, hs, h1, h2⟩ := find_sound ht key (by omega)
  exact h s hs h1 h2

theorem get_of_has {t : PageTable} (ht : PTInv t) {key val : Int} (h : t.has key val) :
    ptab_get t key = val := by
  obtain ⟨s, hs, h1, h2, h3⟩ := h
  have := find_found ht hs h1
  rw [h2] at this
  simp only [ptab_get, this]
  have : ¬ ((s : Int) < 0) := by omega
  simp only [this, if_false, Int.toNat_natCast, h3]

theorem get_of_not_has {t : PageTable} (ht : PTInv t) {key : Int} (h : ∀ val, ¬ t.has key val) :
    ptab_get t key = -1 := by
  have := find_of_no_key ht key (fun s hs h1 h2 => h _ ⟨s, hs, h1, h2, rfl⟩)
  simp only [ptab_get, this, if_true]

theorem has_of_get {t : PageTable} (ht : PTInv t) {key : Int} (h : 0 ≤ ptab_get t key) :
    t.has key (ptab_get t key) := by
  by_cases hc : (ptab_find_slot t key).2 < 0
  · simp only [ptab_get, hc, if_true] at h; omega
  · obtain ⟨_, s, e, hs, h1, h2⟩ := find_sound ht key (by omega)
    refine ⟨s, hs, h1, h2, ?_⟩
    have hn : ¬ ((s : Int) < 0) := by omega
    simp only [ptab_get, e, hn, if_false, Int.toNat_natCast]

theorem has_unique {t : PageTable} (ht : PTInv t) {key v1 v2 : Int} (h1 : t.has key v1)
    (h2 : t.has key v2) : v1 = v2 := by
  rw [← get_of_has ht h1, ← get_of_has ht h2]


theorem inv_update_val {t : PageTable} (ht : PTInv t) (s : Nat) (val : Int) :
    PTInv { t with vals := t.vals.set s val } :=
  { pow := ht.pow, hk := ht.hk, hv := by simp [ht.hv], hs := ht.hs, st := ht.st,
    reach := ht.reach, uniq := ht.uniq }

theorem has_update_val {t : PageTable} (ht : PTInv t) {s : Nat} (hs : s < t.cap.toNat)
    (h1 : t.state.getD s 0 = 1) (val k v : Int) :
    PageTable.has { t with vals := t.vals.set s val } k v ↔
      (k = t.keys.getD s 0 ∧ v = val) ∨ (k ≠ t.keys.getD s 0 ∧ t.has k v) := by
  have hlen : s < t.vals.length := by rw [ht.hv]; exact hs
  constructor
  · rintro ⟨s2, hs2, a, b, c⟩
    by_cases e : s = s2
    · subst e
      left
      exact ⟨b.symm, by rw [← c]; exact getD_set_self hlen _ _⟩
    · right
      refine ⟨fun hk => e ?_, s2, hs2, a, b, ?_⟩
      · exact ht.uniq s s2 hs hs2 h1 a (by rw [← hk]; exact b.symm)
      · rw [← c]; exact (getD_set_other e _ _).symm
  · rintro (⟨rfl, rfl⟩ | ⟨hk, s2, hs2, a, b, c⟩)
    · exact ⟨s, hs, h1, rfl, getD_set_self hlen _ _⟩
    · have e : s ≠ s2 := fun e => hk (by rw [e]; exact b.symm)
      exact ⟨s2, hs2, a, b, by rw [← c]; exact getD_set_other e _ _⟩

theorem inv_insert {t : PageTable} (ht : PTInv t) {s : Nat} (hs : s < t.cap.toNat)
    (key val : Int)
    (habs : ∀ s2, s2 < t.cap.toNat → t.state.getD s2 0 = 1 → t.keys.getD s2 0 ≠ key)
    (hpath : ∃ j, j < t.cap.toNat ∧ probe t key j = s ∧
      ∀ j2, j2 < j → t.state.getD (probe t key j2) 0 ≠ 0) :
    PTInv { t with keys := t.keys.set s key, vals := t.vals.set s val,
                   state := t.state.set s 1, count := t.count + 1 } := by
  have hls : s < t.state.length := by rw [ht.hs]; exact hs
  have hlk : s < t.keys.length := by rw [ht.hk]; exact hs
  have hst : ∀ x, (t.state.set s 1).getD x 0 = if s = x then 1 else t.state.getD x 0 := by
    intro x
    by_cases e : s = x
    · subst e; rw [getD_set_self hls]; simp
    · rw [getD_set_other e]; simp [e]
  have hky : ∀ x, (t.keys.set s key).getD x 0 = if s = x then key else t.keys.getD x 0 := by
    intro x
    by_cases e : s = x
    · subst e; rw [getD_set_self hlk]; simp
    · rw [getD_set_other e]; simp [e]
  have hnz : ∀ x, t.state.getD x 0 ≠ 0 → (t.state.set s 1).getD x 0 ≠ 0 := by
    intro x hx
    rw [hst]; split <;> omega
  refine { pow := ht.pow, hk := by simp [ht.hk], hv := by simp [ht.hv], hs := by simp [ht.hs],
           st := ?_, reach := ?_, uniq := ?_ }
  · intro x
    show (t.state.set s 1).getD x 0 ≤ 2
    rw [hst]; split
    · omega
    · exact ht.st x
  · intro x hx hocc
    show ∃ j, j < t.cap.toNat ∧ probe t ((t.keys.set s key).getD x 0) j = x ∧
      ∀ j2, j2 < j → (t.state.set s 1).getD (probe t ((t.keys.set s key).getD x 0) j2) 0 ≠ 0
    have hocc2 : (t.state.set s 1).getD x 0 = 1 := hocc
    rw [hky]
    by_cases e : s = x
    · subst e
      simp only [if_true]
      obtain ⟨j, hj, hpj, hpre⟩ := hpath
      exact ⟨j, hj, hpj, fun j2 hj2 => hnz _ (hpre j2 hj2)⟩
    · simp only [e, if_false]
      rw [hst] at hocc2
      simp only [e, if_false] at hocc2
      obtain ⟨j, hj, hpj, hpre⟩ := ht.reach x hx hocc2
      exact ⟨j, hj, hpj, fun j2 hj2 => hnz _ (hpre j2 hj2)⟩
  · intro x y hx hy ox oy hxy
    have ox2 : (t.state.set s 1).getD x 0 = 1 := ox
    have oy2 : (t.state.set s 1).getD y 0 = 1 := oy
    have hxy2 : (t.keys.set s key).getD x 0 = (t.keys.set s key).getD y 0 := hxy
    rw [hst] at ox2 oy2
    rw [hky, hky] at hxy2
    by_cases ex : s = x <;> by_cases ey : s = y
    · omega
    · simp only [ex, ey, if_true, if_false] at hxy2 oy2
      subst ex
      simp only [ey, if_false] at hxy2 oy2
      exact absurd hxy2.symm (habs y hy oy2)
    · subst ey
      simp only [ex, if_true, if_false] at hxy2 ox2
      exact absurd hxy2 (habs x hx ox2)
    · simp only [ex, ey, if_false] at hxy2 ox2 oy2
      exact ht.uniq x y hx hy ox2 oy2 hxy2

theorem has_insert {t : PageTable} (ht : PTInv t) {s : Nat} (hs : s < t.cap.toNat)
    (h1 : t.state.getD s 0 ≠ 1) (key val k v : Int)
    (habs : ∀ s2, s2 < t.cap.toNat → t.state.getD s2 0 = 1 → t.keys.getD s2 0 ≠ key) :
    PageTable.has { t with keys := t.keys.set s key, vals := t.vals.set s val,
                           state := t.state.set s 1, count := t.count + 1 } k v ↔
      (k = key ∧ v = val) ∨ (k ≠ key ∧ t.has k v) := by
  have hls : s < t.state.length := by rw [ht.hs]; exact hs
  have hlk : s < t.keys.length := by rw [ht.hk]; exact hs
  have hlv : s < t.vals.length := by rw [ht.hv]; exact hs
  constructor
  · rintro ⟨s2, hs2, a, b, c⟩
    have a2 : (t.state.set s 1).getD s2 0 = 1 := a
    have b2 : (t.keys.set s key).getD s2 0 = k := b
    have c2 : (t.vals.set s val).getD s2 0 = v := c
    by_cases e : s = s2
    · subst e
      rw [getD_set_self hlk] at b2
      rw [getD_set_self hlv] at c2
      exact Or.inl ⟨b2.symm, c2.symm⟩
    · rw [getD_set_other e] at a2 b2 c2
      exact Or.inr ⟨fun hk => habs s2 hs2 a2 (b2.trans hk), s2, hs2, a2, b2, c2⟩
  · rintro (⟨rfl, rfl⟩ | ⟨_, s2, hs2, a, b, c⟩)
    · exact ⟨s, hs, getD_set_self hls _ _, getD_set_self hlk _ _, getD_set_self hlv _ _⟩
    · have e : s ≠ s2 := fun e => h1 (by rw [e]; exact a)
      exact ⟨s2, hs2, by rw [← a]; exact getD_set_other e _ _,
        by rw [← b]; exact getD_set_other e _ _, by rw [← c]; exact getD_set_other e _ _⟩


theorem put_spec {t : PageTable} (ht : PTInv t) (key val : Int)
    (hroom : (∃ v, t.has key v) ∨ ∃ s, s < t.cap.toNat ∧ t.state.getD s 0 ≠ 1) :
    (ptab_put t key val).1 = RC.RC_OK ∧ PTInv (ptab_put t key val).2 ∧
      (ptab_put t key val).2.cap = t.cap ∧
      ∀ k v, (ptab_put t key val).2.has k v ↔ (k = key ∧ v = val) ∨ (k ≠ key ∧ t.has k v) := by
  by_cases hc : (ptab_find_slot t key).2 < 0
  · obtain ⟨e2, r⟩ := find_absent ht key hc
    have habs : ∀ s2, s2 < t.cap.toNat → t.state.getD s2 0 = 1 → t.keys.getD s2 0 ≠ key := by
      intro s2 hs2 o hk
      have := find_found ht hs2 o
      rw [hk] at this
      rw [this] at hc
      simp at hc
      omega
    rcases r with ⟨_, hall⟩ | ⟨s, hs, e1, h1, hpath⟩
    · exfalso
      rcases hroom with ⟨v, s, hs, o, hk, _⟩ | ⟨s, hs, o⟩
      · exact habs s hs o hk
      · exact o (hall s hs)
    · have hput : ptab_put t key val = (RC.RC_OK,
          { t with keys := t.keys.set s key, vals := t.vals.set s val,
                   state := t.state.set s 1, count := t.count + 1 }) := by
        have n1 : ¬ ((s : Int) < 0) := by omega
        have n2 : ¬ ((-1 : Int) ≥ 0) := by omega
        simp only [ptab_put, e1, e2, n1, n2, if_false, Int.toNat_natCast]
      rw [hput]
      exact ⟨rfl, inv_insert ht hs key val habs hpath, rfl,
        fun k v => has_insert ht hs h1 key val k v habs⟩
  · obtain ⟨e1, s, e2, hs, o, hk⟩ := find_sound ht key (by omega)
    have hput : ptab_put t key val = (RC.RC_OK, { t with vals := t.vals.set s val }) := by
      have n1 : ¬ ((s : Int) < 0) := by omega
      have n2 : ((s : Int) ≥ 0) := by omega
      simp only [ptab_put, e1, e2, n1, n2, if_false, if_true, Int.toNat_natCast]
    rw [hput]
    refine ⟨rfl, inv_update_val ht s val, rfl, fun k v => ?_⟩
    rw [has_update_val ht hs o, hk]

theorem del_spec {t : PageTable} (ht : PTInv t) (key : Int) :
    PTInv (ptab_del t key) ∧ (ptab_del t key).cap = t.cap ∧
      ∀ k v, (ptab_del t key).has k v ↔ (k ≠ key ∧ t.has k v) := by
  by_cases hc : (ptab_find_slot t key).2 < 0
  · have hdel : ptab_del t key = t := by
      have n : ¬ ((ptab_find_slot t key).2 ≥ 0) := by omega
      simp only [ptab_del, n, false_and, if_false]
    rw [hdel]
    refine ⟨ht, rfl, fun k v => ⟨fun h => ⟨?_, h⟩, fun h => h.2⟩⟩
    rintro rfl
    obtain ⟨s, hs, o, hk, _⟩ := h
    have := find_found ht hs o
    rw [hk] at this
    rw [this] at hc
    simp at hc
    omega
  · obtain ⟨_, s, e2, hs, o, hk⟩ := find_sound ht key (by omega)
    have hdel : ptab_del t key = { t with state := t.state.set s 2, count := t.count - 1 } := by
      have n2 : ((s : Int) ≥ 0) := by omega
      simp only [ptab_del, e2, n2, Int.toNat_natCast, o, and_self, if_true]
    rw [hdel]
    have hls : s < t.state.length := by rw [ht.hs]; exact hs
    have hst : ∀ x, (t.state.set s 2).getD x 0 = if s = x then 2 else t.state.getD x 0 := by
      intro x
      by_cases e : s = x
      · subst e; rw [getD_set_self hls]; simp
      · rw [getD_set_other e]; simp [e]
    have hocc : ∀ x, (t.state.set s 2).getD x 0 = 1 → s ≠ x ∧ t.state.getD x 0 = 1 := by
      intro x hx
      rw [hst] at hx
      by_cases e : s = x
      · simp [e] at hx
      · simp only [e, if_false] at hx; exact ⟨e, hx⟩
    have hnz : ∀ x, t.state.getD x 0 ≠ 0 → (t.state.set s 2).getD x 0 ≠ 0 := by
      intro x hx
      rw [hst]; split <;> omega
    refine ⟨{ pow := ht.pow, hk := ht.hk, hv := ht.hv, hs := by simp [ht.hs],
              st := ?_, reach := ?_, uniq := ?_ }, rfl, ?_⟩
    · intro x
      show (t.state.set s 2).getD x 0 ≤ 2
      rw [hst]; split
      · omega
      · exact ht.st x
    · intro x hx ox
      obtain ⟨_, ox2⟩ := hocc x ox
      obtain ⟨j, hj, hpj, hpre⟩ := ht.reach x hx ox2
      exact ⟨j, hj, hpj, fun j2 hj2 => hnz _ (hpre j2 hj2)⟩
    · intro x y hx hy ox oy hxy
      exact ht.uniq x y hx hy (hocc x ox).2 (hocc y oy).2 hxy
    · intro k v
      constructor
      · rintro ⟨x, hx, ox, kx, vx⟩
        obtain ⟨ne, ox2⟩ := hocc x ox
        refine ⟨fun hk2 => ne ?_, x, hx, ox2, kx, vx⟩
        have kx2 : t.keys.getD x 0 = k := kx
        exact ht.uniq s x hs hx o ox2 (by rw [hk, kx2, hk2])
      · rintro ⟨hk2, x, hx, ox, kx, vx⟩
        have ne : s ≠ x := fun e => hk2 (by rw [← kx, ← e, hk])
        exact ⟨x, hx, by rw [← ox]; exact getD_set_other ne _ _, kx, vx⟩

theorem grow_pow (approx : Int) : ∀ (fuel a : Nat), ∃ k : Nat,
    ptab_init.grow approx fuel (2 ^ a) = 2 ^ k := by
  intro fuel
  induction fuel with
  | zero => intro a; exact ⟨a, rfl⟩
  | succ n ih =>
    intro a
    unfold ptab_init.grow
    split
    · obtain ⟨k, hk⟩ := ih (a + 1)
      exact ⟨k, by rw [← hk, pow_succ]⟩
    · exact ⟨a, rfl⟩

theorem grow_ge (approx : Int) : ∀ (fuel : Nat) (cap : Int), 1 ≤ cap →
    approx * 3 - cap ≤ fuel → approx * 3 ≤ ptab_init.grow approx fuel cap := by
  intro fuel
  induction fuel with
  | zero => intro cap _ h; simp only [ptab_init.grow]; omega
  | succ n ih =>
    intro cap h1 h2
    unfold ptab_init.grow
    split
    · exact ih (cap * 2) (by omega) (by push_cast at h2; omega)
    · omega

theorem init_cap_ge (approx : Int) : approx * 3 ≤ (ptab_init approx).cap := by
  show approx * 3 ≤ ptab_init.grow approx (approx * 3).toNat 1
  exact grow_ge approx _ 1 (le_refl _) (by omega)

theorem init_inv (approx : Int) : PTInv (ptab_init approx) := by
  have hs : ∀ s, (ptab_init approx).state.getD s 0 = 0 := fun s => getD_replicate_self _ _ _
  refine { pow := ?_, hk := by simp [ptab_init], hv := by simp [ptab_init],
           hs := by simp [ptab_init], st := fun s => by rw [hs]; omega,
           reach := fun s _ h => by rw [hs] at h; omega,
           uniq := fun s _ _ _ h => by rw [hs] at h; omega }
  obtain ⟨k, hk⟩ := grow_pow approx (approx * 3).toNat 0
  exact ⟨k, hk⟩

theorem init_has (approx : Int) (k v : Int) : ¬ (ptab_init approx).has k v := by
  rintro ⟨s, _, h, _⟩
  have : (ptab_init approx).state.getD s 0 = 0 := getD_replicate_self _ _ _
  omega

/-! ## Sequences of page-table updates -/

theorem put_cap (t : PageTable) (key val : Int) : (ptab_put t key val).2.cap = t.cap := by
  simp only [ptab_put]
  split
  · rfl
  · split <;> rfl

theorem del_cap (t : PageTable) (key : Int) : (ptab_del t key).cap = t.cap := by
  simp only [ptab_del]
  split <;> rfl

theorem ptabStep_cap (t : PageTable) (op : PtabOp) : (ptabStep t op).cap = t.cap := by
  cases op with
  | put key val => exact put_cap t key val
  | del key => exact del_cap t key

theorem ptabRun_cap : ∀ (ops : List PtabOp) (t : PageTable), (ptabRun t ops).cap = t.cap := by
  intro ops
  induction ops with
  | nil => intro t; rfl
  | cons op rest ih =>
    intro t
    show (ptabRun (ptabStep t op) rest).cap = _
    rw [ih, ptabStep_cap]

theorem free_iff_occupied_lt (t : PageTable) :
    (∃ s, s < t.cap.toNat ∧ t.state.getD s 0 ≠ 1) ↔ ptab_occupied t < t.cap.toNat := by
  unfold ptab_occupied
  have hle := List.countP_le_length (fun s => decide (t.state.getD s 0 = 1))
    (l := List.range t.cap.toNat)
  rw [List.length_range] at hle
  constructor
  · rintro ⟨s, hs, h1⟩
    by_contra hc
    have heq : (List.range t.cap.toNat).countP (fun s => decide (t.state.getD s 0 = 1))
        = (List.range t.cap.toNat).length := by rw [List.length_range]; omega
    rw [List.countP_eq_length] at heq
    have := heq s (List.mem_range.mpr hs)
    simp only [decide_eq_true_eq] at this
    exact h1 this
  · intro h
    by_contra hc
    have heq : (List.range t.cap.toNat).countP (fun s => decide (t.state.getD s 0 = 1))
        = (List.range t.cap.toNat).length := by
      rw [List.countP_eq_length]
      intro s hs
      simp only [decide_eq_true_eq]
      by_contra h1
      exact hc ⟨s, List.mem_range.mp hs, h1⟩
    rw [List.length_range] at heq
    omega

theorem get_congr {t t2 : PageTable} (ht : PTInv t) (ht2 : PTInv t2) (k : Int)
    (h : ∀ v, t2.has k v ↔ t.has k v) : ptab_get t2 k = ptab_get t k := by
  by_cases hc : ∃ v, t.has k v
  · obtain ⟨v, hv⟩ := hc
    rw [get_of_has ht hv, get_of_has ht2 ((h v).mpr hv)]
  · rw [get_of_not_has ht (fun v hv => hc ⟨v, hv⟩),
      get_of_not_has ht2 (fun v hv => hc ⟨v, (h v).mp hv⟩)]

theorem put_inv {t : PageTable} (ht : PTInv t) (key val : Int) : PTInv (ptab_put t key val).2 := by
  by_cases hroom : (∃ v, t.has key v) ∨ ∃ s, s < t.cap.toNat ∧ t.state.getD s 0 ≠ 1
  · exact (put_spec ht key val hroom).2.1
  · have hc : (ptab_find_slot t key).2 < 0 := by
      by_contra hc
      obtain ⟨_, s, _, hs, h1, h2⟩ := find_sound ht key (by omega)
      exact hroom (Or.inl ⟨_, s, hs, h1, h2, rfl⟩)
    obtain ⟨_, r⟩ := find_absent ht key hc
    rcases r with ⟨e, _⟩ | ⟨s, hs, _, h1, _⟩
    · have : ptab_put t key val = (RC.RC_WRITE_FAILED, t) := by
        simp only [ptab_put, e]
        rfl
      rw [this]; exact ht
    · exact absurd (Or.inr ⟨s, hs, h1⟩) hroom

theorem ptabStep_inv {t : PageTable} (ht : PTInv t) (op : PtabOp) : PTInv (ptabStep t op) := by
  cases op with
  | put key val => exact put_inv ht key val
  | del key => exact (del_spec ht key).1

theorem ptabRun_inv : ∀ (ops : List PtabOp) {t : PageTable}, PTInv t → PTInv (ptabRun t ops) := by
  intro ops
  induction ops with
  | nil => intro t ht; exact ht
  | cons op rest ih => intro t ht; exact ih (ptabStep_inv ht op)

theorem ptabRun_snoc (t : PageTable) (ops : List PtabOp) (op : PtabOp) :
    ptabRun t (ops ++ [op]) = ptabStep (ptabRun t ops) op := by
  unfold ptabRun
  rw [List.foldl_append]
  rfl

theorem staysBelow_snoc : ∀ (ops : List PtabOp) (t : PageTable) (op : PtabOp),
    staysBelow t (ops ++ [op]) = true →
    staysBelow t ops = true ∧
      ptab_occupied (ptabRun t (ops ++ [op])) < (ptabRun t (ops ++ [op])).cap.toNat := by
  intro ops
  induction ops with
  | nil =>
    intro t op h
    simp only [List.nil_append, staysBelow, Bool.and_eq_true, decide_eq_true_eq] at h
    exact ⟨by simp only [staysBelow, decide_eq_true_eq]; exact h.1, h.2⟩
  | cons o rest ih =>
    intro t op h
    simp only [List.cons_append, staysBelow, Bool.and_eq_true, decide_eq_true_eq] at h
    obtain ⟨a, b⟩ := ih (ptabStep t o) op h.2
    refine ⟨?_, b⟩
    simp only [staysBelow, Bool.and_eq_true, decide_eq_true_eq]
    exact ⟨h.1, a⟩

theorem staysBelow_last : ∀ (ops : List PtabOp) (t : PageTable), staysBelow t ops = true →
    ptab_occupied (ptabRun t ops) < (ptabRun t ops).cap.toNat := by
  intro ops
  induction ops with
  | nil =>
    intro t h
    simp only [staysBelow, decide_eq_true_eq] at h
    exact h
  | cons o rest ih =>
    intro t h
    simp only [staysBelow, Bool.and_eq_true, decide_eq_true_eq] at h
    exact ih (ptabStep t o) h.2

theorem put_get_self {t : PageTable} (ht : PTInv t) (key val : Int)
    (hroom : ptab_occupied t < t.cap.toNat) :
    (ptab_put t key val).1 = RC.RC_OK ∧ ptab_get (ptab_put t key val).2 key = val := by
  obtain ⟨a, b, _, d⟩ := put_spec ht key val (Or.inr ((free_iff_occupied_lt t).mpr hroom))
  exact ⟨a, get_of_has b ((d key val).mpr (Or.inl ⟨rfl, rfl⟩))⟩

theorem put_get_other {t : PageTable} (ht : PTInv t) (key val k : Int) (hk : k ≠ key) :
    ptab_get (ptab_put t key val).2 k = ptab_get t k := by
  by_cases hroom : (∃ v, t.has key v) ∨ ∃ s, s < t.cap.toNat ∧ t.state.getD s 0 ≠ 1
  · obtain ⟨_, b, _, d⟩ := put_spec ht key val hroom
    refine get_congr ht b k (fun v => ?_)
    rw [d k v]
    constructor
    · rintro (⟨e, _⟩ | ⟨_, h⟩)
      · exact absurd e hk
      · exact h
    · intro h; exact Or.inr ⟨hk, h⟩
  · have hc : (ptab_find_slot t key).2 < 0 := by
      by_contra hc
      obtain ⟨_, s, _, hs, h1, h2⟩ := find_sound ht key (by omega)
      exact hroom (Or.inl ⟨_, s, hs, h1, h2, rfl⟩)
    obtain ⟨_, r⟩ := find_absent ht key hc
    rcases r with ⟨e, _⟩ | ⟨s, hs, _, h1, _⟩
    · have : ptab_put t key val = (RC.RC_WRITE_FAILED, t) := by
        simp only [ptab_put, e]
        rfl
      rw [this]
    · exact absurd (Or.inr ⟨s, hs, h1⟩) hroom

theorem del_get_self {t : PageTable} (ht : PTInv t) (key : Int) :
    ptab_get (ptab_del t key) key = -1 := by
  obtain ⟨a, _, c⟩ := del_spec ht key
  exact get_of_not_has a (fun v hv => ((c key v).mp hv).1 rfl)

theorem del_get_other {t : PageTable} (ht : PTInv t) (key k : Int) (hk : k ≠ key) :
    ptab_get (ptab_del t key) k = ptab_get t k := by
  obtain ⟨a, _, c⟩ := del_spec ht key
  refine get_congr ht a k (fun v => ?_)
  rw [c k v]
  exact ⟨fun h => h.2, fun h => ⟨hk, h⟩⟩

theorem run_refines (approx : Int) (ops : List PtabOp) :
    staysBelow (ptab_init approx) ops = true →
    ∀ k, ptab_get (ptabRun (ptab_init approx) ops) k = spec_get ops k := by
  induction ops using List.reverseRecOn with
  | nil =>
    intro _ k
    exact get_of_not_has (init_inv approx) (fun v => init_has approx k v)
  | append_singleton ops op ih =>
    intro h k
    obtain ⟨h1, _⟩ := staysBelow_snoc ops _ op h
    have hi := ptabRun_inv ops (init_inv approx)
    have hroom := staysBelow_last ops _ h1
    have ih := ih h1
    rw [ptabRun_snoc]
    unfold spec_get at ih ⊢
    rw [List.reverse_append]
    cases op with
    | put key val =>
      show ptab_get (ptab_put _ key val).2 k = if key = k then val else mostRecent ops.reverse k
      by_cases e : key = k
      · subst e
        rw [if_pos rfl]
        exact (put_get_self hi key val hroom).2
      · rw [if_neg e, put_get_other hi key val k (fun h => e h.symm)]
        exact ih k
    | del key =>
      show ptab_get (ptab_del _ key) k = if key = k then -1 else mostRecent ops.reverse k
      by_cases e : key = k
      · subst e
        rw [if_pos rfl]
        exact del_get_self hi key
      · rw [if_neg e, del_get_other hi key k (fun h => e h.symm)]
        exact ih k

theorem put_reuses_tombstone {t : PageTable} (ht : PTInv t) (key val : Int)
    (hroom : ptab_occupied t < t.cap.toNat)
    (hfull : ∀ s, s < t.cap.toNat → t.state.getD s 0 ≠ 0)
    (habs : (ptab_find_slot t key).2 < 0) :
    ∃ s, s < t.cap.toNat ∧ t.state.getD s 0 = 2 ∧
      ptab_put t key val = (RC.RC_OK,
        { t with keys := t.keys.set s key, vals := t.vals.set s val,
                 state := t.state.set s 1, count := t.count + 1 }) := by
  obtain ⟨e2, r⟩ := find_absent ht key habs
  rcases r with ⟨_, hall⟩ | ⟨s, hs, e1, h1, _⟩
  · obtain ⟨s, hs, h1⟩ := (free_iff_occupied_lt t).mpr hroom
    exact absurd (hall s hs) h1
  · refine ⟨s, hs, ?_, ?_⟩
    · rcases state_cases ht.st s with h | h | h
      · exact absurd h (hfull s hs)
      · exact absurd h h1
      · exact h
    · have n1 : ¬ ((s : Int) < 0) := by omega
      have n2 : ¬ ((-1 : Int) ≥ 0) := by omega
      simp only [ptab_put, e1, e2, n1, n2, if_false, Int.toNat_natCast]


/-! ## The storage manager -/

theorem call_pages (fp : OSFile) : fp.call.2.pages = fp.pages := rfl

theorem call_pos (fp : OSFile) : fp.call.2.pos = fp.pos := rfl

theorem call_ok {fp : OSFile} (h : NoFaults fp) : fp.call.1 = true ∧ NoFaults fp.call.2 := by
  constructor
  · unfold OSFile.call
    cases hf : fp.faults with
    | nil => rfl
    | cons b rest =>
      have := h b (by rw [hf]; exact List.mem_cons_self _ _)
      simp [this]
  · intro b hb
    exact h b (List.mem_of_mem_tail hb)

theorem fseek_set_pages (fp : OSFile) (n : Nat) : (fseek_set fp n).2.pages = fp.pages := by
  simp only [fseek_set]; split <;> rfl

theorem fseek_set_eq {fp : OSFile} (h : NoFaults fp) (n : Nat) :
    fseek_set fp n = (true, { fp.call.2 with pos := n }) := by
  simp only [fseek_set, (call_ok h).1, if_true]

theorem fseek_end_pages (fp : OSFile) : (fseek_end fp).2.pages = fp.pages := by
  simp only [fseek_end]; split <;> rfl

theorem fseek_end_pos (fp : OSFile) (h : (fseek_end fp).1 = true) :
    (fseek_end fp).2.pos = fp.pages.length := by
  simp only [fseek_end] at h ⊢
  split
  · rfl
  · rename_i hc; simp [hc] at h

theorem fseek_end_eq {fp : OSFile} (h : NoFaults fp) :
    fseek_end fp = (true, { fp.call.2 with pos := fp.pages.length }) := by
  simp only [fseek_end, (call_ok h).1, if_true, call_pages]

theorem fread_page_pages (fp : OSFile) (buf : PageData) :
    (fread_page fp buf).2.1.pages = fp.pages := by
  simp only [fread_page]
  split
  · split <;> rfl
  · rfl

theorem fread_page_eq {fp : OSFile} (h : NoFaults fp) (buf d : PageData)
    (hd : fp.pages[fp.pos]? = some d) :
    fread_page fp buf = (RC.RC_OK, { fp.call.2 with pos := fp.pos + 1 }, d) := by
  simp only [fread_page, call_pos, call_pages, hd, (call_ok h).1, if_true]

theorem fwrite_page_len (fp : OSFile) (buf : PageData) (h : fp.pos ≤ fp.pages.length) :
    ((fwrite_page fp buf).2.pages.length : Int) =
      if (fwrite_page fp buf).1 = RC.RC_OK ∧ fp.pos = fp.pages.length
      then (fp.pages.length : Int) + 1 else fp.pages.length := by
  by_cases hc : fp.call.1 = true
  · simp only [fwrite_page, hc, if_true, List.length_set, List.length_append,
      List.length_replicate, call_pages, call_pos, true_and]
    split <;> omega
  · simp [fwrite_page, hc, call_pages]

theorem fwrite_page_eq {fp : OSFile} (h : NoFaults fp) (buf : PageData) :
    fwrite_page fp buf = (RC.RC_OK,
      { fp.call.2 with
        pages := (fp.pages ++ List.replicate (fp.pos + 1 - fp.pages.length) zeroPage).set fp.pos buf
        pos := fp.pos + 1 }) := by
  simp only [fwrite_page, (call_ok h).1, if_true, call_pages, call_pos]


theorem storePages_eq {fh : SM_FileHandle} {c : FileCtx} (h : fh.mgmtInfo = some c) :
    storePages fh = c.fp.pages := by
  simp only [storePages, h]

theorem FileOk.wf {fh : SM_FileHandle} (h : FileOk fh) : FileWF fh := by
  obtain ⟨c, h1, h2, _⟩ := h
  exact ⟨c, h1, h2⟩

theorem FileWF.len {fh : SM_FileHandle} (h : FileWF fh) :
    fh.totalNumPages = ((storePages fh).length : Int) := by
  obtain ⟨c, h1, h2⟩ := h
  rw [storePages_eq h1, h2]

theorem readBlock_wf {fh : SM_FileHandle} (h : FileWF fh) (p : Int) (buf : PageData) :
    FileWF (readBlock p fh buf).2.1 ∧
      (readBlock p fh buf).2.1.totalNumPages = fh.totalNumPages ∧
      storePages (readBlock p fh buf).2.1 = storePages fh := by
  have h0 := h
  obtain ⟨c, h1, h2⟩ := h
  simp only [readBlock, h1]
  split
  · exact ⟨h0, rfl, rfl⟩
  · split
    · refine ⟨⟨_, rfl, ?_⟩, rfl, ?_⟩
      · simp only [fseek_set_pages]; exact h2
      · simp only [storePages, h1, fseek_set_pages]
    · split
      · refine ⟨⟨_, rfl, ?_⟩, rfl, ?_⟩
        · simp only [fread_page_pages, fseek_set_pages]; exact h2
        · simp only [storePages, h1, fread_page_pages, fseek_set_pages]
      · refine ⟨⟨_, rfl, ?_⟩, rfl, ?_⟩
        · simp only [fread_page_pages, fseek_set_pages]; exact h2
        · simp only [storePages, h1, fread_page_pages, fseek_set_pages]

theorem readBlock_ok {fh : SM_FileHandle} (h : FileOk fh) (p : Int) (buf : PageData)
    (hp0 : 0 ≤ p) (hp1 : p < fh.totalNumPages) :
    ∃ d, storePage fh p = some d ∧ (readBlock p fh buf).1 = RC.RC_OK ∧
      (readBlock p fh buf).2.2 = d ∧ FileOk (readBlock p fh buf).2.1 ∧
      (readBlock p fh buf).2.1.totalNumPages = fh.totalNumPages ∧
      storePages (readBlock p fh buf).2.1 = storePages fh := by
  obtain ⟨c, h1, h2, h3⟩ := h
  have hlt : p.toNat < c.fp.pages.length := by omega
  have hn : ¬ (p < 0 ∨ p ≥ fh.totalNumPages) := by omega
  have hs := fseek_set_eq h3 p.toNat
  have hd : ({ c.fp.call.2 with pos := p.toNat } : OSFile).pages[
      ({ c.fp.call.2 with pos := p.toNat } : OSFile).pos]? = some (c.fp.pages[p.toNat]) := by
    show c.fp.pages[p.toNat]? = _
    exact List.getElem?_eq_getElem hlt
  have hnf : NoFaults ({ c.fp.call.2 with pos := p.toNat } : OSFile) := (call_ok h3).2
  have hr := fread_page_eq hnf buf _ hd
  have e : readBlock p fh buf = (RC.RC_OK,
      { fh with mgmtInfo := some { c with fp := { ({ c.fp.call.2 with pos := p.toNat } : OSFile).call.2
                                                  with pos := p.toNat + 1 } },
                curPagePos := p }, c.fp.pages[p.toNat]) := by
    simp only [readBlock, h1, hn, if_false, hs, hr, Bool.not_true, Bool.false_eq_true, if_true]
  refine ⟨c.fp.pages[p.toNat], ?_, ?_⟩
  · have : ¬ p < 0 := by omega
    simp only [storePage, this, if_false, storePages, h1]
    exact List.getElem?_eq_getElem hlt
  · rw [e]
    refine ⟨rfl, rfl, ⟨_, rfl, h2, (call_ok hnf).2⟩, rfl, ?_⟩
    simp only [storePages, h1]
    rfl

theorem writeBlock_wf {fh : SM_FileHandle} (h : FileWF fh) (p : Int) (buf : PageData) :
    FileWF (writeBlock p fh buf).2 ∧ (writeBlock p fh buf).2.totalNumPages = fh.totalNumPages := by
  have h0 := h
  obtain ⟨c, h1, h2⟩ := h
  simp only [writeBlock, h1]
  split
  · exact ⟨h0, rfl⟩
  · rename_i hrange
    split
    · refine ⟨⟨_, rfl, ?_⟩, rfl⟩
      simp only [fseek_set_pages]; exact h2
    · rename_i hseek
      have hpos : (fseek_set c.fp p.toNat).2.pos < (fseek_set c.fp p.toNat).2.pages.length := by
        have e : (fseek_set c.fp p.toNat).2.pos = p.toNat := by
          simp only [fseek_set] at hseek ⊢
          split
          · rfl
          · rename_i hc; simp [hc] at hseek
        rw [e, fseek_set_pages]; omega
      have hl := fwrite_page_len (fseek_set c.fp p.toNat).2 buf (by omega)
      have hne : ¬ ((fwrite_page (fseek_set c.fp p.toNat).2 buf).1 = RC.RC_OK ∧
          (fseek_set c.fp p.toNat).2.pos = (fseek_set c.fp p.toNat).2.pages.length) := by
        intro hh; omega
      rw [if_neg hne, fseek_set_pages] at hl
      split
      · exact ⟨⟨_, rfl, by rw [h2]; exact hl.symm⟩, rfl⟩
      · exact ⟨⟨_, rfl, by rw [h2]; exact hl.symm⟩, rfl⟩

theorem writeBlock_ok {fh : SM_FileHandle} (h : FileOk fh) (p : Int) (buf : PageData)
    (hp0 : 0 ≤ p) (hp1 : p < fh.totalNumPages) :
    (writeBlock p fh buf).1 = RC.RC_OK ∧ FileOk (writeBlock p fh buf).2 ∧
      (writeBlock p fh buf).2.totalNumPages = fh.totalNumPages ∧
      storePages (writeBlock p fh buf).2 = (storePages fh).set p.toNat buf := by
  obtain ⟨c, h1, h2, h3⟩ := h
  have hlt : p.toNat < c.fp.pages.length := by omega
  have hn : ¬ (p < 0 ∨ p ≥ fh.totalNumPages) := by omega
  have hs := fseek_set_eq h3 p.toNat
  have hnf : NoFaults ({ c.fp.call.2 with pos := p.toNat } : OSFile) := (call_ok h3).2
  have hw := fwrite_page_eq hnf buf
  have hpad : p.toNat + 1 - c.fp.pages.length = 0 := by omega
  have e : writeBlock p fh buf = (RC.RC_OK,
      { fh with mgmtInfo := some { c with fp := { ({ c.fp.call.2 with pos := p.toNat } : OSFile).call.2 with
                    pages := (c.fp.pages ++ List.replicate (p.toNat + 1 - c.fp.pages.length) zeroPage).set
                      p.toNat buf
                    pos := p.toNat + 1 } },
                curPagePos := p }) := by
    simp only [writeBlock, h1, hn, if_false, hs, hw, Bool.not_true, Bool.false_eq_true, if_true]
    rfl
  rw [e]
  refine ⟨rfl, ⟨_, rfl, ?_, (call_ok hnf).2⟩, rfl, ?_⟩
  · show fh.totalNumPages = (((c.fp.pages ++ List.replicate (p.toNat + 1 - c.fp.pages.length) zeroPage).set
      p.toNat buf).length : Int)
    rw [hpad]; simp [h2]
  · simp only [storePages, h1]
    show (c.fp.pages ++ List.replicate (p.toNat + 1 - c.fp.pages.length) zeroPage).set p.toNat buf = _
    rw [hpad]; simp

theorem appendEmptyBlock_wf {fh : SM_FileHandle} (h : FileWF fh) :
    FileWF (appendEmptyBlock fh).2 ∧ fh.totalNumPages ≤ (appendEmptyBlock fh).2.totalNumPages ∧
      ((appendEmptyBlock fh).1 = RC.RC_OK →
        (appendEmptyBlock fh).2.totalNumPages = fh.totalNumPages + 1) := by
  obtain ⟨c, h1, h2⟩ := h
  simp only [appendEmptyBlock, h1]
  split
  · refine ⟨⟨_, rfl, ?_⟩, le_refl _, fun hh => by simp at hh⟩
    simp only [fseek_end_pages]; exact h2
  · rename_i hseek
    have hseek2 : (fseek_end c.fp).1 = true := by simpa using hseek
    have hpos := fseek_end_pos c.fp hseek2
    split
    · refine ⟨⟨_, rfl, ?_⟩, le_refl _, fun hh => by simp at hh⟩
      simp only [call_pages, fseek_end_pages]; exact h2
    · have hl := fwrite_page_len (fseek_end c.fp).2.call.2 zeroPage
        (by rw [call_pos, call_pages, hpos, fseek_end_pages])
      rw [call_pos, call_pages, hpos, fseek_end_pages] at hl
      split
      · rename_i hok
        have : (fwrite_page (fseek_end c.fp).2.call.2 zeroPage).1 = RC.RC_OK ∧
            c.fp.pages.length = c.fp.pages.length := ⟨hok, rfl⟩
        rw [if_pos this] at hl
        exact ⟨⟨_, rfl, by rw [h2]; exact hl.symm⟩, by dsimp only; omega, fun _ => rfl⟩
      · rename_i hok
        have : ¬ ((fwrite_page (fseek_end c.fp).2.call.2 zeroPage).1 = RC.RC_OK ∧
            c.fp.pages.length = c.fp.pages.length) := fun hh => hok hh.1
        rw [if_neg this] at hl
        exact ⟨⟨_, rfl, by rw [h2]; exact hl.symm⟩, le_refl _, fun hh => absurd hh hok⟩

theorem appendEmptyBlock_ok {fh : SM_FileHandle} (h : FileOk fh) :
    (appendEmptyBlock fh).1 = RC.RC_OK ∧ FileOk (appendEmptyBlock fh).2 ∧
      (appendEmptyBlock fh).2.totalNumPages = fh.totalNumPages + 1 ∧
      storePages (appendEmptyBlock fh).2 = storePages fh ++ [zeroPage] := by
  obtain ⟨c, h1, h2, h3⟩ := h
  have hs := fseek_end_eq h3
  have hnf : NoFaults ({ c.fp.call.2 with pos := c.fp.pages.length } : OSFile) := (call_ok h3).2
  have hnf2 := (call_ok hnf).2
  have hw := fwrite_page_eq hnf2 zeroPage
  have e : appendEmptyBlock fh = (RC.RC_OK,
      { fh with mgmtInfo := some { c with fp :=
                  { ({ c.fp.call.2 with pos := c.fp.pages.length } : OSFile).call.2.call.2 with
                    pages := (c.fp.pages ++ List.replicate (c.fp.pages.length + 1 - c.fp.pages.length)
                      zeroPage).set c.fp.pages.length zeroPage
                    pos := c.fp.pages.length + 1 } },
                totalNumPages := fh.totalNumPages + 1 }) := by
    simp only [appendEmptyBlock, h1, hs, (call_ok hnf).1, hw, Bool.not_true, Bool.false_eq_true,
      if_false, if_true]
    rfl
  have hp : (c.fp.pages ++ List.replicate (c.fp.pages.length + 1 - c.fp.pages.length)
      zeroPage).set c.fp.pages.length zeroPage = c.fp.pages ++ [zeroPage] := by
    have : c.fp.pages.length + 1 - c.fp.pages.length = 1 := by omega
    rw [this]
    simp [List.set_append]
  rw [e]
  refine ⟨rfl, ⟨_, rfl, ?_, (call_ok hnf2).2⟩, rfl, ?_⟩
  · show fh.totalNumPages + 1 = (((c.fp.pages ++ List.replicate (c.fp.pages.length + 1 -
      c.fp.pages.length) zeroPage).set c.fp.pages.length zeroPage).length : Int)
    rw [hp]; simp [h2]
  · simp only [storePages, h1]
    exact hp

theorem ensureCapacity_loop_wf (n : Int) : ∀ (fuel : Nat) (fh : SM_FileHandle), FileWF fh →
    n - fh.totalNumPages ≤ fuel →
    FileWF (ensureCapacity.loop n fuel fh).2 ∧
      fh.totalNumPages ≤ (ensureCapacity.loop n fuel fh).2.totalNumPages ∧
      ((ensureCapacity.loop n fuel fh).1 = RC.RC_OK →
        n ≤ (ensureCapacity.loop n fuel fh).2.totalNumPages) := by
  intro fuel
  induction fuel with
  | zero =>
    intro fh h hf
    simp only [ensureCapacity.loop]
    exact ⟨h, le_refl _, fun _ => by omega⟩
  | succ k ih =>
    intro fh h hf
    simp only [ensureCapacity.loop]
    split
    · obtain ⟨a1, a2, a3⟩ := appendEmptyBlock_wf h
      split
      · rename_i hne
        exact ⟨a1, a2, fun hh => absurd hh hne⟩
      · rename_i hok
        have hok2 : (appendEmptyBlock fh).1 = RC.RC_OK := by
          by_contra hc; exact hok hc
        have a4 := a3 hok2
        obtain ⟨b1, b2, b3⟩ := ih (appendEmptyBlock fh).2 a1 (by push_cast at hf; omega)
        exact ⟨b1, by omega, b3⟩
    · exact ⟨h, le_refl _, fun _ => by dsimp only; omega⟩

theorem ensureCapacity_loop_ok (n : Int) : ∀ (fuel : Nat) (fh : SM_FileHandle), FileOk fh →
    n - fh.totalNumPages ≤ fuel →
    (ensureCapacity.loop n fuel fh).1 = RC.RC_OK ∧ FileOk (ensureCapacity.loop n fuel fh).2 ∧
      storePages (ensureCapacity.loop n fuel fh).2 =
        storePages fh ++ List.replicate (n - fh.totalNumPages).toNat zeroPage := by
  intro fuel
  induction fuel with
  | zero =>
    intro fh h hf
    have : (n - fh.totalNumPages).toNat = 0 := by omega
    rw [this]
    exact ⟨rfl, h, by simp [ensureCapacity.loop]⟩
  | succ k ih =>
    intro fh h hf
    simp only [ensureCapacity.loop]
    split
    · rename_i hlt
      obtain ⟨a1, a2, a3, a4⟩ := appendEmptyBlock_ok h
      have hn : ¬ ((appendEmptyBlock fh).1 ≠ RC.RC_OK) := fun hh => hh a1
      rw [if_neg hn]
      obtain ⟨b1, b2, b3⟩ := ih (appendEmptyBlock fh).2 a2 (by push_cast at hf; omega)
      refine ⟨b1, b2, ?_⟩
      rw [b3, a4, a3]
      have : (n - fh.totalNumPages).toNat = (n - (fh.totalNumPages + 1)).toNat + 1 := by omega
      rw [this, List.replicate_succ, List.append_assoc]
      rfl
    · rename_i hge
      have : (n - fh.totalNumPages).toNat = 0 := by omega
      rw [this]
      exact ⟨rfl, h, by simp⟩

theorem wrapInt_of_range {x : Int} (h1 : -2147483648 ≤ x) (h2 : x ≤ 2147483647) :
    wrapInt x = x := by
  unfold wrapInt; omega

theorem wrapInt_range (x : Int) : -2147483648 ≤ wrapInt x ∧ wrapInt x ≤ 2147483647 := by
  unfold wrapInt; omega

theorem wrapInt_add (a b : Int) : wrapInt (wrapInt a + b) = wrapInt (a + b) := by
  unfold wrapInt; omega

theorem ensureCapacity_eq {fh : SM_FileHandle} (h : FileWF fh) (n : Int) :
    ensureCapacity n fh = ensureCapacity.loop n (n - fh.totalNumPages).toNat fh := by
  obtain ⟨c, h1, _⟩ := h
  simp only [ensureCapacity, h1]

theorem ensurePageExists_wf {fh : SM_FileHandle} (h : FileWF fh) (p : Int) :
    FileWF (ensurePageExists fh p).2 ∧ fh.totalNumPages ≤ (ensurePageExists fh p).2.totalNumPages ∧
      ((ensurePageExists fh p).1 = RC.RC_OK →
        0 ≤ p ∧ (p < (ensurePageExists fh p).2.totalNumPages ∨ 2147483647 ≤ p)) := by
  have h0 := h
  simp only [ensurePageExists]
  split
  · exact ⟨h0, le_refl _, fun hh => by simp at hh⟩
  · split
    · obtain ⟨a1, a2, a3⟩ := ensureCapacity_loop_wf (wrapInt (p + 1))
        (wrapInt (p + 1) - fh.totalNumPages).toNat fh h0 (by omega)
      rw [ensureCapacity_eq h0]
      split
      · rename_i hne
        exact ⟨a1, a2, fun hh => absurd hh hne⟩
      · rename_i hok
        have hok2 : (ensureCapacity.loop (wrapInt (p + 1))
            (wrapInt (p + 1) - fh.totalNumPages).toNat fh).1 = RC.RC_OK := by
          by_contra hc; exact hok hc
        have := a3 hok2
        refine ⟨a1, a2, fun _ => ⟨by omega, ?_⟩⟩
        dsimp only
        by_cases hb : p < 2147483647
        · have hw : wrapInt (p + 1) = p + 1 := wrapInt_of_range (by omega) (by omega)
          left; omega
        · right; omega
    · exact ⟨h0, le_refl _, fun _ => ⟨by omega, Or.inl (by dsimp only; omega)⟩⟩

theorem ensurePageExists_big {fh : SM_FileHandle} (h : FileWF fh) (p : Int)
    (hp : fh.totalNumPages ≤ p) (hb : 2147483647 ≤ p) :
    (ensurePageExists fh p).2.totalNumPages ≤ p := by
  have hn : ¬ p < 0 := by have := h.len; omega
  simp only [ensurePageExists, hn, if_false, hp, if_true]
  rw [ensureCapacity_eq h]
  have key : ∀ (fuel : Nat) (g : SM_FileHandle), g.totalNumPages ≤ p →
      (ensureCapacity.loop (wrapInt (p + 1)) fuel g).2.totalNumPages ≤ p := by
    intro fuel
    induction fuel with
    | zero => intro g hg; exact hg
    | succ k ih =>
      intro g hg
      simp only [ensureCapacity.loop]
      have hr := wrapInt_range (p + 1)
      split
      · have hstep : (appendEmptyBlock g).2.totalNumPages ≤ g.totalNumPages + 1 := by
          simp only [appendEmptyBlock]
          split
          · dsimp only; omega
          · split
            · dsimp only; omega
            · split
              · dsimp only; omega
              · split
                · dsimp only; omega
                · dsimp only; omega
        split
        · omega
        · exact ih _ (by omega)
      · exact hg
  split
  · exact key _ fh hp
  · exact key _ fh hp

theorem ensurePageExists_fileOk {fh : SM_FileHandle} (h : FileOk fh) (p : Int) (hp : 0 ≤ p) :
    (ensurePageExists fh p).1 = RC.RC_OK ∧ FileOk (ensurePageExists fh p).2 := by
  have hn : ¬ p < 0 := by omega
  simp only [ensurePageExists, hn, if_false]
  split
  · obtain ⟨a1, a2, _⟩ := ensureCapacity_loop_ok (wrapInt (p + 1))
      (wrapInt (p + 1) - fh.totalNumPages).toNat fh h (by omega)
    rw [ensureCapacity_eq h.wf]
    have hn2 : ¬ ((ensureCapacity.loop (wrapInt (p + 1))
        (wrapInt (p + 1) - fh.totalNumPages).toNat fh).1 ≠ RC.RC_OK) := fun hh => hh a1
    rw [if_neg hn2]
    exact ⟨rfl, a2⟩
  · exact ⟨rfl, h⟩

theorem ensurePageExists_ok {fh : SM_FileHandle} (h : FileOk fh) (p : Int) (hp : 0 ≤ p)
    (hs : p < 2147483647 ∨ p < fh.totalNumPages) :
    (ensurePageExists fh p).1 = RC.RC_OK ∧ FileOk (ensurePageExists fh p).2 ∧
      p < (ensurePageExists fh p).2.totalNumPages ∧
      storePages (ensurePageExists fh p).2 =
        storePages fh ++ List.replicate (p + 1 - fh.totalNumPages).toNat zeroPage := by
  have h0 := h
  have hn : ¬ p < 0 := by omega
  simp only [ensurePageExists, hn, if_false]
  split
  · have hw : wrapInt (p + 1) = p + 1 := wrapInt_of_range (by omega) (by omega)
    rw [hw]
    obtain ⟨a1, a2, a3⟩ := ensureCapacity_loop_ok (p + 1) (p + 1 - fh.totalNumPages).toNat fh h0
      (by omega)
    rw [ensureCapacity_eq h0.wf]
    have hn2 : ¬ ((ensureCapacity.loop (p + 1) (p + 1 - fh.totalNumPages).toNat fh).1 ≠ RC.RC_OK) :=
      fun hh => hh a1
    rw [if_neg hn2]
    refine ⟨rfl, a2, ?_, a3⟩
    have := (ensureCapacity_loop_wf (p + 1) (p + 1 - fh.totalNumPages).toNat fh h0.wf (by omega)).2.2 a1
    dsimp only
    omega
  · have : (p + 1 - fh.totalNumPages).toNat = 0 := by omega
    rw [this]
    exact ⟨rfl, h0, by dsimp only; omega, by simp⟩

theorem writeBlock_range {fh : SM_FileHandle} (p : Int) (buf : PageData)
    (hp : fh.totalNumPages ≤ p) (h : FileWF fh) :
    writeBlock p fh buf = (RC.RC_WRITE_FAILED, fh) := by
  obtain ⟨c, h1, _⟩ := h
  have hn : p < 0 ∨ p ≥ fh.totalNumPages := Or.inr hp
  simp only [writeBlock, h1, hn, if_true]

theorem readBlock_range {fh : SM_FileHandle} (p : Int) (buf : PageData)
    (hp : fh.totalNumPages ≤ p) (h : FileWF fh) :
    readBlock p fh buf = (RC.RC_READ_NON_EXISTING_PAGE, fh, buf) := by
  obtain ⟨c, h1, _⟩ := h
  have hn : p < 0 ∨ p ≥ fh.totalNumPages := Or.inr hp
  simp only [readBlock, h1, hn, if_true]

/-! ## Frame table, empty-frame search and victim selection -/

theorem frameAt_set_self {frames : List Frame} {i : Nat} (h : i < frames.length) (f : Frame) :
    frameAt (frames.set i f) i = f := by
  simp [frameAt, List.getElem?_set, h]

theorem frameAt_set_other {frames : List Frame} {i j : Nat} (h : i ≠ j) (f : Frame) :
    frameAt (frames.set i f) j = frameAt frames j := by
  simp [frameAt, List.getElem?_set, h]

theorem frameAt_set (frames : List Frame) (i j : Nat) (f : Frame) :
    frameAt (frames.set i f) j = if i = j ∧ i < frames.length then f else frameAt frames j := by
  by_cases h : i = j
  · subst h
    by_cases h2 : i < frames.length
    · simp [frameAt_set_self h2, h2]
    · have : frames.set i f = frames := List.set_eq_of_length_le (by omega)
      simp [h2, this]
  · simp [frameAt_set_other h, h]

theorem frameAt_default {frames : List Frame} {i : Nat} (h : frames.length ≤ i) :
    frameAt frames i = default := by
  simp [frameAt, List.getElem?_eq_none h]

theorem find_range_spec (p : Nat → Bool) (n : Nat) :
    match (List.range n).find? p with
    | some i => i < n ∧ p i = true ∧ ∀ j, j < i → p j = false
    | none => ∀ j, j < n → p j = false := by
  induction n with
  | zero => simp
  | succ n ih =>
    rw [List.range_succ, List.find?_append]
    cases h : (List.range n).find? p with
    | some i =>
      rw [h] at ih
      simp only [Option.or]
      exact ⟨by omega, ih.2.1, ih.2.2⟩
    | none =>
      rw [h] at ih
      simp only [Option.or, List.find?_cons, List.find?_nil]
      cases hp : p n with
      | true =>
        simp only
        exact ⟨by omega, hp, ih⟩
      | false =>
        simp only
        intro j hj
        rcases Nat.lt_succ_iff_lt_or_eq.mp hj with h2 | h2
        · exact ih j h2
        · rw [h2]; exact hp

theorem findEmptyFrame_spec (pm : PoolMgmt) :
    (findEmptyFrame pm = -1 ∧ ∀ i, i < pm.capacity.toNat →
        ¬ ((frameAt pm.frames i).pageNum = NO_PAGE ∧ (frameAt pm.frames i).fixCount = 0)) ∨
    ∃ i : Nat, findEmptyFrame pm = (i : Int) ∧ i < pm.capacity.toNat ∧
      (frameAt pm.frames i).pageNum = NO_PAGE ∧ (frameAt pm.frames i).fixCount = 0 ∧
      ∀ j, j < i →
        ¬ ((frameAt pm.frames j).pageNum = NO_PAGE ∧ (frameAt pm.frames j).fixCount = 0) := by
  have := find_range_spec (fun i => decide ((frameAt pm.frames i).pageNum = NO_PAGE ∧
    (frameAt pm.frames i).fixCount = 0)) pm.capacity.toNat
  unfold findEmptyFrame
  cases h : (List.range pm.capacity.toNat).find? (fun i =>
      decide ((frameAt pm.frames i).pageNum = NO_PAGE ∧ (frameAt pm.frames i).fixCount = 0)) with
  | none =>
    rw [h] at this
    left
    refine ⟨rfl, fun i hi => ?_⟩
    have := this i hi
    simpa using this
  | some i =>
    rw [h] at this
    right
    obtain ⟨a, b, c⟩ := this
    have b2 := of_decide_eq_true b
    refine ⟨i, rfl, a, b2.1, b2.2, fun j hj => ?_⟩
    have := c j hj
    simpa using this


theorem fold_min_spec (frames : List Frame) (stamp : Frame → Int)
    (step : Int × Int → Nat → Int × Int)
    (hstep : ∀ acc i, step acc i =
      if (frameAt frames i).fixCount = 0 ∧ (frameAt frames i).pageNum ≠ NO_PAGE ∧
          stamp (frameAt frames i) < acc.2
      then ((i : Int), stamp (frameAt frames i)) else acc)
    (top : Int) (n : Nat) :
    (((List.range n).foldl step (-1, top)).1 = -1 ∧ ((List.range n).foldl step (-1, top)).2 = top ∧
        ∀ i, i < n → Eligible (frameAt frames i) → top ≤ stamp (frameAt frames i)) ∨
    ∃ i : Nat, i < n ∧ ((List.range n).foldl step (-1, top)).1 = (i : Int) ∧
      Eligible (frameAt frames i) ∧
      ((List.range n).foldl step (-1, top)).2 = stamp (frameAt frames i) ∧
      stamp (frameAt frames i) < top ∧
      (∀ j, j < n → Eligible (frameAt frames j) → stamp (frameAt frames i) ≤ stamp (frameAt frames j)) ∧
      ∀ j, j < i → Eligible (frameAt frames j) → stamp (frameAt frames i) < stamp (frameAt frames j) := by
  induction n with
  | zero =>
    left
    exact ⟨rfl, rfl, fun i hi => absurd hi (Nat.not_lt_zero _)⟩
  | succ n ih =>
    rw [List.range_succ, List.foldl_append, List.foldl_cons, List.foldl_nil, hstep]
    rcases ih with ⟨a, b, c⟩ | ⟨i, hi, a, b, c, d, e, f⟩
    · by_cases hc : (frameAt frames n).fixCount = 0 ∧ (frameAt frames n).pageNum ≠ NO_PAGE ∧
          stamp (frameAt frames n) < ((List.range n).foldl step (-1, top)).2
      · rw [if_pos hc]
        right
        rw [b] at hc
        refine ⟨n, by omega, rfl, ⟨hc.1, hc.2.1⟩, rfl, hc.2.2, fun j hj ej => ?_, fun j hj ej => ?_⟩
        · rcases Nat.lt_succ_iff_lt_or_eq.mp hj with h | h
          · have := c j h ej; omega
          · rw [h]
        · have := c j hj ej; omega
      · rw [if_neg hc]
        left
        refine ⟨a, b, fun j hj ej => ?_⟩
        rcases Nat.lt_succ_iff_lt_or_eq.mp hj with h | h
        · exact c j h ej
        · subst h
          rw [b] at hc
          by_contra hlt
          exact hc ⟨ej.1, ej.2, by omega⟩
    · by_cases hc : (frameAt frames n).fixCount = 0 ∧ (frameAt frames n).pageNum ≠ NO_PAGE ∧
          stamp (frameAt frames n) < ((List.range n).foldl step (-1, top)).2
      · rw [if_pos hc]
        right
        rw [c] at hc
        refine ⟨n, by omega, rfl, ⟨hc.1, hc.2.1⟩, rfl, by omega, fun j hj ej => ?_, fun j hj ej => ?_⟩
        · rcases Nat.lt_succ_iff_lt_or_eq.mp hj with h | h
          · have := e j h ej; omega
          · rw [h]
        · have := e j hj ej; omega
      · rw [if_neg hc]
        right
        refine ⟨i, by omega, a, b, c, d, fun j hj ej => ?_, f⟩
        rcases Nat.lt_succ_iff_lt_or_eq.mp hj with h | h
        · exact e j h ej
        · subst h
          rw [c] at hc
          by_contra hlt
          exact hc ⟨ej.1, ej.2, by omega⟩

theorem selectVictim_FIFO_spec (pm : PoolMgmt) :
    (selectVictim_FIFO pm = -1 ∧ ∀ i, i < pm.capacity.toNat → Eligible (frameAt pm.frames i) →
        0x7fffffffffffffff ≤ (frameAt pm.frames i).fifoPos) ∨
    ∃ i : Nat, i < pm.capacity.toNat ∧ selectVictim_FIFO pm = (i : Int) ∧
      Eligible (frameAt pm.frames i) ∧
      (∀ j, j < pm.capacity.toNat → Eligible (frameAt pm.frames j) →
        (frameAt pm.frames i).fifoPos ≤ (frameAt pm.frames j).fifoPos) ∧
      ∀ j, j < i → Eligible (frameAt pm.frames j) →
        (frameAt pm.frames i).fifoPos < (frameAt pm.frames j).fifoPos := by
  rcases fold_min_spec pm.frames Frame.fifoPos (selectVictim_FIFO.step pm) (fun _ _ => rfl)
      0x7fffffffffffffff pm.capacity.toNat with ⟨a, _, c⟩ | ⟨i, hi, a, b, _, _, e, f⟩
  · exact Or.inl ⟨a, c⟩
  · exact Or.inr ⟨i, hi, a, b, e, f⟩

theorem selectVictim_LRU_spec (pm : PoolMgmt) :
    (selectVictim_LRU pm = -1 ∧ ∀ i, i < pm.capacity.toNat → Eligible (frameAt pm.frames i) →
        0x7fffffffffffffff ≤ (frameAt pm.frames i).lastUsed) ∨
    ∃ i : Nat, i < pm.capacity.toNat ∧ selectVictim_LRU pm = (i : Int) ∧
      Eligible (frameAt pm.frames i) ∧
      (∀ j, j < pm.capacity.toNat → Eligible (frameAt pm.frames j) →
        (frameAt pm.frames i).lastUsed ≤ (frameAt pm.frames j).lastUsed) ∧
      ∀ j, j < i → Eligible (frameAt pm.frames j) →
        (frameAt pm.frames i).lastUsed < (frameAt pm.frames j).lastUsed := by
  rcases fold_min_spec pm.frames Frame.lastUsed (selectVictim_LRU.step pm) (fun _ _ => rfl)
      0x7fffffffffffffff pm.capacity.toNat with ⟨a, _, c⟩ | ⟨i, hi, a, b, _, _, e, f⟩
  · exact Or.inl ⟨a, c⟩
  · exact Or.inr ⟨i, hi, a, b, e, f⟩

/-! ## The CLOCK sweep and `selectVictim` -/

theorem tmod_cast (h m : Nat) : ((h : Int) + 1).tmod (m : Int) = (((h + 1) % m : Nat) : Int) := by
  rw [Int.tmod_eq_emod (by omega) (by omega)]
  push_cast
  rfl

theorem clock_step_victim (n : Int) (k : Nat) (pm : PoolMgmt) (hand : Int)
    (h1 : (frameAt pm.frames hand.toNat).pageNum ≠ NO_PAGE ∧ (frameAt pm.frames hand.toNat).fixCount = 0)
    (h2 : (frameAt pm.frames hand.toNat).refbit = false) :
    selectVictim_CLOCK.loop n (k + 1) pm hand = (hand, { pm with clockHand := (hand + 1).tmod n }) := by
  simp only [selectVictim_CLOCK.loop]
  rw [if_pos h1, if_pos h2]

theorem clock_step_clear (n : Int) (k : Nat) (pm : PoolMgmt) (hand : Int)
    (h1 : (frameAt pm.frames hand.toNat).pageNum ≠ NO_PAGE ∧ (frameAt pm.frames hand.toNat).fixCount = 0)
    (h2 : (frameAt pm.frames hand.toNat).refbit = true) :
    selectVictim_CLOCK.loop n (k + 1) pm hand =
      selectVictim_CLOCK.loop n k
        { pm with frames := pm.frames.set hand.toNat
                    { (frameAt pm.frames hand.toNat) with refbit := false } }
        ((hand + 1).tmod n) := by
  have h3 : ¬ ((frameAt pm.frames hand.toNat).refbit = false) := by simp [h2]
  simp only [selectVictim_CLOCK.loop]
  rw [if_pos h1, if_neg h3]

theorem clock_step_skip (n : Int) (k : Nat) (pm : PoolMgmt) (hand : Int)
    (h1 : ¬ ((frameAt pm.frames hand.toNat).pageNum ≠ NO_PAGE ∧
      (frameAt pm.frames hand.toNat).fixCount = 0)) :
    selectVictim_CLOCK.loop n (k + 1) pm hand =
      selectVictim_CLOCK.loop n k pm ((hand + 1).tmod n) := by
  simp only [selectVictim_CLOCK.loop]
  rw [if_neg h1]

theorem clock_frames (m : Nat) : ∀ (k : Nat) (pm : PoolMgmt) (h : Nat),
    (selectVictim_CLOCK.loop (m : Int) k pm (h : Int)).2 =
        { pm with frames := (selectVictim_CLOCK.loop (m : Int) k pm (h : Int)).2.frames,
                  clockHand := (selectVictim_CLOCK.loop (m : Int) k pm (h : Int)).2.clockHand } ∧
      (selectVictim_CLOCK.loop (m : Int) k pm (h : Int)).2.frames.length = pm.frames.length ∧
      ∀ i, SameButRefbit (frameAt pm.frames i)
        (frameAt (selectVictim_CLOCK.loop (m : Int) k pm (h : Int)).2.frames i) := by
  intro k
  induction k with
  | zero =>
    intro pm h
    rw [selectVictim_CLOCK.loop]
    exact ⟨rfl, rfl, fun i => ⟨rfl, rfl, rfl, rfl, rfl, rfl⟩⟩
  | succ k ih =>
    intro pm h
    by_cases h1 : (frameAt pm.frames (h : Int).toNat).pageNum ≠ NO_PAGE ∧
        (frameAt pm.frames (h : Int).toNat).fixCount = 0
    · cases h2 : (frameAt pm.frames (h : Int).toNat).refbit with
      | false =>
        rw [clock_step_victim _ k pm _ h1 h2]
        exact ⟨rfl, rfl, fun i => ⟨rfl, rfl, rfl, rfl, rfl, rfl⟩⟩
      | true =>
        rw [clock_step_clear _ k pm _ h1 h2, tmod_cast]
        generalize hg : ({ (frameAt pm.frames (h : Int).toNat) with refbit := false } : Frame) = g
        have hsame : SameButRefbit (frameAt pm.frames (h : Int).toNat) g := by
          rw [← hg]; exact ⟨rfl, rfl, rfl, rfl, rfl, rfl⟩
        obtain ⟨a, b, c⟩ := ih { pm with frames := pm.frames.set (h : Int).toNat g } ((h + 1) % m)
        refine ⟨?_, ?_, fun i => ?_⟩
        · rw [a]
        · rw [b]; simp
        · have c2 := c i
          simp only [frameAt_set] at c2
          split at c2
          · rename_i hc
            obtain ⟨hi, _⟩ := hc
            subst hi
            obtain ⟨x1, x2, x3, x4, x5, x6⟩ := c2
            obtain ⟨y1, y2, y3, y4, y5, y6⟩ := hsame
            exact ⟨x1.trans y1, x2.trans y2, x3.trans y3, x4.trans y4, x5.trans y5, x6.trans y6⟩
          · exact c2
    · rw [clock_step_skip _ k pm _ h1, tmod_cast]
      exact ih pm _

theorem clock_result (m : Nat) : ∀ (k : Nat) (pm : PoolMgmt) (h : Nat), h < m →
    ((selectVictim_CLOCK.loop (m : Int) k pm (h : Int)).1 = -1 ∧
        (selectVictim_CLOCK.loop (m : Int) k pm (h : Int)).2.clockHand = pm.clockHand) ∨
      ∃ v : Nat, (selectVictim_CLOCK.loop (m : Int) k pm (h : Int)).1 = (v : Int) ∧ v < m ∧
        Eligible (frameAt pm.frames v) ∧
        (frameAt (selectVictim_CLOCK.loop (m : Int) k pm (h : Int)).2.frames v).refbit = false ∧
        (selectVictim_CLOCK.loop (m : Int) k pm (h : Int)).2.clockHand = (((v + 1) % m : Nat) : Int) := by
  intro k
  induction k with
  | zero =>
    intro pm h _
    rw [selectVictim_CLOCK.loop]
    exact Or.inl ⟨rfl, rfl⟩
  | succ k ih =>
    intro pm h hm
    have hmod : (h + 1) % m < m := Nat.mod_lt _ (by omega)
    by_cases h1 : (frameAt pm.frames (h : Int).toNat).pageNum ≠ NO_PAGE ∧
        (frameAt pm.frames (h : Int).toNat).fixCount = 0
    · cases h2 : (frameAt pm.frames (h : Int).toNat).refbit with
      | false =>
        rw [clock_step_victim _ k pm _ h1 h2, tmod_cast]
        rw [Int.toNat_natCast] at h1 h2
        exact Or.inr ⟨h, rfl, hm, ⟨h1.2, h1.1⟩, h2, rfl⟩
      | true =>
        rw [clock_step_clear _ k pm _ h1 h2, tmod_cast]
        generalize hg : ({ (frameAt pm.frames (h : Int).toNat) with refbit := false } : Frame) = g
        have hsame : SameButRefbit (frameAt pm.frames (h : Int).toNat) g := by
          rw [← hg]; exact ⟨rfl, rfl, rfl, rfl, rfl, rfl⟩
        rcases ih { pm with frames := pm.frames.set (h : Int).toNat g } ((h + 1) % m) hmod with
          ⟨a, b⟩ | ⟨v, a, b, c, d, e⟩
        · exact Or.inl ⟨a, b⟩
        · refine Or.inr ⟨v, a, b, ?_, d, e⟩
          have c2 : Eligible (frameAt (pm.frames.set (h : Int).toNat g) v) := c
          rw [frameAt_set] at c2
          split at c2
          · rename_i hc
            obtain ⟨hi, _⟩ := hc
            subst hi
            exact ⟨by rw [← hsame.2.2.2.1]; exact c2.1, by rw [← hsame.1]; exact c2.2⟩
          · exact c2
    · rw [clock_step_skip _ k pm _ h1, tmod_cast]
      exact ih pm _ hmod

theorem clock_none (m : Nat) : ∀ (k : Nat) (pm : PoolMgmt) (h : Nat),
    (∀ i, ¬ Eligible (frameAt pm.frames i)) →
    selectVictim_CLOCK.loop (m : Int) k pm (h : Int) = (-1, pm) := by
  intro k
  induction k with
  | zero => intro pm h _; rw [selectVictim_CLOCK.loop]
  | succ k ih =>
    intro pm h hne
    have h1 : ¬ ((frameAt pm.frames (h : Int).toNat).pageNum ≠ NO_PAGE ∧
        (frameAt pm.frames (h : Int).toNat).fixCount = 0) := fun hh => hne _ ⟨hh.2, hh.1⟩
    rw [clock_step_skip _ k pm _ h1, tmod_cast]
    exact ih pm _ hne

theorem clock_complete (m : Nat) : ∀ (k : Nat) (pm : PoolMgmt) (h d : Nat), h < m →
    pm.frames.length = m →
    Eligible (frameAt pm.frames ((h + d) % m)) →
    (((frameAt pm.frames ((h + d) % m)).refbit = false ∧ d < k) ∨ d + m < k) →
    0 ≤ (selectVictim_CLOCK.loop (m : Int) k pm (h : Int)).1 := by
  intro k
  induction k with
  | zero => intro pm h d _ _ _ hk; omega
  | succ k ih =>
    intro pm h d hm hlen he hk
    have hmod : (h + 1) % m < m := Nat.mod_lt _ (by omega)
    by_cases h1 : (frameAt pm.frames (h : Int).toNat).pageNum ≠ NO_PAGE ∧
        (frameAt pm.frames (h : Int).toNat).fixCount = 0
    · cases h2 : (frameAt pm.frames (h : Int).toNat).refbit with
      | false =>
        rw [clock_step_victim _ k pm _ h1 h2]
        show (0 : Int) ≤ (h : Int)
        omega
      | true =>
        rw [clock_step_clear _ k pm _ h1 h2, tmod_cast]
        rw [Int.toNat_natCast] at h2 ⊢
        generalize hg : ({ (frameAt pm.frames h) with refbit := false } : Frame) = g
        have hgr : g.refbit = false := by rw [← hg]
        have hgs : SameButRefbit (frameAt pm.frames h) g := by
          rw [← hg]; exact ⟨rfl, rfl, rfl, rfl, rfl, rfl⟩
        have hfr : ∀ i, frameAt (pm.frames.set h g) i = if h = i then g else frameAt pm.frames i := by
          intro i
          rw [frameAt_set]
          have : h < pm.frames.length := by omega
          simp [this]
        have helig : ∀ i, Eligible (frameAt pm.frames i) → Eligible (frameAt (pm.frames.set h g) i) := by
          intro i hi
          rw [hfr]
          split
          · rename_i e; subst e
            exact ⟨hgs.2.2.2.1.trans hi.1, by rw [hgs.1]; exact hi.2⟩
          · exact hi
        -- the witness as seen from the next hand position
        by_cases hd : d = 0
        · subst hd
          -- the witness is the current frame, whose bit has just been cleared
          have hcur : (h + 0) % m = h := by rw [Nat.add_zero]; exact Nat.mod_eq_of_lt hm
          have hk2 : 0 + m < k + 1 := by
            rcases hk with ⟨hf, _⟩ | hk
            · rw [hcur] at hf; rw [hf] at h2; exact absurd h2 (by decide)
            · exact hk
          have hpos : ((h + 1) % m + (m - 1)) % m = h := by
            have : (h + 1) % m + (m - 1) ≡ h + 1 + (m - 1) [MOD m] :=
              Nat.ModEq.add_right _ (Nat.mod_modEq _ _)
            have e2 : h + 1 + (m - 1) = h + m := by omega
            rw [e2] at this
            have := this.trans (by simp [Nat.ModEq] : h + m ≡ h [MOD m])
            unfold Nat.ModEq at this
            rw [this, Nat.mod_eq_of_lt hm]
          refine ih { pm with frames := pm.frames.set h g } ((h + 1) % m) (m - 1) hmod
            (by simp [hlen]) ?_ ?_
          · show Eligible (frameAt (pm.frames.set h g) (((h + 1) % m + (m - 1)) % m))
            rw [hpos]
            apply helig
            rw [hcur] at he; exact he
          · left
            refine ⟨?_, by omega⟩
            show (frameAt (pm.frames.set h g) (((h + 1) % m + (m - 1)) % m)).refbit = false
            rw [hpos, hfr]; simp [hgr]
        · have hpos : ((h + 1) % m + (d - 1)) % m = (h + d) % m := by
            have : (h + 1) % m + (d - 1) ≡ h + 1 + (d - 1) [MOD m] :=
              Nat.ModEq.add_right _ (Nat.mod_modEq _ _)
            have e2 : h + 1 + (d - 1) = h + d := by omega
            rw [e2] at this
            exact this
          refine ih { pm with frames := pm.frames.set h g } ((h + 1) % m) (d - 1) hmod
            (by simp [hlen]) ?_ ?_
          · show Eligible (frameAt (pm.frames.set h g) (((h + 1) % m + (d - 1)) % m))
            rw [hpos]
            exact helig _ he
          · show ((frameAt (pm.frames.set h g) (((h + 1) % m + (d - 1)) % m)).refbit = false ∧
              d - 1 < k) ∨ d - 1 + m < k
            rw [hpos, hfr]
            rcases hk with ⟨hf, hk⟩ | hk
            · left
              refine ⟨?_, by omega⟩
              split
              · exact hgr
              · exact hf
            · by_cases e : h = (h + d) % m
              · left
                refine ⟨by rw [if_pos e]; exact hgr, by omega⟩
              · right; omega
    · rw [clock_step_skip _ k pm _ h1, tmod_cast]
      rw [Int.toNat_natCast] at h1
      have hd : d ≠ 0 := by
        rintro rfl
        rw [Nat.add_zero, Nat.mod_eq_of_lt hm] at he
        exact h1 ⟨he.2, he.1⟩
      have hpos : ((h + 1) % m + (d - 1)) % m = (h + d) % m := by
        have : (h + 1) % m + (d - 1) ≡ h + 1 + (d - 1) [MOD m] :=
          Nat.ModEq.add_right _ (Nat.mod_modEq _ _)
        have e2 : h + 1 + (d - 1) = h + d := by omega
        rw [e2] at this
        exact this
      refine ih pm ((h + 1) % m) (d - 1) hmod hlen (by rw [hpos]; exact he) ?_
      rw [hpos]
      rcases hk with ⟨hf, hk⟩ | hk
      · exact Or.inl ⟨hf, by omega⟩
      · exact Or.inr (by omega)

theorem not_eligible_default : ¬ Eligible (default : Frame) := fun h => h.2 rfl

theorem clock_args (pm : PoolMgmt) (hc : 0 < pm.capacity) (hh : 0 ≤ pm.clockHand) :
    selectVictim_CLOCK pm =
      selectVictim_CLOCK.loop ((pm.capacity.toNat : Nat) : Int) (2 * pm.capacity.toNat) pm
        (((pm.clockHand.toNat % pm.capacity.toNat : Nat)) : Int) := by
  have e1 : ((pm.capacity.toNat : Nat) : Int) = pm.capacity := Int.toNat_of_nonneg (by omega)
  have e2 : (2 * pm.capacity).toNat = 2 * pm.capacity.toNat := by omega
  have e3 : pm.clockHand.tmod pm.capacity
      = (((pm.clockHand.toNat % pm.capacity.toNat : Nat)) : Int) := by
    rw [Int.tmod_eq_emod hh (by omega)]
    push_cast
    rw [e1, Int.toNat_of_nonneg hh]
  unfold selectVictim_CLOCK
  rw [e1, e2, e3]

theorem selectVictim_frames (pm : PoolMgmt) (hc : 0 < pm.capacity) (hh : 0 ≤ pm.clockHand) :
    (selectVictim pm).2 = { pm with frames := (selectVictim pm).2.frames,
                                    clockHand := (selectVictim pm).2.clockHand } ∧
      (selectVictim pm).2.frames.length = pm.frames.length ∧
      ∀ i, SameButRefbit (frameAt pm.frames i) (frameAt (selectVictim pm).2.frames i) := by
  have triv : ∀ i, SameButRefbit (frameAt pm.frames i) (frameAt pm.frames i) :=
    fun i => ⟨rfl, rfl, rfl, rfl, rfl, rfl⟩
  unfold selectVictim
  split
  · exact ⟨rfl, rfl, triv⟩
  · exact ⟨rfl, rfl, triv⟩
  · exact ⟨rfl, rfl, triv⟩
  · rw [clock_args pm hc hh]
    exact clock_frames _ _ pm _

theorem selectVictim_result (pm : PoolMgmt) (hc : 0 < pm.capacity)
    (hh : 0 ≤ pm.clockHand ∧ pm.clockHand < pm.capacity) :
    ((selectVictim pm).1 = -1 ∧ (selectVictim pm).2.clockHand = pm.clockHand) ∨
      ∃ v : Nat, (selectVictim pm).1 = (v : Int) ∧ v < pm.capacity.toNat ∧
        Eligible (frameAt pm.frames v) ∧
        0 ≤ (selectVictim pm).2.clockHand ∧ (selectVictim pm).2.clockHand < pm.capacity := by
  unfold selectVictim
  split
  · rcases selectVictim_FIFO_spec pm with ⟨a, _⟩ | ⟨i, hi, a, b, _⟩
    · exact Or.inl ⟨a, rfl⟩
    · exact Or.inr ⟨i, a, hi, b, hh.1, hh.2⟩
  · rcases selectVictim_LRU_spec pm with ⟨a, _⟩ | ⟨i, hi, a, b, _⟩
    · exact Or.inl ⟨a, rfl⟩
    · exact Or.inr ⟨i, a, hi, b, hh.1, hh.2⟩
  · rcases selectVictim_LRU_spec pm with ⟨a, _⟩ | ⟨i, hi, a, b, _⟩
    · exact Or.inl ⟨a, rfl⟩
    · exact Or.inr ⟨i, a, hi, b, hh.1, hh.2⟩
  · rw [clock_args pm hc hh.1]
    have hm : pm.clockHand.toNat % pm.capacity.toNat < pm.capacity.toNat :=
      Nat.mod_lt _ (by omega)
    rcases clock_result pm.capacity.toNat (2 * pm.capacity.toNat) pm _ hm with
      ⟨a, b⟩ | ⟨v, a, b, c, _, e⟩
    · exact Or.inl ⟨a, b⟩
    · refine Or.inr ⟨v, a, b, c, ?_, ?_⟩
      · rw [e]; omega
      · rw [e]
        have : (v + 1) % pm.capacity.toNat < pm.capacity.toNat := Nat.mod_lt _ (by omega)
        omega

theorem selectVictim_none (pm : PoolMgmt) (hc : 0 < pm.capacity)
    (hlen : pm.frames.length = pm.capacity.toNat) (hh : 0 ≤ pm.clockHand)
    (hst : ∀ i, (frameAt pm.frames i).fifoPos < 0x7fffffffffffffff ∧
      (frameAt pm.frames i).lastUsed < 0x7fffffffffffffff)
    (hneg : (selectVictim pm).1 < 0) :
    selectVictim pm = (-1, pm) ∧ ∀ i, ¬ Eligible (frameAt pm.frames i) := by
  have oob : ∀ i, ¬ i < pm.capacity.toNat → ¬ Eligible (frameAt pm.frames i) := by
    intro i hi
    rw [frameAt_default (by omega)]
    exact not_eligible_default
  unfold selectVictim at hneg ⊢
  split at hneg
  · rcases selectVictim_FIFO_spec pm with ⟨a, b⟩ | ⟨i, hi, a, _⟩
    · refine ⟨by rw [a], fun i he => ?_⟩
      by_cases hi : i < pm.capacity.toNat
      · have := b i hi he; have := (hst i).1; omega
      · exact oob i hi he
    · rw [a] at hneg; simp at hneg; omega
  · rcases selectVictim_LRU_spec pm with ⟨a, b⟩ | ⟨i, hi, a, _⟩
    · refine ⟨by rw [a], fun i he => ?_⟩
      by_cases hi : i < pm.capacity.toNat
      · have := b i hi he; have := (hst i).2; omega
      · exact oob i hi he
    · rw [a] at hneg; simp at hneg; omega
  · rcases selectVictim_LRU_spec pm with ⟨a, b⟩ | ⟨i, hi, a, _⟩
    · refine ⟨by rw [a], fun i he => ?_⟩
      by_cases hi : i < pm.capacity.toNat
      · have := b i hi he; have := (hst i).2; omega
      · exact oob i hi he
    · rw [a] at hneg; simp at hneg; omega
  · rw [clock_args pm hc hh] at hneg ⊢
    have hm : pm.clockHand.toNat % pm.capacity.toNat < pm.capacity.toNat :=
      Nat.mod_lt _ (by omega)
    have hall : ∀ i, ¬ Eligible (frameAt pm.frames i) := by
      intro i he
      by_cases hi : i < pm.capacity.toNat
      · obtain ⟨d, hd, hp⟩ : ∃ d, d < pm.capacity.toNat ∧
            (pm.clockHand.toNat % pm.capacity.toNat + d) % pm.capacity.toNat = i := by
          refine ⟨(i + (pm.capacity.toNat - pm.clockHand.toNat % pm.capacity.toNat))
            % pm.capacity.toNat, Nat.mod_lt _ (by omega), ?_⟩
          rw [Nat.add_mod_mod]
          have : pm.clockHand.toNat % pm.capacity.toNat +
              (i + (pm.capacity.toNat - pm.clockHand.toNat % pm.capacity.toNat))
              = i + pm.capacity.toNat := by omega
          rw [this, Nat.add_mod_right, Nat.mod_eq_of_lt hi]
        have := clock_complete pm.capacity.toNat (2 * pm.capacity.toNat) pm _ d hm hlen
          (by rw [hp]; exact he) (Or.inr (by omega))
        omega
      · exact oob i hi he
    exact ⟨clock_none _ _ pm _ hall, hall⟩

/-! ## `flushIfDirty` and `loadIntoFrame` -/

theorem flushIfDirty_noop (pm : PoolMgmt) (idx : Nat)
    (h : (frameAt pm.frames idx).pageNum = NO_PAGE ∨ (frameAt pm.frames idx).dirty = false) :
    flushIfDirty pm idx = (RC.RC_OK, pm) := by
  simp only [flushIfDirty]
  rw [if_pos h]

theorem flushIfDirty_cases (pm : PoolMgmt) (idx : Nat)
    (h1 : (frameAt pm.frames idx).pageNum ≠ NO_PAGE) (h2 : (frameAt pm.frames idx).dirty = true) :
    (∃ rc fh, rc ≠ RC.RC_OK ∧ flushIfDirty pm idx = (rc, { pm with fhandle := fh }) ∧
        (FileWF pm.fhandle → FileWF fh ∧ pm.fhandle.totalNumPages ≤ fh.totalNumPages)) ∨
    (∃ fh, flushIfDirty pm idx = (RC.RC_OK,
        { pm with fhandle := fh, numWriteIO := wrapInt (pm.numWriteIO + 1),
                  frames := pm.frames.set idx { (frameAt pm.frames idx) with dirty := false } }) ∧
        (FileWF pm.fhandle → FileWF fh ∧ pm.fhandle.totalNumPages ≤ fh.totalNumPages)) := by
  have hn : ¬ ((frameAt pm.frames idx).pageNum = NO_PAGE ∨ (frameAt pm.frames idx).dirty = false) := by
    simp [h1, h2]
  simp only [flushIfDirty]
  rw [if_neg hn]
  by_cases he : (ensurePageExists pm.fhandle (frameAt pm.frames idx).pageNum).1 ≠ RC.RC_OK
  · rw [if_pos he]
    exact Or.inl ⟨_, _, he, rfl, fun hw =>
      ⟨(ensurePageExists_wf hw _).1, (ensurePageExists_wf hw _).2.1⟩⟩
  · rw [if_neg he]
    by_cases hw : (writeBlock (frameAt pm.frames idx).pageNum
        (ensurePageExists pm.fhandle (frameAt pm.frames idx).pageNum).2
        (frameAt pm.frames idx).data).1 ≠ RC.RC_OK
    · rw [if_pos hw]
      refine Or.inl ⟨_, _, hw, rfl, fun hwf => ?_⟩
      have a := ensurePageExists_wf hwf (frameAt pm.frames idx).pageNum
      have b := writeBlock_wf a.1 (frameAt pm.frames idx).pageNum (frameAt pm.frames idx).data
      exact ⟨b.1, by rw [b.2]; exact a.2.1⟩
    · rw [if_neg hw]
      refine Or.inr ⟨_, rfl, fun hwf => ?_⟩
      have a := ensurePageExists_wf hwf (frameAt pm.frames idx).pageNum
      have b := writeBlock_wf a.1 (frameAt pm.frames idx).pageNum (frameAt pm.frames idx).data
      exact ⟨b.1, by rw [b.2]; exact a.2.1⟩

theorem flushIfDirty_ok (pm : PoolMgmt) (idx : Nat) (hok : FileOk pm.fhandle)
    (h1 : 0 ≤ (frameAt pm.frames idx).pageNum) (h2 : (frameAt pm.frames idx).dirty = true)
    (h3 : (frameAt pm.frames idx).pageNum < 2147483647 ∨
      (frameAt pm.frames idx).pageNum < pm.fhandle.totalNumPages) :
    ∃ fh, flushIfDirty pm idx = (RC.RC_OK,
        { pm with fhandle := fh, numWriteIO := wrapInt (pm.numWriteIO + 1),
                  frames := pm.frames.set idx { (frameAt pm.frames idx) with dirty := false } }) ∧
      FileOk fh ∧ pm.fhandle.totalNumPages ≤ fh.totalNumPages ∧
      storePages fh =
        (storePages pm.fhandle ++ List.replicate
          ((frameAt pm.frames idx).pageNum + 1 - pm.fhandle.totalNumPages).toNat zeroPage).set
          (frameAt pm.frames idx).pageNum.toNat (frameAt pm.frames idx).data := by
  have hn : ¬ ((frameAt pm.frames idx).pageNum = NO_PAGE ∨ (frameAt pm.frames idx).dirty = false) := by
    have : (frameAt pm.frames idx).pageNum ≠ NO_PAGE := by unfold NO_PAGE; omega
    simp [this, h2]
  obtain ⟨a1, a2, a3, a4⟩ := ensurePageExists_ok hok (frameAt pm.frames idx).pageNum h1 h3
  obtain ⟨b1, b2, b3, b4⟩ := writeBlock_ok a2 (frameAt pm.frames idx).pageNum
    (frameAt pm.frames idx).data h1 a3
  have he : ¬ ((ensurePageExists pm.fhandle (frameAt pm.frames idx).pageNum).1 ≠ RC.RC_OK) :=
    fun hh => hh a1
  have hw : ¬ ((writeBlock (frameAt pm.frames idx).pageNum
        (ensurePageExists pm.fhandle (frameAt pm.frames idx).pageNum).2
        (frameAt pm.frames idx).data).1 ≠ RC.RC_OK) := fun hh => hh b1
  refine ⟨_, ?_, b2, ?_, ?_⟩
  · simp only [flushIfDirty]
    rw [if_neg hn, if_neg he, if_neg hw]
  · rw [b3]
    exact (ensurePageExists_wf hok.wf _).2.1
  · rw [b4, a4]

theorem loadIntoFrame_cases (pm : PoolMgmt) (idx : Nat) (p : Int) :
    (∃ rc fh, rc ≠ RC.RC_OK ∧ loadIntoFrame pm idx p = (rc, { pm with fhandle := fh }) ∧
        (FileWF pm.fhandle → FileWF fh ∧ pm.fhandle.totalNumPages ≤ fh.totalNumPages)) ∨
    (∃ fh reads buf, loadIntoFrame pm idx p = (RC.RC_OK,
        { pm with fhandle := fh, numReadIO := reads,
                  frames := pm.frames.set idx
                    { pageNum := p, data := buf, dirty := false, fixCount := 0,
                      lastUsed := pm.tick, fifoPos := pm.tick, refbit := true },
                  ptab := (ptab_put pm.ptab p (idx : Int)).2 }) ∧
        (reads = pm.numReadIO ∨ reads = wrapInt (pm.numReadIO + 1)) ∧
        (FileWF pm.fhandle → FileWF fh ∧ pm.fhandle.totalNumPages ≤ fh.totalNumPages ∧
          0 ≤ p ∧ (p < fh.totalNumPages ∨ 2147483647 ≤ p))) := by
  simp only [loadIntoFrame]
  by_cases he : (ensurePageExists pm.fhandle p).1 ≠ RC.RC_OK
  · rw [if_pos he]
    exact Or.inl ⟨_, _, he, rfl, fun hw =>
      ⟨(ensurePageExists_wf hw _).1, (ensurePageExists_wf hw _).2.1⟩⟩
  · rw [if_neg he]
    refine Or.inr ⟨_, _, _, rfl, ?_, fun hwf => ?_⟩
    · split
      · exact Or.inr rfl
      · exact Or.inl rfl
    · have a := ensurePageExists_wf hwf p
      have b := readBlock_wf a.1 p (frameAt pm.frames idx).data
      have heq : (ensurePageExists pm.fhandle p).1 = RC.RC_OK := by
        by_contra hc; exact he hc
      have c := a.2.2 heq
      exact ⟨b.1, by rw [b.2.1]; exact a.2.1, c.1, by rw [b.2.1]; exact c.2⟩

theorem loadIntoFrame_ok (pm : PoolMgmt) (idx : Nat) (p : Int) (hok : FileOk pm.fhandle)
    (hp : 0 ≤ p) (hs : p < 2147483647 ∨ p < pm.fhandle.totalNumPages) :
    ∃ fh buf, loadIntoFrame pm idx p = (RC.RC_OK,
        { pm with fhandle := fh, numReadIO := wrapInt (pm.numReadIO + 1),
                  frames := pm.frames.set idx
                    { pageNum := p, data := buf, dirty := false, fixCount := 0,
                      lastUsed := pm.tick, fifoPos := pm.tick, refbit := true },
                  ptab := (ptab_put pm.ptab p (idx : Int)).2 }) ∧
      FileOk fh ∧ pm.fhandle.totalNumPages ≤ fh.totalNumPages ∧ p < fh.totalNumPages ∧
      storePages fh = storePages pm.fhandle ++
        List.replicate (p + 1 - pm.fhandle.totalNumPages).toNat zeroPage ∧
      storePage fh p = some buf := by
  obtain ⟨a1, a2, a3, a4⟩ := ensurePageExists_ok hok p hp hs
  obtain ⟨d, b1, b2, b3, b4, b5, b6⟩ := readBlock_ok a2 p (frameAt pm.frames idx).data hp a3
  have he : ¬ ((ensurePageExists pm.fhandle p).1 ≠ RC.RC_OK) := fun hh => hh a1
  refine ⟨(readBlock p (ensurePageExists pm.fhandle p).2 (frameAt pm.frames idx).data).2.1, d,
    ?_, b4, ?_, ?_, ?_, ?_⟩
  · simp only [loadIntoFrame]
    rw [if_neg he]
    simp only [b2, if_true, b3]
  · rw [b5]; exact (ensurePageExists_wf hok.wf _).2.1
  · rw [b5]; exact a3
  · rw [b6, a4]
  · have hn : ¬ p < 0 := by omega
    simp only [storePage, hn, if_false, b6] at b1 ⊢
    exact b1

theorem flushIfDirty_big (pm : PoolMgmt) (idx : Nat) (hwf : FileWF pm.fhandle)
    (h1 : (frameAt pm.frames idx).pageNum ≠ NO_PAGE) (h2 : (frameAt pm.frames idx).dirty = true)
    (h3 : pm.fhandle.totalNumPages ≤ (frameAt pm.frames idx).pageNum)
    (h4 : 2147483647 ≤ (frameAt pm.frames idx).pageNum) :
    (flushIfDirty pm idx).1 ≠ RC.RC_OK ∧
      (FileOk pm.fhandle → (flushIfDirty pm idx).1 = RC.RC_WRITE_FAILED ∧
        FileOk (flushIfDirty pm idx).2.fhandle) ∧
      (flushIfDirty pm idx).2 =
        { pm with fhandle := (ensurePageExists pm.fhandle (frameAt pm.frames idx).pageNum).2 } := by
  have hn : ¬ ((frameAt pm.frames idx).pageNum = NO_PAGE ∨ (frameAt pm.frames idx).dirty = false) := by
    simp [h1, h2]
  have hbig := ensurePageExists_big hwf _ h3 h4
  have hwf2 := (ensurePageExists_wf hwf (frameAt pm.frames idx).pageNum).1
  have hwr := writeBlock_range (frameAt pm.frames idx).pageNum (frameAt pm.frames idx).data hbig hwf2
  simp only [flushIfDirty]
  rw [if_neg hn]
  by_cases he : (ensurePageExists pm.fhandle (frameAt pm.frames idx).pageNum).1 ≠ RC.RC_OK
  · rw [if_pos he]
    refine ⟨he, fun hok => ?_, rfl⟩
    exact absurd (ensurePageExists_fileOk hok _ (by omega)).1 he
  · rw [if_neg he, hwr]
    rw [if_pos (by simp)]
    exact ⟨by simp, fun hok => ⟨rfl, (ensurePageExists_fileOk hok _ (by omega)).2⟩, rfl⟩

theorem flushIfDirty_fileOk (pm : PoolMgmt) (idx : Nat) (hok : FileOk pm.fhandle)
    (hp : -1 ≤ (frameAt pm.frames idx).pageNum) :
    FileOk (flushIfDirty pm idx).2.fhandle := by
  by_cases hc : (frameAt pm.frames idx).pageNum = NO_PAGE ∨ (frameAt pm.frames idx).dirty = false
  · rw [flushIfDirty_noop pm idx hc]; exact hok
  · have h1 : (frameAt pm.frames idx).pageNum ≠ NO_PAGE := fun h => hc (Or.inl h)
    have h2 : (frameAt pm.frames idx).dirty = true := by
      cases hd : (frameAt pm.frames idx).dirty with
      | false => exact absurd (Or.inr hd) hc
      | true => rfl
    have hp0 : 0 ≤ (frameAt pm.frames idx).pageNum := by
      unfold NO_PAGE at h1
      omega
    by_cases hcov : (frameAt pm.frames idx).pageNum < 2147483647 ∨
        (frameAt pm.frames idx).pageNum < pm.fhandle.totalNumPages
    · obtain ⟨fh, g1, g2, _⟩ := flushIfDirty_ok pm idx hok hp0 h2 hcov
      rw [g1]; exact g2
    · exact ((flushIfDirty_big pm idx hok.wf h1 h2 (by omega) (by omega)).2.1 hok).2

theorem loadIntoFrame_rel (pm : PoolMgmt) (idx : Nat) (p : Int) (hok : FileOk pm.fhandle)
    (hp : 0 ≤ p) :
    ∃ fh reads buf, loadIntoFrame pm idx p = (RC.RC_OK,
        { pm with fhandle := fh, numReadIO := reads,
                  frames := pm.frames.set idx
                    { pageNum := p, data := buf, dirty := false, fixCount := 0,
                      lastUsed := pm.tick, fifoPos := pm.tick, refbit := true },
                  ptab := (ptab_put pm.ptab p (idx : Int)).2 }) ∧
      (reads = pm.numReadIO ∨ reads = wrapInt (pm.numReadIO + 1)) ∧
      FileOk fh ∧ pm.fhandle.totalNumPages ≤ fh.totalNumPages ∧
      (p < fh.totalNumPages ∨ 2147483647 ≤ p) := by
  by_cases hcov : p < 2147483647 ∨ p < pm.fhandle.totalNumPages
  · obtain ⟨fh, buf, a1, a2, a3, a4, _⟩ := loadIntoFrame_ok pm idx p hok hp hcov
    exact ⟨fh, _, buf, a1, Or.inr rfl, a2, a3, Or.inl a4⟩
  · obtain ⟨e1, e2⟩ := ensurePageExists_fileOk hok p hp
    have hbig := ensurePageExists_big hok.wf p (by omega) (by omega)
    have hrd := readBlock_range p (frameAt pm.frames idx).data hbig e2.wf
    have he : ¬ ((ensurePageExists pm.fhandle p).1 ≠ RC.RC_OK) := fun hh => hh e1
    refine ⟨(ensurePageExists pm.fhandle p).2, pm.numReadIO, zeroPage, ?_, Or.inl rfl, e2,
      (ensurePageExists_wf hok.wf p).2.1, Or.inr (by omega)⟩
    simp only [loadIntoFrame]
    rw [if_neg he, hrd]
    simp

/-! ## Invariant-preserving updates -/

theorem refresh_idem (pm : PoolMgmt) : refreshSnapshots (refreshSnapshots pm) = refreshSnapshots pm := rfl

theorem WInv.update {pm pm2 : PoolMgmt} (h : WInv pm)
    (hcap : pm2.capacity = pm.capacity) (hlen : pm2.frames.length = pm.frames.length)
    (hpt : pm2.ptab = pm.ptab) (htick : pm.tick ≤ pm2.tick)
    (hpage : ∀ i, (frameAt pm2.frames i).pageNum = (frameAt pm.frames i).pageNum)
    (hfix : ∀ i, -2147483648 ≤ (frameAt pm2.frames i).fixCount ∧
      (frameAt pm2.frames i).fixCount ≤ 2147483647)
    (hempty : ∀ i, (frameAt pm2.frames i).pageNum = NO_PAGE →
      (frameAt pm2.frames i).fixCount = 0 ∧ (frameAt pm2.frames i).dirty = false)
    (hst : ∀ i, (frameAt pm2.frames i).fifoPos ≤ pm2.tick ∧ (frameAt pm2.frames i).lastUsed ≤ pm2.tick)
    (hhand : 0 ≤ pm2.clockHand ∧ pm2.clockHand < pm2.capacity)
    (hfile : FileWF pm2.fhandle)
    (htot : pm.fhandle.totalNumPages ≤ pm2.fhandle.totalNumPages)
    (hio : (-2147483648 ≤ pm2.numReadIO ∧ pm2.numReadIO ≤ 2147483647) ∧
      (-2147483648 ≤ pm2.numWriteIO ∧ pm2.numWriteIO ≤ 2147483647)) : WInv pm2 :=
  { cap_pos := by rw [hcap]; exact h.cap_pos
    len := by rw [hlen, hcap]; exact h.len
    pt := by rw [hpt]; exact h.pt
    room := by rw [hpt, hcap]; exact h.room
    sound := by
      intro k v hkv
      rw [hpt] at hkv
      obtain ⟨a, b, c, d⟩ := h.sound k v hkv
      exact ⟨a, b, by rw [hcap]; exact c, by rw [hpage]; exact d⟩
    pages := fun i => by rw [hpage]; exact h.pages i
    fix := hfix
    io := hio
    empty := hempty
    tick0 := le_trans h.tick0 htick
    stamps := hst
    hand := hhand
    file := hfile
    covered := fun i => by
      rw [hpage]
      rcases h.covered i with c | c
      · exact Or.inl (lt_of_lt_of_le c htot)
      · exact Or.inr c }

theorem WInv.refresh {pm : PoolMgmt} (h : WInv pm) : WInv (refreshSnapshots pm) :=
  h.update rfl rfl rfl (le_refl _) (fun _ => rfl) h.fix h.empty h.stamps h.hand h.file (le_refl _)
    h.io

theorem WInv.resident {pm : PoolMgmt} (h : WInv pm) {p : Int} (hp : 0 ≤ ptab_get pm.ptab p) :
    0 ≤ p ∧ (ptab_get pm.ptab p).toNat < pm.frames.length ∧
      (frameAt pm.frames (ptab_get pm.ptab p).toNat).pageNum = p ∧
      (frameAt pm.frames (ptab_get pm.ptab p).toNat).pageNum ≠ NO_PAGE := by
  obtain ⟨a, b, c, d⟩ := h.sound _ _ (has_of_get h.pt hp)
  refine ⟨a, by rw [h.len]; omega, d, ?_⟩
  rw [d]; unfold NO_PAGE; omega

theorem exists_free_slot {pm : PoolMgmt} (h : WInv pm) :
    ∃ s, s < pm.ptab.cap.toNat ∧ pm.ptab.state.getD s 0 ≠ 1 := by
  by_contra hc
  have hall : ∀ s, s < pm.ptab.cap.toNat → pm.ptab.state.getD s 0 = 1 := by
    intro s hs
    by_contra hne
    exact hc ⟨s, hs, hne⟩
  have hs : ∀ s : Fin pm.ptab.cap.toNat,
      pm.ptab.has (pm.ptab.keys.getD s 0) (pm.ptab.vals.getD s 0) :=
    fun s => ⟨s, s.2, hall s s.2, rfl, rfl⟩
  have hlt : ∀ s : Fin pm.ptab.cap.toNat, (pm.ptab.vals.getD s 0).toNat < pm.capacity.toNat := by
    intro s
    obtain ⟨_, b, c, _⟩ := h.sound _ _ (hs s)
    omega
  have hinj : Function.Injective
      (fun s : Fin pm.ptab.cap.toNat => (⟨(pm.ptab.vals.getD s 0).toNat, hlt s⟩ : Fin pm.capacity.toNat)) := by
    intro s s2 he
    have he2 : (pm.ptab.vals.getD s 0).toNat = (pm.ptab.vals.getD s2 0).toNat := by
      simpa using he
    obtain ⟨_, b, _, d⟩ := h.sound _ _ (hs s)
    obtain ⟨_, b2, _, d2⟩ := h.sound _ _ (hs s2)
    have hk : pm.ptab.keys.getD s 0 = pm.ptab.keys.getD s2 0 := by
      rw [← d, ← d2, he2]
    exact Fin.ext (h.pt.uniq s s2 s.2 s2.2 (hall s s.2) (hall s2 s2.2) hk)
  have := Fintype.card_le_of_injective _ hinj
  simp only [Fintype.card_fin] at this
  have := h.room
  have := h.cap_pos
  omega


theorem WInv.with_file {pm : PoolMgmt} (h : WInv pm) (fh : SM_FileHandle) (hf : FileWF fh)
    (ht : pm.fhandle.totalNumPages ≤ fh.totalNumPages) : WInv { pm with fhandle := fh } :=
  h.update rfl rfl rfl (le_refl _) (fun _ => rfl) h.fix h.empty h.stamps h.hand hf ht h.io

theorem WInv.del {pm : PoolMgmt} (h : WInv pm) (old : Int) :
    WInv { pm with ptab := ptab_del pm.ptab old } :=
  { cap_pos := h.cap_pos
    len := h.len
    pt := (del_spec h.pt old).1
    room := by
      show pm.capacity < (ptab_del pm.ptab old).cap
      rw [(del_spec h.pt old).2.1]; exact h.room
    sound := fun k v hkv => h.sound k v (((del_spec h.pt old).2.2 k v).mp hkv).2
    pages := h.pages
    fix := h.fix
    io := h.io
    empty := h.empty
    tick0 := h.tick0
    stamps := h.stamps
    hand := h.hand
    file := h.file
    covered := h.covered }

theorem WInv.load {pm : PoolMgmt} (h : WInv pm) {t : Nat} {p : Int} (ht : t < pm.frames.length)
    (hp : 0 ≤ p) (hfree : ∀ k v, pm.ptab.has k v → k ≠ p → v ≠ (t : Int))
    (fh : SM_FileHandle) (reads : Int) (buf : PageData) (hf : FileWF fh)
    (htot : pm.fhandle.totalNumPages ≤ fh.totalNumPages)
    (hcov : p < fh.totalNumPages ∨ 2147483647 ≤ p)
    (hreads : -2147483648 ≤ reads ∧ reads ≤ 2147483647) :
    WInv { pm with fhandle := fh, numReadIO := reads,
                   frames := pm.frames.set t
                     { pageNum := p, data := buf, dirty := false, fixCount := 1,
                       lastUsed := pm.tick, fifoPos := pm.tick, refbit := true },
                   ptab := (ptab_put pm.ptab p (t : Int)).2 } ∧
      ∀ k v, (ptab_put pm.ptab p (t : Int)).2.has k v ↔
        (k = p ∧ v = (t : Int)) ∨ (k ≠ p ∧ pm.ptab.has k v) := by
  have hroom : (∃ v, pm.ptab.has p v) ∨ ∃ s, s < pm.ptab.cap.toNat ∧ pm.ptab.state.getD s 0 ≠ 1 :=
    Or.inr (exists_free_slot h)
  obtain ⟨_, q1, q2, q3⟩ := put_spec h.pt p (t : Int) hroom
  have hfr : ∀ (g : Frame) i, frameAt (pm.frames.set t g) i = if t = i then g else frameAt pm.frames i := by
    intro g i
    rw [frameAt_set]
    simp [ht]
  refine ⟨{ cap_pos := h.cap_pos, len := by simp [h.len], pt := q1,
            room := by show pm.capacity < (ptab_put pm.ptab p (t : Int)).2.cap; rw [q2]; exact h.room,
            sound := ?_, pages := ?_, fix := ?_, io := ⟨hreads, h.io.2⟩, empty := ?_,
            tick0 := h.tick0, stamps := ?_,
            hand := h.hand, file := hf, covered := ?_ }, q3⟩
  · intro k v hkv
    show 0 ≤ k ∧ 0 ≤ v ∧ v < pm.capacity ∧ (frameAt (pm.frames.set t _) v.toNat).pageNum = k
    rcases (q3 k v).mp hkv with ⟨rfl, rfl⟩ | ⟨hne, hold⟩
    · have := h.len
      refine ⟨hp, by omega, by omega, ?_⟩
      rw [hfr]; simp
    · obtain ⟨a, b, c, d⟩ := h.sound k v hold
      refine ⟨a, b, c, ?_⟩
      have hv := hfree k v hold hne
      have : t ≠ v.toNat := by omega
      rw [hfr, if_neg this]
      exact d
  · intro i
    show -1 ≤ (frameAt (pm.frames.set t _) i).pageNum
    rw [hfr]; split
    · show -1 ≤ p; omega
    · exact h.pages i
  · intro i
    show -2147483648 ≤ (frameAt (pm.frames.set t _) i).fixCount ∧
      (frameAt (pm.frames.set t _) i).fixCount ≤ 2147483647
    rw [hfr]; split
    · show (-2147483648 : Int) ≤ 1 ∧ (1 : Int) ≤ 2147483647; omega
    · exact h.fix i
  · intro i
    show (frameAt (pm.frames.set t _) i).pageNum = NO_PAGE →
      (frameAt (pm.frames.set t _) i).fixCount = 0 ∧ (frameAt (pm.frames.set t _) i).dirty = false
    rw [hfr]; split
    · intro hh
      have hh2 : p = NO_PAGE := hh
      unfold NO_PAGE at hh2; omega
    · exact h.empty i
  · intro i
    show (frameAt (pm.frames.set t _) i).fifoPos ≤ pm.tick ∧
      (frameAt (pm.frames.set t _) i).lastUsed ≤ pm.tick
    rw [hfr]; split
    · exact ⟨le_refl _, le_refl _⟩
    · exact h.stamps i
  · intro i
    show (frameAt (pm.frames.set t _) i).pageNum < fh.totalNumPages ∨
      2147483647 ≤ (frameAt (pm.frames.set t _) i).pageNum
    rw [hfr]; split
    · exact hcov
    · rcases h.covered i with c | c
      · exact Or.inl (lt_of_lt_of_le c htot)
      · exact Or.inr c

theorem load_eq (bm : BM_BufferPool) (page : BM_PageHandle) (p : Int) (pm : PoolMgmt) (t : Nat)
    (ht : t < pm.frames.length) :
    (∃ rc fh, rc ≠ RC.RC_OK ∧
        pinPage.load bm page p pm t = (rc, { bm with mgmtData := some { pm with fhandle := fh } }, page) ∧
        (FileWF pm.fhandle → FileWF fh ∧ pm.fhandle.totalNumPages ≤ fh.totalNumPages)) ∨
    (∃ fh reads buf,
        pinPage.load bm page p pm t = (RC.RC_OK,
          { bm with mgmtData := some (refreshSnapshots
              { pm with fhandle := fh, numReadIO := reads,
                        frames := pm.frames.set t
                          { pageNum := p, data := buf, dirty := false, fixCount := 1,
                            lastUsed := pm.tick, fifoPos := pm.tick, refbit := true },
                        ptab := (ptab_put pm.ptab p (t : Int)).2 }) },
          { pageNum := p, data := some t }) ∧
        (reads = pm.numReadIO ∨ reads = wrapInt (pm.numReadIO + 1)) ∧
        (FileWF pm.fhandle → FileWF fh ∧ pm.fhandle.totalNumPages ≤ fh.totalNumPages ∧
          0 ≤ p ∧ (p < fh.totalNumPages ∨ 2147483647 ≤ p))) := by
  rcases loadIntoFrame_cases pm t p with ⟨rc, fh, h1, h2, h3⟩ | ⟨fh, reads, buf, h2, h3, h4⟩
  · left
    refine ⟨rc, fh, h1, ?_, h3⟩
    simp only [pinPage.load, h2]
    rw [if_pos h1]
  · right
    refine ⟨fh, reads, buf, ?_, h3, h4⟩
    simp only [pinPage.load, h2]
    rw [if_neg (by simp)]
    simp only [frameAt_set_self ht, List.set_set]

theorem load_eq_ok (bm : BM_BufferPool) (page : BM_PageHandle) (p : Int) (pm : PoolMgmt) (t : Nat)
    (ht : t < pm.frames.length) (hok : FileOk pm.fhandle) (hp : 0 ≤ p)
    (hs : p < 2147483647 ∨ p < pm.fhandle.totalNumPages) :
    ∃ fh buf,
      pinPage.load bm page p pm t = (RC.RC_OK,
        { bm with mgmtData := some (refreshSnapshots
            { pm with fhandle := fh, numReadIO := wrapInt (pm.numReadIO + 1),
                      frames := pm.frames.set t
                        { pageNum := p, data := buf, dirty := false, fixCount := 1,
                          lastUsed := pm.tick, fifoPos := pm.tick, refbit := true },
                      ptab := (ptab_put pm.ptab p (t : Int)).2 }) },
        { pageNum := p, data := some t }) ∧
      FileOk fh ∧ pm.fhandle.totalNumPages ≤ fh.totalNumPages ∧ p < fh.totalNumPages ∧
      storePages fh = storePages pm.fhandle ++
        List.replicate (p + 1 - pm.fhandle.totalNumPages).toNat zeroPage ∧
      storePage fh p = some buf := by
  obtain ⟨fh, buf, h2, h3⟩ := loadIntoFrame_ok pm t p hok hp hs
  refine ⟨fh, buf, ?_, h3⟩
  simp only [pinPage.load, h2]
  rw [if_neg (by simp)]
  simp only [frameAt_set_self ht, List.set_set]

theorem load_eq_rel (bm : BM_BufferPool) (page : BM_PageHandle) (p : Int) (pm : PoolMgmt) (t : Nat)
    (ht : t < pm.frames.length) (hok : FileOk pm.fhandle) (hp : 0 ≤ p) :
    ∃ fh reads buf,
      pinPage.load bm page p pm t = (RC.RC_OK,
        { bm with mgmtData := some (refreshSnapshots
            { pm with fhandle := fh, numReadIO := reads,
                      frames := pm.frames.set t
                        { pageNum := p, data := buf, dirty := false, fixCount := 1,
                          lastUsed := pm.tick, fifoPos := pm.tick, refbit := true },
                      ptab := (ptab_put pm.ptab p (t : Int)).2 }) },
        { pageNum := p, data := some t }) ∧
      (reads = pm.numReadIO ∨ reads = wrapInt (pm.numReadIO + 1)) ∧
      FileOk fh ∧ pm.fhandle.totalNumPages ≤ fh.totalNumPages ∧
      (p < fh.totalNumPages ∨ 2147483647 ≤ p) := by
  obtain ⟨fh, reads, buf, h2, h3⟩ := loadIntoFrame_rel pm t p hok hp
  refine ⟨fh, reads, buf, ?_, h3⟩
  simp only [pinPage.load, h2]
  rw [if_neg (by simp)]
  simp only [frameAt_set_self ht, List.set_set]

theorem WInv.writes_wrap {pm : PoolMgmt} (h : WInv pm) : wrapInt pm.numWriteIO = pm.numWriteIO :=
  wrapInt_of_range h.io.2.1 h.io.2.2

theorem WInv.reads_wrap {pm : PoolMgmt} (h : WInv pm) : wrapInt pm.numReadIO = pm.numReadIO :=
  wrapInt_of_range h.io.1.1 h.io.1.2

/-! ## The branches of `pinPage` -/

theorem pin_negative (bm : BM_BufferPool) (page : BM_PageHandle) (p : Int) (pm0 : PoolMgmt)
    (hbm : bm.mgmtData = some pm0) (hp : p < 0) :
    pinPage bm page p = (RC.RC_READ_NON_EXISTING_PAGE, bm, page) := by
  simp only [pinPage, hbm]
  rw [if_pos hp]

theorem pin_hit (bm : BM_BufferPool) (page : BM_PageHandle) (p : Int) (pm0 : PoolMgmt)
    (hbm : bm.mgmtData = some pm0) (hp : 0 ≤ p) (hit : 0 ≤ ptab_get pm0.ptab p) :
    pinPage bm page p = (RC.RC_OK,
      { bm with mgmtData := some (refreshSnapshots
          { pm0 with tick := pm0.tick + 1,
                     frames := pm0.frames.set (ptab_get pm0.ptab p).toNat
                       { (frameAt pm0.frames (ptab_get pm0.ptab p).toNat) with
                         fixCount := wrapInt ((frameAt pm0.frames (ptab_get pm0.ptab p).toNat).fixCount + 1),
                         lastUsed := pm0.tick + 1, refbit := true } }) },
      { pageNum := p, data := some (ptab_get pm0.ptab p).toNat }) := by
  have h1 : ¬ p < 0 := by omega
  have h2 : ptab_get pm0.ptab p ≥ 0 := hit
  simp only [pinPage, hbm]
  rw [if_neg h1, if_pos h2]

theorem pin_miss (bm : BM_BufferPool) (page : BM_PageHandle) (p : Int) (pm0 : PoolMgmt)
    (hbm : bm.mgmtData = some pm0) (hp : 0 ≤ p) (miss : ptab_get pm0.ptab p < 0) :
    (findEmptyFrame { pm0 with tick := pm0.tick + 1 } < 0 ∧
        (selectVictim { pm0 with tick := pm0.tick + 1 }).1 < 0 ∧
        pinPage bm page p = (RC.RC_WRITE_FAILED,
          { bm with mgmtData := some (selectVictim { pm0 with tick := pm0.tick + 1 }).2 }, page)) ∨
    (findEmptyFrame { pm0 with tick := pm0.tick + 1 } < 0 ∧
        0 ≤ (selectVictim { pm0 with tick := pm0.tick + 1 }).1 ∧
        (flushIfDirty (selectVictim { pm0 with tick := pm0.tick + 1 }).2
          (selectVictim { pm0 with tick := pm0.tick + 1 }).1.toNat).1 ≠ RC.RC_OK ∧
        pinPage bm page p =
          ((flushIfDirty (selectVictim { pm0 with tick := pm0.tick + 1 }).2
              (selectVictim { pm0 with tick := pm0.tick + 1 }).1.toNat).1,
           { bm with mgmtData := some (flushIfDirty (selectVictim { pm0 with tick := pm0.tick + 1 }).2
              (selectVictim { pm0 with tick := pm0.tick + 1 }).1.toNat).2 }, page)) ∨
    ∃ t pmT, IsTarget { pm0 with tick := pm0.tick + 1 } t pmT ∧
      pinPage bm page p = pinPage.load bm page p pmT t := by
  have h1 : ¬ p < 0 := by omega
  have h2 : ¬ ptab_get pm0.ptab p ≥ 0 := by omega
  generalize hpm : ({ pm0 with tick := pm0.tick + 1 } : PoolMgmt) = pm
  have e : pinPage bm page p =
      if findEmptyFrame pm < 0 then
        if (selectVictim pm).1 < 0 then
          (RC.RC_WRITE_FAILED, { bm with mgmtData := some (selectVictim pm).2 }, page)
        else if (flushIfDirty (selectVictim pm).2 (selectVictim pm).1.toNat).1 ≠ RC.RC_OK then
          ((flushIfDirty (selectVictim pm).2 (selectVictim pm).1.toNat).1,
           { bm with mgmtData := some (flushIfDirty (selectVictim pm).2 (selectVictim pm).1.toNat).2 },
           page)
        else
          pinPage.load bm page p
            (if (frameAt (flushIfDirty (selectVictim pm).2 (selectVictim pm).1.toNat).2.frames
                  (selectVictim pm).1.toNat).pageNum ≠ NO_PAGE
             then { (flushIfDirty (selectVictim pm).2 (selectVictim pm).1.toNat).2 with
                    ptab := ptab_del (flushIfDirty (selectVictim pm).2 (selectVictim pm).1.toNat).2.ptab
                      (frameAt (flushIfDirty (selectVictim pm).2 (selectVictim pm).1.toNat).2.frames
                        (selectVictim pm).1.toNat).pageNum }
             else (flushIfDirty (selectVictim pm).2 (selectVictim pm).1.toNat).2)
            (selectVictim pm).1.toNat
      else pinPage.load bm page p pm (findEmptyFrame pm).toNat := by
    simp only [pinPage, hbm]
    rw [if_neg h1]
    rw [if_neg h2, hpm]
  rw [e]
  by_cases c1 : findEmptyFrame pm < 0
  · rw [if_pos c1]
    by_cases c2 : (selectVictim pm).1 < 0
    · rw [if_pos c2]
      exact Or.inl ⟨c1, c2, rfl⟩
    · rw [if_neg c2]
      by_cases c3 : (flushIfDirty (selectVictim pm).2 (selectVictim pm).1.toNat).1 ≠ RC.RC_OK
      · rw [if_pos c3]
        exact Or.inr (Or.inl ⟨c1, by omega, c3, rfl⟩)
      · rw [if_neg c3]
        refine Or.inr (Or.inr ⟨(selectVictim pm).1.toNat, _, Or.inr ⟨c1, ?_, ?_, rfl⟩, rfl⟩)
        · rw [Int.toNat_of_nonneg (by omega)]
        · by_contra hc; exact c3 hc
  · rw [if_neg c1]
    refine Or.inr (Or.inr ⟨(findEmptyFrame pm).toNat, pm, Or.inl ⟨?_, rfl⟩, rfl⟩)
    rw [Int.toNat_of_nonneg (by omega)]

/-! ## The target frame of a miss -/

theorem SameButFlags.rfl (f : Frame) : SameButFlags f f := ⟨Eq.refl _, Eq.refl _, Eq.refl _, Eq.refl _, Eq.refl _⟩

theorem SameButFlags.trans {f g h : Frame} (a : SameButFlags f g) (b : SameButFlags g h) :
    SameButFlags f h :=
  ⟨b.1.trans a.1, b.2.1.trans a.2.1, b.2.2.1.trans a.2.2.1, b.2.2.2.1.trans a.2.2.2.1,
    b.2.2.2.2.trans a.2.2.2.2⟩

theorem SameButRefbit.flags {f g : Frame} (a : SameButRefbit f g) : SameButFlags f g :=
  ⟨a.1, a.2.1, a.2.2.2.1, a.2.2.2.2.1, a.2.2.2.2.2⟩

theorem WInv.same {pm pm2 : PoolMgmt} (h : WInv pm)
    (hcap : pm2.capacity = pm.capacity) (hlen : pm2.frames.length = pm.frames.length)
    (hpt : pm2.ptab = pm.ptab) (htick : pm2.tick = pm.tick)
    (hfr : ∀ i, SameButFlags (frameAt pm.frames i) (frameAt pm2.frames i))
    (hdirty : ∀ i, (frameAt pm2.frames i).dirty = true → (frameAt pm.frames i).dirty = true)
    (hhand : 0 ≤ pm2.clockHand ∧ pm2.clockHand < pm2.capacity)
    (hfile : FileWF pm2.fhandle)
    (htot : pm.fhandle.totalNumPages ≤ pm2.fhandle.totalNumPages)
    (hio : (-2147483648 ≤ pm2.numReadIO ∧ pm2.numReadIO ≤ 2147483647) ∧
      (-2147483648 ≤ pm2.numWriteIO ∧ pm2.numWriteIO ≤ 2147483647)) : WInv pm2 := by
  refine h.update hcap hlen hpt (by rw [htick]) (fun i => (hfr i).1) ?_ ?_ ?_ hhand hfile htot hio
  · intro i; rw [(hfr i).2.2.1]; exact h.fix i
  · intro i hi
    rw [(hfr i).1] at hi
    obtain ⟨a, b⟩ := h.empty i hi
    refine ⟨by rw [(hfr i).2.2.1]; exact a, ?_⟩
    cases hd : (frameAt pm2.frames i).dirty with
    | false => rfl
    | true => rw [hdirty i hd] at b; exact absurd b (by decide)
  · intro i
    rw [(hfr i).2.2.2.1, (hfr i).2.2.2.2, htick]
    exact ⟨(h.stamps i).1, (h.stamps i).2⟩

theorem victim_props {pm : PoolMgmt} (hw : WInv pm) :
    WInv (selectVictim pm).2 ∧
      (selectVictim pm).2 = { pm with frames := (selectVictim pm).2.frames,
                                      clockHand := (selectVictim pm).2.clockHand } ∧
      (selectVictim pm).2.frames.length = pm.frames.length ∧
      (∀ i, SameButRefbit (frameAt pm.frames i) (frameAt (selectVictim pm).2.frames i)) ∧
      (((selectVictim pm).1 = -1) ∨
        ∃ v : Nat, (selectVictim pm).1 = (v : Int) ∧ v < pm.frames.length ∧
          Eligible (frameAt pm.frames v)) := by
  obtain ⟨a, b, c⟩ := selectVictim_frames pm hw.cap_pos hw.hand.1
  have hres := selectVictim_result pm hw.cap_pos hw.hand
  have hhand : 0 ≤ (selectVictim pm).2.clockHand ∧ (selectVictim pm).2.clockHand < pm.capacity := by
    rcases hres with ⟨_, e⟩ | ⟨v, _, _, _, e1, e2⟩
    · rw [e]; exact hw.hand
    · exact ⟨e1, e2⟩
  have hcap : (selectVictim pm).2.capacity = pm.capacity := by rw [a]
  refine ⟨?_, a, b, c, ?_⟩
  · refine hw.same hcap b (by rw [a]) (by rw [a]) (fun i => (c i).flags) ?_ (by rw [hcap]; exact hhand)
      (by rw [a]; exact hw.file) (by rw [a]) (by rw [a]; exact hw.io)
    intro i hi
    rw [(c i).2.2.1] at hi; exact hi
  · rcases hres with ⟨e, _⟩ | ⟨v, e, hv, he, _⟩
    · exact Or.inl e
    · exact Or.inr ⟨v, e, by rw [hw.len]; exact hv, he⟩

theorem flush_props {pm : PoolMgmt} (hw : WInv pm) (idx : Nat) :
    WInv (flushIfDirty pm idx).2 ∧
      (flushIfDirty pm idx).2 = { pm with fhandle := (flushIfDirty pm idx).2.fhandle,
                                          numWriteIO := PoolMgmt.numWriteIO (flushIfDirty pm idx).2,
                                          frames := (flushIfDirty pm idx).2.frames } ∧
      (flushIfDirty pm idx).2.frames.length = pm.frames.length ∧
      (∀ i, SameButFlags (frameAt pm.frames i) (frameAt (flushIfDirty pm idx).2.frames i) ∧
        (frameAt (flushIfDirty pm idx).2.frames i).refbit = (frameAt pm.frames i).refbit ∧
        (i ≠ idx → (frameAt (flushIfDirty pm idx).2.frames i).dirty = (frameAt pm.frames i).dirty) ∧
        ((frameAt (flushIfDirty pm idx).2.frames i).dirty = true → (frameAt pm.frames i).dirty = true)) ∧
      ((flushIfDirty pm idx).1 = RC.RC_OK → (frameAt (flushIfDirty pm idx).2.frames idx).dirty = false) ∧
      ((flushIfDirty pm idx).1 ≠ RC.RC_OK → (flushIfDirty pm idx).2.frames = pm.frames ∧
        PoolMgmt.numWriteIO (flushIfDirty pm idx).2 = pm.numWriteIO) := by
  have triv : ∀ i, SameButFlags (frameAt pm.frames i) (frameAt pm.frames i) ∧
        (frameAt pm.frames i).refbit = (frameAt pm.frames i).refbit ∧
        (i ≠ idx → (frameAt pm.frames i).dirty = (frameAt pm.frames i).dirty) ∧
        ((frameAt pm.frames i).dirty = true → (frameAt pm.frames i).dirty = true) :=
    fun i => ⟨SameButFlags.rfl _, rfl, fun _ => rfl, fun h => h⟩
  by_cases hc : (frameAt pm.frames idx).pageNum = NO_PAGE ∨ (frameAt pm.frames idx).dirty = false
  · rw [flushIfDirty_noop pm idx hc]
    refine ⟨hw, rfl, rfl, triv, fun _ => ?_, fun h => absurd rfl h⟩
    rcases hc with h | h
    · exact (hw.empty idx h).2
    · exact h
  · have h1 : (frameAt pm.frames idx).pageNum ≠ NO_PAGE := fun h => hc (Or.inl h)
    have h2 : (frameAt pm.frames idx).dirty = true := by
      cases hd : (frameAt pm.frames idx).dirty with
      | false => exact absurd (Or.inr hd) hc
      | true => rfl
    rcases flushIfDirty_cases pm idx h1 h2 with ⟨rc, fh, a, b, c⟩ | ⟨fh, b, c⟩
    · rw [b]
      obtain ⟨c1, c2⟩ := c hw.file
      exact ⟨hw.with_file fh c1 c2, rfl, rfl, triv, fun h => absurd h a, fun _ => ⟨rfl, rfl⟩⟩
    · rw [b]
      obtain ⟨c1, c2⟩ := c hw.file
      have hlt : idx < pm.frames.length := by
        by_contra hge
        rw [frameAt_default (by omega)] at h1
        exact h1 rfl
      have hfr : ∀ (g : Frame) i, frameAt (pm.frames.set idx g) i
          = if idx = i then g else frameAt pm.frames i := by
        intro g i
        rw [frameAt_set]
        simp [hlt]
      have hrel : ∀ i, SameButFlags (frameAt pm.frames i)
            (frameAt (pm.frames.set idx { (frameAt pm.frames idx) with dirty := false }) i) ∧
          (frameAt (pm.frames.set idx { (frameAt pm.frames idx) with dirty := false }) i).refbit
            = (frameAt pm.frames i).refbit ∧
          (i ≠ idx → (frameAt (pm.frames.set idx { (frameAt pm.frames idx) with dirty := false }) i).dirty
            = (frameAt pm.frames i).dirty) ∧
          ((frameAt (pm.frames.set idx { (frameAt pm.frames idx) with dirty := false }) i).dirty = true
            → (frameAt pm.frames i).dirty = true) := by
        intro i
        rw [hfr]
        by_cases e : idx = i
        · subst e
          rw [if_pos rfl]
          exact ⟨⟨rfl, rfl, rfl, rfl, rfl⟩, rfl, fun h => absurd rfl h, fun h => by simp at h⟩
        · rw [if_neg e]
          exact triv i
      refine ⟨?_, rfl, by simp, hrel, fun _ => ?_, fun h => absurd rfl h⟩
      · exact hw.same rfl (by simp) rfl rfl (fun i => (hrel i).1) (fun i => (hrel i).2.2.2)
          hw.hand c1 c2 ⟨hw.io.1, wrapInt_range _⟩
      · show (frameAt (pm.frames.set idx { (frameAt pm.frames idx) with dirty := false }) idx).dirty = false
        rw [hfr, if_pos rfl]


theorem target_props {pm : PoolMgmt} {t : Nat} {pmT : PoolMgmt} (hw : WInv pm)
    (ht : IsTarget pm t pmT) :
    WInv pmT ∧ t < pm.frames.length ∧ pmT.frames.length = pm.frames.length ∧
      pmT.tick = pm.tick ∧ pmT.capacity = pm.capacity ∧ pmT.strategy = pm.strategy ∧
      pmT.numReadIO = pm.numReadIO ∧
      (frameAt pm.frames t).fixCount = 0 ∧
      (∀ i, SameButFlags (frameAt pm.frames i) (frameAt pmT.frames i)) ∧
      (∀ i, i ≠ t → (frameAt pmT.frames i).dirty = (frameAt pm.frames i).dirty) ∧
      (∀ k v, pmT.ptab.has k v → pm.ptab.has k v ∧ v ≠ (t : Int)) := by
  rcases ht with ⟨he, rfl⟩ | ⟨he, hv, hf, rfl⟩
  · rcases findEmptyFrame_spec pmT with ⟨a, _⟩ | ⟨i, a, b, c, d, _⟩
    · rw [a] at he; omega
    · have : i = t := by rw [a] at he; omega
      subst this
      refine ⟨hw, by rw [hw.len]; exact b, rfl, rfl, rfl, rfl, rfl, d,
        fun i => SameButFlags.rfl _, fun _ _ => rfl, fun k v hkv => ⟨hkv, fun hvt => ?_⟩⟩
      obtain ⟨x1, _, _, x4⟩ := hw.sound k v hkv
      rw [hvt, Int.toNat_natCast, c] at x4
      unfold NO_PAGE at x4; omega
  · obtain ⟨v1, v2, v3, v4, v5⟩ := victim_props hw
    rcases v5 with e | ⟨v, e, hvl, hel⟩
    · rw [e] at hv; omega
    · have : v = t := by rw [e] at hv; omega
      subst this
      obtain ⟨f1, f2, f3, f4, f5, _⟩ := flush_props v1 v
      have hrel : ∀ i, SameButFlags (frameAt pm.frames i)
          (frameAt (flushIfDirty (selectVictim pm).2 v).2.frames i) :=
        fun i => (v4 i).flags.trans (f4 i).1
      have hold : (frameAt (flushIfDirty (selectVictim pm).2 v).2.frames v).pageNum ≠ NO_PAGE := by
        rw [(hrel v).1]; exact hel.2
      rw [if_pos hold]
      have hdel := del_spec f1.pt (frameAt (flushIfDirty (selectVictim pm).2 v).2.frames v).pageNum
      have hpt : (flushIfDirty (selectVictim pm).2 v).2.ptab = pm.ptab := by rw [f2, v2]
      refine ⟨f1.del _, hvl, by rw [← v3, ← f3], by show (flushIfDirty (selectVictim pm).2 v).2.tick = _; rw [f2, v2],
        by show (flushIfDirty (selectVictim pm).2 v).2.capacity = _; rw [f2, v2],
        by show (flushIfDirty (selectVictim pm).2 v).2.strategy = _; rw [f2, v2],
        by show PoolMgmt.numReadIO (flushIfDirty (selectVictim pm).2 v).2 = _; rw [f2, v2],
        hel.1, hrel, ?_, ?_⟩
      · intro i hi
        show (frameAt (flushIfDirty (selectVictim pm).2 v).2.frames i).dirty = _
        rw [(f4 i).2.2.1 hi, (v4 i).2.2.1]
      · intro k w hkw
        have hkw2 := (hdel.2.2 k w).mp hkw
        rw [hpt] at hkw2
        refine ⟨hkw2.2, fun hwv => hkw2.1 ?_⟩
        obtain ⟨_, _, _, x4⟩ := hw.sound k w hkw2.2
        rw [hwv, Int.toNat_natCast] at x4
        rw [(hrel v).1, x4]

/-! ## Every reachable state satisfies `WInv` -/

theorem WInv.tick {pm : PoolMgmt} (h : WInv pm) : WInv { pm with tick := pm.tick + 1 } :=
  h.update rfl rfl rfl (by show pm.tick ≤ pm.tick + 1; omega) (fun _ => rfl) h.fix h.empty
    (fun i => ⟨by have := (h.stamps i).1; show (frameAt pm.frames i).fifoPos ≤ pm.tick + 1; omega,
               by have := (h.stamps i).2; show (frameAt pm.frames i).lastUsed ≤ pm.tick + 1; omega⟩)
    h.hand h.file (le_refl _) h.io

theorem frameAt_set_lt {frames : List Frame} {i : Nat} (h : i < frames.length) (g : Frame) (j : Nat) :
    frameAt (frames.set i g) j = if i = j then g else frameAt frames j := by
  rw [frameAt_set]; simp [h]

theorem pin_winv (bm : BM_BufferPool) (page : BM_PageHandle) (p : Int) (pm0 : PoolMgmt)
    (hbm : bm.mgmtData = some pm0) (hw : WInv pm0) :
    ∃ pm, (pinPage bm page p).2.1.mgmtData = some pm ∧ WInv pm := by
  by_cases hp : p < 0
  · rw [pin_negative bm page p pm0 hbm hp]
    exact ⟨pm0, hbm, hw⟩
  · have hp0 : 0 ≤ p := by omega
    by_cases hit : 0 ≤ ptab_get pm0.ptab p
    · rw [pin_hit bm page p pm0 hbm hp0 hit]
      obtain ⟨_, r2, r3, r4⟩ := hw.resident hit
      refine ⟨_, rfl, WInv.refresh ?_⟩
      refine hw.update rfl (by simp) rfl (by show pm0.tick ≤ pm0.tick + 1; omega) ?_ ?_ ?_ ?_
        hw.hand hw.file (le_refl _) hw.io
      · intro i
        show (frameAt (pm0.frames.set _ _) i).pageNum = _
        rw [frameAt_set_lt r2]; split
        · rename_i e; rw [← e]
        · rfl
      · intro i
        show -2147483648 ≤ (frameAt (pm0.frames.set _ _) i).fixCount ∧
          (frameAt (pm0.frames.set _ _) i).fixCount ≤ 2147483647
        rw [frameAt_set_lt r2]; split
        · exact wrapInt_range _
        · exact hw.fix i
      · intro i
        show (frameAt (pm0.frames.set _ _) i).pageNum = NO_PAGE →
          (frameAt (pm0.frames.set _ _) i).fixCount = 0 ∧ (frameAt (pm0.frames.set _ _) i).dirty = false
        rw [frameAt_set_lt r2]; split
        · intro hh; exact absurd hh r4
        · exact hw.empty i
      · intro i
        show (frameAt (pm0.frames.set _ _) i).fifoPos ≤ pm0.tick + 1 ∧
          (frameAt (pm0.frames.set _ _) i).lastUsed ≤ pm0.tick + 1
        rw [frameAt_set_lt r2]; split
        · have := (hw.stamps (ptab_get pm0.ptab p).toNat).1
          exact ⟨by show (frameAt pm0.frames (ptab_get pm0.ptab p).toNat).fifoPos ≤ _; omega,
                 le_refl _⟩
        · have := hw.stamps i
          omega
    · have hwt := hw.tick
      rcases pin_miss bm page p pm0 hbm hp0 (by omega) with ⟨_, _, e⟩ | ⟨_, _, _, e⟩ | ⟨t, pmT, ht, e⟩
      · rw [e]
        exact ⟨_, rfl, (victim_props hwt).1⟩
      · rw [e]
        exact ⟨_, rfl, (flush_props (victim_props hwt).1 _).1⟩
      · rw [e]
        obtain ⟨a1, a2, a3, a4, a5, a6, a7, a8, a9, a10, a11⟩ := target_props hwt ht
        rcases load_eq bm page p pmT t (by rw [a3]; exact a2) with
          ⟨rc, fh, b1, b2, b3⟩ | ⟨fh, reads, buf, b2, b3, b4⟩
        · rw [b2]
          obtain ⟨c1, c2⟩ := b3 a1.file
          exact ⟨_, rfl, a1.with_file fh c1 c2⟩
        · rw [b2]
          obtain ⟨c1, c2, c3, c4⟩ := b4 a1.file
          refine ⟨_, rfl, WInv.refresh ?_⟩
          have hreads : -2147483648 ≤ reads ∧ reads ≤ 2147483647 := by
            rcases b3 with e | e
            · rw [e]; exact a1.io.1
            · rw [e]; exact wrapInt_range _
          exact (a1.load (by rw [a3]; exact a2) hp0 (fun k v hkv _ => (a11 k v hkv).2)
            fh reads buf c1 c2 c4 hreads).1


theorem unpin_eq (bm : BM_BufferPool) (page : BM_PageHandle) (pm : PoolMgmt)
    (hbm : bm.mgmtData = some pm) :
    unpinPage bm page =
      if ptab_get pm.ptab page.pageNum < 0 then (RC.RC_READ_NON_EXISTING_PAGE, bm)
      else (RC.RC_OK,
        { bm with mgmtData := some (refreshSnapshots
            (if (frameAt pm.frames (ptab_get pm.ptab page.pageNum).toNat).fixCount > 0
             then { pm with
                    frames := pm.frames.set (ptab_get pm.ptab page.pageNum).toNat
                      { (frameAt pm.frames (ptab_get pm.ptab page.pageNum).toNat) with
                        fixCount :=
                          (frameAt pm.frames (ptab_get pm.ptab page.pageNum).toNat).fixCount - 1 } }
             else pm)) }) := by
  simp only [unpinPage, hbm]

theorem markDirty_eq (bm : BM_BufferPool) (page : BM_PageHandle) (pm : PoolMgmt)
    (hbm : bm.mgmtData = some pm) :
    markDirty bm page =
      if ptab_get pm.ptab page.pageNum < 0 then (RC.RC_READ_NON_EXISTING_PAGE, bm)
      else (RC.RC_OK,
        { bm with mgmtData := some (refreshSnapshots
            { pm with
              frames := pm.frames.set (ptab_get pm.ptab page.pageNum).toNat
                { (frameAt pm.frames (ptab_get pm.ptab page.pageNum).toNat) with dirty := true } }) }) := by
  simp only [markDirty, hbm]

theorem forcePage_eq (bm : BM_BufferPool) (page : BM_PageHandle) (pm : PoolMgmt)
    (hbm : bm.mgmtData = some pm) :
    forcePage bm page =
      if ptab_get pm.ptab page.pageNum < 0 then (RC.RC_READ_NON_EXISTING_PAGE, bm)
      else if (flushIfDirty pm (ptab_get pm.ptab page.pageNum).toNat).1 ≠ RC.RC_OK
      then ((flushIfDirty pm (ptab_get pm.ptab page.pageNum).toNat).1,
            { bm with mgmtData := some (flushIfDirty pm (ptab_get pm.ptab page.pageNum).toNat).2 })
      else (RC.RC_OK, { bm with mgmtData := some (refreshSnapshots
            (flushIfDirty pm (ptab_get pm.ptab page.pageNum).toNat).2) }) := by
  simp only [forcePage, hbm]

theorem forceFlushPool_eq (bm : BM_BufferPool) (pm : PoolMgmt) (hbm : bm.mgmtData = some pm) :
    forceFlushPool bm =
      if (flushFrames true (List.range pm.capacity.toNat) pm).1 ≠ RC.RC_OK
      then ((flushFrames true (List.range pm.capacity.toNat) pm).1,
            { bm with mgmtData := some (flushFrames true (List.range pm.capacity.toNat) pm).2 })
      else (RC.RC_OK, { bm with mgmtData := some (refreshSnapshots
            (flushFrames true (List.range pm.capacity.toNat) pm).2) }) := by
  simp only [forceFlushPool, hbm]

theorem unpin_winv (bm : BM_BufferPool) (page : BM_PageHandle) (pm : PoolMgmt)
    (hbm : bm.mgmtData = some pm) (hw : WInv pm) :
    ∃ pm2, (unpinPage bm page).2.mgmtData = some pm2 ∧ WInv pm2 := by
  rw [unpin_eq bm page pm hbm]
  split
  · exact ⟨pm, hbm, hw⟩
  · rename_i hneg
    obtain ⟨_, r2, r3, r4⟩ := hw.resident (p := page.pageNum) (by omega)
    refine ⟨_, rfl, WInv.refresh ?_⟩
    split
    · rename_i hpos
      refine hw.update rfl (by simp) rfl (le_refl _) ?_ ?_ ?_ ?_ hw.hand hw.file (le_refl _) hw.io
      · intro i
        show (frameAt (pm.frames.set _ _) i).pageNum = _
        rw [frameAt_set_lt r2]; split
        · rename_i e; rw [← e]
        · rfl
      · intro i
        show -2147483648 ≤ (frameAt (pm.frames.set _ _) i).fixCount ∧
          (frameAt (pm.frames.set _ _) i).fixCount ≤ 2147483647
        rw [frameAt_set_lt r2]; split
        · have := hw.fix (ptab_get pm.ptab page.pageNum).toNat
          show -2147483648 ≤ (frameAt pm.frames (ptab_get pm.ptab page.pageNum).toNat).fixCount - 1 ∧
            (frameAt pm.frames (ptab_get pm.ptab page.pageNum).toNat).fixCount - 1 ≤ 2147483647
          omega
        · exact hw.fix i
      · intro i
        show (frameAt (pm.frames.set _ _) i).pageNum = NO_PAGE →
          (frameAt (pm.frames.set _ _) i).fixCount = 0 ∧ (frameAt (pm.frames.set _ _) i).dirty = false
        rw [frameAt_set_lt r2]; split
        · intro hh; exact absurd hh r4
        · exact hw.empty i
      · intro i
        show (frameAt (pm.frames.set _ _) i).fifoPos ≤ pm.tick ∧
          (frameAt (pm.frames.set _ _) i).lastUsed ≤ pm.tick
        rw [frameAt_set_lt r2]; split
        · exact hw.stamps _
        · exact hw.stamps i
    · exact hw

theorem markDirty_winv (bm : BM_BufferPool) (page : BM_PageHandle) (pm : PoolMgmt)
    (hbm : bm.mgmtData = some pm) (hw : WInv pm) :
    ∃ pm2, (markDirty bm page).2.mgmtData = some pm2 ∧ WInv pm2 := by
  rw [markDirty_eq bm page pm hbm]
  split
  · exact ⟨pm, hbm, hw⟩
  · rename_i hneg
    obtain ⟨_, r2, r3, r4⟩ := hw.resident (p := page.pageNum) (by omega)
    refine ⟨_, rfl, WInv.refresh ?_⟩
    refine hw.update rfl (by simp) rfl (le_refl _) ?_ ?_ ?_ ?_ hw.hand hw.file (le_refl _) hw.io
    · intro i
      show (frameAt (pm.frames.set _ _) i).pageNum = _
      rw [frameAt_set_lt r2]; split
      · rename_i e; rw [← e]
      · rfl
    · intro i
      show -2147483648 ≤ (frameAt (pm.frames.set _ _) i).fixCount ∧
        (frameAt (pm.frames.set _ _) i).fixCount ≤ 2147483647
      rw [frameAt_set_lt r2]; split
      · exact hw.fix _
      · exact hw.fix i
    · intro i
      show (frameAt (pm.frames.set _ _) i).pageNum = NO_PAGE →
        (frameAt (pm.frames.set _ _) i).fixCount = 0 ∧ (frameAt (pm.frames.set _ _) i).dirty = false
      rw [frameAt_set_lt r2]; split
      · intro hh; exact absurd hh r4
      · exact hw.empty i
    · intro i
      show (frameAt (pm.frames.set _ _) i).fifoPos ≤ pm.tick ∧
        (frameAt (pm.frames.set _ _) i).lastUsed ≤ pm.tick
      rw [frameAt_set_lt r2]; split
      · exact hw.stamps _
      · exact hw.stamps i

theorem forcePage_winv (bm : BM_BufferPool) (page : BM_PageHandle) (pm : PoolMgmt)
    (hbm : bm.mgmtData = some pm) (hw : WInv pm) :
    ∃ pm2, (forcePage bm page).2.mgmtData = some pm2 ∧ WInv pm2 := by
  rw [forcePage_eq bm page pm hbm]
  split
  · exact ⟨pm, hbm, hw⟩
  · split
    · exact ⟨_, rfl, (flush_props hw _).1⟩
    · exact ⟨_, rfl, WInv.refresh (flush_props hw _).1⟩

theorem flushFrames_winv (b : Bool) : ∀ (l : List Nat) (pm : PoolMgmt), WInv pm →
    WInv (flushFrames b l pm).2 := by
  intro l
  induction l with
  | nil => intro pm hw; exact hw
  | cons i rest ih =>
    intro pm hw
    simp only [flushFrames]
    split
    · split
      · exact (flush_props hw i).1
      · exact ih _ (flush_props hw i).1
    · exact ih _ hw

theorem forceFlushPool_winv (bm : BM_BufferPool) (pm : PoolMgmt)
    (hbm : bm.mgmtData = some pm) (hw : WInv pm) :
    ∃ pm2, (forceFlushPool bm).2.mgmtData = some pm2 ∧ WInv pm2 := by
  rw [forceFlushPool_eq bm pm hbm]
  split
  · exact ⟨_, rfl, flushFrames_winv true _ pm hw⟩
  · exact ⟨_, rfl, WInv.refresh (flushFrames_winv true _ pm hw)⟩

theorem clientWrite_winv (bm : BM_BufferPool) (page : BM_PageHandle) (B : PageData) (pm : PoolMgmt)
    (hbm : bm.mgmtData = some pm) (hw : WInv pm) :
    ∃ pm2, (clientWrite bm page B).mgmtData = some pm2 ∧ WInv pm2 := by
  unfold clientWrite
  rw [hbm]
  cases hd : page.data with
  | none => exact ⟨pm, hbm, hw⟩
  | some i =>
    simp only
    split
    · rename_i hlt
      refine ⟨_, rfl, ?_⟩
      refine hw.update rfl (by simp) rfl (le_refl _) ?_ ?_ ?_ ?_ hw.hand hw.file (le_refl _) hw.io
      · intro j
        show (frameAt (pm.frames.set _ _) j).pageNum = _
        rw [frameAt_set_lt hlt]; split
        · rename_i e; rw [← e]
        · rfl
      · intro j
        show -2147483648 ≤ (frameAt (pm.frames.set _ _) j).fixCount ∧
          (frameAt (pm.frames.set _ _) j).fixCount ≤ 2147483647
        rw [frameAt_set_lt hlt]; split
        · exact hw.fix _
        · exact hw.fix j
      · intro j
        show (frameAt (pm.frames.set _ _) j).pageNum = NO_PAGE →
          (frameAt (pm.frames.set _ _) j).fixCount = 0 ∧ (frameAt (pm.frames.set _ _) j).dirty = false
        rw [frameAt_set_lt hlt]; split
        · exact hw.empty i
        · exact hw.empty j
      · intro j
        show (frameAt (pm.frames.set _ _) j).fifoPos ≤ pm.tick ∧
          (frameAt (pm.frames.set _ _) j).lastUsed ≤ pm.tick
        rw [frameAt_set_lt hlt]; split
        · exact hw.stamps _
        · exact hw.stamps j
    · exact ⟨pm, hbm, hw⟩


theorem frameAt_initFrames (n : Int) (i : Nat) : frameAt (initFrames n) i = default := by
  unfold frameAt initFrames
  by_cases h : i < n.toNat
  · simp [List.getElem?_replicate, h]; rfl
  · simp [List.getElem?_replicate, h]

theorem openPageFile_wf {name : String} {file : OSFile} {rc : RC} {fh : SM_FileHandle}
    (h : openPageFile name (some file) = (rc, some fh)) :
    FileWF fh ∧ 0 ≤ fh.totalNumPages ∧ (NoFaults file → FileOk fh) := by
  simp only [openPageFile] at h
  split at h
  · simp at h
  · split at h
    · simp at h
    · split at h
      · simp at h
      · simp only [Prod.mk.injEq, Option.some.injEq] at h
        obtain ⟨_, rfl⟩ := h
        have hp : (fseek_end file).2.call.2.call.2.pages = file.pages := by
          rw [call_pages, call_pages, fseek_end_pages]
        refine ⟨⟨_, rfl, ?_⟩, ?_, fun hn => ⟨_, rfl, ?_, ?_⟩⟩
        · simp only [call_pages, fseek_end_pages]
        · show (0 : Int) ≤ ((fseek_end file).2.call.2.pages.length : Int)
          omega
        · simp only [call_pages, fseek_end_pages]
        · have h1 := fseek_end_eq hn
          have : NoFaults (fseek_end file).2 := by rw [h1]; exact (call_ok hn).2
          exact (call_ok (call_ok this).2).2

theorem openPageFile_none {name : String} {file : Option OSFile} {rc : RC}
    (h : openPageFile name file = (rc, none)) : rc ≠ RC.RC_OK := by
  simp only [openPageFile] at h
  split at h
  · simp only [Prod.mk.injEq] at h; rw [← h.1]; decide
  · split at h
    · simp only [Prod.mk.injEq] at h; rw [← h.1]; decide
    · split at h
      · simp only [Prod.mk.injEq] at h; rw [← h.1]; decide
      · split at h
        · simp only [Prod.mk.injEq] at h; rw [← h.1]; decide
        · simp at h

theorem init_winv {bm0 : BM_BufferPool} {name : String} {file : OSFile} {n : Int}
    {strat : ReplacementStrategy} {heap : List Bool} {bm : BM_BufferPool}
    (h : initBufferPool bm0 name (some file) n strat heap = (RC.RC_OK, bm)) :
    ∃ pm, bm.mgmtData = some pm ∧ WInv pm ∧ refreshSnapshots pm = pm ∧
      (∀ i, (frameAt pm.frames i).pageNum = NO_PAGE) ∧ (NoFaults file → FileOk pm.fhandle) := by
  simp only [initBufferPool] at h
  split at h
  · simp at h
  · rename_i hn
    split at h
    · simp at h
    · split at h
      · rename_i rc hopen
        simp only [Prod.mk.injEq] at h
        exact absurd h.1 (openPageFile_none hopen)
      · rename_i x fh hopen
        obtain ⟨f1, f2, f3⟩ := openPageFile_wf hopen
        split at h
        · simp at h
        · split at h
          · simp at h
          · split at h
            · simp at h
            · simp only [Prod.mk.injEq, true_and] at h
              subst h
              refine ⟨_, rfl, WInv.refresh ?_, rfl, ?_, f3⟩
              · exact
                { cap_pos := by show 0 < n; omega
                  len := by show (initFrames n).length = n.toNat; simp [initFrames]
                  pt := init_inv n
                  room := by
                    show n < (ptab_init n).cap
                    have := init_cap_ge n
                    omega
                  sound := fun k v hkv => absurd hkv (init_has n k v)
                  pages := fun i => by
                    show -1 ≤ (frameAt (initFrames n) i).pageNum
                    rw [frameAt_initFrames]; decide
                  fix := fun i => by
                    show -2147483648 ≤ (frameAt (initFrames n) i).fixCount ∧
                      (frameAt (initFrames n) i).fixCount ≤ 2147483647
                    rw [frameAt_initFrames]; decide
                  io := ⟨⟨by show (-2147483648 : Int) ≤ 0; omega, by show (0 : Int) ≤ 2147483647; omega⟩,
                    ⟨by show (-2147483648 : Int) ≤ 0; omega, by show (0 : Int) ≤ 2147483647; omega⟩⟩
                  empty := fun i _ => by
                    show (frameAt (initFrames n) i).fixCount = 0 ∧ (frameAt (initFrames n) i).dirty = false
                    rw [frameAt_initFrames]; exact ⟨rfl, rfl⟩
                  tick0 := le_refl _
                  stamps := fun i => by
                    show (frameAt (initFrames n) i).fifoPos ≤ 0 ∧ (frameAt (initFrames n) i).lastUsed ≤ 0
                    rw [frameAt_initFrames]; exact ⟨le_refl _, le_refl _⟩
                  hand := ⟨le_refl _, by show 0 < n; omega⟩
                  file := f1
                  covered := fun i => by
                    left
                    show (frameAt (initFrames n) i).pageNum < fh.totalNumPages
                    rw [frameAt_initFrames]
                    show (-1 : Int) < fh.totalNumPages
                    omega }
              · intro i
                show (frameAt (initFrames n) i).pageNum = NO_PAGE
                rw [frameAt_initFrames]; rfl


theorem step_winv {bm bm2 : BM_BufferPool} (hs : Step bm bm2)
    (h : ∃ pm, bm.mgmtData = some pm ∧ WInv pm) : ∃ pm, bm2.mgmtData = some pm ∧ WInv pm := by
  obtain ⟨pm, hbm, hw⟩ := h
  cases hs with
  | pin page p => exact pin_winv bm page p pm hbm hw
  | unpin page => exact unpin_winv bm page pm hbm hw
  | dirty page => exact markDirty_winv bm page pm hbm hw
  | force page => exact forcePage_winv bm page pm hbm hw
  | flush => exact forceFlushPool_winv bm pm hbm hw
  | contents => exact ⟨refreshSnapshots pm, by simp only [getFrameContents, hbm], hw.refresh⟩
  | flags => exact ⟨refreshSnapshots pm, by simp only [getDirtyFlags, hbm], hw.refresh⟩
  | counts => exact ⟨refreshSnapshots pm, by simp only [getFixCounts, hbm], hw.refresh⟩
  | write page B => exact clientWrite_winv bm page B pm hbm hw

theorem reachableFrom_winv {file : OSFile} {bm : BM_BufferPool} (h : ReachableFrom file bm) :
    ∃ pm, bm.mgmtData = some pm ∧ WInv pm := by
  induction h with
  | init bm0 name n strat heap bm hinit =>
    obtain ⟨pm, a, b, _⟩ := init_winv hinit
    exact ⟨pm, a, b⟩
  | step bm bm2 _ hs ih => exact step_winv hs ih

theorem reachable_winv {bm : BM_BufferPool} (h : Reachable bm) :
    ∃ pm, bm.mgmtData = some pm ∧ WInv pm := by
  obtain ⟨file, hf⟩ := h
  exact reachableFrom_winv hf

/-! ## Over a reliable page file every reachable state satisfies `SInv` -/

theorem fresh_iff (pm : PoolMgmt) :
    refreshSnapshots pm = pm ↔
      pm.frameContents = (List.range pm.capacity.toNat).map (fun i => (frameAt pm.frames i).pageNum) ∧
      pm.dirtyFlags = (List.range pm.capacity.toNat).map (fun i => (frameAt pm.frames i).dirty) ∧
      pm.fixCounts = (List.range pm.capacity.toNat).map (fun i => (frameAt pm.frames i).fixCount) := by
  constructor
  · intro h
    exact ⟨(congrArg PoolMgmt.frameContents h).symm, (congrArg PoolMgmt.dirtyFlags h).symm,
      (congrArg PoolMgmt.fixCounts h).symm⟩
  · rintro ⟨a, b, c⟩
    cases pm
    simp only [refreshSnapshots] at a b c ⊢
    simp only [PoolMgmt.mk.injEq, true_and, and_true]
    exact ⟨a.symm, b.symm, c.symm⟩

theorem fresh_of_same {pm pm2 : PoolMgmt} (h : refreshSnapshots pm = pm)
    (hcap : pm2.capacity = pm.capacity)
    (h1 : pm2.frameContents = pm.frameContents) (h2 : pm2.dirtyFlags = pm.dirtyFlags)
    (h3 : pm2.fixCounts = pm.fixCounts)
    (hp : ∀ i, (frameAt pm2.frames i).pageNum = (frameAt pm.frames i).pageNum)
    (hd : ∀ i, (frameAt pm2.frames i).dirty = (frameAt pm.frames i).dirty)
    (hf : ∀ i, (frameAt pm2.frames i).fixCount = (frameAt pm.frames i).fixCount) :
    refreshSnapshots pm2 = pm2 := by
  obtain ⟨a, b, c⟩ := (fresh_iff pm).mp h
  refine (fresh_iff pm2).mpr ⟨?_, ?_, ?_⟩
  · rw [h1, a, hcap]; exact List.map_congr_left (fun i _ => (hp i).symm)
  · rw [h2, b, hcap]; exact List.map_congr_left (fun i _ => (hd i).symm)
  · rw [h3, c, hcap]; exact List.map_congr_left (fun i _ => (hf i).symm)


theorem target_props_s {pm : PoolMgmt} {t : Nat} {pmT : PoolMgmt} (hs : SInv pm)
    (ht : IsTarget pm t pmT) :
    FileOk pmT.fhandle ∧ pmT.fhandle.totalNumPages = pm.fhandle.totalNumPages ∧
      (∀ k v, pm.ptab.has k v → v ≠ (t : Int) → pmT.ptab.has k v) ∧
      storePages pmT.fhandle =
        (if (frameAt pm.frames t).dirty = true
         then (storePages pm.fhandle).set (frameAt pm.frames t).pageNum.toNat (frameAt pm.frames t).data
         else storePages pm.fhandle) ∧
      pmT.numWriteIO = (if (frameAt pm.frames t).dirty = true then wrapInt (pm.numWriteIO + 1)
                        else pm.numWriteIO) ∧
      (frameAt pmT.frames t).dirty = false := by
  have hw := hs.w
  rcases ht with ⟨he, rfl⟩ | ⟨he, hv, hf, rfl⟩
  · rcases findEmptyFrame_spec pmT with ⟨a, _⟩ | ⟨i, a, b, c, d, _⟩
    · rw [a] at he; omega
    · have : i = t := by rw [a] at he; omega
      subst this
      have hd := (hw.empty i c).2
      rw [hd]
      exact ⟨hs.ok, rfl, fun k v hkv _ => hkv, by simp, by simp, rfl⟩
  · obtain ⟨v1, v2, v3, v4, v5⟩ := victim_props hw
    rcases v5 with e | ⟨v, e, hvl, hel⟩
    · rw [e] at hv; omega
    · have : v = t := by rw [e] at hv; omega
      subst this
      obtain ⟨f1, f2, f3, f4, f5, _⟩ := flush_props v1 v
      have hrel : ∀ i, SameButFlags (frameAt pm.frames i)
          (frameAt (flushIfDirty (selectVictim pm).2 v).2.frames i) :=
        fun i => (v4 i).flags.trans (f4 i).1
      have hold : (frameAt (flushIfDirty (selectVictim pm).2 v).2.frames v).pageNum ≠ NO_PAGE := by
        rw [(hrel v).1]; exact hel.2
      rw [if_pos hold]
      have hdel := del_spec f1.pt (frameAt (flushIfDirty (selectVictim pm).2 v).2.frames v).pageNum
      have hpt : (flushIfDirty (selectVictim pm).2 v).2.ptab = pm.ptab := by rw [f2, v2]
      have hfile : (selectVictim pm).2.fhandle = pm.fhandle := by rw [v2]
      have hwio : PoolMgmt.numWriteIO (selectVictim pm).2 = pm.numWriteIO := by rw [v2]
      have hokv : FileOk (selectVictim pm).2.fhandle := by rw [hfile]; exact hs.ok
      have hpn : (frameAt (selectVictim pm).2.frames v).pageNum = (frameAt pm.frames v).pageNum :=
        (v4 v).1
      have hdt : (frameAt (selectVictim pm).2.frames v).data = (frameAt pm.frames v).data :=
        (v4 v).2.1
      have hdy : (frameAt (selectVictim pm).2.frames v).dirty = (frameAt pm.frames v).dirty :=
        (v4 v).2.2.1
      have hp0 : 0 ≤ (frameAt pm.frames v).pageNum := by
        have := hw.pages v
        have := hel.2
        unfold NO_PAGE at this
        omega
      have hhas : ∀ k w, pm.ptab.has k w → w ≠ (v : Int) →
          (ptab_del (flushIfDirty (selectVictim pm).2 v).2.ptab
            (frameAt (flushIfDirty (selectVictim pm).2 v).2.frames v).pageNum).has k w := by
        intro k w hkw hne
        refine (hdel.2.2 k w).mpr ⟨fun hk => hne ?_, by rw [hpt]; exact hkw⟩
        rw [(hrel v).1] at hk
        have h2 := hs.complete v hvl hel.2
        rw [← hk] at h2
        exact has_unique hw.pt hkw h2
      cases hd : (frameAt pm.frames v).dirty with
      | false =>
        have hnoop := flushIfDirty_noop (selectVictim pm).2 v (Or.inr (by rw [hdy]; exact hd))
        simp only [hnoop]
        refine ⟨hokv, by rw [hfile], ?_, by rw [hfile]; simp, by rw [hwio]; simp, by rw [hdy]; exact hd⟩
        intro k w hkw hne
        have := hhas k w hkw hne
        rw [hnoop] at this
        exact this
      | true =>
        have hcov : (frameAt pm.frames v).pageNum < pm.fhandle.totalNumPages := by
          by_contra hc
          have hb : 2147483647 ≤ (frameAt pm.frames v).pageNum := by
            rcases hw.covered v with c | c
            · exact absurd c hc
            · exact c
          exact (flushIfDirty_big (selectVictim pm).2 v hokv.wf (by rw [hpn]; exact hel.2)
            (by rw [hdy]; exact hd) (by rw [hpn, hfile]; omega) (by rw [hpn]; exact hb)).1 hf
        obtain ⟨fh, g1, g2, g3, g4⟩ := flushIfDirty_ok (selectVictim pm).2 v hokv
          (by rw [hpn]; exact hp0) (by rw [hdy]; exact hd)
          (Or.inr (by rw [hpn, hfile]; exact hcov))
        have hpad : ((frameAt (selectVictim pm).2.frames v).pageNum + 1 -
            (selectVictim pm).2.fhandle.totalNumPages).toNat = 0 := by
          rw [hpn, hfile]; omega
        rw [hpad, hpn, hdt, hfile] at g4
        simp only [List.replicate_zero, List.append_nil] at g4
        have hlen : fh.totalNumPages = pm.fhandle.totalNumPages := by
          rw [g2.wf.len, hs.ok.wf.len, g4]; simp
        have hh := hhas
        rw [g1] at hh ⊢
        refine ⟨g2, hlen, hh, ?_, ?_, ?_⟩
        · simp only [if_true]; exact g4
        · simp only [if_true]; show wrapInt (PoolMgmt.numWriteIO (selectVictim pm).2 + 1) = _; rw [hwio]
        · have := f5 hf
          rw [g1] at this
          exact this


theorem SInv.miss {pm : PoolMgmt} (hs : SInv pm) {p : Int} (h : ptab_get pm.ptab p < 0) (i : Nat) :
    (frameAt pm.frames i).pageNum ≠ p ∨ (frameAt pm.frames i).pageNum = NO_PAGE := by
  by_cases hi : i < pm.frames.length
  · by_cases he : (frameAt pm.frames i).pageNum = NO_PAGE
    · exact Or.inr he
    · left
      intro hp
      have := hs.complete i hi he
      rw [hp] at this
      have := get_of_has hs.w.pt this
      omega
  · right
    rw [frameAt_default (by omega)]
    rfl

theorem SInv.ticked {pm : PoolMgmt} (hs : SInv pm) : SInv { pm with tick := pm.tick + 1 } :=
  { w := hs.w.tick, complete := hs.complete, ok := hs.ok }

theorem flush_ok_of_fileOk {pm : PoolMgmt} (hw : WInv pm) (hok : FileOk pm.fhandle) (idx : Nat)
    (hsm : (frameAt pm.frames idx).dirty = true → (frameAt pm.frames idx).pageNum < 2147483647) :
    (flushIfDirty pm idx).1 = RC.RC_OK ∧ FileOk (flushIfDirty pm idx).2.fhandle := by
  by_cases hc : (frameAt pm.frames idx).pageNum = NO_PAGE ∨ (frameAt pm.frames idx).dirty = false
  · rw [flushIfDirty_noop pm idx hc]; exact ⟨rfl, hok⟩
  · have h1 : (frameAt pm.frames idx).pageNum ≠ NO_PAGE := fun h => hc (Or.inl h)
    have h2 : (frameAt pm.frames idx).dirty = true := by
      cases hd : (frameAt pm.frames idx).dirty with
      | false => exact absurd (Or.inr hd) hc
      | true => rfl
    have hp0 : 0 ≤ (frameAt pm.frames idx).pageNum := by
      have := hw.pages idx
      unfold NO_PAGE at h1
      omega
    obtain ⟨fh, g1, g2, _⟩ := flushIfDirty_ok pm idx hok hp0 h2 (Or.inl (hsm h2))
    rw [g1]; exact ⟨rfl, g2⟩

theorem victim_writable {pm : PoolMgmt} (hw : WInv pm) (hwr : Writable pm) (v : Nat) :
    (frameAt (selectVictim pm).2.frames v).dirty = true →
      (frameAt (selectVictim pm).2.frames v).pageNum < 2147483647 := by
  obtain ⟨_, _, _, v4, _⟩ := victim_props hw
  intro h
  rw [(v4 v).1]
  exact hwr v (by rw [← (v4 v).2.2.1]; exact h)

theorem pin_miss_rel (bm : BM_BufferPool) (page : BM_PageHandle) (p : Int) (pm0 : PoolMgmt)
    (hbm : bm.mgmtData = some pm0) (hs : SInv pm0) (hp : 0 ≤ p)
    (miss : ptab_get pm0.ptab p < 0) (hwr : Writable pm0) :
    (findEmptyFrame { pm0 with tick := pm0.tick + 1 } < 0 ∧
        (selectVictim { pm0 with tick := pm0.tick + 1 }).1 < 0 ∧
        pinPage bm page p = (RC.RC_WRITE_FAILED,
          { bm with mgmtData := some (selectVictim { pm0 with tick := pm0.tick + 1 }).2 }, page)) ∨
    ∃ t pmT fh reads buf, IsTarget { pm0 with tick := pm0.tick + 1 } t pmT ∧
      pinPage bm page p = (RC.RC_OK,
        { bm with mgmtData := some (refreshSnapshots
            { pmT with fhandle := fh, numReadIO := reads,
                       frames := pmT.frames.set t
                         { pageNum := p, data := buf, dirty := false, fixCount := 1,
                           lastUsed := pmT.tick, fifoPos := pmT.tick, refbit := true },
                       ptab := (ptab_put pmT.ptab p (t : Int)).2 }) },
        { pageNum := p, data := some t }) ∧
      (reads = pmT.numReadIO ∨ reads = wrapInt (pmT.numReadIO + 1)) ∧
      FileOk fh ∧ pmT.fhandle.totalNumPages ≤ fh.totalNumPages ∧
      (p < fh.totalNumPages ∨ 2147483647 ≤ p) := by
  have hwt := hs.w.tick
  have hst := hs.ticked
  rcases pin_miss bm page p pm0 hbm hp miss with ⟨e1, e2, e3⟩ | ⟨e1, e2, e3, _⟩ | ⟨t, pmT, ht, e⟩
  · exact Or.inl ⟨e1, e2, e3⟩
  · exfalso
    obtain ⟨v1, v2, _⟩ := victim_props hwt
    have hokv : FileOk (selectVictim ({ pm0 with tick := pm0.tick + 1 } : PoolMgmt)).2.fhandle := by
      rw [v2]; exact hs.ok
    exact e3 (flush_ok_of_fileOk v1 hokv _ (victim_writable hwt hwr _)).1
  · right
    obtain ⟨a1, a2, a3, a4, a5, a6, a7, a8, a9, a10, a11⟩ := target_props hwt ht
    obtain ⟨b1, b2, b3, b4, b5, b6⟩ := target_props_s hst ht
    obtain ⟨fh, reads, buf, c1, c2⟩ := load_eq_rel bm page p pmT t (by rw [a3]; exact a2) b1 hp
    exact ⟨t, pmT, fh, reads, buf, ht, by rw [e, c1], c2⟩

theorem pin_miss_cases (bm : BM_BufferPool) (page : BM_PageHandle) (p : Int) (pm0 : PoolMgmt)
    (hbm : bm.mgmtData = some pm0) (hs : SInv pm0) (hp : 0 ≤ p)
    (miss : ptab_get pm0.ptab p < 0) (hwr : Writable pm0) (hp2 : p < 2147483647) :
    (findEmptyFrame { pm0 with tick := pm0.tick + 1 } < 0 ∧
        (selectVictim { pm0 with tick := pm0.tick + 1 }).1 < 0 ∧
        pinPage bm page p = (RC.RC_WRITE_FAILED,
          { bm with mgmtData := some (selectVictim { pm0 with tick := pm0.tick + 1 }).2 }, page)) ∨
    ∃ t pmT fh buf, IsTarget { pm0 with tick := pm0.tick + 1 } t pmT ∧
      pinPage bm page p = (RC.RC_OK,
        { bm with mgmtData := some (refreshSnapshots
            { pmT with fhandle := fh, numReadIO := wrapInt (pmT.numReadIO + 1),
                       frames := pmT.frames.set t
                         { pageNum := p, data := buf, dirty := false, fixCount := 1,
                           lastUsed := pmT.tick, fifoPos := pmT.tick, refbit := true },
                       ptab := (ptab_put pmT.ptab p (t : Int)).2 }) },
        { pageNum := p, data := some t }) ∧
      FileOk fh ∧ pmT.fhandle.totalNumPages ≤ fh.totalNumPages ∧ p < fh.totalNumPages ∧
      storePages fh = storePages pmT.fhandle ++
        List.replicate (p + 1 - pmT.fhandle.totalNumPages).toNat zeroPage ∧
      storePage fh p = some buf := by
  have hwt := hs.w.tick
  have hst := hs.ticked
  rcases pin_miss bm page p pm0 hbm hp miss with ⟨e1, e2, e3⟩ | ⟨e1, e2, e3, _⟩ | ⟨t, pmT, ht, e⟩
  · exact Or.inl ⟨e1, e2, e3⟩
  · exfalso
    obtain ⟨v1, v2, _⟩ := victim_props hwt
    have hokv : FileOk (selectVictim ({ pm0 with tick := pm0.tick + 1 } : PoolMgmt)).2.fhandle := by
      rw [v2]; exact hs.ok
    exact e3 (flush_ok_of_fileOk v1 hokv _ (victim_writable hwt hwr _)).1
  · right
    obtain ⟨a1, a2, a3, a4, a5, a6, a7, a8, a9, a10, a11⟩ := target_props hwt ht
    obtain ⟨b1, b2, b3, b4, b5, b6⟩ := target_props_s hst ht
    obtain ⟨fh, buf, c1, c2⟩ := load_eq_ok bm page p pmT t (by rw [a3]; exact a2) b1 hp
      (Or.inl hp2)
    exact ⟨t, pmT, fh, buf, ht, by rw [e, c1], c2⟩

theorem all_pinned_of_no_victim {pm : PoolMgmt} (hw : WInv pm) (htick : pm.tick < 0x7fffffffffffffff)
    (e1 : findEmptyFrame pm < 0) (e2 : (selectVictim pm).1 < 0) :
    selectVictim pm = (-1, pm) ∧ ∀ i, i < pm.frames.length → (frameAt pm.frames i).fixCount ≠ 0 := by
  have hstamp : ∀ i, (frameAt pm.frames i).fifoPos < 0x7fffffffffffffff ∧
      (frameAt pm.frames i).lastUsed < 0x7fffffffffffffff := by
    intro i
    have := hw.stamps i
    omega
  obtain ⟨n1, n2⟩ := selectVictim_none _ hw.cap_pos hw.len hw.hand.1 hstamp e2
  refine ⟨n1, fun i hi h0 => ?_⟩
  by_cases hemp : (frameAt pm.frames i).pageNum = NO_PAGE
  · rcases findEmptyFrame_spec pm with ⟨_, b⟩ | ⟨j, a, _⟩
    · exact b i (by rw [← hw.len]; exact hi) ⟨hemp, h0⟩
    · rw [a] at e1; omega
  · exact n2 i ⟨h0, hemp⟩

theorem SInv.after_load {pm : PoolMgmt} {t : Nat} {pmT : PoolMgmt} {p : Int} (hs : SInv pm)
    (ht : IsTarget pm t pmT) (hp : 0 ≤ p) (miss : ptab_get pm.ptab p < 0)
    (fh : SM_FileHandle) (reads : Int) (buf : PageData) (hok : FileOk fh)
    (htot : pmT.fhandle.totalNumPages ≤ fh.totalNumPages)
    (hcov : p < fh.totalNumPages ∨ 2147483647 ≤ p)
    (hreads : reads = pmT.numReadIO ∨ reads = wrapInt (pmT.numReadIO + 1)) :
    SInv (refreshSnapshots
      { pmT with fhandle := fh, numReadIO := reads,
                 frames := pmT.frames.set t
                   { pageNum := p, data := buf, dirty := false, fixCount := 1,
                     lastUsed := pmT.tick, fifoPos := pmT.tick, refbit := true },
                 ptab := (ptab_put pmT.ptab p (t : Int)).2 }) := by
  obtain ⟨a1, a2, a3, a4, a5, a6, a7, a8, a9, a10, a11⟩ := target_props hs.w ht
  obtain ⟨b1, b2, b3, b4, b5, b6⟩ := target_props_s hs ht
  have htl : t < pmT.frames.length := by rw [a3]; exact a2
  have hrd : -2147483648 ≤ reads ∧ reads ≤ 2147483647 := by
    rcases hreads with e | e
    · rw [e]; exact a1.io.1
    · rw [e]; exact wrapInt_range _
  obtain ⟨w, hhas⟩ := a1.load htl hp (fun k v hkv _ => (a11 k v hkv).2) fh reads buf hok.wf htot
    hcov hrd
  refine { w := w.refresh, complete := ?_, ok := hok }
  intro i hi hres
  have hi2 : i < pm.frames.length := by
    have : i < (pmT.frames.set t _).length := hi
    rw [List.length_set, a3] at this
    exact this
  show (ptab_put pmT.ptab p (t : Int)).2.has (frameAt (pmT.frames.set t _) i).pageNum (i : Int)
  have hres2 : (frameAt (pmT.frames.set t _) i).pageNum ≠ NO_PAGE := hres
  rw [frameAt_set_lt htl] at hres2 ⊢
  by_cases e : t = i
  · subst e
    rw [if_pos rfl]
    exact (hhas _ _).mpr (Or.inl ⟨rfl, rfl⟩)
  · rw [if_neg e] at hres2 ⊢
    rw [(a9 i).1] at hres2 ⊢
    have hold := hs.complete i hi2 hres2
    refine (hhas _ _).mpr (Or.inr ⟨?_, b3 _ _ hold (by omega)⟩)
    rcases hs.miss miss i with h | h
    · exact h
    · exact absurd h hres2

theorem SInv.of_same_pages {pm pm2 : PoolMgmt} (hs : SInv pm) (hw : WInv pm2)
    (hlen : pm2.frames.length = pm.frames.length) (hpt : pm2.ptab = pm.ptab)
    (hpage : ∀ i, (frameAt pm2.frames i).pageNum = (frameAt pm.frames i).pageNum)
    (hok : FileOk pm2.fhandle) : SInv pm2 :=
  { w := hw
    complete := by
      intro i hi hres
      rw [hlen] at hi
      rw [hpage] at hres ⊢
      rw [hpt]
      exact hs.complete i hi hres
    ok := hok }

theorem SInv.refreshed {pm : PoolMgmt} (hs : SInv pm) : SInv (refreshSnapshots pm) :=
  hs.of_same_pages hs.w.refresh rfl rfl (fun _ => rfl) hs.ok

theorem flush_sinv {pm : PoolMgmt} (hs : SInv pm) (idx : Nat) :
    SInv (flushIfDirty pm idx).2 := by
  obtain ⟨f1, f2, f3, f4, _⟩ := flush_props hs.w idx
  exact hs.of_same_pages f1 f3 (by rw [f2]) (fun i => (f4 i).1.1)
    (flushIfDirty_fileOk pm idx hs.ok (hs.w.pages idx))

theorem pin_sinv (bm : BM_BufferPool) (page : BM_PageHandle) (p : Int) (pm0 : PoolMgmt)
    (hbm : bm.mgmtData = some pm0) (hs : SInv pm0) :
    ∃ pm, (pinPage bm page p).2.1.mgmtData = some pm ∧ SInv pm := by
  by_cases hp : p < 0
  · rw [pin_negative bm page p pm0 hbm hp]
    exact ⟨pm0, hbm, hs⟩
  · have hp0 : 0 ≤ p := by omega
    obtain ⟨pm, e, hw⟩ := pin_winv bm page p pm0 hbm hs.w
    by_cases hit : 0 ≤ ptab_get pm0.ptab p
    · rw [pin_hit bm page p pm0 hbm hp0 hit] at e ⊢
      obtain ⟨_, r2, r3, r4⟩ := hs.w.resident hit
      simp only [Option.some.injEq] at e
      subst e
      refine ⟨_, rfl, { w := hw, complete := ?_, ok := hs.ok }⟩
      intro i hi hres
      have hi2 : i < pm0.frames.length := by
        have : i < (pm0.frames.set _ _).length := hi
        rw [List.length_set] at this
        exact this
      have hres2 : (frameAt (pm0.frames.set _ _) i).pageNum ≠ NO_PAGE := hres
      show pm0.ptab.has (frameAt (pm0.frames.set _ _) i).pageNum (i : Int)
      rw [frameAt_set_lt r2] at hres2 ⊢
      by_cases e : (ptab_get pm0.ptab p).toNat = i
      · rw [if_pos e] at hres2 ⊢
        rw [← e]
        exact hs.complete _ r2 r4
      · rw [if_neg e] at hres2 ⊢
        exact hs.complete i hi2 hres2
    · have hwt := hs.w.tick
      have hst := hs.ticked
      obtain ⟨v1, v2, v3, v4, _⟩ := victim_props hwt
      have hsv : SInv (selectVictim ({ pm0 with tick := pm0.tick + 1 } : PoolMgmt)).2 :=
        hst.of_same_pages v1 v3 (by rw [v2]) (fun i => (v4 i).1) (by rw [v2]; exact hs.ok)
      rcases pin_miss bm page p pm0 hbm hp0 (by omega) with
        ⟨_, _, e3⟩ | ⟨_, _, _, e3⟩ | ⟨t, pmT, ht, e3⟩
      · rw [e3]
        exact ⟨_, rfl, hsv⟩
      · rw [e3]
        exact ⟨_, rfl, flush_sinv hsv _⟩
      · obtain ⟨a1, a2, a3, a4, a5, a6, a7, a8, a9, a10, a11⟩ := target_props hwt ht
        obtain ⟨b1, b2, b3, b4, b5, b6⟩ := target_props_s hst ht
        obtain ⟨fh, reads, buf, c1, c2, c3, c4, c5⟩ :=
          load_eq_rel bm page p pmT t (by rw [a3]; exact a2) b1 hp0
        rw [e3, c1]
        exact ⟨_, rfl, hst.after_load ht hp0 (by show ptab_get pm0.ptab p < 0; omega) fh reads buf
          c3 c4 c5 c2⟩

theorem unpin_sinv (bm : BM_BufferPool) (page : BM_PageHandle) (pm : PoolMgmt)
    (hbm : bm.mgmtData = some pm) (hs : SInv pm) :
    ∃ pm2, (unpinPage bm page).2.mgmtData = some pm2 ∧ SInv pm2 := by
  obtain ⟨pm2, e, hw⟩ := unpin_winv bm page pm hbm hs.w
  refine ⟨pm2, e, ?_⟩
  rw [unpin_eq bm page pm hbm] at e
  split at e
  · rw [hbm] at e
    simp only [Option.some.injEq] at e
    subst e; exact hs
  · rename_i hneg
    obtain ⟨_, r2, r3, r4⟩ := hs.w.resident (p := page.pageNum) (by omega)
    simp only [Option.some.injEq] at e
    subst e
    split at hw
    · rw [if_pos (by assumption)]
      refine hs.of_same_pages hw (by simp [refreshSnapshots]) rfl ?_ hs.ok
      intro i
      show (frameAt (pm.frames.set _ _) i).pageNum = _
      rw [frameAt_set_lt r2]; split
      · rename_i e; rw [← e]
      · rfl
    · rw [if_neg (by assumption)]
      exact hs.of_same_pages hw rfl rfl (fun _ => rfl) hs.ok

theorem markDirty_sinv (bm : BM_BufferPool) (page : BM_PageHandle) (pm : PoolMgmt)
    (hbm : bm.mgmtData = some pm) (hs : SInv pm) :
    ∃ pm2, (markDirty bm page).2.mgmtData = some pm2 ∧ SInv pm2 := by
  obtain ⟨pm2, e, hw⟩ := markDirty_winv bm page pm hbm hs.w
  refine ⟨pm2, e, ?_⟩
  rw [markDirty_eq bm page pm hbm] at e
  split at e
  · rw [hbm] at e
    simp only [Option.some.injEq] at e
    subst e; exact hs
  · rename_i hneg
    obtain ⟨_, r2, r3, r4⟩ := hs.w.resident (p := page.pageNum) (by omega)
    simp only [Option.some.injEq] at e
    subst e
    refine hs.of_same_pages hw (by simp [refreshSnapshots]) rfl ?_ hs.ok
    intro i
    show (frameAt (pm.frames.set _ _) i).pageNum = _
    rw [frameAt_set_lt r2]; split
    · rename_i e; rw [← e]
    · rfl

theorem forcePage_sinv (bm : BM_BufferPool) (page : BM_PageHandle) (pm : PoolMgmt)
    (hbm : bm.mgmtData = some pm) (hs : SInv pm) :
    ∃ pm2, (forcePage bm page).2.mgmtData = some pm2 ∧ SInv pm2 := by
  rw [forcePage_eq bm page pm hbm]
  split
  · exact ⟨pm, hbm, hs⟩
  · split
    · exact ⟨_, rfl, flush_sinv hs _⟩
    · exact ⟨_, rfl, (flush_sinv hs _).refreshed⟩

theorem flushFrames_sinv (b : Bool) : ∀ (l : List Nat) (pm : PoolMgmt),
    SInv pm → SInv (flushFrames b l pm).2 := by
  intro l
  induction l with
  | nil => intro pm hs; exact hs
  | cons i rest ih =>
    intro pm hs
    simp only [flushFrames]
    split
    · split
      · exact flush_sinv hs i
      · exact ih _ (flush_sinv hs i)
    · exact ih _ hs

theorem flushFrames_ok (b : Bool) : ∀ (l : List Nat) (pm : PoolMgmt), SInv pm →
    (∀ k, Flushed b (frameAt pm.frames k) → (frameAt pm.frames k).pageNum < 2147483647) →
    (flushFrames b l pm).1 = RC.RC_OK := by
  intro l
  induction l with
  | nil => intro pm _ _; rfl
  | cons i rest ih =>
    intro pm hs hsm
    simp only [flushFrames]
    split
    · rename_i hg
      have hok := (flush_ok_of_fileOk hs.w hs.ok i (fun hd => hsm i ⟨hg, hd⟩)).1
      rw [if_neg (fun h => h hok)]
      obtain ⟨f1, f2, f3, f4, _⟩ := flush_props hs.w i
      refine ih _ (flush_sinv hs i) (fun k hk => ?_)
      rw [(f4 k).1.1]
      refine hsm k ⟨?_, (f4 k).2.2.2 hk.2⟩
      rcases hk.1 with h | h
      · exact Or.inl h
      · exact Or.inr (by rw [← (f4 k).1.2.2.1]; exact h)
    · exact ih _ hs hsm

theorem forceFlushPool_sinv (bm : BM_BufferPool) (pm : PoolMgmt)
    (hbm : bm.mgmtData = some pm) (hs : SInv pm) :
    ∃ pm2, (forceFlushPool bm).2.mgmtData = some pm2 ∧ SInv pm2 := by
  rw [forceFlushPool_eq bm pm hbm]
  have g := flushFrames_sinv true (List.range pm.capacity.toNat) pm hs
  split
  · exact ⟨_, rfl, g⟩
  · exact ⟨_, rfl, g.refreshed⟩

theorem clientWrite_sinv (bm : BM_BufferPool) (page : BM_PageHandle) (B : PageData) (pm : PoolMgmt)
    (hbm : bm.mgmtData = some pm) (hs : SInv pm) :
    ∃ pm2, (clientWrite bm page B).mgmtData = some pm2 ∧ SInv pm2 := by
  obtain ⟨pm2, e, hw⟩ := clientWrite_winv bm page B pm hbm hs.w
  refine ⟨pm2, e, ?_⟩
  unfold clientWrite at e
  rw [hbm] at e
  cases hd : page.data with
  | none =>
    rw [hd] at e
    simp only at e
    rw [hbm] at e
    simp only [Option.some.injEq] at e
    subst e; exact hs
  | some i =>
    rw [hd] at e
    simp only at e
    split at e
    · rename_i hlt
      simp only [Option.some.injEq] at e
      subst e
      have hrel : ∀ j, (frameAt (pm.frames.set i { (frameAt pm.frames i) with data := B }) j).pageNum
            = (frameAt pm.frames j).pageNum := by
        intro j
        rw [frameAt_set_lt hlt]
        split
        · rename_i e; subst e; rfl
        · rfl
      exact hs.of_same_pages hw (by simp) rfl hrel hs.ok
    · rw [hbm] at e
      simp only [Option.some.injEq] at e
      subst e; exact hs

theorem step_sinv {bm bm2 : BM_BufferPool} (hst : Step bm bm2)
    (h : ∃ pm, bm.mgmtData = some pm ∧ SInv pm) : ∃ pm, bm2.mgmtData = some pm ∧ SInv pm := by
  obtain ⟨pm, hbm, hs⟩ := h
  have hr : SInv (refreshSnapshots pm) := hs.refreshed
  cases hst with
  | pin page p => exact pin_sinv bm page p pm hbm hs
  | unpin page => exact unpin_sinv bm page pm hbm hs
  | dirty page => exact markDirty_sinv bm page pm hbm hs
  | force page => exact forcePage_sinv bm page pm hbm hs
  | flush => exact forceFlushPool_sinv bm pm hbm hs
  | contents => exact ⟨refreshSnapshots pm, by simp only [getFrameContents, hbm], hr⟩
  | flags => exact ⟨refreshSnapshots pm, by simp only [getDirtyFlags, hbm], hr⟩
  | counts => exact ⟨refreshSnapshots pm, by simp only [getFixCounts, hbm], hr⟩
  | write page B => exact clientWrite_sinv bm page B pm hbm hs

theorem reachableFrom_sinv {file : OSFile} {bm : BM_BufferPool} (hn : NoFaults file)
    (h : ReachableFrom file bm) : ∃ pm, bm.mgmtData = some pm ∧ SInv pm := by
  induction h with
  | init bm0 name n strat heap bm hinit =>
    obtain ⟨pm, a, b, c, d, e⟩ := init_winv hinit
    refine ⟨pm, a, { w := b, complete := fun i _ hres => absurd (d i) hres, ok := e hn }⟩
  | step bm bm2 _ hs ih => exact step_sinv hs ih

theorem reliable_sinv {bm : BM_BufferPool} (h : ReachableReliable bm) :
    ∃ pm, bm.mgmtData = some pm ∧ SInv pm := by
  obtain ⟨file, hn, hf⟩ := h
  exact reachableFrom_sinv hn hf

/-! ## Lemmas for the claims -/

theorem reach_pinUnpin {file : OSFile} {bm : BM_BufferPool} (h : ReachableFrom file bm) (p : Int) :
    ReachableFrom file (pinUnpin bm p) :=
  ReachableFrom.step _ _ (ReachableFrom.step _ _ h (Step.pin bm blankHandle p)) (Step.unpin _ _)

theorem reach_freshPool (n : Int) (s : ReplacementStrategy)
    (h : (initBufferPool blankPool "pages.bin" (some oneBlankPage) n s []).1 = RC.RC_OK) :
    ReachableReliable (freshPool n s) :=
  ⟨oneBlankPage, fun b hb => by simp [oneBlankPage] at hb,
    ReachableFrom.init blankPool "pages.bin" n s [] _ (Prod.ext h rfl)⟩

theorem ReachableReliable.step {bm bm2 : BM_BufferPool} (h : ReachableReliable bm) (hs : Step bm bm2) :
    ReachableReliable bm2 := by
  obtain ⟨file, hn, hf⟩ := h
  exact ⟨file, hn, ReachableFrom.step _ _ hf hs⟩

theorem ReachableReliable.reachable {bm : BM_BufferPool} (h : ReachableReliable bm) : Reachable bm := by
  obtain ⟨file, _, hf⟩ := h
  exact ⟨file, hf⟩

theorem ReachableReliable.pinUnpin {bm : BM_BufferPool} (h : ReachableReliable bm) (p : Int) :
    ReachableReliable (pinUnpin bm p) :=
  (h.step (Step.pin bm blankHandle p)).step (Step.unpin _ _)

theorem pin_pageNum_change {bm : BM_BufferPool} {pm0 pm1 : PoolMgmt} (page : BM_PageHandle) (p : Int)
    (hbm : bm.mgmtData = some pm0) (hw : WInv pm0)
    (hres : (pinPage bm page p).2.1.mgmtData = some pm1) (i : Nat)
    (hne : (frameAt pm1.frames i).pageNum ≠ (frameAt pm0.frames i).pageNum) :
    (frameAt pm0.frames i).fixCount = 0 := by
  by_cases hp : p < 0
  · rw [pin_negative bm page p pm0 hbm hp, hbm] at hres
    simp only [Option.some.injEq] at hres
    subst hres; exact absurd rfl hne
  · have hp0 : 0 ≤ p := by omega
    by_cases hit : 0 ≤ ptab_get pm0.ptab p
    · rw [pin_hit bm page p pm0 hbm hp0 hit] at hres
      obtain ⟨_, r2, _, _⟩ := hw.resident hit
      simp only [Option.some.injEq] at hres
      subst hres
      exfalso
      apply hne
      show (frameAt (pm0.frames.set _ _) i).pageNum = _
      rw [frameAt_set_lt r2]; split
      · rename_i e; rw [← e]
      · rfl
    · have hwt := hw.tick
      rcases pin_miss bm page p pm0 hbm hp0 (by omega) with ⟨_, _, e⟩ | ⟨_, _, _, e⟩ | ⟨t, pmT, ht, e⟩
      · rw [e] at hres
        simp only [Option.some.injEq] at hres
        subst hres
        exact absurd ((victim_props hwt).2.2.2.1 i).1 hne
      · rw [e] at hres
        simp only [Option.some.injEq] at hres
        subst hres
        have h1 := ((victim_props hwt).2.2.2.1 i).1
        have h2 := ((flush_props (victim_props hwt).1
          (selectVictim ({ pm0 with tick := pm0.tick + 1 } : PoolMgmt)).1.toNat).2.2.2.1 i).1.1
        exact absurd (h2.trans h1) hne
      · rw [e] at hres
        obtain ⟨a1, a2, a3, a4, a5, a6, a7, a8, a9, a10, a11⟩ := target_props hwt ht
        have htl : t < pmT.frames.length := by rw [a3]; exact a2
        rcases load_eq bm page p pmT t htl with ⟨rc, fh, b1, b2, b3⟩ | ⟨fh, reads, buf, b2, b3, b4⟩
        · rw [b2] at hres
          simp only [Option.some.injEq] at hres
          subst hres
          exact absurd (a9 i).1 hne
        · rw [b2] at hres
          simp only [Option.some.injEq] at hres
          subst hres
          have hne2 : (frameAt (pmT.frames.set t _) i).pageNum ≠ (frameAt pm0.frames i).pageNum := hne
          rw [frameAt_set_lt htl] at hne2
          by_cases e2 : t = i
          · subst e2; exact a8
          · rw [if_neg e2] at hne2
            exact absurd (a9 i).1 hne2

theorem onePinned_reachable : ReachableReliable onePinned :=
  ((reach_freshPool 2 ReplacementStrategy.RS_FIFO (by decide)).step (Step.pin _ blankHandle 0)).pinUnpin 1

theorem bothPinned_reachable : ReachableReliable bothPinned :=
  ((reach_freshPool 2 ReplacementStrategy.RS_FIFO (by decide)).step (Step.pin _ blankHandle 0)).step
    (Step.pin _ blankHandle 1)

theorem ReachableReliable.pinWrite {bm : BM_BufferPool} (h : ReachableReliable bm) (p : Int)
    (B : PageData) : ReachableReliable (pinWrite bm p B) :=
  ((h.step (Step.pin bm blankHandle p)).step (Step.write _ _ B)).step (Step.dirty _ _)

theorem dirtyPinned_reachable : ReachableReliable dirtyPinned :=
  (reach_freshPool 2 ReplacementStrategy.RS_FIFO (by decide)).pinWrite 0 onesPage

theorem unmarkedWrite_reachable : ReachableReliable unmarkedWrite :=
  (((reach_freshPool 2 ReplacementStrategy.RS_FIFO (by decide)).step (Step.pin _ blankHandle 0)).step
    (Step.write _ _ onesPage)).step (Step.unpin _ _)

theorem twoDirty_reachable : ReachableReliable twoDirty :=
  (dirtyPinned_reachable.pinWrite 1 onesPage).step (Step.unpin _ _)

theorem target_choice {pm : PoolMgmt} {t : Nat} {pmT : PoolMgmt} (hw : WInv pm)
    (ht : IsTarget pm t pmT) :
    ((frameAt pm.frames t).pageNum = NO_PAGE ∧
        ∀ j, j < t → (frameAt pm.frames j).pageNum ≠ NO_PAGE) ∨
      ((∀ j, j < pm.frames.length → (frameAt pm.frames j).pageNum ≠ NO_PAGE) ∧
        (selectVictim pm).1 = (t : Int)) := by
  rcases ht with ⟨he, _⟩ | ⟨he, hv, _, _⟩
  · left
    rcases findEmptyFrame_spec pm with ⟨a, _⟩ | ⟨i, a, b, c, d, e⟩
    · rw [a] at he; omega
    · have : i = t := by rw [a] at he; omega
      subst this
      exact ⟨c, fun j hj hc => e j hj ⟨hc, (hw.empty j hc).1⟩⟩
  · right
    refine ⟨fun j hj hc => ?_, hv⟩
    rcases findEmptyFrame_spec pm with ⟨_, b⟩ | ⟨i, a, _⟩
    · exact b j (by rw [← hw.len]; exact hj) ⟨hc, (hw.empty j hc).1⟩
    · rw [a] at he; omega

theorem reach_writeBack {file : OSFile} {bm : BM_BufferPool} (h : ReachableFrom file bm) (p : Int)
    (B : PageData) : ReachableFrom file (writeBack bm p B) :=
  ReachableFrom.step _ _ (ReachableFrom.step _ _ (ReachableFrom.step _ _
    (ReachableFrom.step _ _ h (Step.pin bm blankHandle p)) (Step.write _ _ B)) (Step.dirty _ _))
    (Step.unpin _ _)

theorem dirtyOverFailing_reachable : Reachable dirtyOverFailing :=
  ⟨writeFailsFile, reach_writeBack (ReachableFrom.init blankPool "pages.bin" 1
    ReplacementStrategy.RS_FIFO [] _ (Prod.ext (by decide) rfl)) 0 onesPage⟩

theorem beforeFailedLoad_reachable : Reachable beforeFailedLoad :=
  ⟨diskFullFile, reach_pinUnpin (reach_pinUnpin (ReachableFrom.init blankPool "pages.bin" 2
    ReplacementStrategy.RS_CLOCK [] _ (Prod.ext (by decide) rfl)) 0) 1⟩

theorem dirtyOverFull_reachable : Reachable dirtyOverFull :=
  ⟨growFailsFile, reach_writeBack (ReachableFrom.init blankPool "pages.bin" 1
    ReplacementStrategy.RS_FIFO [] _ (Prod.ext (by decide) rfl)) 0 onesPage⟩

theorem threeLoaded_reachable (s : ReplacementStrategy)
    (h : (initBufferPool blankPool "pages.bin" (some oneBlankPage) 3 s []).1 = RC.RC_OK) :
    ReachableReliable (threeLoaded s) :=
  (((reach_freshPool 3 s h).pinUnpin 0).pinUnpin 1).pinUnpin 2

theorem overUnreadable_reachable : Reachable overUnreadable :=
  ⟨readFailsFile, ReachableFrom.init blankPool "pages.bin" 1
    ReplacementStrategy.RS_FIFO [] _ (Prod.ext (by decide) rfl)⟩

theorem writable_of_all {pm : PoolMgmt}
    (h : ∀ f, f ∈ pm.frames → f.dirty = true → f.pageNum < 2147483647) : Writable pm := by
  intro i hi
  by_cases hl : i < pm.frames.length
  · have e : frameAt pm.frames i = pm.frames[i] := by
      simp only [frameAt, List.getElem?_eq_getElem hl, Option.getD_some]
    rw [e] at hi ⊢
    exact h _ (List.getElem_mem hl) hi
  · rw [frameAt_default (by omega)] at hi
    exact Bool.noConfusion hi

theorem reach_pinTimes {file : OSFile} {bm : BM_BufferPool} (h : ReachableFrom file bm) :
    ∀ n, ReachableFrom file (pinTimes n bm) := by
  intro n
  induction n with
  | zero => exact h
  | succ k ih => exact ReachableFrom.step _ _ ih (Step.pin _ blankHandle 0)

theorem wrapInt_max : wrapInt (2147483647 + 1) = -2147483648 := by
  unfold wrapInt
  omega

theorem pin_hit_frame {bm : BM_BufferPool} {pm : PoolMgmt} (page : BM_PageHandle) {p : Int}
    {i : Nat} (hbm : bm.mgmtData = some pm) (hp : 0 ≤ p) (hget : ptab_get pm.ptab p = (i : Int))
    (hl : i < pm.frames.length) :
    ∃ pm1, (pinPage bm page p).2.1.mgmtData = some pm1 ∧ (pinPage bm page p).1 = RC.RC_OK ∧
      pm1.ptab = pm.ptab ∧ pm1.frames.length = pm.frames.length ∧
      frameAt pm1.frames i = { (frameAt pm.frames i) with
        fixCount := wrapInt ((frameAt pm.frames i).fixCount + 1),
        lastUsed := pm.tick + 1, refbit := true } := by
  have hit : 0 ≤ ptab_get pm.ptab p := by rw [hget]; omega
  have e := pin_hit bm page p pm hbm hp hit
  rw [hget, Int.toNat_natCast] at e
  rw [e]
  refine ⟨_, rfl, rfl, rfl, ?_, ?_⟩
  · show (pm.frames.set _ _).length = _
    rw [List.length_set]
  · show frameAt (pm.frames.set _ _) i = _
    rw [frameAt_set_self hl]

theorem pinTimes_state : ∀ n : Nat, 1 ≤ n →
    ∃ pm, (pinTimes n (freshPool 1 ReplacementStrategy.RS_FIFO)).mgmtData = some pm ∧
      ptab_get pm.ptab 0 = ((0 : Nat) : Int) ∧ pm.frames.length = 1 ∧
      (frameAt pm.frames 0).fixCount = wrapInt (n : Int) ∧ (frameAt pm.frames 0).pageNum = 0 ∧
      (frameAt pm.frames 0).dirty = false := by
  intro n hn
  induction n, hn using Nat.le_induction with
  | base =>
    exact ⟨mgmtOf (pinPage (freshPool 1 ReplacementStrategy.RS_FIFO) blankHandle 0).2.1, rfl,
      by decide, by decide, by decide, by decide, by decide⟩
  | succ k hk ih =>
    obtain ⟨pm, e, h1, h2, h3, h4, h5⟩ := ih
    obtain ⟨pm1, e1, _, p1, p2, p3⟩ := pin_hit_frame blankHandle e (le_refl _) h1
      (by rw [h2]; decide)
    refine ⟨pm1, e1, by rw [p1]; exact h1, by rw [p2]; exact h2, ?_, ?_, ?_⟩
    · rw [p3]
      show wrapInt ((frameAt pm.frames 0).fixCount + 1) = _
      rw [h3, wrapInt_add]
      push_cast
      rfl
    · rw [p3]; exact h4
    · rw [p3]; exact h5

theorem maxPinned_state :
    ∃ pm, maxPinned.mgmtData = some pm ∧ ptab_get pm.ptab 0 = ((0 : Nat) : Int) ∧
      pm.frames.length = 1 ∧
      (frameAt pm.frames 0).fixCount = 2147483647 ∧ (frameAt pm.frames 0).pageNum = 0 ∧
      (frameAt pm.frames 0).dirty = false := by
  obtain ⟨pm, e, h1, h2, h3, h4, h5⟩ := pinTimes_state 2147483647 (by omega)
  refine ⟨pm, e, h1, h2, ?_, h4, h5⟩
  rw [h3]
  unfold wrapInt
  push_cast

theorem overPinned_state :
    ∃ pm, overPinned.mgmtData = some pm ∧ ptab_get pm.ptab 0 = ((0 : Nat) : Int) ∧
      pm.frames.length = 1 ∧
      (frameAt pm.frames 0).fixCount = -2147483648 ∧ (frameAt pm.frames 0).pageNum = 0 ∧
      (frameAt pm.frames 0).dirty = false := by
  obtain ⟨pm, e, h1, h2, h3, h4, h5⟩ := pinTimes_state 2147483648 (by omega)
  refine ⟨pm, e, h1, h2, ?_, h4, h5⟩
  rw [h3]
  unfold wrapInt
  push_cast

theorem maxPinned_reachable : ReachableReliable maxPinned := by
  obtain ⟨file, hn, hf⟩ := reach_freshPool 1 ReplacementStrategy.RS_FIFO (by decide)
  exact ⟨file, hn, reach_pinTimes hf 2147483647⟩

theorem overPinned_reachable : ReachableReliable overPinned := by
  obtain ⟨file, hn, hf⟩ := reach_freshPool 1 ReplacementStrategy.RS_FIFO (by decide)
  exact ⟨file, hn, reach_pinTimes hf 2147483648⟩

theorem largeDirty_reachable : ReachableReliable largeDirty := by
  obtain ⟨file, hn, hf⟩ := reach_freshPool 1 ReplacementStrategy.RS_FIFO (by decide)
  exact ⟨file, hn, reach_writeBack hf _ _⟩

theorem largeDirtyClock_reachable : ReachableReliable largeDirtyClock := by
  obtain ⟨file, hn, hf⟩ := reach_freshPool 2 ReplacementStrategy.RS_CLOCK (by decide)
  exact ⟨file, hn, reach_writeBack hf _ _⟩

theorem staleSnapshots_reachable : ReachableReliable staleSnapshots := by
  obtain ⟨file, hn, hf⟩ := reach_freshPool 2 ReplacementStrategy.RS_FIFO (by decide)
  exact ⟨file, hn, ReachableFrom.step _ _ (reach_writeBack (reach_writeBack hf _ _) _ _)
    (Step.flush _)⟩

theorem largeDirty_write_back_fails :
    (forcePage largeDirty { pageNum := 2147483647, data := none }).1 = RC.RC_WRITE_FAILED ∧
      (forceFlushPool largeDirty).1 = RC.RC_WRITE_FAILED ∧
      (shutdownBufferPool largeDirty).1 = RC.RC_WRITE_FAILED :=
  ⟨by decide, by decide, by decide⟩
/-! ## The store after a flush -/

theorem flush_exact {pm : PoolMgmt} (hw : WInv pm) (hok : FileOk pm.fhandle) (idx : Nat)
    (hsm : (frameAt pm.frames idx).dirty = true → (frameAt pm.frames idx).pageNum < 2147483647) :
    ((frameAt pm.frames idx).dirty = false → flushIfDirty pm idx = (RC.RC_OK, pm)) ∧
      ((frameAt pm.frames idx).dirty = true →
        ∃ fh, flushIfDirty pm idx = (RC.RC_OK,
            { pm with fhandle := fh, numWriteIO := wrapInt (pm.numWriteIO + 1),
                      frames := pm.frames.set idx { (frameAt pm.frames idx) with dirty := false } }) ∧
          FileOk fh ∧ fh.totalNumPages = pm.fhandle.totalNumPages ∧
          storePages fh = (storePages pm.fhandle).set (frameAt pm.frames idx).pageNum.toNat
            (frameAt pm.frames idx).data ∧
          0 ≤ (frameAt pm.frames idx).pageNum ∧
          (frameAt pm.frames idx).pageNum < pm.fhandle.totalNumPages) := by
  refine ⟨fun h => flushIfDirty_noop pm idx (Or.inr h), fun h2 => ?_⟩
  have h1 : (frameAt pm.frames idx).pageNum ≠ NO_PAGE := by
    intro h
    have := (hw.empty idx h).2
    rw [h2] at this
    exact Bool.noConfusion this
  have hp0 : 0 ≤ (frameAt pm.frames idx).pageNum := by
    have := hw.pages idx
    unfold NO_PAGE at h1
    omega
  have hcov : (frameAt pm.frames idx).pageNum < pm.fhandle.totalNumPages := by
    have := hsm h2
    rcases hw.covered idx with c | c
    · exact c
    · omega
  obtain ⟨fh, g1, g2, g3, g4⟩ := flushIfDirty_ok pm idx hok hp0 h2 (Or.inr hcov)
  have hz : ((frameAt pm.frames idx).pageNum + 1 - pm.fhandle.totalNumPages).toNat = 0 := by omega
  rw [hz, List.replicate_zero, List.append_nil] at g4
  refine ⟨fh, g1, g2, ?_, g4, hp0, hcov⟩
  have l1 := g2.wf.len
  have l2 := hok.wf.len
  rw [l1, l2, g4, List.length_set]

theorem storePage_set_self {fh fh2 : SM_FileHandle} {p : Int} {buf : PageData} (hp : 0 ≤ p)
    (hlt : p < ((storePages fh).length : Int))
    (h : storePages fh2 = (storePages fh).set p.toNat buf) : storePage fh2 p = some buf := by
  have hn : ¬ p < 0 := by omega
  have hl : p.toNat < (storePages fh).length := by omega
  simp only [storePage, hn, if_false, h]
  rw [List.getElem?_set_self hl]

theorem storePage_set_other {fh fh2 : SM_FileHandle} {p q : Int} {buf : PageData} (hp : 0 ≤ p)
    (hq : q ≠ p) (h : storePages fh2 = (storePages fh).set p.toNat buf) :
    storePage fh2 q = storePage fh q := by
  by_cases hn : q < 0
  · simp only [storePage, hn, if_true]
  · simp only [storePage, hn, if_false, h]
    rw [List.getElem?_set_ne (by omega)]

theorem pool_eta {bm : BM_BufferPool} {pm : PoolMgmt} (h : bm.mgmtData = some pm) :
    ({ bm with mgmtData := some pm } : BM_BufferPool) = bm := by
  cases bm
  simp only at h
  subst h
  rfl

theorem frame_clean_eta (f : Frame) (h : f.dirty = false) : { f with dirty := false } = f := by
  cases f
  simp only at h
  subst h
  rfl

theorem SInv.unique {pm : PoolMgmt} (hs : SInv pm) : UniquePages pm.frames := by
  intro i j hij hi
  have hil : i < pm.frames.length := by
    by_contra hc
    rw [frameAt_default (by omega)] at hi
    exact hi rfl
  have hjl : j < pm.frames.length := by
    by_contra hc
    rw [hij, frameAt_default (by omega)] at hi
    exact hi rfl
  have h1 := hs.complete i hil hi
  have h2 := hs.complete j hjl (by rw [← hij]; exact hi)
  rw [← hij] at h2
  have := has_unique hs.w.pt h1 h2
  omega

theorem flush_step {pm : PoolMgmt} (hw : WInv pm) (hok : FileOk pm.fhandle) (i : Nat)
    (hsm : (frameAt pm.frames i).dirty = true → (frameAt pm.frames i).pageNum < 2147483647) :
    (flushIfDirty pm i).1 = RC.RC_OK ∧ WInv (flushIfDirty pm i).2 ∧
      FileOk (flushIfDirty pm i).2.fhandle ∧
      (flushIfDirty pm i).2 = { pm with fhandle := (flushIfDirty pm i).2.fhandle,
                                        numWriteIO := PoolMgmt.numWriteIO (flushIfDirty pm i).2,
                                        frames := (flushIfDirty pm i).2.frames } ∧
      (∀ k, frameAt (flushIfDirty pm i).2.frames k =
        if k = i then { (frameAt pm.frames k) with dirty := false } else frameAt pm.frames k) ∧
      ((frameAt pm.frames i).dirty = false →
        (flushIfDirty pm i).2.fhandle = pm.fhandle ∧
        PoolMgmt.numWriteIO (flushIfDirty pm i).2 = pm.numWriteIO) ∧
      ((frameAt pm.frames i).dirty = true →
        storePages (flushIfDirty pm i).2.fhandle =
          (storePages pm.fhandle).set (frameAt pm.frames i).pageNum.toNat (frameAt pm.frames i).data ∧
        PoolMgmt.numWriteIO (flushIfDirty pm i).2 = wrapInt (pm.numWriteIO + 1) ∧
        0 ≤ (frameAt pm.frames i).pageNum ∧
        (frameAt pm.frames i).pageNum < ((storePages pm.fhandle).length : Int)) := by
  obtain ⟨x1, x2⟩ := flush_exact hw hok i hsm
  obtain ⟨f1, f2, _⟩ := flush_props hw i
  refine ⟨(flush_ok_of_fileOk hw hok i hsm).1, f1, (flush_ok_of_fileOk hw hok i hsm).2, f2, ?_, ?_, ?_⟩
  · intro k
    cases hd : (frameAt pm.frames i).dirty with
    | false =>
      rw [x1 hd]
      split
      · rename_i e; subst e; rw [frame_clean_eta _ hd]
      · rfl
    | true =>
      obtain ⟨fh, g1, _⟩ := x2 hd
      rw [g1]
      have hil : i < pm.frames.length := by
        by_contra hc
        rw [frameAt_default (by omega)] at hd
        exact Bool.noConfusion hd
      show frameAt (pm.frames.set i _) k = _
      rw [frameAt_set_lt hil]
      by_cases e : i = k
      · subst e; simp only [if_true]
      · rw [if_neg e, if_neg (fun h => e h.symm)]
  · intro hd
    rw [x1 hd]
    exact ⟨rfl, rfl⟩
  · intro hd
    obtain ⟨fh, g1, g2, g3, g4, g5, g6⟩ := x2 hd
    rw [g1]
    refine ⟨g4, rfl, g5, ?_⟩
    rw [← hok.wf.len]; exact g6

theorem flushFrames_spec (b : Bool) : ∀ (l : List Nat) (pm : PoolMgmt), l.Nodup → WInv pm →
    FileOk pm.fhandle → UniquePages pm.frames →
    (∀ k, Flushed b (frameAt pm.frames k) → (frameAt pm.frames k).pageNum < 2147483647) →
    (flushFrames b l pm).1 = RC.RC_OK ∧ WInv (flushFrames b l pm).2 ∧
      FileOk (flushFrames b l pm).2.fhandle ∧
      (flushFrames b l pm).2 = { pm with fhandle := (flushFrames b l pm).2.fhandle,
                                         numWriteIO := PoolMgmt.numWriteIO (flushFrames b l pm).2,
                                         frames := (flushFrames b l pm).2.frames } ∧
      (∀ k, frameAt (flushFrames b l pm).2.frames k =
        if k ∈ l ∧ (b = false ∨ (frameAt pm.frames k).fixCount = 0)
        then { (frameAt pm.frames k) with dirty := false } else frameAt pm.frames k) ∧
      (∀ k, k ∈ l → Flushed b (frameAt pm.frames k) →
        storePage (flushFrames b l pm).2.fhandle (frameAt pm.frames k).pageNum
          = some (frameAt pm.frames k).data) ∧
      (∀ q, (∀ k, k ∈ l → Flushed b (frameAt pm.frames k) → (frameAt pm.frames k).pageNum ≠ q) →
        storePage (flushFrames b l pm).2.fhandle q = storePage pm.fhandle q) ∧
      PoolMgmt.numWriteIO (flushFrames b l pm).2 =
        wrapInt (pm.numWriteIO + ((l.countP fun k => decide (Flushed b (frameAt pm.frames k))) : Nat)) := by
  intro l
  induction l with
  | nil =>
    intro pm _ hw hok _ _
    refine ⟨rfl, hw, hok, rfl, fun k => ?_, fun k hk => absurd hk (List.not_mem_nil k),
      fun q _ => rfl, ?_⟩
    · rw [if_neg (fun h => List.not_mem_nil k h.1)]; rfl
    · show pm.numWriteIO = wrapInt (pm.numWriteIO + ((0 : Nat) : Int))
      rw [wrapInt_of_range (by have := hw.io.2.1; omega) (by have := hw.io.2.2; omega)]
      omega
  | cons i rest ih =>
    intro pm hnd hw hok hu hsm
    obtain ⟨hni, hnr⟩ := List.nodup_cons.mp hnd
    by_cases hg : b = false ∨ (frameAt pm.frames i).fixCount = 0
    · obtain ⟨s1, s2, s3, s4, s5, s6, s7⟩ := flush_step hw hok i (fun hd => hsm i ⟨hg, hd⟩)
      have e : flushFrames b (i :: rest) pm = flushFrames b rest (flushIfDirty pm i).2 := by
        simp only [flushFrames]
        rw [if_pos hg, if_neg (fun h => h s1)]
      have hsame : ∀ k, k ≠ i → frameAt (flushIfDirty pm i).2.frames k = frameAt pm.frames k := by
        intro k hk; rw [s5 k, if_neg hk]
      have hpg : ∀ k, (frameAt (flushIfDirty pm i).2.frames k).pageNum = (frameAt pm.frames k).pageNum := by
        intro k; rw [s5 k]; split <;> rfl
      have hfx : ∀ k, (frameAt (flushIfDirty pm i).2.frames k).fixCount = (frameAt pm.frames k).fixCount := by
        intro k; rw [s5 k]; split <;> rfl
      have hu1 : UniquePages (flushIfDirty pm i).2.frames := by
        intro a c hac ha
        rw [hpg, hpg] at hac
        rw [hpg] at ha
        exact hu a c hac ha
      have hsm1 : ∀ k, Flushed b (frameAt (flushIfDirty pm i).2.frames k) →
          (frameAt (flushIfDirty pm i).2.frames k).pageNum < 2147483647 := by
        intro k hk
        rw [hpg]
        refine hsm k ⟨?_, ?_⟩
        · rw [← hfx]; exact hk.1
        · have := hk.2
          rw [s5 k] at this
          split at this
          · exact Bool.noConfusion this
          · exact this
      obtain ⟨t1, t2, t3, t4, t5, t6, t7, t8⟩ := ih (flushIfDirty pm i).2 hnr s2 s3 hu1 hsm1
      rw [e]
      have hfl : ∀ k, k ≠ i → (Flushed b (frameAt (flushIfDirty pm i).2.frames k) ↔
          Flushed b (frameAt pm.frames k)) := by
        intro k hk; rw [hsame k hk]
      have hnofl : ∀ k, k ∈ rest → Flushed b (frameAt (flushIfDirty pm i).2.frames k) →
          (frameAt (flushIfDirty pm i).2.frames k).pageNum ≠ (frameAt pm.frames i).pageNum := by
        intro k hk hf hc
        have hki : k ≠ i := fun h => hni (h ▸ hk)
        rw [hsame k hki] at hf hc
        have hne : (frameAt pm.frames k).pageNum ≠ NO_PAGE := by
          intro h0
          have := (hw.empty k h0).2
          rw [hf.2] at this
          exact Bool.noConfusion this
        exact hki (hu k i hc hne)
      refine ⟨t1, t2, t3, ?_, ?_, ?_, ?_, ?_⟩
      · rw [t4]; rw [s4]
      · intro k
        rw [t5 k, hfx k]
        by_cases hki : k = i
        · subst hki
          rw [if_neg (fun h => hni h.1), if_pos ⟨List.mem_cons_self _ _, hg⟩, s5 k, if_pos rfl]
        · rw [hsame k hki]
          by_cases hc : k ∈ rest ∧ (b = false ∨ (frameAt pm.frames k).fixCount = 0)
          · rw [if_pos hc, if_pos ⟨List.mem_cons_of_mem _ hc.1, hc.2⟩]
          · rw [if_neg hc, if_neg (fun h => hc ⟨(List.mem_cons.mp h.1).resolve_left hki, h.2⟩)]
      · intro k hk hf
        by_cases hki : k = i
        · subst hki
          obtain ⟨u1, u2, u3, u4⟩ := s7 hf.2
          rw [t7 _ hnofl]
          exact storePage_set_self u3 u4 u1
        · have hkr : k ∈ rest := (List.mem_cons.mp hk).resolve_left hki
          have := t6 k hkr ((hfl k hki).2 hf)
          rw [hsame k hki] at this
          exact this
      · intro q hq
        rw [t7 q (fun k hk hf => by
          have hki : k ≠ i := fun h => hni (h ▸ hk)
          rw [hsame k hki] at hf ⊢
          exact hq k (List.mem_cons_of_mem _ hk) hf)]
        cases hd : (frameAt pm.frames i).dirty with
        | false => rw [(s6 hd).1]
        | true =>
          obtain ⟨u1, u2, u3, u4⟩ := s7 hd
          exact storePage_set_other u3 (fun h => hq i (List.mem_cons_self _ _) ⟨hg, hd⟩ h.symm) u1
      · rw [t8, List.countP_cons]
        have hcnt : (rest.countP fun k => decide (Flushed b (frameAt (flushIfDirty pm i).2.frames k)))
            = rest.countP fun k => decide (Flushed b (frameAt pm.frames k)) := by
          apply List.countP_congr
          intro k hk
          have hki : k ≠ i := fun h => hni (h ▸ hk)
          simp only [decide_eq_true_eq]
          exact hfl k hki
        rw [hcnt]
        cases hd : (frameAt pm.frames i).dirty with
        | false =>
          rw [(s6 hd).2]
          have : ¬ Flushed b (frameAt pm.frames i) := fun h => by
            have := h.2; rw [hd] at this; exact Bool.noConfusion this
          simp only [this, decide_False, Bool.false_eq_true, if_false, Nat.add_zero]
        | true =>
          rw [(s7 hd).2.1, wrapInt_add]
          have : Flushed b (frameAt pm.frames i) := ⟨hg, hd⟩
          simp only [this, decide_True, if_true]
          push_cast
          congr 1
          omega
    · have e : flushFrames b (i :: rest) pm = flushFrames b rest pm := by
        simp only [flushFrames]
        rw [if_neg hg]
      obtain ⟨t1, t2, t3, t4, t5, t6, t7, t8⟩ := ih pm hnr hw hok hu hsm
      rw [e]
      have hnf : ¬ Flushed b (frameAt pm.frames i) := fun h => hg h.1
      refine ⟨t1, t2, t3, t4, ?_, ?_, ?_, ?_⟩
      · intro k
        rw [t5 k]
        by_cases hc : k ∈ rest ∧ (b = false ∨ (frameAt pm.frames k).fixCount = 0)
        · rw [if_pos hc, if_pos ⟨List.mem_cons_of_mem _ hc.1, hc.2⟩]
        · rw [if_neg hc, if_neg (fun h => by
            rcases List.mem_cons.mp h.1 with h1 | h1
            · subst h1; exact hg h.2
            · exact hc ⟨h1, h.2⟩)]
      · intro k hk hf
        rcases List.mem_cons.mp hk with h1 | h1
        · subst h1; exact absurd hf hnf
        · exact t6 k h1 hf
      · intro q hq
        exact t7 q (fun k hk hf => hq k (List.mem_cons_of_mem _ hk) hf)
      · rw [t8, List.countP_cons]
        simp only [hnf, decide_False, Bool.false_eq_true, if_false, Nat.add_zero]

theorem onesPage_ne_zeroPage : onesPage ≠ zeroPage := fun h =>
  absurd (congrArg (fun p : PageData => p.1.head?) h) (by decide)

theorem releasePins_fold : ∀ (l : List Nat) (fs : List Frame) (k : Nat),
    frameAt (l.foldl (fun (fs : List Frame) (i : Nat) =>
        if (frameAt fs i).fixCount > 0 then fs.set i { (frameAt fs i) with fixCount := 0 } else fs)
        fs) k =
      if k ∈ l ∧ (frameAt fs k).fixCount > 0 then { (frameAt fs k) with fixCount := 0 }
      else frameAt fs k := by
  intro l
  induction l with
  | nil =>
    intro fs k
    rw [if_neg (fun h => List.not_mem_nil k h.1)]; rfl
  | cons i rest ih =>
    intro fs k
    rw [List.foldl_cons, ih]
    by_cases hi : (frameAt fs i).fixCount > 0
    · rw [if_pos hi]
      have hil : i < fs.length := by
        by_contra hc
        rw [frameAt_default (by omega)] at hi
        exact absurd hi (by decide)
      rw [frameAt_set_lt hil]
      by_cases hki : i = k
      · subst hki
        rw [if_pos rfl, if_neg (fun h => by have := h.2; exact absurd this (by show ¬ (0 : Int) > 0; omega)),
          if_pos ⟨List.mem_cons_self _ _, hi⟩]
      · rw [if_neg hki]
        by_cases hc : k ∈ rest ∧ (frameAt fs k).fixCount > 0
        · rw [if_pos hc, if_pos ⟨List.mem_cons_of_mem _ hc.1, hc.2⟩]
        · rw [if_neg hc, if_neg (fun h => hc ⟨(List.mem_cons.mp h.1).resolve_left
            (fun e => hki e.symm), h.2⟩)]
    · rw [if_neg hi]
      by_cases hc : k ∈ rest ∧ (frameAt fs k).fixCount > 0
      · rw [if_pos hc, if_pos ⟨List.mem_cons_of_mem _ hc.1, hc.2⟩]
      · rw [if_neg hc, if_neg (fun h => by
          rcases List.mem_cons.mp h.1 with h1 | h1
          · subst h1; exact hi h.2
          · exact hc ⟨h1, h.2⟩)]

theorem releasePins_length : ∀ (l : List Nat) (fs : List Frame),
    (l.foldl (fun (fs : List Frame) (i : Nat) =>
        if (frameAt fs i).fixCount > 0 then fs.set i { (frameAt fs i) with fixCount := 0 } else fs)
        fs).length = fs.length := by
  intro l
  induction l with
  | nil => intro fs; rfl
  | cons i rest ih =>
    intro fs
    rw [List.foldl_cons, ih]
    split
    · rw [List.length_set]
    · rfl

theorem releasePins_frames {pm : PoolMgmt} (hw : WInv pm) (k : Nat) :
    frameAt (releasePins pm).frames k =
      if (frameAt pm.frames k).fixCount > 0 then { (frameAt pm.frames k) with fixCount := 0 }
      else frameAt pm.frames k := by
  show frameAt ((List.range pm.capacity.toNat).foldl _ pm.frames) k = _
  rw [releasePins_fold]
  by_cases hc : (frameAt pm.frames k).fixCount > 0
  · rw [if_pos hc]
    by_cases hm : k ∈ List.range pm.capacity.toNat
    · rw [if_pos ⟨hm, hc⟩]
    · exfalso
      apply hm
      refine List.mem_range.mpr ?_
      rw [← hw.len]
      by_contra hl
      rw [frameAt_default (by omega)] at hc
      exact absurd hc (by decide)
  · rw [if_neg hc, if_neg (fun h => hc h.2)]

theorem releasePins_rel {pm : PoolMgmt} (hw : WInv pm) (k : Nat) :
    (frameAt (releasePins pm).frames k).pageNum = (frameAt pm.frames k).pageNum ∧
      (frameAt (releasePins pm).frames k).data = (frameAt pm.frames k).data ∧
      (frameAt (releasePins pm).frames k).dirty = (frameAt pm.frames k).dirty ∧
      (frameAt (releasePins pm).frames k).lastUsed = (frameAt pm.frames k).lastUsed ∧
      (frameAt (releasePins pm).frames k).fifoPos = (frameAt pm.frames k).fifoPos ∧
      (frameAt (releasePins pm).frames k).refbit = (frameAt pm.frames k).refbit ∧
      (frameAt (releasePins pm).frames k).fixCount =
        (if (frameAt pm.frames k).fixCount > 0 then 0 else (frameAt pm.frames k).fixCount) := by
  rw [releasePins_frames hw]
  split
  · exact ⟨rfl, rfl, rfl, rfl, rfl, rfl, rfl⟩
  · exact ⟨rfl, rfl, rfl, rfl, rfl, rfl, rfl⟩

theorem releasePins_winv {pm : PoolMgmt} (hw : WInv pm) : WInv (releasePins pm) := by
  have hf := releasePins_rel hw
  refine hw.update rfl (releasePins_length _ _) rfl (le_refl _) (fun i => (hf i).1)
    (fun i => ?_) (fun i hi => ?_) (fun i => ?_) hw.hand hw.file (le_refl _) hw.io
  · rw [(hf i).2.2.2.2.2.2]
    have := hw.fix i
    split <;> omega
  · rw [(hf i).1] at hi
    rw [(hf i).2.2.2.2.2.2, (hf i).2.2.1]
    obtain ⟨a, b⟩ := hw.empty i hi
    refine ⟨?_, b⟩
    rw [a]; rfl
  · rw [(hf i).2.2.2.2.1, (hf i).2.2.2.1]; exact hw.stamps i

theorem closePageFile_file {fh : SM_FileHandle} (h : FileOk fh) :
    ∃ file, (closePageFile fh).2.2 = some file ∧ file.pages = storePages fh := by
  obtain ⟨c, h1, _, _⟩ := h
  refine ⟨c.fp.call.2, ?_, ?_⟩
  · simp only [closePageFile, h1]
  · rw [storePages_eq h1, call_pages]

/-! ## The effect of one operation on frames and store -/

theorem SInv.holder {pm : PoolMgmt} (hs : SInv pm) {i : Nat} {k : Int} (hk : 0 ≤ k)
    (h : (frameAt pm.frames i).pageNum = k) : ptab_get pm.ptab k = (i : Int) ∧ i < pm.frames.length := by
  have hne : (frameAt pm.frames i).pageNum ≠ NO_PAGE := by rw [h]; unfold NO_PAGE; omega
  have hil : i < pm.frames.length := by
    by_contra hc
    rw [frameAt_default (by omega)] at hne
    exact hne rfl
  have := hs.complete i hil hne
  rw [h] at this
  exact ⟨get_of_has hs.w.pt this, hil⟩

theorem storePage_append {fh fh2 : SM_FileHandle} {l : List PageData} {p : Int}
    (hlt : p < ((storePages fh).length : Int)) (h : storePages fh2 = storePages fh ++ l) :
    storePage fh2 p = storePage fh p := by
  by_cases hn : p < 0
  · simp only [storePage, hn, if_true]
  · simp only [storePage, hn, if_false, h]
    rw [List.getElem?_append_left (by omega)]

theorem Writable.of_rel {pm0 pm1 : PoolMgmt} (h : Writable pm0)
    (hrel : ∀ i, (frameAt pm1.frames i).dirty = true →
      (frameAt pm1.frames i).pageNum < 2147483647 ∨
        ((frameAt pm0.frames i).dirty = true ∧
          (frameAt pm1.frames i).pageNum = (frameAt pm0.frames i).pageNum)) : Writable pm1 := by
  intro i hi
  rcases hrel i hi with c | ⟨c1, c2⟩
  · exact c
  · rw [c2]; exact h i c1

theorem pin_effect (bm : BM_BufferPool) (page : BM_PageHandle) (q : Int) (pm0 : PoolMgmt)
    (hbm : bm.mgmtData = some pm0) (hs : SInv pm0) (hwr : Writable pm0) (hq2 : q < 2147483647) :
    ∃ pm1, (pinPage bm page q).2.1.mgmtData = some pm1 ∧ SInv pm1 ∧
      pm1.frames.length = pm0.frames.length ∧
      (((pinPage bm page q).1 ≠ RC.RC_OK ∧ ptab_get pm0.ptab q < 0 ∧
          (∀ i, (frameAt pm1.frames i).pageNum = (frameAt pm0.frames i).pageNum ∧
            (frameAt pm1.frames i).data = (frameAt pm0.frames i).data ∧
            (frameAt pm1.frames i).dirty = (frameAt pm0.frames i).dirty ∧
            (frameAt pm1.frames i).fixCount = (frameAt pm0.frames i).fixCount) ∧
          pm1.ptab = pm0.ptab ∧ pm1.fhandle = pm0.fhandle ∧
          (0 ≤ q → pm0.tick + 1 < 0x7fffffffffffffff →
            ∀ i, i < pm0.frames.length → (frameAt pm0.frames i).fixCount ≠ 0)) ∨
        ((pinPage bm page q).1 = RC.RC_OK ∧ 0 ≤ ptab_get pm0.ptab q ∧
          (pinPage bm page q).2.2 = { pageNum := q, data := some (ptab_get pm0.ptab q).toNat } ∧
          pm1.frames = pm0.frames.set (ptab_get pm0.ptab q).toNat
            { (frameAt pm0.frames (ptab_get pm0.ptab q).toNat) with
              fixCount := wrapInt ((frameAt pm0.frames (ptab_get pm0.ptab q).toNat).fixCount + 1),
              lastUsed := pm0.tick + 1, refbit := true } ∧
          pm1.ptab = pm0.ptab ∧ pm1.fhandle = pm0.fhandle) ∨
        ((pinPage bm page q).1 = RC.RC_OK ∧ 0 ≤ q ∧ ptab_get pm0.ptab q < 0 ∧
          ∃ (t : Nat) (buf : PageData), t < pm0.frames.length ∧
            (pinPage bm page q).2.2 = { pageNum := q, data := some t } ∧
            (frameAt pm0.frames t).fixCount = 0 ∧
            frameAt pm1.frames t = { pageNum := q, data := buf, dirty := false, fixCount := 1,
                                     lastUsed := pm0.tick + 1, fifoPos := pm0.tick + 1, refbit := true } ∧
            (∀ i, i ≠ t → (frameAt pm1.frames i).pageNum = (frameAt pm0.frames i).pageNum ∧
              (frameAt pm1.frames i).data = (frameAt pm0.frames i).data ∧
              (frameAt pm1.frames i).dirty = (frameAt pm0.frames i).dirty ∧
              (frameAt pm1.frames i).fixCount = (frameAt pm0.frames i).fixCount) ∧
            ptab_get pm1.ptab q = (t : Int) ∧
            storePage pm1.fhandle q = some buf ∧
            (∀ p, 0 ≤ p → p < pm0.fhandle.totalNumPages → storePage pm1.fhandle p =
              if (frameAt pm0.frames t).dirty = true ∧ (frameAt pm0.frames t).pageNum = p
              then some (frameAt pm0.frames t).data else storePage pm0.fhandle p))) := by
  by_cases hq : q < 0
  · rw [pin_negative bm page q pm0 hbm hq]
    refine ⟨pm0, hbm, hs, rfl, Or.inl ⟨fun h => RC.noConfusion h, ?_, fun _ => ⟨rfl, rfl, rfl, rfl⟩,
      rfl, rfl, fun h => by omega⟩⟩
    by_contra hc
    have := (hs.w.resident (p := q) (by omega)).1
    omega
  · have hq0 : 0 ≤ q := by omega
    by_cases hit : 0 ≤ ptab_get pm0.ptab q
    · obtain ⟨pm1, e1, s1⟩ := pin_sinv bm page q pm0 hbm hs
      have e := pin_hit bm page q pm0 hbm hq0 hit
      rw [e] at e1 ⊢
      simp only [Option.some.injEq] at e1
      subst e1
      refine ⟨_, rfl, s1, ?_, Or.inr (Or.inl ⟨rfl, hit, rfl, rfl, rfl, rfl⟩)⟩
      show (pm0.frames.set _ _).length = _
      rw [List.length_set]
    · have miss : ptab_get pm0.ptab q < 0 := by omega
      have hwt := hs.w.tick
      have hst := hs.ticked
      rcases pin_miss_cases bm page q pm0 hbm hs hq0 miss hwr hq2 with ⟨e1, e2, e3⟩ |
        ⟨t, pmT, fh, buf, ht, e, c1, c2, c3, c4, c5⟩
      · obtain ⟨pm1, x1, s1⟩ := pin_sinv bm page q pm0 hbm hs
        rw [e3] at x1 ⊢
        simp only [Option.some.injEq] at x1
        obtain ⟨_, v2, v3, v4, _⟩ := victim_props hwt
        subst x1
        refine ⟨_, rfl, s1, v3, Or.inl ⟨fun h => RC.noConfusion h, miss,
          fun i => ⟨(v4 i).1, (v4 i).2.1, (v4 i).2.2.1, (v4 i).2.2.2.1⟩, ?_, ?_,
          fun _ htick => (all_pinned_of_no_victim hwt htick e1 e2).2⟩⟩
        · rw [v2]
        · rw [v2]
      · obtain ⟨a1, a2, a3, a4, a5, a6, a7, a8, a9, a10, a11⟩ := target_props hwt ht
        obtain ⟨b1, b2, b3, b4, b5, b6⟩ := target_props_s hst ht
        have htT : t < pmT.frames.length := by rw [a3]; exact a2
        have s1 := SInv.after_load hst ht hq0 miss fh (wrapInt ( pmT.numReadIO + 1)) buf c1 c2
          (Or.inl c3) (Or.inr rfl)
        rw [e]
        refine ⟨_, rfl, s1, ?_, Or.inr (Or.inr ⟨rfl, hq0, miss, t, buf, a2, rfl, a8, ?_, ?_, ?_, c5,
          ?_⟩)⟩
        · show (pmT.frames.set _ _).length = _
          rw [List.length_set]; exact a3
        · show frameAt (pmT.frames.set t _) t = _
          rw [frameAt_set_self htT, a4]
        · intro i hi
          show (frameAt (pmT.frames.set t _) i).pageNum = _ ∧ (frameAt (pmT.frames.set t _) i).data = _ ∧
            (frameAt (pmT.frames.set t _) i).dirty = _ ∧ (frameAt (pmT.frames.set t _) i).fixCount = _
          rw [frameAt_set_other (fun e => hi e.symm)]
          exact ⟨(a9 i).1, (a9 i).2.1, a10 i hi, (a9 i).2.2.1⟩
        · have hh := s1.holder hq0 (i := t) (by
            show (frameAt (pmT.frames.set t _) t).pageNum = q
            rw [frameAt_set_self htT])
          exact hh.1
        · intro p hp0 hp1
          show storePage fh p = _
          have hlen0 : pm0.fhandle.totalNumPages = ((storePages pm0.fhandle).length : Int) :=
            hs.ok.wf.len
          have hlenT : pmT.fhandle.totalNumPages = ((storePages pmT.fhandle).length : Int) :=
            b1.wf.len
          have b2 : pmT.fhandle.totalNumPages = pm0.fhandle.totalNumPages := b2
          rw [storePage_append (by rw [← hlenT, b2]; exact hp1) c4]
          have b4 : storePages pmT.fhandle =
              if (frameAt pm0.frames t).dirty = true
              then (storePages pm0.fhandle).set (frameAt pm0.frames t).pageNum.toNat
                (frameAt pm0.frames t).data
              else storePages pm0.fhandle := b4
          cases hd : (frameAt pm0.frames t).dirty with
          | false =>
            rw [hd] at b4
            simp only [Bool.false_eq_true, if_false] at b4
            rw [if_neg (fun h => Bool.noConfusion h.1)]
            simp only [storePage, b4]
          | true =>
            rw [hd] at b4
            simp only [if_true] at b4
            have hne : (frameAt pm0.frames t).pageNum ≠ NO_PAGE := by
              intro h0
              have := (hs.w.empty t h0).2
              rw [hd] at this
              exact Bool.noConfusion this
            have hpt : 0 ≤ (frameAt pm0.frames t).pageNum := by
              have := hs.w.pages t
              unfold NO_PAGE at hne
              omega
            by_cases hpp : (frameAt pm0.frames t).pageNum = p
            · rw [if_pos ⟨rfl, hpp⟩]
              rw [← hpp]
              exact storePage_set_self hpt (by rw [← hlen0, hpp]; exact hp1) b4
            · rw [if_neg (fun h => hpp h.2)]
              exact storePage_set_other hpt (fun h => hpp h.symm) b4

theorem unpin_effect (bm : BM_BufferPool) (page : BM_PageHandle) (pm0 : PoolMgmt)
    (hbm : bm.mgmtData = some pm0) (hs : SInv pm0) :
    ∃ pm1, (unpinPage bm page).2.mgmtData = some pm1 ∧ SInv pm1 ∧
      pm1.frames.length = pm0.frames.length ∧ pm1.ptab = pm0.ptab ∧ pm1.fhandle = pm0.fhandle ∧
      (∀ i, (frameAt pm1.frames i).pageNum = (frameAt pm0.frames i).pageNum ∧
        (frameAt pm1.frames i).data = (frameAt pm0.frames i).data ∧
        (frameAt pm1.frames i).dirty = (frameAt pm0.frames i).dirty) ∧
      (∀ i, (frameAt pm1.frames i).fixCount =
        if 0 ≤ ptab_get pm0.ptab page.pageNum ∧ i = (ptab_get pm0.ptab page.pageNum).toNat
        then (if (frameAt pm0.frames i).fixCount > 0 then (frameAt pm0.frames i).fixCount - 1
              else (frameAt pm0.frames i).fixCount)
        else (frameAt pm0.frames i).fixCount) := by
  obtain ⟨pm1, e1, s1⟩ := unpin_sinv bm page pm0 hbm hs
  have e := unpin_eq bm page pm0 hbm
  by_cases h : ptab_get pm0.ptab page.pageNum < 0
  · rw [if_pos h] at e
    rw [e, hbm] at e1
    simp only [Option.some.injEq] at e1
    subst e1
    rw [e]
    refine ⟨pm0, hbm, hs, rfl, rfl, rfl, fun _ => ⟨rfl, rfl, rfl⟩, fun i => ?_⟩
    rw [if_neg (fun hh => by omega)]
  · rw [if_neg h] at e
    obtain ⟨_, r2, _, _⟩ := hs.w.resident (p := page.pageNum) (by omega)
    have hfix := hs.w.fix (ptab_get pm0.ptab page.pageNum).toNat
    by_cases hpos : (frameAt pm0.frames (ptab_get pm0.ptab page.pageNum).toNat).fixCount > 0
    · rw [if_pos hpos] at e
      rw [e] at e1 ⊢
      simp only [Option.some.injEq] at e1
      subst e1
      refine ⟨_, rfl, s1, ?_, rfl, rfl, fun i => ?_, fun i => ?_⟩
      · show (pm0.frames.set _ _).length = _
        rw [List.length_set]
      · show (frameAt (pm0.frames.set _ _) i).pageNum = _ ∧ (frameAt (pm0.frames.set _ _) i).data = _ ∧
          (frameAt (pm0.frames.set _ _) i).dirty = _
        rw [frameAt_set_lt r2]
        split
        · rename_i hi; subst hi; exact ⟨rfl, rfl, rfl⟩
        · exact ⟨rfl, rfl, rfl⟩
      · show (frameAt (pm0.frames.set _ _) i).fixCount = _
        rw [frameAt_set_lt r2]
        by_cases hi : (ptab_get pm0.ptab page.pageNum).toNat = i
        · rw [if_pos hi, if_pos ⟨by omega, hi.symm⟩]
          subst hi
          rw [if_pos hpos]
        · rw [if_neg hi, if_neg (fun hh => hi hh.2.symm)]
    · rw [if_neg hpos] at e
      rw [e] at e1 ⊢
      simp only [Option.some.injEq] at e1
      subst e1
      refine ⟨_, rfl, s1, rfl, rfl, rfl, fun _ => ⟨rfl, rfl, rfl⟩, fun i => ?_⟩
      show (frameAt pm0.frames i).fixCount = _
      split
      · rename_i hi
        have := hi.2
        subst this
        rw [if_neg hpos]
      · rfl

theorem markDirty_effect (bm : BM_BufferPool) (page : BM_PageHandle) (pm0 : PoolMgmt)
    (hbm : bm.mgmtData = some pm0) (hs : SInv pm0) (hres : 0 ≤ ptab_get pm0.ptab page.pageNum) :
    ∃ pm1, (markDirty bm page).2.mgmtData = some pm1 ∧ SInv pm1 ∧
      pm1.frames.length = pm0.frames.length ∧ pm1.ptab = pm0.ptab ∧ pm1.fhandle = pm0.fhandle ∧
      pm1.tick = pm0.tick ∧
      (∀ i, (frameAt pm1.frames i).pageNum = (frameAt pm0.frames i).pageNum ∧
        (frameAt pm1.frames i).data = (frameAt pm0.frames i).data ∧
        (frameAt pm1.frames i).fixCount = (frameAt pm0.frames i).fixCount ∧
        (i ≠ (ptab_get pm0.ptab page.pageNum).toNat →
          (frameAt pm1.frames i).dirty = (frameAt pm0.frames i).dirty)) ∧
      (frameAt pm1.frames (ptab_get pm0.ptab page.pageNum).toNat).dirty = true := by
  obtain ⟨pm1, e1, s1⟩ := markDirty_sinv bm page pm0 hbm hs
  have e := markDirty_eq bm page pm0 hbm
  rw [if_neg (by omega)] at e
  obtain ⟨_, r2, _, _⟩ := hs.w.resident hres
  rw [e] at e1 ⊢
  simp only [Option.some.injEq] at e1
  subst e1
  refine ⟨_, rfl, s1, ?_, rfl, rfl, rfl, fun i => ?_, ?_⟩
  · show (pm0.frames.set _ _).length = _
    rw [List.length_set]
  · show (frameAt (pm0.frames.set _ _) i).pageNum = _ ∧ (frameAt (pm0.frames.set _ _) i).data = _ ∧
      (frameAt (pm0.frames.set _ _) i).fixCount = _ ∧
      (i ≠ _ → (frameAt (pm0.frames.set _ _) i).dirty = _)
    rw [frameAt_set_lt r2]
    split
    · rename_i hi; subst hi; exact ⟨rfl, rfl, rfl, fun h => absurd rfl h⟩
    · exact ⟨rfl, rfl, rfl, fun _ => rfl⟩
  · show (frameAt (pm0.frames.set _ _) _).dirty = true
    rw [frameAt_set_self r2]

theorem clientWrite_effect (bm : BM_BufferPool) (page : BM_PageHandle) (B : PageData)
    (pm0 : PoolMgmt) (t : Nat) (hbm : bm.mgmtData = some pm0) (hs : SInv pm0)
    (hd : page.data = some t) (ht : t < pm0.frames.length) :
    ∃ pm1, (clientWrite bm page B).mgmtData = some pm1 ∧ SInv pm1 ∧
      pm1.frames.length = pm0.frames.length ∧ pm1.ptab = pm0.ptab ∧ pm1.fhandle = pm0.fhandle ∧
      pm1.tick = pm0.tick ∧
      (∀ i, (frameAt pm1.frames i).pageNum = (frameAt pm0.frames i).pageNum ∧
        (frameAt pm1.frames i).dirty = (frameAt pm0.frames i).dirty ∧
        (frameAt pm1.frames i).fixCount = (frameAt pm0.frames i).fixCount) ∧
      (frameAt pm1.frames t).data = B := by
  obtain ⟨pm1, e1, s1⟩ := clientWrite_sinv bm page B pm0 hbm hs
  have e : clientWrite bm page B =
      { bm with
        mgmtData := some
          { pm0 with frames := pm0.frames.set t { (frameAt pm0.frames t) with data := B } } } := by
    simp only [clientWrite, hbm, hd]
    rw [if_pos ht]
  rw [e] at e1 ⊢
  simp only [Option.some.injEq] at e1
  subst e1
  refine ⟨_, rfl, s1, ?_, rfl, rfl, rfl, fun i => ?_, ?_⟩
  · show (pm0.frames.set _ _).length = _
    rw [List.length_set]
  · show (frameAt (pm0.frames.set _ _) i).pageNum = _ ∧ (frameAt (pm0.frames.set _ _) i).dirty = _ ∧
      (frameAt (pm0.frames.set _ _) i).fixCount = _
    rw [frameAt_set_lt ht]
    split
    · rename_i hi; subst hi; exact ⟨rfl, rfl, rfl⟩
    · exact ⟨rfl, rfl, rfl⟩
  · show (frameAt (pm0.frames.set _ _) t).data = B
    rw [frameAt_set_self ht]

theorem pinUnpin_effect (bm : BM_BufferPool) (q : Int) (pm0 : PoolMgmt)
    (hbm : bm.mgmtData = some pm0) (hs : SInv pm0) (hwr : Writable pm0) (hq2 : q < 2147483647) :
    ∃ pm2, (pinUnpin bm q).mgmtData = some pm2 ∧ SInv pm2 ∧
      pm2.frames.length = pm0.frames.length ∧
      (∀ i, (frameAt pm0.frames i).fixCount = 0 → (frameAt pm2.frames i).fixCount = 0) ∧
      (((∀ i, (frameAt pm2.frames i).pageNum = (frameAt pm0.frames i).pageNum ∧
            (frameAt pm2.frames i).data = (frameAt pm0.frames i).data ∧
            (frameAt pm2.frames i).dirty = (frameAt pm0.frames i).dirty) ∧
          pm2.fhandle = pm0.fhandle) ∨
        (0 ≤ q ∧ ptab_get pm0.ptab q < 0 ∧
          ∃ t : Nat, t < pm0.frames.length ∧ (frameAt pm0.frames t).fixCount = 0 ∧
            (frameAt pm2.frames t).pageNum = q ∧ (frameAt pm2.frames t).fixCount = 0 ∧
            (∀ i, i ≠ t → (frameAt pm2.frames i).pageNum = (frameAt pm0.frames i).pageNum ∧
              (frameAt pm2.frames i).data = (frameAt pm0.frames i).data ∧
              (frameAt pm2.frames i).dirty = (frameAt pm0.frames i).dirty) ∧
            (∀ p, 0 ≤ p → p < pm0.fhandle.totalNumPages → storePage pm2.fhandle p =
              if (frameAt pm0.frames t).dirty = true ∧ (frameAt pm0.frames t).pageNum = p
              then some (frameAt pm0.frames t).data else storePage pm0.fhandle p))) := by
  obtain ⟨pm1, e1, s1, l1, hc⟩ := pin_effect bm blankHandle q pm0 hbm hs hwr hq2
  obtain ⟨pm2, e2, s2, l2, pt2, fh2, same2, fix2⟩ := unpin_effect (pinPage bm blankHandle q).2.1
    { pageNum := q, data := (pinPage bm blankHandle q).2.2.data } pm1 e1 s1
  have fix2 : ∀ i, (frameAt pm2.frames i).fixCount =
      if 0 ≤ ptab_get pm1.ptab q ∧ i = (ptab_get pm1.ptab q).toNat
      then (if (frameAt pm1.frames i).fixCount > 0 then (frameAt pm1.frames i).fixCount - 1
            else (frameAt pm1.frames i).fixCount)
      else (frameAt pm1.frames i).fixCount := fix2
  refine ⟨pm2, e2, s2, by rw [l2, l1], ?_⟩
  rcases hc with ⟨_, miss, same1, pt1, fh1, _⟩ | ⟨_, hit, _, fr1, pt1, fh1⟩ |
    ⟨_, hq0, miss, t, buf, ht, _, hfix, hft, hoth, hget, _, hstore⟩
  · refine ⟨fun i h0 => ?_, Or.inl ⟨fun i => ?_, by rw [fh2, fh1]⟩⟩
    · rw [fix2 i, pt1, if_neg (fun h => by omega), (same1 i).2.2.2]
      exact h0
    · obtain ⟨a, b, c⟩ := same2 i
      obtain ⟨a1, b1, c1, _⟩ := same1 i
      exact ⟨a.trans a1, b.trans b1, c.trans c1⟩
  · obtain ⟨_, r2, _, _⟩ := hs.w.resident hit
    have hfr : ∀ i, frameAt pm1.frames i =
        if (ptab_get pm0.ptab q).toNat = i then
          { (frameAt pm0.frames (ptab_get pm0.ptab q).toNat) with
            fixCount := wrapInt ((frameAt pm0.frames (ptab_get pm0.ptab q).toNat).fixCount + 1),
            lastUsed := pm0.tick + 1, refbit := true }
        else frameAt pm0.frames i := by
      intro i; rw [fr1, frameAt_set_lt r2]
    refine ⟨fun i h0 => ?_, Or.inl ⟨fun i => ?_, by rw [fh2, fh1]⟩⟩
    · rw [fix2 i, pt1, hfr i]
      by_cases hi : (ptab_get pm0.ptab q).toNat = i
      · rw [if_pos ⟨hit, hi.symm⟩, if_pos hi]
        subst hi
        show (if wrapInt ((frameAt pm0.frames _).fixCount + 1) > 0
          then wrapInt ((frameAt pm0.frames _).fixCount + 1) - 1
          else wrapInt ((frameAt pm0.frames _).fixCount + 1)) = 0
        rw [h0]
        decide
      · rw [if_neg (fun h => hi h.2.symm), if_neg hi]
        exact h0
    · obtain ⟨a, b, c⟩ := same2 i
      rw [a, b, c, hfr i]
      split
      · rename_i hi; subst hi; exact ⟨rfl, rfl, rfl⟩
      · exact ⟨rfl, rfl, rfl⟩
  · have hfixt : (frameAt pm2.frames t).fixCount = 0 := by
      rw [fix2 t, hget, if_pos ⟨by omega, by simp⟩, hft]
      rfl
    refine ⟨fun i h0 => ?_, Or.inr ⟨hq0, miss, t, ht, hfix, ?_, hfixt, fun i hi => ?_, ?_⟩⟩
    · by_cases hi : i = t
      · subst hi; exact hfixt
      · rw [fix2 i, hget, if_neg (fun h => hi (by rw [h.2]; simp)), (hoth i hi).2.2.2]
        exact h0
    · rw [(same2 t).1, hft]
    · obtain ⟨a, b, c⟩ := same2 i
      obtain ⟨a1, b1, c1, _⟩ := hoth i hi
      exact ⟨a.trans a1, b.trans b1, c.trans c1⟩
    · intro p hp0 hp1
      rw [fh2]
      exact hstore p hp0 hp1

theorem pinUnpin_kept (bm : BM_BufferPool) (q P : Int) (B : PageData) (pm0 : PoolMgmt)
    (hbm : bm.mgmtData = some pm0) (hs : SInv pm0) (hwr : Writable pm0) (hP : 0 ≤ P)
    (hq : q ≠ P) (hq2 : q < 2147483647) (hk : Kept P B pm0) :
    ∃ pm2, (pinUnpin bm q).mgmtData = some pm2 ∧ SInv pm2 ∧ Writable pm2 ∧ Kept P B pm2 := by
  obtain ⟨pm2, e2, s2, l2, hfix, hc⟩ := pinUnpin_effect bm q pm0 hbm hs hwr hq2
  refine ⟨pm2, e2, s2, ?_, ?_⟩
  · rcases hc with ⟨same, _⟩ | ⟨_, _, t, _, _, hpt, _, hoth, _⟩
    · exact hwr.of_rel (fun i hi => Or.inr ⟨by rw [← (same i).2.2]; exact hi, (same i).1⟩)
    · refine hwr.of_rel (fun i hi => ?_)
      by_cases hit : i = t
      · subst hit; left; rw [hpt]; exact hq2
      · exact Or.inr ⟨by rw [← (hoth i hit).2.2]; exact hi, (hoth i hit).1⟩
  rcases hc with ⟨same, fh⟩ | ⟨hq0, miss, t, ht, hft, hpt, hfixt, hoth, hstore⟩
  · rcases hk with ⟨i, hi, h1, h2, h3⟩ | ⟨h1, h2, i, hi, h3⟩
    · left
      obtain ⟨a, b, c⟩ := same i
      exact ⟨i, by rw [l2]; exact hi, a.trans h1, b.trans h2, c.trans h3⟩
    · right
      refine ⟨fun j => by rw [(same j).1]; exact h1 j, by rw [fh]; exact h2, i, by rw [l2]; exact hi,
        hfix i h3⟩
  · have hfree : ∃ i, i < pm2.frames.length ∧ (frameAt pm2.frames i).fixCount = 0 :=
      ⟨t, by rw [l2]; exact ht, hfixt⟩
    rcases hk with ⟨i, hi, h1, h2, h3⟩ | ⟨h1, h2, _⟩
    · by_cases hit : i = t
      · subst hit
        right
        have hcov : P < pm0.fhandle.totalNumPages := by
          have hsmall := hwr i h3
          rcases hs.w.covered i with c | c
          · rw [h1] at c; exact c
          · omega
        refine ⟨fun j => ?_, ?_, hfree⟩
        · by_cases hj : j = i
          · subst hj; rw [hpt]; exact hq
          · rw [(hoth j hj).1]
            intro hc
            exact hj (hs.unique j i (hc.trans h1.symm) (by rw [hc]; unfold NO_PAGE; omega))
        · rw [hstore P hP hcov, if_pos ⟨h3, h1⟩, h2]
      · left
        obtain ⟨a, b, c⟩ := hoth i hit
        exact ⟨i, by rw [l2]; exact hi, a.trans h1, b.trans h2, c.trans h3⟩
    · right
      have hlt : P < pm0.fhandle.totalNumPages := by
        rw [hs.ok.wf.len]
        have hn : ¬ P < 0 := by omega
        simp only [storePage, hn, if_false] at h2
        have := (List.getElem?_eq_some_iff.mp h2).1
        omega
      refine ⟨fun j => ?_, ?_, hfree⟩
      · by_cases hj : j = t
        · subst hj; rw [hpt]; exact hq
        · rw [(hoth j hj).1]; exact h1 j
      · rw [hstore P hP hlt, if_neg (fun h => h1 t h.2)]
        exact h2

theorem mgmtOf_eq {bm : BM_BufferPool} {pm : PoolMgmt} (h : bm.mgmtData = some pm) : mgmtOf bm = pm := by
  simp only [mgmtOf, h, Option.getD_some]

theorem writeBack_kept (bm : BM_BufferPool) (P : Int) (B : PageData) (pm0 : PoolMgmt)
    (hbm : bm.mgmtData = some pm0) (hs : SInv pm0) (hwr : Writable pm0) (hP : 0 ≤ P)
    (hP2 : P < 2147483647) (hpin : (pinPage bm blankHandle P).1 = RC.RC_OK) :
    ∃ pm, (writeBack bm P B).mgmtData = some pm ∧ SInv pm ∧ Writable pm ∧ Kept P B pm := by
  obtain ⟨pm1, e1, s1, l1, hc⟩ := pin_effect bm blankHandle P pm0 hbm hs hwr hP2
  have key : ∃ t : Nat, (pinPage bm blankHandle P).2.2 = { pageNum := P, data := some t } ∧
      t < pm1.frames.length ∧ (frameAt pm1.frames t).pageNum = P ∧
      ∀ i, i ≠ t → (frameAt pm1.frames i).dirty = (frameAt pm0.frames i).dirty ∧
        (frameAt pm1.frames i).pageNum = (frameAt pm0.frames i).pageNum := by
    rcases hc with ⟨h, _⟩ | ⟨_, hit, hh, fr1, _, _⟩ | ⟨_, _, _, t, buf, ht, hh, _, hft, hoth, _⟩
    · exact absurd hpin h
    · obtain ⟨_, r2, r3, _⟩ := hs.w.resident hit
      refine ⟨_, hh, by rw [l1]; exact r2, ?_, fun i hi => ?_⟩
      · rw [fr1, frameAt_set_self r2]
        exact r3
      · rw [fr1, frameAt_set_other (fun e => hi e.symm)]
        exact ⟨rfl, rfl⟩
    · exact ⟨t, hh, by rw [l1]; exact ht, by rw [hft], fun i hi => ⟨(hoth i hi).2.2.1, (hoth i hi).1⟩⟩
  obtain ⟨t, hh, ht, hpg, hrest⟩ := key
  obtain ⟨pm2, e2, s2, l2, pt2, _, _, same2, hdata⟩ := clientWrite_effect (pinPage bm blankHandle P).2.1
    (pinPage bm blankHandle P).2.2 B pm1 t e1 s1 (by rw [hh]) ht
  have hpg2 : (frameAt pm2.frames t).pageNum = P := by rw [(same2 t).1]; exact hpg
  have hget : ptab_get pm2.ptab (pinPage bm blankHandle P).2.2.pageNum = (t : Int) := by
    rw [hh]; exact (s2.holder hP hpg2).1
  obtain ⟨pm3, e3, s3, l3, _, _, _, same3, hdirty⟩ := markDirty_effect
    (clientWrite (pinPage bm blankHandle P).2.1 (pinPage bm blankHandle P).2.2 B)
    (pinPage bm blankHandle P).2.2 pm2 e2 s2 (by rw [hget]; omega)
  rw [hget, Int.toNat_natCast] at hdirty same3
  obtain ⟨pm4, e4, s4, l4, _, _, same4, _⟩ := unpin_effect (pinWrite bm P B)
    (pinPage bm blankHandle P).2.2 pm3 e3 s3
  refine ⟨pm4, e4, s4, ?_, Or.inl ⟨t, by rw [l4, l3, l2]; exact ht, ?_, ?_, ?_⟩⟩
  · refine hwr.of_rel (fun i hi => ?_)
    by_cases hit : i = t
    · subst hit
      left
      rw [(same4 i).1, (same3 i).1, hpg2]
      exact hP2
    · right
      rw [(same4 i).2.2, (same3 i).2.2.2 hit, (same2 i).2.1, (hrest i hit).1] at hi
      refine ⟨hi, ?_⟩
      rw [(same4 i).1, (same3 i).1, (same2 i).1, (hrest i hit).2]
  · rw [(same4 t).1, (same3 t).1]; exact hpg2
  · rw [(same4 t).2.1, (same3 t).2.1]; exact hdata
  · rw [(same4 t).2.2]; exact hdirty

theorem foldl_pinUnpin_kept (P : Int) (B : PageData) (hP : 0 ≤ P) : ∀ (qs : List Int)
    (bm : BM_BufferPool), (∀ q, q ∈ qs → q ≠ P ∧ q < 2147483647) →
    (∃ pm, bm.mgmtData = some pm ∧ SInv pm ∧ Writable pm ∧ Kept P B pm) →
    ∃ pm, (qs.foldl pinUnpin bm).mgmtData = some pm ∧ SInv pm ∧ Writable pm ∧ Kept P B pm := by
  intro qs
  induction qs with
  | nil => intro bm _ h; exact h
  | cons q rest ih =>
    intro bm hq h
    obtain ⟨pm, e, s, w, k⟩ := h
    rw [List.foldl_cons]
    exact ih _ (fun x hx => hq x (List.mem_cons_of_mem _ hx))
      (pinUnpin_kept bm q P B pm e s w hP (hq q (List.mem_cons_self _ _)).1
        (hq q (List.mem_cons_self _ _)).2 k)

theorem pin_kept (bm : BM_BufferPool) (page : BM_PageHandle) (P : Int) (B : PageData) (pm0 : PoolMgmt)
    (hbm : bm.mgmtData = some pm0) (hs : SInv pm0) (hwr : Writable pm0) (hP : 0 ≤ P)
    (hP2 : P < 2147483647) (hk : Kept P B pm0)
    (hgone : ptab_get pm0.ptab P < 0) (htick : pm0.tick + 1 < 0x7fffffffffffffff) :
    (pinPage bm page P).1 = RC.RC_OK ∧
      ∃ t : Nat, (pinPage bm page P).2.2 = { pageNum := P, data := some t } ∧
        (frameAt (mgmtOf (pinPage bm page P).2.1).frames t).data = B := by
  rcases hk with ⟨i, _, h1, _⟩ | ⟨h1, h2, i, hi, h3⟩
  · have := (hs.holder hP h1).1
    omega
  · obtain ⟨pm1, e1, s1, l1, hc⟩ := pin_effect bm page P pm0 hbm hs hwr hP2
    rcases hc with ⟨_, _, _, _, _, hall⟩ | ⟨_, hit, _⟩ |
      ⟨hok, _, _, t, buf, ht, hh, _, hft, _, _, hbuf, hstore⟩
    · exact absurd h3 (hall hP htick i hi)
    · omega
    · refine ⟨hok, t, hh, ?_⟩
      rw [mgmtOf_eq e1, hft]
      have hlt : P < pm0.fhandle.totalNumPages := by
        rw [hs.ok.wf.len]
        have hn : ¬ P < 0 := by omega
        simp only [storePage, hn, if_false] at h2
        have := (List.getElem?_eq_some_iff.mp h2).1
        omega
      have := hstore P hP hlt
      rw [if_neg (fun h => h1 t h.2), h2, hbuf] at this
      exact Option.some.inj this
/-! ## The store under an adapter that may fail -/

theorem StoreKept.unchanged (fh : SM_FileHandle) : StoreKept fh fh := ⟨le_refl _, fun _ _ => Eq.refl _⟩

theorem StoreKept.chain {a b c : SM_FileHandle} (h1 : StoreKept a b) (h2 : StoreKept b c) :
    StoreKept a c :=
  ⟨le_trans h1.1 h2.1, fun q hq => (h2.2 q (lt_of_lt_of_le hq h1.1)).trans (h1.2 q hq)⟩

theorem kept_of_append {fh fh2 : SM_FileHandle} {l : List PageData} (h : FileWF fh)
    (htot : fh.totalNumPages ≤ fh2.totalNumPages) (e : storePages fh2 = storePages fh ++ l) :
    StoreKept fh fh2 :=
  ⟨htot, fun q hq => storePage_append (by rw [← h.len]; exact hq) e⟩

theorem kept_of_same {fh fh2 : SM_FileHandle} (htot : fh.totalNumPages ≤ fh2.totalNumPages)
    (e : storePages fh2 = storePages fh) : StoreKept fh fh2 :=
  ⟨htot, fun q _ => by simp only [storePage, e]⟩

theorem fwrite_page_pages (fp : OSFile) (buf : PageData) :
    (fwrite_page fp buf).2.pages =
      if (fwrite_page fp buf).1 = RC.RC_OK
      then (fp.pages ++ List.replicate (fp.pos + 1 - fp.pages.length) zeroPage).set fp.pos buf
      else fp.pages := by
  by_cases hc : fp.call.1 = true
  · simp only [fwrite_page, hc, if_true, call_pages, call_pos]
  · simp [fwrite_page, hc, call_pages]

theorem appendEmptyBlock_kept {fh : SM_FileHandle} (h : FileWF fh) :
    StoreKept fh (appendEmptyBlock fh).2 := by
  have h0 := h
  obtain ⟨a1, a2, _⟩ := appendEmptyBlock_wf h
  obtain ⟨c, h1, h2⟩ := h
  have key : ∃ l, storePages (appendEmptyBlock fh).2 = storePages fh ++ l := by
    simp only [appendEmptyBlock, h1]
    split
    · exact ⟨[], by simp only [storePages, h1, fseek_end_pages, List.append_nil]⟩
    · rename_i hseek
      have hseek2 : (fseek_end c.fp).1 = true := by simpa using hseek
      have hpos := fseek_end_pos c.fp hseek2
      split
      · exact ⟨[], by simp only [storePages, h1, call_pages, fseek_end_pages, List.append_nil]⟩
      · have hp := fwrite_page_pages (fseek_end c.fp).2.call.2 zeroPage
        rw [call_pos, call_pages, hpos, fseek_end_pages] at hp
        split
        · rename_i hok
          rw [if_pos hok] at hp
          refine ⟨[zeroPage], ?_⟩
          simp only [storePages, h1, hp]
          have : c.fp.pages.length + 1 - c.fp.pages.length = 1 := by omega
          rw [this]
          simp
        · rename_i hok
          rw [if_neg hok] at hp
          exact ⟨[], by simp only [storePages, h1, hp, List.append_nil]⟩
  obtain ⟨l, e⟩ := key
  exact kept_of_append h0 a2 e

theorem ensureCapacity_loop_kept (n : Int) : ∀ (fuel : Nat) (fh : SM_FileHandle), FileWF fh →
    StoreKept fh (ensureCapacity.loop n fuel fh).2 := by
  intro fuel
  induction fuel with
  | zero => intro fh _; exact StoreKept.unchanged _
  | succ k ih =>
    intro fh h
    simp only [ensureCapacity.loop]
    split
    · split
      · exact appendEmptyBlock_kept h
      · exact (appendEmptyBlock_kept h).chain (ih _ (appendEmptyBlock_wf h).1)
    · exact StoreKept.unchanged _

theorem ensurePageExists_kept {fh : SM_FileHandle} (h : FileWF fh) (p : Int) :
    StoreKept fh (ensurePageExists fh p).2 := by
  obtain ⟨c, h1, _⟩ := h
  simp only [ensurePageExists]
  split
  · exact StoreKept.unchanged _
  · split
    · have e : ensureCapacity (wrapInt (p + 1)) fh
          = ensureCapacity.loop (wrapInt (p + 1)) (wrapInt (p + 1) - fh.totalNumPages).toNat fh := by
        simp only [ensureCapacity, h1]
      rw [e]
      split
      · exact ensureCapacity_loop_kept _ _ _ ⟨c, h1, by assumption⟩
      · exact ensureCapacity_loop_kept _ _ _ ⟨c, h1, by assumption⟩
    · exact StoreKept.unchanged _

theorem writeBlock_store {fh : SM_FileHandle} (h : FileWF fh) (p : Int) (buf : PageData) :
    ((writeBlock p fh buf).1 = RC.RC_OK →
        0 ≤ p ∧ p < fh.totalNumPages ∧
        storePages (writeBlock p fh buf).2 = (storePages fh).set p.toNat buf) ∧
      ((writeBlock p fh buf).1 ≠ RC.RC_OK → storePages (writeBlock p fh buf).2 = storePages fh) := by
  obtain ⟨c, h1, h2⟩ := h
  simp only [writeBlock, h1]
  split
  · exact ⟨fun hh => by simp at hh, fun _ => by simp only [storePages, h1]⟩
  · rename_i hrange
    split
    · exact ⟨fun hh => by simp at hh, fun _ => by simp only [storePages, h1, fseek_set_pages]⟩
    · rename_i hseek
      have e : (fseek_set c.fp p.toNat).2.pos = p.toNat := by
        simp only [fseek_set] at hseek ⊢
        split
        · rfl
        · rename_i hc; simp [hc] at hseek
      have hp := fwrite_page_pages (fseek_set c.fp p.toNat).2 buf
      rw [e, fseek_set_pages] at hp
      have hz : p.toNat + 1 - c.fp.pages.length = 0 := by omega
      rw [hz, List.replicate_zero, List.append_nil] at hp
      split
      · rename_i hok
        rw [if_pos hok] at hp
        exact ⟨fun _ => ⟨by omega, by omega, by simp only [storePages, h1, hp]⟩,
          fun hh => absurd hok hh⟩
      · rename_i hok
        rw [if_neg hok] at hp
        exact ⟨fun hh => absurd hh hok, fun _ => by simp only [storePages, h1, hp]⟩

theorem storePage_set_self_wf {fh fh2 : SM_FileHandle} {p : Int} {buf : PageData} (h : FileWF fh)
    (hp : 0 ≤ p) (hlt : p < fh.totalNumPages)
    (e : storePages fh2 = (storePages fh).set p.toNat buf) : storePage fh2 p = some buf :=
  storePage_set_self hp (by rw [← h.len]; exact hlt) e

theorem flush_general {pm : PoolMgmt} (hw : WInv pm) (k : Nat) :
    (((frameAt pm.frames k).dirty = true ∧ (flushIfDirty pm k).1 = RC.RC_OK) →
        (flushIfDirty pm k).2.frames
          = pm.frames.set k { (frameAt pm.frames k) with dirty := false } ∧
        k < pm.frames.length ∧
        PoolMgmt.numWriteIO (flushIfDirty pm k).2 = wrapInt (pm.numWriteIO + 1) ∧
        0 ≤ (frameAt pm.frames k).pageNum ∧
        (frameAt pm.frames k).pageNum < pm.fhandle.totalNumPages ∧
        (flushIfDirty pm k).2.fhandle.totalNumPages = pm.fhandle.totalNumPages ∧
        storePage (flushIfDirty pm k).2.fhandle (frameAt pm.frames k).pageNum
          = some (frameAt pm.frames k).data ∧
        ∀ q, q ≠ (frameAt pm.frames k).pageNum →
          storePage (flushIfDirty pm k).2.fhandle q = storePage pm.fhandle q) ∧
      (¬ ((frameAt pm.frames k).dirty = true ∧ (flushIfDirty pm k).1 = RC.RC_OK) →
        (flushIfDirty pm k).2.frames = pm.frames ∧
        PoolMgmt.numWriteIO (flushIfDirty pm k).2 = pm.numWriteIO ∧
        StoreKept pm.fhandle (flushIfDirty pm k).2.fhandle) := by
  cases hd : (frameAt pm.frames k).dirty with
  | false =>
    rw [flushIfDirty_noop pm k (Or.inr hd)]
    exact ⟨fun h => absurd h.1 (by simp), fun _ => ⟨rfl, rfl, StoreKept.unchanged _⟩⟩
  | true =>
    have hne : (frameAt pm.frames k).pageNum ≠ NO_PAGE := by
      intro h0
      have := (hw.empty k h0).2
      rw [hd] at this
      exact Bool.noConfusion this
    have hp0 : 0 ≤ (frameAt pm.frames k).pageNum := by
      have := hw.pages k
      unfold NO_PAGE at hne
      omega
    have hkl : k < pm.frames.length := by
      by_contra hc
      rw [frameAt_default (by omega)] at hd
      exact Bool.noConfusion hd
    by_cases hcov : (frameAt pm.frames k).pageNum < pm.fhandle.totalNumPages
    swap
    · have hbig : 2147483647 ≤ (frameAt pm.frames k).pageNum := by
        rcases hw.covered k with c | c
        · exact absurd c hcov
        · exact c
      obtain ⟨b1, _, b3⟩ := flushIfDirty_big pm k hw.file hne hd (by omega) hbig
      refine ⟨fun h => absurd h.2 b1, fun _ => ?_⟩
      rw [b3]
      exact ⟨rfl, rfl, ensurePageExists_kept hw.file _⟩
    have he : ensurePageExists pm.fhandle (frameAt pm.frames k).pageNum = (RC.RC_OK, pm.fhandle) := by
      simp only [ensurePageExists]
      rw [if_neg (by omega), if_neg (by omega)]
    have hn : ¬ ((frameAt pm.frames k).pageNum = NO_PAGE ∨ (frameAt pm.frames k).dirty = false) := by
      simp [hne, hd]
    obtain ⟨w1, w2⟩ := writeBlock_store hw.file (frameAt pm.frames k).pageNum (frameAt pm.frames k).data
    obtain ⟨_, w3⟩ := writeBlock_wf hw.file (frameAt pm.frames k).pageNum (frameAt pm.frames k).data
    by_cases hwr : (writeBlock (frameAt pm.frames k).pageNum pm.fhandle (frameAt pm.frames k).data).1
        = RC.RC_OK
    · have e : flushIfDirty pm k = (RC.RC_OK,
          { pm with fhandle := (writeBlock (frameAt pm.frames k).pageNum pm.fhandle
                      (frameAt pm.frames k).data).2,
                    numWriteIO := wrapInt (pm.numWriteIO + 1),
                    frames := pm.frames.set k { (frameAt pm.frames k) with dirty := false } }) := by
        simp only [flushIfDirty]
        rw [if_neg hn, he]
        simp only [ne_eq, not_true_eq_false, if_false]
        rw [if_neg (fun h => h hwr)]
      rw [e]
      obtain ⟨_, _, w4⟩ := w1 hwr
      refine ⟨fun _ => ⟨rfl, hkl, rfl, hp0, hcov, w3, storePage_set_self_wf hw.file hp0 hcov w4,
        fun q hq => storePage_set_other hp0 hq w4⟩, fun h => absurd ⟨rfl, rfl⟩ h⟩
    · have e : flushIfDirty pm k =
          ((writeBlock (frameAt pm.frames k).pageNum pm.fhandle (frameAt pm.frames k).data).1,
          { pm with fhandle := (writeBlock (frameAt pm.frames k).pageNum pm.fhandle
                      (frameAt pm.frames k).data).2 }) := by
        simp only [flushIfDirty]
        rw [if_neg hn, he]
        simp only [ne_eq, not_true_eq_false, if_false]
        rw [if_pos hwr]
      rw [e]
      exact ⟨fun h => absurd h.2 hwr, fun _ => ⟨rfl, rfl, kept_of_same (le_of_eq w3.symm) (w2 hwr)⟩⟩

theorem load_general (bm : BM_BufferPool) (page : BM_PageHandle) (p : Int) (pm : PoolMgmt) (t : Nat)
    (ht : t < pm.frames.length) (hf : FileWF pm.fhandle) :
    ∃ pm1, (pinPage.load bm page p pm t).2.1.mgmtData = some pm1 ∧
      StoreKept pm.fhandle pm1.fhandle ∧ pm1.numWriteIO = pm.numWriteIO ∧
      (∀ i, i ≠ t → frameAt pm1.frames i = frameAt pm.frames i) ∧
      (((pinPage.load bm page p pm t).1 ≠ RC.RC_OK ∧ pm1.frames = pm.frames ∧
          pm1.numReadIO = pm.numReadIO) ∨
        ((pinPage.load bm page p pm t).1 = RC.RC_OK ∧ (frameAt pm1.frames t).dirty = false ∧
          (frameAt pm1.frames t).pageNum = p ∧
          pm1.numReadIO =
            if (readBlock p (ensurePageExists pm.fhandle p).2 (frameAt pm.frames t).data).1 = RC.RC_OK
            then wrapInt (pm.numReadIO + 1) else pm.numReadIO)) := by
  have k1 := ensurePageExists_kept hf p
  obtain ⟨e1, _, _⟩ := ensurePageExists_wf hf p
  obtain ⟨r1, r2, r3⟩ := readBlock_wf e1 p (frameAt pm.frames t).data
  by_cases he : (ensurePageExists pm.fhandle p).1 ≠ RC.RC_OK
  · have e : pinPage.load bm page p pm t = ((ensurePageExists pm.fhandle p).1,
        { bm with mgmtData := some { pm with fhandle := (ensurePageExists pm.fhandle p).2 } }, page) := by
      simp only [pinPage.load, loadIntoFrame]
      rw [if_pos he, if_pos he]
    rw [e]
    exact ⟨_, rfl, k1, rfl, fun _ _ => rfl, Or.inl ⟨he, rfl, rfl⟩⟩
  · have e : pinPage.load bm page p pm t = (RC.RC_OK,
        { bm with mgmtData := some (refreshSnapshots
            { pm with
              fhandle := (readBlock p (ensurePageExists pm.fhandle p).2 (frameAt pm.frames t).data).2.1,
              numReadIO :=
                if (readBlock p (ensurePageExists pm.fhandle p).2 (frameAt pm.frames t).data).1
                    = RC.RC_OK
                then wrapInt (pm.numReadIO + 1) else pm.numReadIO,
              frames := pm.frames.set t
                { pageNum := p,
                  data :=
                    if (readBlock p (ensurePageExists pm.fhandle p).2 (frameAt pm.frames t).data).1
                        = RC.RC_OK
                    then (readBlock p (ensurePageExists pm.fhandle p).2 (frameAt pm.frames t).data).2.2
                    else zeroPage,
                  dirty := false, fixCount := 1, lastUsed := pm.tick, fifoPos := pm.tick,
                  refbit := true },
              ptab := (ptab_put pm.ptab p (t : Int)).2 }) },
        { pageNum := p, data := some t }) := by
      simp only [pinPage.load, loadIntoFrame]
      rw [if_neg he]
      simp only [ne_eq, not_true_eq_false, if_false, frameAt_set_self ht, List.set_set]
    rw [e]
    refine ⟨_, rfl, ?_, rfl, fun i hi => ?_, Or.inr ⟨rfl, ?_, ?_, rfl⟩⟩
    · exact k1.chain (kept_of_same (le_of_eq r2.symm) r3)
    · show frameAt (pm.frames.set t _) i = _
      rw [frameAt_set_other (fun e => hi e.symm)]
    · show (frameAt (pm.frames.set t _) t).dirty = false
      rw [frameAt_set_self ht]
    · show (frameAt (pm.frames.set t _) t).pageNum = p
      rw [frameAt_set_self ht]

theorem target_general {pm : PoolMgmt} {t : Nat} {pmT : PoolMgmt} (hw : WInv pm)
    (ht : IsTarget pm t pmT) :
    (frameAt pmT.frames t).dirty = false ∧
      ((frameAt pm.frames t).dirty = false →
        pmT.numWriteIO = pm.numWriteIO ∧ StoreKept pm.fhandle pmT.fhandle) ∧
      ((frameAt pm.frames t).dirty = true →
        pmT.numWriteIO = wrapInt (pm.numWriteIO + 1) ∧ 0 ≤ (frameAt pm.frames t).pageNum ∧
        (frameAt pm.frames t).pageNum < pm.fhandle.totalNumPages ∧
        pmT.fhandle.totalNumPages = pm.fhandle.totalNumPages ∧
        storePage pmT.fhandle (frameAt pm.frames t).pageNum = some (frameAt pm.frames t).data ∧
        ∀ q, q ≠ (frameAt pm.frames t).pageNum → storePage pmT.fhandle q = storePage pm.fhandle q) := by
  rcases ht with ⟨he, rfl⟩ | ⟨he, hv, hf, rfl⟩
  · rcases findEmptyFrame_spec pmT with ⟨a, _⟩ | ⟨i, a, b, c, d, _⟩
    · rw [a] at he; omega
    · have : i = t := by rw [a] at he; omega
      subst this
      have hd := (hw.empty i c).2
      exact ⟨hd, fun _ => ⟨rfl, StoreKept.unchanged _⟩, fun h => by rw [hd] at h; exact Bool.noConfusion h⟩
  · obtain ⟨v1, v2, v3, v4, _⟩ := victim_props hw
    obtain ⟨g1, g2⟩ := flush_general v1 t
    have hfh : (selectVictim pm).2.fhandle = pm.fhandle := by rw [v2]
    have hwr : PoolMgmt.numWriteIO (selectVictim pm).2 = pm.numWriteIO := by rw [v2]
    have hpn : (frameAt (selectVictim pm).2.frames t).pageNum = (frameAt pm.frames t).pageNum := (v4 t).1
    have hdt : (frameAt (selectVictim pm).2.frames t).data = (frameAt pm.frames t).data := (v4 t).2.1
    have hdr : (frameAt (selectVictim pm).2.frames t).dirty = (frameAt pm.frames t).dirty := (v4 t).2.2.1
    have hproj : ∀ X : PoolMgmt, X = (if (frameAt (flushIfDirty (selectVictim pm).2 t).2.frames t).pageNum
          ≠ NO_PAGE
        then { (flushIfDirty (selectVictim pm).2 t).2 with
               ptab := ptab_del (flushIfDirty (selectVictim pm).2 t).2.ptab
                 (frameAt (flushIfDirty (selectVictim pm).2 t).2.frames t).pageNum }
        else (flushIfDirty (selectVictim pm).2 t).2) →
        X.frames = (flushIfDirty (selectVictim pm).2 t).2.frames ∧
        X.fhandle = (flushIfDirty (selectVictim pm).2 t).2.fhandle ∧
        X.numWriteIO = PoolMgmt.numWriteIO (flushIfDirty (selectVictim pm).2 t).2 := by
      intro X hX
      subst hX
      split
      · exact ⟨rfl, rfl, rfl⟩
      · exact ⟨rfl, rfl, rfl⟩
    obtain ⟨p1, p2, p3⟩ := hproj _ rfl
    rw [p1, p2, p3]
    cases hd : (frameAt pm.frames t).dirty with
    | true =>
      obtain ⟨a1, a2, a3, a4, a5, a6, a7, a8⟩ := g1 ⟨by rw [hdr]; exact hd, hf⟩
      rw [hpn, hdt] at a7
      rw [hpn, hfh] at a5
      rw [hpn] at a4
      refine ⟨?_, fun h => Bool.noConfusion h, fun _ => ⟨by rw [a3, hwr], a4, a5, by rw [a6, hfh], a7,
        fun q hq => ?_⟩⟩
      · rw [a1, frameAt_set_self a2]
      · have := a8 q (by rw [hpn]; exact hq)
        rw [hfh] at this
        exact this
    | false =>
      obtain ⟨b1, b2, b3⟩ := g2 (fun h => by
        have := h.1
        rw [hdr, hd] at this
        exact Bool.noConfusion this)
      rw [hfh] at b3
      exact ⟨by rw [b1, hdr]; exact hd, fun _ => ⟨by rw [b2, hwr], b3⟩, fun h => Bool.noConfusion h⟩

theorem pin_general (bm : BM_BufferPool) (page : BM_PageHandle) (p : Int) (pm0 : PoolMgmt)
    (hbm : bm.mgmtData = some pm0) (hw : WInv pm0) :
    ∃ pm1, (pinPage bm page p).2.1.mgmtData = some pm1 ∧
      (NoWrite pm0 pm1 ∨ ∃ t, WroteOne pm0 pm1 t ∧ (frameAt pm0.frames t).fixCount = 0) ∧
      (∀ i, (frameAt pm1.frames i).pageNum ≠ (frameAt pm0.frames i).pageNum →
        (frameAt pm1.frames i).dirty = false) ∧
      (((pinPage bm page p).1 = RC.RC_OK ∧ 0 ≤ p ∧ ptab_get pm0.ptab p < 0 ∧
          ∃ t pmT, IsTarget { pm0 with tick := pm0.tick + 1 } t pmT ∧
            pm1.numReadIO =
              if (readBlock p (ensurePageExists pmT.fhandle p).2 (frameAt pmT.frames t).data).1
                  = RC.RC_OK
              then wrapInt (pm0.numReadIO + 1) else pm0.numReadIO) ∨
        (((pinPage bm page p).1 ≠ RC.RC_OK ∨ 0 ≤ ptab_get pm0.ptab p) ∧
          pm1.numReadIO = pm0.numReadIO)) := by
  by_cases hp : p < 0
  · rw [pin_negative bm page p pm0 hbm hp]
    exact ⟨pm0, hbm, Or.inl ⟨fun _ => rfl, rfl, StoreKept.unchanged _⟩, fun i h => absurd rfl h,
      Or.inr ⟨Or.inl (fun h => RC.noConfusion h), rfl⟩⟩
  · have hp0 : 0 ≤ p := by omega
    by_cases hit : 0 ≤ ptab_get pm0.ptab p
    · obtain ⟨_, r2, _, _⟩ := hw.resident hit
      rw [pin_hit bm page p pm0 hbm hp0 hit]
      refine ⟨_, rfl, Or.inl ⟨fun i => ?_, rfl, StoreKept.unchanged _⟩, fun i h => absurd ?_ h,
        Or.inr ⟨Or.inr hit, rfl⟩⟩
      · show (frameAt (pm0.frames.set _ _) i).dirty = _
        rw [frameAt_set_lt r2]
        split
        · rename_i e; subst e; rfl
        · rfl
      · show (frameAt (pm0.frames.set _ _) i).pageNum = _
        rw [frameAt_set_lt r2]
        split
        · rename_i e; subst e; rfl
        · rfl
    · have miss : ptab_get pm0.ptab p < 0 := by omega
      have hwt := hw.tick
      obtain ⟨v1, v2, v3, v4, _⟩ := victim_props hwt
      have hfh : (selectVictim ({ pm0 with tick := pm0.tick + 1 } : PoolMgmt)).2.fhandle
          = pm0.fhandle := by rw [v2]
      have hwr : PoolMgmt.numWriteIO (selectVictim ({ pm0 with tick := pm0.tick + 1 } : PoolMgmt)).2
          = pm0.numWriteIO := by rw [v2]
      have hrd : PoolMgmt.numReadIO (selectVictim ({ pm0 with tick := pm0.tick + 1 } : PoolMgmt)).2
          = pm0.numReadIO := by rw [v2]
      rcases pin_miss bm page p pm0 hbm hp0 miss with ⟨_, _, e3⟩ | ⟨_, _, e3, e4⟩ | ⟨t, pmT, ht, e⟩
      · rw [e3]
        exact ⟨_, rfl, Or.inl ⟨fun i => (v4 i).2.2.1, hwr, by rw [hfh]; exact StoreKept.unchanged _⟩,
          fun i h => absurd (v4 i).1 h, Or.inr ⟨Or.inl (fun h => RC.noConfusion h), hrd⟩⟩
      · rw [e4]
        obtain ⟨_, g2⟩ := flush_general v1
          (selectVictim ({ pm0 with tick := pm0.tick + 1 } : PoolMgmt)).1.toNat
        obtain ⟨b1, b2, b3⟩ := g2 (fun h => e3 h.2)
        obtain ⟨_, f2, _⟩ := flush_props v1
          (selectVictim ({ pm0 with tick := pm0.tick + 1 } : PoolMgmt)).1.toNat
        refine ⟨_, rfl, Or.inl ⟨fun i => ?_, ?_, ?_⟩, fun i h => absurd ?_ h, Or.inr ⟨Or.inl e3, ?_⟩⟩
        · rw [b1]; exact (v4 i).2.2.1
        · rw [b2, hwr]
        · rw [hfh] at b3; exact b3
        · rw [b1]; exact (v4 i).1
        · rw [f2]
          exact hrd
      · obtain ⟨a1, a2, a3, a4, a5, a6, a7, a8, a9, a10, a11⟩ := target_props hwt ht
        obtain ⟨t1, t2, t3⟩ := target_general hwt ht
        have htT : t < pmT.frames.length := by rw [a3]; exact a2
        obtain ⟨pm1, l1, l2, l3, l4, l5⟩ := load_general bm page p pmT t htT a1.file
        rw [e]
        have hd1 : (frameAt pm1.frames t).dirty = false := by
          rcases l5 with ⟨_, x, _⟩ | ⟨_, x, _⟩
          · rw [x]; exact t1
          · exact x
        have hoth : ∀ i, i ≠ t → (frameAt pm1.frames i).dirty = (frameAt pm0.frames i).dirty := by
          intro i hi
          rw [l4 i hi]; exact a10 i hi
        refine ⟨pm1, l1, ?_, fun i h => ?_, ?_⟩
        · cases hd : (frameAt pm0.frames t).dirty with
          | false =>
            obtain ⟨x1, x2⟩ := t2 hd
            refine Or.inl ⟨fun i => ?_, by rw [l3]; exact x1, x2.chain l2⟩
            by_cases hi : i = t
            · subst hi; rw [hd1, hd]
            · exact hoth i hi
          | true =>
            obtain ⟨x1, x2, x3, x4, x5, x6⟩ := t3 hd
            refine Or.inr ⟨t, ⟨hd, hd1, hoth, by rw [l3]; exact x1, x2, x3, ?_, fun q hq hq2 => ?_⟩, a8⟩
            · rw [l2.2 _ (by rw [x4]; exact x3)]; exact x5
            · rw [l2.2 q (by rw [x4]; exact hq2)]; exact x6 q hq
        · by_cases hi : i = t
          · subst hi; exact hd1
          · exfalso; apply h
            rw [l4 i hi]; exact (a9 i).1
        · rcases l5 with ⟨y1, _, y3⟩ | ⟨y1, _, _, y4⟩
          · exact Or.inr ⟨Or.inl y1, by rw [y3]; exact a7⟩
          · refine Or.inl ⟨y1, hp0, miss, t, pmT, ht, ?_⟩
            rw [y4]
            have a7 : pmT.numReadIO = pm0.numReadIO := a7
            rw [a7]

theorem flush_wrote_or_not {pm : PoolMgmt} (hw : WInv pm) (k : Nat) :
    ((flushIfDirty pm k).1 = RC.RC_OK ∧ WroteOne pm (flushIfDirty pm k).2 k) ∨
      (NoWrite pm (flushIfDirty pm k).2 ∧ (flushIfDirty pm k).2.frames = pm.frames ∧
        ((flushIfDirty pm k).1 = RC.RC_OK → (frameAt pm.frames k).dirty = false)) := by
  obtain ⟨g1, g2⟩ := flush_general hw k
  by_cases h : (frameAt pm.frames k).dirty = true ∧ (flushIfDirty pm k).1 = RC.RC_OK
  · obtain ⟨a1, a2, a3, a4, a5, a6, a7, a8⟩ := g1 h
    refine Or.inl ⟨h.2, h.1, ?_, fun i hi => ?_, a3, a4, a5, a7, fun q hq _ => a8 q hq⟩
    · rw [a1, frameAt_set_self a2]
    · rw [a1, frameAt_set_other (fun e => hi e.symm)]
  · obtain ⟨b1, b2, b3⟩ := g2 h
    refine Or.inr ⟨⟨fun i => by rw [b1], b2, b3⟩, b1, fun hok => ?_⟩
    cases hd : (frameAt pm.frames k).dirty with
    | false => rfl
    | true => exact absurd ⟨hd, hok⟩ h

theorem forcePage_general (bm : BM_BufferPool) (page : BM_PageHandle) (pm0 : PoolMgmt)
    (hbm : bm.mgmtData = some pm0) (hw : WInv pm0) :
    ∃ pm1, (forcePage bm page).2.mgmtData = some pm1 ∧
      (NoWrite pm0 pm1 ∨
        (WroteOne pm0 pm1 (ptab_get pm0.ptab page.pageNum).toNat ∧ 0 ≤ ptab_get pm0.ptab page.pageNum ∧
          (forcePage bm page).1 = RC.RC_OK)) ∧
      pm1.numReadIO = pm0.numReadIO ∧
      (∀ i, (frameAt pm1.frames i).pageNum = (frameAt pm0.frames i).pageNum) := by
  rw [forcePage_eq bm page pm0 hbm]
  by_cases h : ptab_get pm0.ptab page.pageNum < 0
  · rw [if_pos h]
    exact ⟨pm0, hbm, Or.inl ⟨fun _ => rfl, rfl, StoreKept.unchanged _⟩, rfl, fun _ => rfl⟩
  · rw [if_neg h]
    obtain ⟨_, f2, _, f4, _⟩ := flush_props hw (ptab_get pm0.ptab page.pageNum).toNat
    have hrd : PoolMgmt.numReadIO (flushIfDirty pm0 (ptab_get pm0.ptab page.pageNum).toNat).2
        = pm0.numReadIO := by rw [f2]
    by_cases hf : (flushIfDirty pm0 (ptab_get pm0.ptab page.pageNum).toNat).1 ≠ RC.RC_OK
    · rw [if_pos hf]
      rcases flush_wrote_or_not hw (ptab_get pm0.ptab page.pageNum).toNat with ⟨a, _⟩ | ⟨b, _, _⟩
      · exact absurd a hf
      · exact ⟨_, rfl, Or.inl b, hrd, fun i => (f4 i).1.1⟩
    · rw [if_neg hf]
      rcases flush_wrote_or_not hw (ptab_get pm0.ptab page.pageNum).toNat with ⟨_, a⟩ | ⟨b, _, _⟩
      · exact ⟨_, rfl, Or.inr ⟨a, by omega, rfl⟩, hrd, fun i => (f4 i).1.1⟩
      · exact ⟨_, rfl, Or.inl b, hrd, fun i => (f4 i).1.1⟩

theorem flushFrames_cons_ok (b : Bool) (i : Nat) (rest : List Nat) (pm : PoolMgmt)
    (hg : b = false ∨ (frameAt pm.frames i).fixCount = 0) (hok : (flushIfDirty pm i).1 = RC.RC_OK) :
    flushFrames b (i :: rest) pm = flushFrames b rest (flushIfDirty pm i).2 := by
  simp only [flushFrames]
  rw [if_pos hg, if_neg (fun h => h hok)]

theorem flushFrames_cons_err (b : Bool) (i : Nat) (rest : List Nat) (pm : PoolMgmt)
    (hg : b = false ∨ (frameAt pm.frames i).fixCount = 0) (hok : (flushIfDirty pm i).1 ≠ RC.RC_OK) :
    flushFrames b (i :: rest) pm = flushIfDirty pm i := by
  simp only [flushFrames]
  rw [if_pos hg, if_pos hok]

theorem flushFrames_cons_skip (b : Bool) (i : Nat) (rest : List Nat) (pm : PoolMgmt)
    (hg : ¬ (b = false ∨ (frameAt pm.frames i).fixCount = 0)) :
    flushFrames b (i :: rest) pm = flushFrames b rest pm := by
  simp only [flushFrames]
  rw [if_neg hg]

theorem flushFrames_events (b : Bool) : ∀ (l : List Nat) (pm : PoolMgmt), l.Nodup → WInv pm →
    (∀ i, (frameAt (flushFrames b l pm).2.frames i).pageNum = (frameAt pm.frames i).pageNum ∧
      (frameAt (flushFrames b l pm).2.frames i).data = (frameAt pm.frames i).data ∧
      (frameAt (flushFrames b l pm).2.frames i).fixCount = (frameAt pm.frames i).fixCount) ∧
    (∀ i, (frameAt (flushFrames b l pm).2.frames i).dirty = true → (frameAt pm.frames i).dirty = true) ∧
    (∀ i, (i ∉ l ∨ ¬ (b = false ∨ (frameAt pm.frames i).fixCount = 0)) →
      (frameAt (flushFrames b l pm).2.frames i).dirty = (frameAt pm.frames i).dirty) ∧
    PoolMgmt.numReadIO (flushFrames b l pm).2 = pm.numReadIO ∧
    PoolMgmt.numWriteIO (flushFrames b l pm).2 = wrapInt (pm.numWriteIO +
      ((l.countP fun k => decide ((frameAt pm.frames k).dirty = true ∧
        (frameAt (flushFrames b l pm).2.frames k).dirty = false) : Nat) : Int)) ∧
    (∀ k, (frameAt pm.frames k).dirty = true →
      (frameAt (flushFrames b l pm).2.frames k).dirty = false →
      ∃ l1 l2, l = l1 ++ k :: l2 ∧ (flushFrames b l1 pm).1 = RC.RC_OK ∧
        frameAt (flushFrames b l1 pm).2.frames k = frameAt pm.frames k ∧
        WroteOne (flushFrames b l1 pm).2 (flushIfDirty (flushFrames b l1 pm).2 k).2 k) ∧
    ((flushFrames b l pm).1 = RC.RC_OK → ∀ k, k ∈ l → (b = false ∨ (frameAt pm.frames k).fixCount = 0) →
      (frameAt (flushFrames b l pm).2.frames k).dirty = false) := by
  intro l
  induction l with
  | nil =>
    intro pm _ hw
    refine ⟨fun _ => ⟨rfl, rfl, rfl⟩, fun _ h => h, fun _ _ => rfl, rfl, ?_, fun k h1 h2 => ?_,
      fun _ k hk => absurd hk (List.not_mem_nil k)⟩
    · show pm.numWriteIO = wrapInt (pm.numWriteIO + ((0 : Nat) : Int))
      rw [Nat.cast_zero, Int.add_zero, hw.writes_wrap]
    · have h2 : (frameAt pm.frames k).dirty = false := h2
      rw [h1] at h2
      exact Bool.noConfusion h2
  | cons i rest ih =>
    intro pm hnd hw
    obtain ⟨hni, hnr⟩ := List.nodup_cons.mp hnd
    by_cases hg : b = false ∨ (frameAt pm.frames i).fixCount = 0
    · obtain ⟨f1, f2, _, f4, _⟩ := flush_props hw i
      have hrd : PoolMgmt.numReadIO (flushIfDirty pm i).2 = pm.numReadIO := by rw [f2]
      by_cases hok : (flushIfDirty pm i).1 = RC.RC_OK
      · rw [flushFrames_cons_ok b i rest pm hg hok]
        obtain ⟨t1, t2, t3, t4, t5, t6, t7⟩ := ih (flushIfDirty pm i).2 hnr f1
        have hpg : ∀ k, (frameAt (flushIfDirty pm i).2.frames k).fixCount
            = (frameAt pm.frames k).fixCount := fun k => (f4 k).1.2.2.1
        have hdk : ∀ k, k ≠ i → (frameAt (flushIfDirty pm i).2.frames k).dirty
            = (frameAt pm.frames k).dirty := fun k hk => (f4 k).2.2.1 hk
        have hfin_i : (frameAt (flushFrames b rest (flushIfDirty pm i).2).2.frames i).dirty
            = (frameAt (flushIfDirty pm i).2.frames i).dirty := t3 i (Or.inl hni)
        refine ⟨fun k => ?_, fun k h => (f4 k).2.2.2 (t2 k h), fun k hk => ?_, by rw [t4, hrd], ?_,
          fun k h1 h2 => ?_, fun hfin k hk hgk => ?_⟩
        · obtain ⟨x, y, z⟩ := t1 k
          exact ⟨x.trans (f4 k).1.1, y.trans (f4 k).1.2.1, z.trans (f4 k).1.2.2.1⟩
        · have hki : k ≠ i := by
            rcases hk with hk | hk
            · exact fun e => hk (e ▸ List.mem_cons_self _ _)
            · exact fun e => hk (e ▸ hg)
          rw [t3 k (by
            rcases hk with hk | hk
            · exact Or.inl (fun hm => hk (List.mem_cons_of_mem _ hm))
            · exact Or.inr (by rw [hpg]; exact hk))]
          exact hdk k hki
        · rw [t5, List.countP_cons]
          have hcnt : (rest.countP fun k => decide ((frameAt (flushIfDirty pm i).2.frames k).dirty = true ∧
                (frameAt (flushFrames b rest (flushIfDirty pm i).2).2.frames k).dirty = false))
              = rest.countP fun k => decide ((frameAt pm.frames k).dirty = true ∧
                (frameAt (flushFrames b rest (flushIfDirty pm i).2).2.frames k).dirty = false) := by
            apply List.countP_congr
            intro k hk
            have hki : k ≠ i := fun e => hni (e ▸ hk)
            simp only [decide_eq_true_eq]
            rw [hdk k hki]
          rw [hcnt]
          rcases flush_wrote_or_not hw i with ⟨_, w⟩ | ⟨n, hfr, hcl⟩
          · obtain ⟨w1, w2, _, w4, _⟩ := w
            have : (frameAt pm.frames i).dirty = true ∧
                (frameAt (flushFrames b rest (flushIfDirty pm i).2).2.frames i).dirty = false :=
              ⟨w1, by rw [hfin_i]; exact w2⟩
            simp only [this, and_self, decide_True, if_true]
            rw [w4, wrapInt_add]
            push_cast
            congr 1
            omega
          · have hd0 := hcl hok
            have : ¬ ((frameAt pm.frames i).dirty = true ∧
                (frameAt (flushFrames b rest (flushIfDirty pm i).2).2.frames i).dirty = false) := by
              intro h; rw [hd0] at h; exact Bool.noConfusion h.1
            simp only [this, decide_False, Bool.false_eq_true, if_false, Nat.add_zero]
            rw [n.2.1]
        · by_cases hki : k = i
          · subst hki
            rcases flush_wrote_or_not hw k with ⟨_, w⟩ | ⟨_, _, hcl⟩
            · exact ⟨[], rest, rfl, rfl, rfl, w⟩
            · have := hcl hok
              rw [h1] at this
              exact Bool.noConfusion this
          · obtain ⟨l1, l2, e1, e2, e3, e4⟩ := t6 k (by rw [hdk k hki]; exact h1) h2
            refine ⟨i :: l1, l2, by rw [e1]; rfl, ?_, ?_, ?_⟩
            · rw [flushFrames_cons_ok b i l1 pm hg hok]; exact e2
            · rw [flushFrames_cons_ok b i l1 pm hg hok, e3]
              have := f4 k
              obtain ⟨⟨x1, x2, x3, x4, x5⟩, x6, x7, _⟩ := this
              cases hh : frameAt (flushIfDirty pm i).2.frames k
              cases hh2 : frameAt pm.frames k
              rw [hh, hh2] at x1 x2 x3 x4 x5 x6
              have x7 := x7 hki
              rw [hh, hh2] at x7
              simp only at x1 x2 x3 x4 x5 x6 x7
              subst x1 x2 x3 x4 x5 x6 x7
              rfl
            · rw [flushFrames_cons_ok b i l1 pm hg hok]; exact e4
        · rcases List.mem_cons.mp hk with e | hm
          · subst e
            rw [hfin_i]
            rcases flush_wrote_or_not hw k with ⟨_, w⟩ | ⟨_, hfr, hcl⟩
            · exact w.2.1
            · rw [hfr]; exact hcl hok
          · exact t7 hfin k hm (by rw [hpg]; exact hgk)
      · rw [flushFrames_cons_err b i rest pm hg hok]
        rcases flush_wrote_or_not hw i with ⟨a, _⟩ | ⟨n, hfr, _⟩
        · exact absurd a hok
        · refine ⟨fun k => by rw [hfr]; exact ⟨rfl, rfl, rfl⟩, fun k h => by rw [hfr] at h; exact h,
            fun k _ => by rw [hfr], hrd, ?_, fun k h1 h2 => ?_, fun h => absurd h hok⟩
          · rw [n.2.1, hfr]
            have : ((i :: rest).countP fun k => decide ((frameAt pm.frames k).dirty = true ∧
                (frameAt pm.frames k).dirty = false)) = 0 := by
              rw [List.countP_eq_zero]
              intro k _
              simp only [decide_eq_true_eq]
              intro h
              rw [h.1] at h
              exact Bool.noConfusion h.2
            rw [this, Nat.cast_zero, Int.add_zero, hw.writes_wrap]
          · rw [hfr, h1] at h2
            exact Bool.noConfusion h2
    · rw [flushFrames_cons_skip b i rest pm hg]
      obtain ⟨t1, t2, t3, t4, t5, t6, t7⟩ := ih pm hnr hw
      refine ⟨t1, t2, fun k hk => ?_, t4, ?_, fun k h1 h2 => ?_, fun hfin k hk hgk => ?_⟩
      · rcases hk with hk | hk
        · exact t3 k (Or.inl (fun hm => hk (List.mem_cons_of_mem _ hm)))
        · exact t3 k (Or.inr hk)
      · rw [t5, List.countP_cons]
        have : ¬ ((frameAt pm.frames i).dirty = true ∧
            (frameAt (flushFrames b rest pm).2.frames i).dirty = false) := by
          intro h
          rw [t3 i (Or.inl hni), h.1] at h
          exact Bool.noConfusion h.2
        simp only [this, decide_False, Bool.false_eq_true, if_false, Nat.add_zero]
      · obtain ⟨l1, l2, e1, e2, e3, e4⟩ := t6 k h1 h2
        refine ⟨i :: l1, l2, by rw [e1]; rfl, ?_, ?_, ?_⟩
        · rw [flushFrames_cons_skip b i l1 pm hg]; exact e2
        · rw [flushFrames_cons_skip b i l1 pm hg]; exact e3
        · rw [flushFrames_cons_skip b i l1 pm hg]; exact e4
      · rcases List.mem_cons.mp hk with e | hm
        · subst e; exact absurd hgk hg
        · exact t7 hfin k hm hgk

theorem flushFrames_append (b : Bool) : ∀ (l1 l2 : List Nat) (pm : PoolMgmt),
    (flushFrames b l1 pm).1 = RC.RC_OK →
    flushFrames b (l1 ++ l2) pm = flushFrames b l2 (flushFrames b l1 pm).2 := by
  intro l1
  induction l1 with
  | nil => intro l2 pm _; rfl
  | cons i rest ih =>
    intro l2 pm h
    by_cases hg : b = false ∨ (frameAt pm.frames i).fixCount = 0
    · by_cases hok : (flushIfDirty pm i).1 = RC.RC_OK
      · rw [flushFrames_cons_ok b i rest pm hg hok] at h ⊢
        rw [List.cons_append, flushFrames_cons_ok b i (rest ++ l2) pm hg hok]
        exact ih l2 _ h
      · rw [flushFrames_cons_err b i rest pm hg hok] at h
        exact absurd h hok
    · rw [flushFrames_cons_skip b i rest pm hg] at h ⊢
      rw [List.cons_append, flushFrames_cons_skip b i (rest ++ l2) pm hg]
      exact ih l2 _ h

theorem flushFrames_written (b : Bool) (l : List Nat) (pm : PoolMgmt) (hnd : l.Nodup) (hw : WInv pm)
    (k : Nat) :
    ((frameAt pm.frames k).dirty = true ∧ (frameAt (flushFrames b l pm).2.frames k).dirty = false) ↔
      WrittenBack b l pm k := by
  obtain ⟨t1, t2, t3, t4, t5, t6, t7⟩ := flushFrames_events b l pm hnd hw
  constructor
  · rintro ⟨h1, h2⟩
    refine ⟨?_, t6 k h1 h2⟩
    by_contra hg
    rw [t3 k (Or.inr hg), h1] at h2
    exact Bool.noConfusion h2
  · rintro ⟨hg, l1, l2, e1, e2, e3, w⟩
    have hd : (frameAt pm.frames k).dirty = true := by rw [← e3]; exact w.1
    refine ⟨hd, ?_⟩
    have hwm : WInv (flushFrames b l1 pm).2 := flushFrames_winv b l1 pm hw
    have hgm : b = false ∨ (frameAt (flushFrames b l1 pm).2.frames k).fixCount = 0 := by
      rw [e3]; exact hg
    have hok : (flushIfDirty (flushFrames b l1 pm).2 k).1 = RC.RC_OK := by
      rcases flush_wrote_or_not hwm k with ⟨a, _⟩ | ⟨_, hfr, _⟩
      · exact a
      · have := w.2.1
        rw [hfr, w.1] at this
        exact Bool.noConfusion this
    have hnd2 : l2.Nodup := by
      rw [e1] at hnd
      exact (List.nodup_cons.mp (List.nodup_append.mp hnd).2.1).2
    rw [e1, flushFrames_append b l1 (k :: l2) pm e2, flushFrames_cons_ok b k l2 _ hgm hok]
    obtain ⟨_, s2, _⟩ := flushFrames_events b l2 _ hnd2 (flush_props hwm k).1
    cases hfin : (frameAt (flushFrames b l2 (flushIfDirty (flushFrames b l1 pm).2 k).2).2.frames k).dirty with
    | false => rfl
    | true =>
      have := s2 k hfin
      rw [w.2.1] at this
      exact Bool.noConfusion this

theorem wrote_of_cleaned {pm0 pm1 : PoolMgmt}
    (h : NoWrite pm0 pm1 ∨ ∃ t, WroteOne pm0 pm1 t) (i : Nat)
    (hd : (frameAt pm0.frames i).dirty = true) (hc : (frameAt pm1.frames i).dirty = false) :
    WroteOne pm0 pm1 i := by
  rcases h with n | ⟨t, w⟩
  · rw [n.1 i, hd] at hc
    exact Bool.noConfusion hc
  · by_cases e : i = t
    · subst e; exact w
    · rw [w.2.2.1 i e, hd] at hc
      exact Bool.noConfusion hc

theorem unpin_general (bm : BM_BufferPool) (page : BM_PageHandle) (pm0 : PoolMgmt)
    (hbm : bm.mgmtData = some pm0) :
    ∃ pm1, (unpinPage bm page).2.mgmtData = some pm1 ∧
      (∀ i, (frameAt pm1.frames i).dirty = (frameAt pm0.frames i).dirty) ∧
      pm1.numReadIO = pm0.numReadIO ∧ pm1.numWriteIO = pm0.numWriteIO ∧
      pm1.fhandle = pm0.fhandle := by
  rw [unpin_eq bm page pm0 hbm]
  split
  · exact ⟨pm0, hbm, fun _ => rfl, rfl, rfl, rfl⟩
  · split
    · refine ⟨_, rfl, fun i => ?_, rfl, rfl, rfl⟩
      show (frameAt (pm0.frames.set _ _) i).dirty = _
      rw [frameAt_set]
      split
      · rename_i e; rw [← e.1]
      · rfl
    · exact ⟨_, rfl, fun _ => rfl, rfl, rfl, rfl⟩

theorem markDirty_general (bm : BM_BufferPool) (page : BM_PageHandle) (pm0 : PoolMgmt)
    (hbm : bm.mgmtData = some pm0) :
    ∃ pm1, (markDirty bm page).2.mgmtData = some pm1 ∧
      (∀ i, (frameAt pm0.frames i).dirty = true → (frameAt pm1.frames i).dirty = true) ∧
      pm1.numReadIO = pm0.numReadIO ∧ pm1.numWriteIO = pm0.numWriteIO ∧
      pm1.fhandle = pm0.fhandle := by
  rw [markDirty_eq bm page pm0 hbm]
  split
  · exact ⟨pm0, hbm, fun _ h => h, rfl, rfl, rfl⟩
  · refine ⟨_, rfl, fun i h => ?_, rfl, rfl, rfl⟩
    show (frameAt (pm0.frames.set _ _) i).dirty = _
    rw [frameAt_set]
    split
    · rfl
    · exact h

theorem clientWrite_general (bm : BM_BufferPool) (page : BM_PageHandle) (B : PageData) (pm0 : PoolMgmt)
    (hbm : bm.mgmtData = some pm0) :
    ∃ pm1, (clientWrite bm page B).mgmtData = some pm1 ∧
      (∀ i, (frameAt pm1.frames i).dirty = (frameAt pm0.frames i).dirty) ∧
      pm1.numReadIO = pm0.numReadIO ∧ pm1.numWriteIO = pm0.numWriteIO ∧
      pm1.fhandle = pm0.fhandle := by
  cases hd : page.data with
  | none =>
    refine ⟨pm0, ?_, fun _ => rfl, rfl, rfl, rfl⟩
    simp only [clientWrite, hbm, hd]
  | some i =>
    by_cases hi : i < pm0.frames.length
    · refine ⟨{ pm0 with frames := pm0.frames.set i { (frameAt pm0.frames i) with data := B } }, ?_,
        fun j => ?_, rfl, rfl, rfl⟩
      · simp only [clientWrite, hbm, hd, hi, if_true]
      · show (frameAt (pm0.frames.set _ _) j).dirty = _
        rw [frameAt_set]
        split
        · rename_i e; rw [← e.1]
        · rfl
    · refine ⟨pm0, ?_, fun _ => rfl, rfl, rfl, rfl⟩
      simp only [clientWrite, hbm, hd, hi, if_false]

theorem forceFlushPool_general (bm : BM_BufferPool) (pm0 : PoolMgmt) (hbm : bm.mgmtData = some pm0)
    (hw : WInv pm0) :
    ∃ pm1, (forceFlushPool bm).2.mgmtData = some pm1 ∧
      pm1.frames = (flushFrames true (List.range pm0.capacity.toNat) pm0).2.frames ∧
      pm1.fhandle = (flushFrames true (List.range pm0.capacity.toNat) pm0).2.fhandle ∧
      pm1.numReadIO = pm0.numReadIO ∧
      pm1.numWriteIO = PoolMgmt.numWriteIO (flushFrames true (List.range pm0.capacity.toNat) pm0).2 ∧
      (forceFlushPool bm).1 = (flushFrames true (List.range pm0.capacity.toNat) pm0).1 := by
  obtain ⟨_, _, _, t4, _⟩ := flushFrames_events true (List.range pm0.capacity.toNat) pm0
    (List.nodup_range _) hw
  rw [forceFlushPool_eq bm pm0 hbm]
  by_cases h : (flushFrames true (List.range pm0.capacity.toNat) pm0).1 ≠ RC.RC_OK
  · rw [if_pos h]
    exact ⟨_, rfl, rfl, rfl, t4, rfl, rfl⟩
  · rw [if_neg h]
    refine ⟨_, rfl, rfl, rfl, t4, rfl, ?_⟩
    exact (not_not.mp h).symm

theorem shutdown_general (bm : BM_BufferPool) (pm0 : PoolMgmt) (hbm : bm.mgmtData = some pm0)
    (hw : WInv pm0) :
    (shutdownBufferPool bm).1 =
        (flushFrames false (List.range pm0.capacity.toNat) (releasePins pm0)).1 ∧
      ((shutdownBufferPool bm).1 ≠ RC.RC_OK → (shutdownBufferPool bm).2.1.mgmtData =
        some (flushFrames false (List.range pm0.capacity.toNat) (releasePins pm0)).2) ∧
      ((shutdownBufferPool bm).1 = RC.RC_OK → (shutdownBufferPool bm).2.1.mgmtData = none ∧
        ∃ file, (shutdownBufferPool bm).2.2 = some file ∧ file.pages =
          storePages (flushFrames false (List.range pm0.capacity.toNat) (releasePins pm0)).2.fhandle) := by
  have hwf := (flushFrames_winv false (List.range pm0.capacity.toNat) _ (releasePins_winv hw)).file
  obtain ⟨c, h1, _⟩ := hwf
  by_cases h : (flushFrames false (List.range pm0.capacity.toNat) (releasePins pm0)).1 ≠ RC.RC_OK
  · have e : shutdownBufferPool bm =
        ((flushFrames false (List.range pm0.capacity.toNat) (releasePins pm0)).1,
          { bm with
            mgmtData := some (flushFrames false (List.range pm0.capacity.toNat) (releasePins pm0)).2 },
          none) := by
      simp only [shutdownBufferPool, hbm]
      rw [if_pos h]
    rw [e]
    exact ⟨rfl, fun _ => rfl, fun h2 => absurd h2 h⟩
  · have e : shutdownBufferPool bm =
        (RC.RC_OK, { bm with mgmtData := none }, (closePageFile
          (flushFrames false (List.range pm0.capacity.toNat) (releasePins pm0)).2.fhandle).2.2) := by
      simp only [shutdownBufferPool, hbm]
      rw [if_neg h]
    rw [e]
    refine ⟨(not_not.mp h).symm, fun h2 => absurd rfl h2, fun _ => ⟨rfl, c.fp.call.2, ?_, ?_⟩⟩
    · simp only [closePageFile, h1]
    · rw [storePages_eq h1, call_pages]

theorem cleaned_none {pm0 pm1 : PoolMgmt}
    (h : ∀ k, (frameAt pm0.frames k).dirty = true → (frameAt pm1.frames k).dirty = true) :
    cleaned pm0 pm1 = 0 := by
  unfold cleaned
  rw [List.countP_eq_zero]
  intro k _
  simp only [decide_eq_true_eq]
  intro hc
  rw [h k hc.1] at hc
  exact Bool.noConfusion hc.2

theorem cleaned_noWrite {pm0 pm1 : PoolMgmt} (h : NoWrite pm0 pm1) : cleaned pm0 pm1 = 0 :=
  cleaned_none (fun k hk => by rw [h.1 k]; exact hk)

theorem cleaned_wroteOne {pm0 pm1 : PoolMgmt} {t : Nat} (hw : WInv pm0) (h : WroteOne pm0 pm1 t) :
    cleaned pm0 pm1 = 1 := by
  have ht : t < pm0.capacity.toNat := by
    rw [← hw.len]
    by_contra hc
    have hd := h.1
    rw [frameAt_default (by omega)] at hd
    exact Bool.noConfusion hd
  unfold cleaned
  have e : (List.range pm0.capacity.toNat).countP (fun k =>
      decide ((frameAt pm0.frames k).dirty = true ∧ (frameAt pm1.frames k).dirty = false))
      = (List.range pm0.capacity.toNat).countP (fun k => k == t) := by
    apply List.countP_congr
    intro k _
    simp only [decide_eq_true_eq, beq_iff_eq]
    constructor
    · intro hc
      by_contra hne
      rw [h.2.2.1 k hne, hc.1] at hc
      exact Bool.noConfusion hc.2
    · intro e; subst e; exact ⟨h.1, h.2.1⟩
  rw [e]
  exact List.count_eq_one_of_mem (List.nodup_range _) (List.mem_range.mpr ht)

theorem step_counters {bm bm2 : BM_BufferPool} {pm0 : PoolMgmt} (hs : Step bm bm2)
    (hbm : bm.mgmtData = some pm0) (hw : WInv pm0) :
    ∃ pm1, bm2.mgmtData = some pm1 ∧
      (pm1.numReadIO = pm0.numReadIO ∨
        (pm1.numReadIO = wrapInt (pm0.numReadIO + 1) ∧ ∃ page p, bm2 = (pinPage bm page p).2.1 ∧
          (pinPage bm page p).1 = RC.RC_OK ∧ ptab_get pm0.ptab p < 0)) ∧
      pm1.numWriteIO = wrapInt (pm0.numWriteIO + (cleaned pm0 pm1 : Int)) := by
  have hz : pm0.numWriteIO = wrapInt (pm0.numWriteIO + ((0 : Nat) : Int)) := by
    rw [Nat.cast_zero, Int.add_zero, hw.writes_wrap]
  cases hs with
  | pin page p =>
    obtain ⟨pm1, e, hwr, _, hrd⟩ := pin_general bm page p pm0 hbm hw
    refine ⟨pm1, e, ?_, ?_⟩
    · rcases hrd with ⟨a1, _, a3, _, _, _, a4⟩ | ⟨_, b⟩
      · split at a4
        · exact Or.inr ⟨a4, page, p, rfl, a1, a3⟩
        · exact Or.inl a4
      · exact Or.inl b
    · rcases hwr with n | ⟨t, w, _⟩
      · rw [cleaned_noWrite n, n.2.1]; exact hz
      · rw [cleaned_wroteOne hw w, w.2.2.2.1]; simp
  | unpin page =>
    obtain ⟨pm1, e, a, b, c, _⟩ := unpin_general bm page pm0 hbm
    refine ⟨pm1, e, Or.inl b, ?_⟩
    rw [cleaned_none (fun k hk => by rw [a k]; exact hk), c]; exact hz
  | dirty page =>
    obtain ⟨pm1, e, a, b, c, _⟩ := markDirty_general bm page pm0 hbm
    refine ⟨pm1, e, Or.inl b, ?_⟩
    rw [cleaned_none a, c]; exact hz
  | force page =>
    obtain ⟨pm1, e, hwr, b, _⟩ := forcePage_general bm page pm0 hbm hw
    refine ⟨pm1, e, Or.inl b, ?_⟩
    rcases hwr with n | ⟨w, _, _⟩
    · rw [cleaned_noWrite n, n.2.1]; exact hz
    · rw [cleaned_wroteOne hw w, w.2.2.2.1]; simp
  | flush =>
    obtain ⟨pm1, e, a, _, b, c, _⟩ := forceFlushPool_general bm pm0 hbm hw
    obtain ⟨_, _, _, _, t5, _⟩ := flushFrames_events true (List.range pm0.capacity.toNat) pm0
      (List.nodup_range _) hw
    refine ⟨pm1, e, Or.inl b, ?_⟩
    rw [c, t5]
    unfold cleaned
    rw [a]
  | contents =>
    refine ⟨refreshSnapshots pm0, by simp only [getFrameContents, hbm], Or.inl rfl, ?_⟩
    rw [@cleaned_none pm0 (refreshSnapshots pm0) (fun k hk => hk)]
    exact hz
  | flags =>
    refine ⟨refreshSnapshots pm0, by simp only [getDirtyFlags, hbm], Or.inl rfl, ?_⟩
    rw [@cleaned_none pm0 (refreshSnapshots pm0) (fun k hk => hk)]
    exact hz
  | counts =>
    refine ⟨refreshSnapshots pm0, by simp only [getFixCounts, hbm], Or.inl rfl, ?_⟩
    rw [@cleaned_none pm0 (refreshSnapshots pm0) (fun k hk => hk)]
    exact hz
  | write page B =>
    obtain ⟨pm1, e, a, b, c, _⟩ := clientWrite_general bm page B pm0 hbm
    refine ⟨pm1, e, Or.inl b, ?_⟩
    rw [cleaned_none (fun k hk => by rw [a k]; exact hk), c]; exact hz

theorem shutdown_counters {pm0 : PoolMgmt} (hw : WInv pm0) :
    PoolMgmt.numReadIO (flushFrames false (List.range pm0.capacity.toNat) (releasePins pm0)).2
        = pm0.numReadIO ∧
      PoolMgmt.numWriteIO (flushFrames false (List.range pm0.capacity.toNat) (releasePins pm0)).2
        = wrapInt (pm0.numWriteIO + (cleaned pm0
            (flushFrames false (List.range pm0.capacity.toNat) (releasePins pm0)).2 : Int)) := by
  obtain ⟨_, _, _, t4, t5, _⟩ := flushFrames_events false (List.range pm0.capacity.toNat)
    (releasePins pm0) (List.nodup_range _) (releasePins_winv hw)
  refine ⟨t4, ?_⟩
  have t5 : PoolMgmt.numWriteIO (flushFrames false (List.range pm0.capacity.toNat) (releasePins pm0)).2
      = wrapInt (pm0.numWriteIO + _) := t5
  rw [t5]
  unfold cleaned
  congr 3
  apply List.countP_congr
  intro k _
  rw [(releasePins_rel hw k).2.2.1]

theorem pin_reads_reliable (bm : BM_BufferPool) (page : BM_PageHandle) (p : Int) (pm0 pm1 : PoolMgmt)
    (hr : ReachableReliable bm) (hbm : bm.mgmtData = some pm0)
    (h1 : (pinPage bm page p).2.1.mgmtData = some pm1)
    (hok : (pinPage bm page p).1 = RC.RC_OK) (miss : ptab_get pm0.ptab p < 0)
    (hp2 : p < 2147483647) :
    pm1.numReadIO = wrapInt (pm0.numReadIO + 1) := by
  obtain ⟨pm, e, hs⟩ := reliable_sinv hr
  rw [hbm] at e
  simp only [Option.some.injEq] at e
  subst e
  have hp : 0 ≤ p := by
    by_contra hc
    rw [pin_negative bm page p pm0 hbm (by omega)] at hok
    exact RC.noConfusion hok
  rcases pin_miss bm page p pm0 hbm hp miss with ⟨_, _, e⟩ | ⟨_, _, e3, e⟩ | ⟨t, pmT, ht, e⟩
  · rw [e] at hok
    exact RC.noConfusion hok
  · rw [e] at hok
    exact absurd hok e3
  · obtain ⟨a1, a2, a3, a4, a5, a6, a7, _⟩ := target_props hs.w.tick ht
    obtain ⟨b1, _⟩ := target_props_s hs.ticked ht
    obtain ⟨fh, buf, c1, _⟩ := load_eq_ok bm page p pmT t (by rw [a3]; exact a2) b1 hp (Or.inl hp2)
    rw [e, c1] at h1
    simp only [Option.some.injEq] at h1
    subst h1
    show wrapInt (pmT.numReadIO + 1) = _
    rw [a7]
/-! ## The snapshot arrays -/

theorem current_of_refresh (pm : PoolMgmt) : SnapshotsCurrent (refreshSnapshots pm) := by
  refine ⟨?_, ?_, ?_, fun i hi => ?_⟩
  · show ((List.range pm.capacity.toNat).map _).length = pm.capacity.toNat
    rw [List.length_map, List.length_range]
  · show ((List.range pm.capacity.toNat).map _).length = pm.capacity.toNat
    rw [List.length_map, List.length_range]
  · show ((List.range pm.capacity.toNat).map _).length = pm.capacity.toNat
    rw [List.length_map, List.length_range]
  · have hi2 : i < pm.capacity.toNat := hi
    refine ⟨?_, ?_, ?_⟩
    · show ((List.range pm.capacity.toNat).map _)[i]? = _
      rw [List.getElem?_map, List.getElem?_range hi2]; rfl
    · show ((List.range pm.capacity.toNat).map _)[i]? = _
      rw [List.getElem?_map, List.getElem?_range hi2]; rfl
    · show ((List.range pm.capacity.toNat).map _)[i]? = _
      rw [List.getElem?_map, List.getElem?_range hi2]; rfl

theorem flushFrames_fields (b : Bool) : ∀ (l : List Nat) (pm : PoolMgmt), WInv pm →
    (flushFrames b l pm).2 = { pm with fhandle := (flushFrames b l pm).2.fhandle,
                                       numWriteIO := PoolMgmt.numWriteIO (flushFrames b l pm).2,
                                       frames := (flushFrames b l pm).2.frames } := by
  intro l
  induction l with
  | nil => intro pm _; rfl
  | cons i rest ih =>
    intro pm hw
    obtain ⟨f1, f2, _⟩ := flush_props hw i
    simp only [flushFrames]
    split
    · split
      · exact f2
      · have := ih _ f1
        rw [this, f2]
    · exact ih _ hw

theorem target_snapshots {pm : PoolMgmt} {t : Nat} {pmT : PoolMgmt} (hw : WInv pm)
    (ht : IsTarget pm t pmT) : SnapshotsUnchanged pm pmT := by
  rcases ht with ⟨_, rfl⟩ | ⟨_, _, _, rfl⟩
  · exact ⟨rfl, rfl, rfl⟩
  · obtain ⟨v1, v2, _⟩ := victim_props hw
    obtain ⟨_, f2, _⟩ := flush_props v1 t
    have key : SnapshotsUnchanged pm (flushIfDirty (selectVictim pm).2 t).2 := by
      unfold SnapshotsUnchanged
      rw [f2]
      show (selectVictim pm).2.frameContents = _ ∧ (selectVictim pm).2.dirtyFlags = _ ∧
        (selectVictim pm).2.fixCounts = _
      rw [v2]
      exact ⟨rfl, rfl, rfl⟩
    split
    · exact key
    · exact key

theorem pin_snapshots (bm : BM_BufferPool) (page : BM_PageHandle) (p : Int) (pm0 : PoolMgmt)
    (hbm : bm.mgmtData = some pm0) (hw : WInv pm0) :
    ((pinPage bm page p).1 = RC.RC_OK → SnapshotsCurrent (mgmtOf (pinPage bm page p).2.1)) ∧
      ((pinPage bm page p).1 ≠ RC.RC_OK →
        SnapshotsUnchanged pm0 (mgmtOf (pinPage bm page p).2.1)) := by
  by_cases hp : p < 0
  · rw [pin_negative bm page p pm0 hbm hp]
    refine ⟨fun h => RC.noConfusion h, fun _ => ?_⟩
    rw [mgmtOf_eq hbm]
    exact ⟨rfl, rfl, rfl⟩
  · have hp0 : 0 ≤ p := by omega
    by_cases hit : 0 ≤ ptab_get pm0.ptab p
    · rw [pin_hit bm page p pm0 hbm hp0 hit]
      exact ⟨fun _ => current_of_refresh _, fun h => absurd rfl h⟩
    · have hwt := hw.tick
      rcases pin_miss bm page p pm0 hbm hp0 (by omega) with ⟨_, _, e3⟩ | ⟨_, _, e3, e4⟩ |
        ⟨t, pmT, ht, e⟩
      · rw [e3]
        refine ⟨fun h => RC.noConfusion h, fun _ => ?_⟩
        obtain ⟨_, v2, _⟩ := victim_props hwt
        show SnapshotsUnchanged pm0 (selectVictim _).2
        unfold SnapshotsUnchanged
        rw [v2]
        exact ⟨rfl, rfl, rfl⟩
      · rw [e4]
        refine ⟨fun h => absurd h e3, fun _ => ?_⟩
        obtain ⟨v1, v2, _⟩ := victim_props hwt
        obtain ⟨_, f2, _⟩ := flush_props v1
          (selectVictim ({ pm0 with tick := pm0.tick + 1 } : PoolMgmt)).1.toNat
        show SnapshotsUnchanged pm0 (flushIfDirty _ _).2
        unfold SnapshotsUnchanged
        rw [f2]
        show (selectVictim _).2.frameContents = _ ∧ (selectVictim _).2.dirtyFlags = _ ∧
          (selectVictim _).2.fixCounts = _
        rw [v2]
        exact ⟨rfl, rfl, rfl⟩
      · obtain ⟨_, a2, a3, _⟩ := target_props hwt ht
        have hs := target_snapshots hwt ht
        rcases load_eq bm page p pmT t (by rw [a3]; exact a2) with ⟨rc, fh, h1, h2, _⟩ |
          ⟨fh, reads, buf, h2, _⟩
        · rw [e, h2]
          exact ⟨fun h => absurd h h1, fun _ => hs⟩
        · rw [e, h2]
          exact ⟨fun _ => current_of_refresh _, fun h => absurd rfl h⟩

/-! ## The operations depend on the pool only through `mgmtData` -/

theorem load_congr (a b : BM_BufferPool) (page : BM_PageHandle) (p : Int) (pm : PoolMgmt) (t : Nat) :
    (pinPage.load a page p pm t).1 = (pinPage.load b page p pm t).1 ∧
      (pinPage.load a page p pm t).2.1.mgmtData = (pinPage.load b page p pm t).2.1.mgmtData ∧
      (pinPage.load a page p pm t).2.2 = (pinPage.load b page p pm t).2.2 := by
  unfold pinPage.load
  by_cases h : (loadIntoFrame pm t p).1 ≠ RC.RC_OK
  · simp only [if_pos h, and_self]
  · simp only [if_neg h, and_self]

theorem pinPage_congr {a b : BM_BufferPool} (h : a.mgmtData = b.mgmtData) (page : BM_PageHandle)
    (p : Int) :
    (pinPage a page p).1 = (pinPage b page p).1 ∧
      (pinPage a page p).2.1.mgmtData = (pinPage b page p).2.1.mgmtData ∧
      (pinPage a page p).2.2 = (pinPage b page p).2.2 := by
  cases hb : b.mgmtData with
  | none =>
    have ha : a.mgmtData = none := h.trans hb
    have ea : pinPage a page p = (RC.RC_FILE_HANDLE_NOT_INIT, a, page) := by
      simp only [pinPage, ha]
    have eb : pinPage b page p = (RC.RC_FILE_HANDLE_NOT_INIT, b, page) := by
      simp only [pinPage, hb]
    rw [ea, eb]
    exact ⟨rfl, h, rfl⟩
  | some pm0 =>
    have ha : a.mgmtData = some pm0 := h.trans hb
    by_cases hp : p < 0
    · rw [pin_negative a page p pm0 ha hp, pin_negative b page p pm0 hb hp]
      exact ⟨rfl, h, rfl⟩
    · by_cases hit : 0 ≤ ptab_get pm0.ptab p
      · rw [pin_hit a page p pm0 ha (by omega) hit, pin_hit b page p pm0 hb (by omega) hit]
        exact ⟨rfl, rfl, rfl⟩
      · have h2 : ¬ ptab_get pm0.ptab p ≥ 0 := hit
        simp only [pinPage, ha, hb]
        rw [if_neg hp, if_neg hp, if_neg h2, if_neg h2]
        by_cases c1 : findEmptyFrame ({ pm0 with tick := pm0.tick + 1 } : PoolMgmt) < 0
        · rw [if_pos c1, if_pos c1]
          by_cases c2 : (selectVictim ({ pm0 with tick := pm0.tick + 1 } : PoolMgmt)).1 < 0
          · rw [if_pos c2, if_pos c2]
            exact ⟨rfl, rfl, rfl⟩
          · rw [if_neg c2, if_neg c2]
            by_cases c3 : (flushIfDirty (selectVictim ({ pm0 with tick := pm0.tick + 1 } : PoolMgmt)).2
                (selectVictim ({ pm0 with tick := pm0.tick + 1 } : PoolMgmt)).1.toNat).1 ≠ RC.RC_OK
            · rw [if_pos c3, if_pos c3]
              exact ⟨rfl, rfl, rfl⟩
            · rw [if_neg c3, if_neg c3]
              exact load_congr a b page p _ _
        · rw [if_neg c1, if_neg c1]
          exact load_congr a b page p _ _

theorem unpinPage_congr {a b : BM_BufferPool} (h : a.mgmtData = b.mgmtData) (page : BM_PageHandle) :
    (unpinPage a page).1 = (unpinPage b page).1 ∧
      (unpinPage a page).2.mgmtData = (unpinPage b page).2.mgmtData := by
  cases hb : b.mgmtData with
  | none =>
    have ha : a.mgmtData = none := h.trans hb
    simp only [unpinPage, ha, hb, and_self]
  | some pm0 =>
    have ha : a.mgmtData = some pm0 := h.trans hb
    rw [unpin_eq a page pm0 ha, unpin_eq b page pm0 hb]
    split
    · exact ⟨rfl, h⟩
    · exact ⟨rfl, rfl⟩

theorem markDirty_congr {a b : BM_BufferPool} (h : a.mgmtData = b.mgmtData) (page : BM_PageHandle) :
    (markDirty a page).1 = (markDirty b page).1 ∧
      (markDirty a page).2.mgmtData = (markDirty b page).2.mgmtData := by
  cases hb : b.mgmtData with
  | none =>
    have ha : a.mgmtData = none := h.trans hb
    simp only [markDirty, ha, hb, and_self]
  | some pm0 =>
    have ha : a.mgmtData = some pm0 := h.trans hb
    rw [markDirty_eq a page pm0 ha, markDirty_eq b page pm0 hb]
    split
    · exact ⟨rfl, h⟩
    · exact ⟨rfl, rfl⟩

theorem forcePage_congr {a b : BM_BufferPool} (h : a.mgmtData = b.mgmtData) (page : BM_PageHandle) :
    (forcePage a page).1 = (forcePage b page).1 ∧
      (forcePage a page).2.mgmtData = (forcePage b page).2.mgmtData := by
  cases hb : b.mgmtData with
  | none =>
    have ha : a.mgmtData = none := h.trans hb
    simp only [forcePage, ha, hb, and_self]
  | some pm0 =>
    have ha : a.mgmtData = some pm0 := h.trans hb
    rw [forcePage_eq a page pm0 ha, forcePage_eq b page pm0 hb]
    split
    · exact ⟨rfl, h⟩
    · split
      · exact ⟨rfl, rfl⟩
      · exact ⟨rfl, rfl⟩

theorem forceFlushPool_congr {a b : BM_BufferPool} (h : a.mgmtData = b.mgmtData) :
    (forceFlushPool a).1 = (forceFlushPool b).1 ∧
      (forceFlushPool a).2.mgmtData = (forceFlushPool b).2.mgmtData := by
  cases hb : b.mgmtData with
  | none =>
    have ha : a.mgmtData = none := h.trans hb
    simp only [forceFlushPool, ha, hb, and_self]
  | some pm0 =>
    have ha : a.mgmtData = some pm0 := h.trans hb
    rw [forceFlushPool_eq a pm0 ha, forceFlushPool_eq b pm0 hb]
    split
    · exact ⟨rfl, rfl⟩
    · exact ⟨rfl, rfl⟩

theorem shutdown_congr {a b : BM_BufferPool} (h : a.mgmtData = b.mgmtData) :
    (shutdownBufferPool a).1 = (shutdownBufferPool b).1 ∧
      (shutdownBufferPool a).2.1.mgmtData = (shutdownBufferPool b).2.1.mgmtData ∧
      (shutdownBufferPool a).2.2 = (shutdownBufferPool b).2.2 := by
  cases hb : b.mgmtData with
  | none =>
    have ha : a.mgmtData = none := h.trans hb
    simp only [shutdownBufferPool, ha, hb, and_self]
  | some pm0 =>
    have ha : a.mgmtData = some pm0 := h.trans hb
    simp only [shutdownBufferPool, ha, hb]
    split
    · exact ⟨rfl, rfl, rfl⟩
    · exact ⟨rfl, rfl, rfl⟩

theorem clientWrite_congr {a b : BM_BufferPool} (h : a.mgmtData = b.mgmtData) (page : BM_PageHandle)
    (B : PageData) : (clientWrite a page B).mgmtData = (clientWrite b page B).mgmtData := by
  cases hb : b.mgmtData with
  | none =>
    have ha : a.mgmtData = none := h.trans hb
    simp only [clientWrite, ha, hb]
  | some pm0 =>
    have ha : a.mgmtData = some pm0 := h.trans hb
    cases hd : page.data with
    | none => simp only [clientWrite, ha, hb, hd]
    | some i =>
      simp only [clientWrite, ha, hb, hd]
      split
      · rfl
      · rw [ha, hb]

theorem applyOp_congr {a b : BM_BufferPool} (h : a.mgmtData = b.mgmtData) (op : Op) :
    (applyOp a op).2 = (applyOp b op).2 ∧
      (applyOp a op).1.mgmtData = (applyOp b op).1.mgmtData := by
  cases op with
  | pin page p =>
    obtain ⟨x, y, z⟩ := pinPage_congr h page p
    exact ⟨by simp only [applyOp, x, z], y⟩
  | unpin page =>
    obtain ⟨x, y⟩ := unpinPage_congr h page
    exact ⟨by simp only [applyOp, x], y⟩
  | dirty page =>
    obtain ⟨x, y⟩ := markDirty_congr h page
    exact ⟨by simp only [applyOp, x], y⟩
  | force page =>
    obtain ⟨x, y⟩ := forcePage_congr h page
    exact ⟨by simp only [applyOp, x], y⟩
  | flush =>
    obtain ⟨x, y⟩ := forceFlushPool_congr h
    exact ⟨by simp only [applyOp, x], y⟩
  | contents =>
    cases hb : b.mgmtData with
    | none => simp only [applyOp, getFrameContents, h.trans hb, hb, and_self]
    | some pm => simp only [applyOp, getFrameContents, h.trans hb, hb, and_self]
  | flags =>
    cases hb : b.mgmtData with
    | none => simp only [applyOp, getDirtyFlags, h.trans hb, hb, and_self]
    | some pm => simp only [applyOp, getDirtyFlags, h.trans hb, hb, and_self]
  | counts =>
    cases hb : b.mgmtData with
    | none => simp only [applyOp, getFixCounts, h.trans hb, hb, and_self]
    | some pm => simp only [applyOp, getFixCounts, h.trans hb, hb, and_self]
  | readIO => exact ⟨by simp only [applyOp, getNumReadIO, h], h⟩
  | writeIO => exact ⟨by simp only [applyOp, getNumWriteIO, h], h⟩
  | write page B => exact ⟨rfl, clientWrite_congr h page B⟩
  | shutdown =>
    obtain ⟨x, y, z⟩ := shutdown_congr h
    exact ⟨by simp only [applyOp, x, z], y⟩

theorem runOps_congr : ∀ (ops : List Op) (a b : BM_BufferPool), a.mgmtData = b.mgmtData →
    (runOps ops a).2 = (runOps ops b).2 ∧ (runOps ops a).1.mgmtData = (runOps ops b).1.mgmtData := by
  intro ops
  induction ops with
  | nil => intro a b h; exact ⟨rfl, h⟩
  | cons op rest ih =>
    intro a b h
    obtain ⟨x, y⟩ := applyOp_congr h op
    obtain ⟨u, v⟩ := ih _ _ y
    exact ⟨by simp only [runOps, x, u], v⟩

theorem init_lru_k (bm : BM_BufferPool) (name : String) (file : Option OSFile) (n : Int)
    (heap : List Bool) :
    (initBufferPool bm name file n ReplacementStrategy.RS_LRU_K heap).1
        = (initBufferPool bm name file n ReplacementStrategy.RS_LRU heap).1 ∧
      (initBufferPool bm name file n ReplacementStrategy.RS_LRU_K heap).2.mgmtData
        = (initBufferPool bm name file n ReplacementStrategy.RS_LRU heap).2.mgmtData := by
  unfold initBufferPool
  split
  · exact ⟨rfl, rfl⟩
  · split
    · exact ⟨rfl, rfl⟩
    · split
      · exact ⟨rfl, rfl⟩
      · split
        · exact ⟨rfl, rfl⟩
        · split
          · exact ⟨rfl, rfl⟩
          · split
            · exact ⟨rfl, rfl⟩
            · exact ⟨rfl, rfl⟩

/-! ## The frame a miss replaces -/

theorem no_empty_of_full {pm : PoolMgmt} (hw : WInv pm)
    (hfull : ∀ i, i < pm.frames.length → (frameAt pm.frames i).pageNum ≠ NO_PAGE) :
    findEmptyFrame pm < 0 := by
  rcases findEmptyFrame_spec pm with ⟨a, _⟩ | ⟨i, _, b, c, _⟩
  · rw [a]; decide
  · exact absurd c (hfull i (by rw [hw.len]; exact b))

theorem pin_replaces_victim (bm : BM_BufferPool) (page : BM_PageHandle) (p : Int) (pm0 pm1 : PoolMgmt)
    (hbm : bm.mgmtData = some pm0) (hw : WInv pm0) (hp : 0 ≤ p) (miss : ptab_get pm0.ptab p < 0)
    (hfull : ∀ i, i < pm0.frames.length → (frameAt pm0.frames i).pageNum ≠ NO_PAGE)
    (hok : (pinPage bm page p).1 = RC.RC_OK)
    (hres : (pinPage bm page p).2.1.mgmtData = some pm1) :
    ∃ t : Nat, (selectVictim { pm0 with tick := pm0.tick + 1 }).1 = (t : Int) ∧
      t < pm0.frames.length ∧
      (pinPage bm page p).2.2 = { pageNum := p, data := some t } ∧
      (frameAt pm1.frames t).pageNum = p ∧ (frameAt pm1.frames t).fifoPos = pm0.tick + 1 ∧
      (frameAt pm1.frames t).lastUsed = pm0.tick + 1 ∧ (frameAt pm1.frames t).refbit = true ∧
      ∀ i, i ≠ t → (frameAt pm1.frames i).pageNum = (frameAt pm0.frames i).pageNum ∧
        (frameAt pm1.frames i).fifoPos = (frameAt pm0.frames i).fifoPos ∧
        (frameAt pm1.frames i).lastUsed = (frameAt pm0.frames i).lastUsed := by
  have hwt := hw.tick
  have hne : findEmptyFrame ({ pm0 with tick := pm0.tick + 1 } : PoolMgmt) < 0 :=
    no_empty_of_full hwt hfull
  rcases pin_miss bm page p pm0 hbm hp miss with ⟨_, _, e3⟩ | ⟨_, _, e3, e4⟩ | ⟨t, pmT, ht, e⟩
  · rw [e3] at hok; exact absurd hok (fun h => RC.noConfusion h)
  · rw [e4] at hok; exact absurd hok e3
  · obtain ⟨a1, a2, a3, a4, a5, a6, a7, a8, a9, a10, a11⟩ := target_props hwt ht
    have htT : t < pmT.frames.length := by rw [a3]; exact a2
    have hv : (selectVictim ({ pm0 with tick := pm0.tick + 1 } : PoolMgmt)).1 = (t : Int) := by
      rcases ht with ⟨he, _⟩ | ⟨_, hv, _⟩
      · rw [he] at hne; omega
      · exact hv
    rcases load_eq bm page p pmT t htT with ⟨rc, fh, h1, h2, _⟩ | ⟨fh, reads, buf, h2, _, _⟩
    · rw [e, h2] at hok; exact absurd hok h1
    · rw [e, h2] at hres ⊢
      simp only [Option.some.injEq] at hres
      subst hres
      refine ⟨t, hv, a2, rfl, ?_, ?_, ?_, ?_, fun i hi => ?_⟩
      · show (frameAt (pmT.frames.set t _) t).pageNum = p
        rw [frameAt_set_self htT]
      · show (frameAt (pmT.frames.set t _) t).fifoPos = pm0.tick + 1
        rw [frameAt_set_self htT]; exact a4
      · show (frameAt (pmT.frames.set t _) t).lastUsed = pm0.tick + 1
        rw [frameAt_set_self htT]; exact a4
      · show (frameAt (pmT.frames.set t _) t).refbit = true
        rw [frameAt_set_self htT]
      · show (frameAt (pmT.frames.set t _) i).pageNum = _ ∧ (frameAt (pmT.frames.set t _) i).fifoPos = _ ∧
          (frameAt (pmT.frames.set t _) i).lastUsed = _
        rw [frameAt_set_other (fun e => hi e.symm)]
        exact ⟨(a9 i).1, (a9 i).2.2.2.2, (a9 i).2.2.2.1⟩

theorem pin_no_victim (bm : BM_BufferPool) (page : BM_PageHandle) (p : Int) (pm0 : PoolMgmt)
    (hbm : bm.mgmtData = some pm0) (hw : WInv pm0) (hp : 0 ≤ p) (miss : ptab_get pm0.ptab p < 0)
    (hfull : ∀ i, i < pm0.frames.length → (frameAt pm0.frames i).pageNum ≠ NO_PAGE)
    (hv : (selectVictim { pm0 with tick := pm0.tick + 1 }).1 = -1) :
    pinPage bm page p = (RC.RC_WRITE_FAILED,
      { bm with mgmtData := some (selectVictim { pm0 with tick := pm0.tick + 1 }).2 }, page) := by
  have hwt := hw.tick
  have hne : findEmptyFrame ({ pm0 with tick := pm0.tick + 1 } : PoolMgmt) < 0 :=
    no_empty_of_full hwt hfull
  rcases pin_miss bm page p pm0 hbm hp miss with ⟨_, _, e3⟩ | ⟨_, e2, _, _⟩ | ⟨t, pmT, ht, e⟩
  · exact e3
  · rw [hv] at e2; omega
  · exfalso
    rcases ht with ⟨he, _⟩ | ⟨_, hv2, _⟩
    · rw [he] at hne; omega
    · rw [hv] at hv2; omega

theorem pin_hit_stamps (bm : BM_BufferPool) (page : BM_PageHandle) (p : Int) (pm0 pm1 : PoolMgmt)
    (hbm : bm.mgmtData = some pm0) (hw : WInv pm0) (hit : 0 ≤ ptab_get pm0.ptab p)
    (hres : (pinPage bm page p).2.1.mgmtData = some pm1) :
    (∀ i, (frameAt pm1.frames i).fifoPos = (frameAt pm0.frames i).fifoPos) ∧
      (frameAt pm1.frames (ptab_get pm0.ptab p).toNat).lastUsed = pm0.tick + 1 ∧
      (frameAt pm1.frames (ptab_get pm0.ptab p).toNat).refbit = true ∧
      ∀ i, i ≠ (ptab_get pm0.ptab p).toNat →
        (frameAt pm1.frames i).lastUsed = (frameAt pm0.frames i).lastUsed ∧
        (frameAt pm1.frames i).refbit = (frameAt pm0.frames i).refbit := by
  obtain ⟨hp0, r2, _, _⟩ := hw.resident hit
  rw [pin_hit bm page p pm0 hbm hp0 hit] at hres
  simp only [Option.some.injEq] at hres
  subst hres
  refine ⟨fun i => ?_, ?_, ?_, fun i hi => ?_⟩
  · show (frameAt (pm0.frames.set _ _) i).fifoPos = _
    rw [frameAt_set_lt r2]
    split
    · rename_i e; subst e; rfl
    · rfl
  · show (frameAt (pm0.frames.set _ _) _).lastUsed = _
    rw [frameAt_set_self r2]
  · show (frameAt (pm0.frames.set _ _) _).refbit = _
    rw [frameAt_set_self r2]
  · show (frameAt (pm0.frames.set _ _) i).lastUsed = _ ∧ (frameAt (pm0.frames.set _ _) i).refbit = _
    rw [frameAt_set_other (fun e => hi e.symm)]
    exact ⟨rfl, rfl⟩

/-! ## The CLOCK sweep, step by step -/

theorem sweep_index (h j m : Nat) : ((h + 1) % m + j) % m = (h + (j + 1)) % m := by
  rw [Nat.mod_add_mod]
  congr 1
  omega

theorem wrap_ge {h s m : Nat} (hm : h < m) (hs : 0 < s) (e : (h + s) % m = h) : m ≤ s := by
  by_contra hc
  by_cases h1 : h + s < m
  · rw [Nat.mod_eq_of_lt h1] at e; omega
  · rw [Nat.mod_eq_sub_mod (by omega), Nat.mod_eq_of_lt (by omega)] at e; omega

theorem clock_sweep (m : Nat) : ∀ (k : Nat) (pm : PoolMgmt) (h : Nat), h < m →
    ∃ s, s ≤ k ∧
      (∀ j, j < s → Eligible (frameAt pm.frames ((h + j) % m)) →
        (frameAt pm.frames ((h + j) % m)).refbit = true ∧ j < m) ∧
      (∀ i, ((Eligible (frameAt pm.frames i) ∧ ∃ j, j < s ∧ (h + j) % m = i) →
          frameAt (selectVictim_CLOCK.loop (m : Int) k pm (h : Int)).2.frames i
            = { (frameAt pm.frames i) with refbit := false }) ∧
        (¬ (Eligible (frameAt pm.frames i) ∧ ∃ j, j < s ∧ (h + j) % m = i) →
          frameAt (selectVictim_CLOCK.loop (m : Int) k pm (h : Int)).2.frames i
            = frameAt pm.frames i)) ∧
      ((s = k ∧ (selectVictim_CLOCK.loop (m : Int) k pm (h : Int)).1 = -1 ∧
          (selectVictim_CLOCK.loop (m : Int) k pm (h : Int)).2.clockHand = pm.clockHand) ∨
        (s < k ∧
          (selectVictim_CLOCK.loop (m : Int) k pm (h : Int)).1 = (((h + s) % m : Nat) : Int) ∧
          Eligible (frameAt pm.frames ((h + s) % m)) ∧
          ((frameAt pm.frames ((h + s) % m)).refbit = false ∨ m ≤ s) ∧
          (selectVictim_CLOCK.loop (m : Int) k pm (h : Int)).2.clockHand
            = ((((h + s) % m + 1) % m : Nat) : Int))) := by
  intro k
  induction k with
  | zero =>
    intro pm h _
    exact ⟨0, le_refl _, fun j hj => by omega,
      fun i => ⟨fun hc => by obtain ⟨_, j, hj, _⟩ := hc; omega, fun _ => rfl⟩,
      Or.inl ⟨rfl, rfl, rfl⟩⟩
  | succ k ih =>
    intro pm h hm
    have hmod : (h + 1) % m < m := Nat.mod_lt _ (by omega)
    have h0 : (h + 0) % m = h := by rw [Nat.add_zero, Nat.mod_eq_of_lt hm]
    by_cases h1 : (frameAt pm.frames (h : Int).toNat).pageNum ≠ NO_PAGE ∧
        (frameAt pm.frames (h : Int).toNat).fixCount = 0
    · cases h2 : (frameAt pm.frames (h : Int).toNat).refbit with
      | false =>
        rw [clock_step_victim _ k pm _ h1 h2, tmod_cast]
        rw [Int.toNat_natCast] at h1 h2
        refine ⟨0, by omega, fun j hj => by omega,
          fun i => ⟨fun hc => by obtain ⟨_, j, hj, _⟩ := hc; omega, fun _ => rfl⟩,
          Or.inr ⟨by omega, ?_, ?_, ?_, ?_⟩⟩
        · rw [h0]
        · rw [h0]; exact ⟨h1.2, h1.1⟩
        · rw [h0]; exact Or.inl h2
        · rw [h0]
      | true =>
        rw [clock_step_clear _ k pm _ h1 h2, tmod_cast]
        rw [Int.toNat_natCast] at h1 h2 ⊢
        have hlt : h < pm.frames.length := by
          by_contra hc
          rw [frameAt_default (by omega)] at h1
          exact h1.1 rfl
        have hfr : ∀ i, frameAt (pm.frames.set h { (frameAt pm.frames h) with refbit := false }) i =
            if h = i then { (frameAt pm.frames h) with refbit := false } else frameAt pm.frames i := by
          intro i; rw [frameAt_set_lt hlt]
        have helig : ∀ i, Eligible (frameAt (pm.frames.set h
            { (frameAt pm.frames h) with refbit := false }) i) ↔ Eligible (frameAt pm.frames i) := by
          intro i
          rw [hfr]
          split
          · rename_i e; subst e; exact Iff.rfl
          · exact Iff.rfl
        obtain ⟨s, hs, hP, hF, hR⟩ := ih
          { pm with frames := pm.frames.set h { (frameAt pm.frames h) with refbit := false } }
          ((h + 1) % m) hmod
        have hP : ∀ j, j < s → Eligible (frameAt (pm.frames.set h
            { (frameAt pm.frames h) with refbit := false }) (((h + 1) % m + j) % m)) →
            (frameAt (pm.frames.set h { (frameAt pm.frames h) with refbit := false })
              (((h + 1) % m + j) % m)).refbit = true ∧ j < m := hP
        refine ⟨s + 1, by omega, ?_, ?_, ?_⟩
        · intro j hj hel
          cases j with
          | zero =>
            rw [h0] at hel ⊢
            exact ⟨h2, by omega⟩
          | succ j =>
            rw [← sweep_index] at hel ⊢
            obtain ⟨a, b⟩ := hP j (by omega) ((helig _).2 hel)
            rw [hfr] at a
            by_cases e : h = ((h + 1) % m + j) % m
            · rw [if_pos e] at a
              exact absurd a (by simp)
            · rw [if_neg e] at a
              refine ⟨a, ?_⟩
              by_contra hc
              have hj : j + 1 = m := by omega
              apply e
              rw [sweep_index, hj, Nat.add_mod_right, Nat.mod_eq_of_lt hm]
        · intro i
          obtain ⟨F1, F2⟩ := hF i
          have F1 : (Eligible (frameAt (pm.frames.set h
                { (frameAt pm.frames h) with refbit := false }) i) ∧
              ∃ j, j < s ∧ ((h + 1) % m + j) % m = i) →
              frameAt (selectVictim_CLOCK.loop (m : Int) k
                { pm with frames := pm.frames.set h { (frameAt pm.frames h) with refbit := false } }
                (((h + 1) % m : Nat) : Int)).2.frames i
              = { (frameAt (pm.frames.set h { (frameAt pm.frames h) with refbit := false }) i) with
                  refbit := false } := F1
          have F2 : ¬ (Eligible (frameAt (pm.frames.set h
                { (frameAt pm.frames h) with refbit := false }) i) ∧
              ∃ j, j < s ∧ ((h + 1) % m + j) % m = i) →
              frameAt (selectVictim_CLOCK.loop (m : Int) k
                { pm with frames := pm.frames.set h { (frameAt pm.frames h) with refbit := false } }
                (((h + 1) % m : Nat) : Int)).2.frames i
              = frameAt (pm.frames.set h { (frameAt pm.frames h) with refbit := false }) i := F2
          by_cases e : h = i
          · subst e
            have key : frameAt (selectVictim_CLOCK.loop (m : Int) k
                { pm with frames := pm.frames.set h { (frameAt pm.frames h) with refbit := false } }
                (((h + 1) % m : Nat) : Int)).2.frames h
                = { (frameAt pm.frames h) with refbit := false } := by
              by_cases c : Eligible (frameAt (pm.frames.set h
                  { (frameAt pm.frames h) with refbit := false }) h) ∧
                  ∃ j, j < s ∧ ((h + 1) % m + j) % m = h
              · rw [F1 c, hfr h, if_pos rfl]
              · rw [F2 c, hfr h, if_pos rfl]
            exact ⟨fun _ => key, fun c => absurd ⟨⟨h1.2, h1.1⟩, 0, by omega, h0⟩ c⟩
          · have hiff : (Eligible (frameAt (pm.frames.set h
                  { (frameAt pm.frames h) with refbit := false }) i) ∧
                ∃ j, j < s ∧ ((h + 1) % m + j) % m = i) ↔
                (Eligible (frameAt pm.frames i) ∧ ∃ j, j < s + 1 ∧ (h + j) % m = i) := by
              rw [helig]
              constructor
              · rintro ⟨a, j, hj, hji⟩
                exact ⟨a, j + 1, by omega, by rw [← sweep_index]; exact hji⟩
              · rintro ⟨a, j, hj, hji⟩
                cases j with
                | zero => rw [h0] at hji; exact absurd hji e
                | succ j => exact ⟨a, j, by omega, by rw [sweep_index]; exact hji⟩
            have hsame : frameAt (pm.frames.set h { (frameAt pm.frames h) with refbit := false }) i
                = frameAt pm.frames i := by rw [hfr i, if_neg e]
            refine ⟨fun c => ?_, fun c => ?_⟩
            · rw [F1 (hiff.2 c), hsame]
            · rw [F2 (fun hc => c (hiff.1 hc)), hsame]
        · rcases hR with ⟨a, b, c⟩ | ⟨a, b, c, d, e⟩
          · exact Or.inl ⟨by omega, b, c⟩
          · refine Or.inr ⟨by omega, ?_, ?_, ?_, ?_⟩
            · rw [b, sweep_index]
            · rw [← sweep_index]; exact (helig _).1 c
            · rcases d with d | d
              · rw [hfr] at d
                by_cases e2 : h = ((h + 1) % m + s) % m
                · right
                  rw [sweep_index] at e2
                  exact wrap_ge hm (by omega) e2.symm
                · rw [if_neg e2] at d
                  left
                  rw [← sweep_index]; exact d
              · right; omega
            · rw [e, sweep_index]
    · rw [clock_step_skip _ k pm _ h1, tmod_cast]
      rw [Int.toNat_natCast] at h1
      have hne : ¬ Eligible (frameAt pm.frames h) := fun hc => h1 ⟨hc.2, hc.1⟩
      obtain ⟨s, hs, hP, hF, hR⟩ := ih pm ((h + 1) % m) hmod
      refine ⟨s + 1, by omega, ?_, ?_, ?_⟩
      · intro j hj hel
        cases j with
        | zero => rw [h0] at hel; exact absurd hel hne
        | succ j =>
          rw [← sweep_index] at hel ⊢
          obtain ⟨a, b⟩ := hP j (by omega) hel
          refine ⟨a, ?_⟩
          by_contra hc
          have hj : j + 1 = m := by omega
          apply hne
          rw [sweep_index, hj, Nat.add_mod_right, Nat.mod_eq_of_lt hm] at hel
          exact hel
      · intro i
        obtain ⟨F1, F2⟩ := hF i
        have hiff : (Eligible (frameAt pm.frames i) ∧ ∃ j, j < s ∧ ((h + 1) % m + j) % m = i) ↔
            (Eligible (frameAt pm.frames i) ∧ ∃ j, j < s + 1 ∧ (h + j) % m = i) := by
          constructor
          · rintro ⟨a, j, hj, hji⟩
            exact ⟨a, j + 1, by omega, by rw [← sweep_index]; exact hji⟩
          · rintro ⟨a, j, hj, hji⟩
            cases j with
            | zero => rw [h0] at hji; subst hji; exact absurd a hne
            | succ j => exact ⟨a, j, by omega, by rw [sweep_index]; exact hji⟩
        exact ⟨fun c => F1 (hiff.2 c), fun c => F2 (fun hc => c (hiff.1 hc))⟩
      · rcases hR with ⟨a, b, c⟩ | ⟨a, b, c, d, e⟩
        · exact Or.inl ⟨by omega, b, c⟩
        · refine Or.inr ⟨by omega, ?_, ?_, ?_, ?_⟩
          · rw [b, sweep_index]
          · rw [← sweep_index]; exact c
          · rcases d with d | d
            · left; rw [← sweep_index]; exact d
            · right; omega
          · rw [e, sweep_index]

theorem sweep_reaches {h i m : Nat} (hh : h < m) (hi : i < m) : ∃ d, d < m ∧ (h + d) % m = i := by
  refine ⟨(i + m - h) % m, Nat.mod_lt _ (by omega), ?_⟩
  rw [Nat.add_mod_mod]
  have : h + (i + m - h) = i + m := by omega
  rw [this, Nat.add_mod_right, Nat.mod_eq_of_lt hi]

/-! ## Invariants of every reachable state: occupancy, ticks and stamps -/

theorem occupied_le_capacity {pm : PoolMgmt} (h : WInv pm) :
    ptab_occupied pm.ptab ≤ pm.capacity.toNat := by
  have hcard : ptab_occupied pm.ptab
      = ((Finset.range pm.ptab.cap.toNat).filter (fun s => pm.ptab.state.getD s 0 = 1)).card := by
    unfold ptab_occupied
    rw [List.countP_eq_length_filter]
    rfl
  rw [hcard]
  have hhas : ∀ s, s ∈ (Finset.range pm.ptab.cap.toNat).filter (fun s => pm.ptab.state.getD s 0 = 1) →
      pm.ptab.has (pm.ptab.keys.getD s 0) (pm.ptab.vals.getD s 0) := by
    intro s hs
    rw [Finset.mem_filter, Finset.mem_range] at hs
    exact ⟨s, hs.1, hs.2, rfl, rfl⟩
  have := Finset.card_le_card_of_injOn (fun s => (pm.ptab.vals.getD s 0).toNat)
    (s := (Finset.range pm.ptab.cap.toNat).filter (fun s => pm.ptab.state.getD s 0 = 1))
    (t := Finset.range pm.capacity.toNat)
    (fun s hs => by
      obtain ⟨_, b, c, _⟩ := h.sound _ _ (hhas s hs)
      rw [Finset.mem_range]
      show (pm.ptab.vals.getD s 0).toNat < pm.capacity.toNat
      omega)
    (fun s hs s2 hs2 he => by
      have he2 : (pm.ptab.vals.getD s 0).toNat = (pm.ptab.vals.getD s2 0).toNat := he
      obtain ⟨_, _, _, d⟩ := h.sound _ _ (hhas s hs)
      obtain ⟨_, _, _, d2⟩ := h.sound _ _ (hhas s2 hs2)
      have hk : pm.ptab.keys.getD s 0 = pm.ptab.keys.getD s2 0 := by
        rw [← d, ← d2, he2]
      have m1 := Finset.mem_filter.mp hs
      have m2 := Finset.mem_filter.mp hs2
      exact h.pt.uniq s s2 (Finset.mem_range.mp m1.1) (Finset.mem_range.mp m2.1) m1.2 m2.2 hk)
  rw [Finset.card_range] at this
  exact this

theorem SameButFlags.stamps {f g : Frame} (h : SameButFlags f g) : SameStamps f g :=
  ⟨h.1, h.2.2.2.2, h.2.2.2.1⟩

theorem SameStamps.of_eq {f g : Frame} (h : g = f) : SameStamps f g := by
  subst h; exact ⟨rfl, rfl, rfl⟩

theorem target_cap {pm : PoolMgmt} {t : Nat} {pmT : PoolMgmt} (hw : WInv pm)
    (ht : IsTarget pm t pmT) : pmT.ptab.cap = pm.ptab.cap := by
  rcases ht with ⟨_, rfl⟩ | ⟨_, _, _, rfl⟩
  · rfl
  · obtain ⟨v1, v2, _⟩ := victim_props hw
    obtain ⟨_, f2, _⟩ := flush_props v1 t
    have hpt : (flushIfDirty (selectVictim pm).2 t).2.ptab = pm.ptab := by
      rw [f2]; show (selectVictim pm).2.ptab = _
      rw [v2]
    split
    · show (ptab_del _ _).cap = _
      rw [del_cap, hpt]
    · rw [hpt]

theorem flushFrames_same (b : Bool) : ∀ (l : List Nat) (pm : PoolMgmt), WInv pm →
    ∀ i, SameButFlags (frameAt pm.frames i) (frameAt (flushFrames b l pm).2.frames i) := by
  intro l
  induction l with
  | nil => intro pm _ i; exact SameButFlags.rfl _
  | cons k rest ih =>
    intro pm hw i
    obtain ⟨f1, _, _, f4, _⟩ := flush_props hw k
    by_cases hg : b = false ∨ (frameAt pm.frames k).fixCount = 0
    · by_cases hok : (flushIfDirty pm k).1 = RC.RC_OK
      · rw [flushFrames_cons_ok b k rest pm hg hok]
        exact (f4 i).1.trans (ih _ f1 i)
      · rw [flushFrames_cons_err b k rest pm hg hok]
        exact (f4 i).1
    · rw [flushFrames_cons_skip b k rest pm hg]
      exact ih pm hw i

theorem pin_shape (bm : BM_BufferPool) (page : BM_PageHandle) (p : Int) (pm0 : PoolMgmt)
    (hbm : bm.mgmtData = some pm0) (hw : WInv pm0) :
    ∃ pm1, (pinPage bm page p).2.1.mgmtData = some pm1 ∧ pm1.capacity = pm0.capacity ∧
      pm1.ptab.cap = pm0.ptab.cap ∧
      (p < 0 → pm1.tick = pm0.tick) ∧ (0 ≤ p → pm1.tick = pm0.tick + 1) ∧
      ((∀ i, SameStamps (frameAt pm0.frames i) (frameAt pm1.frames i)) ∨
        (pm1.tick = pm0.tick + 1 ∧ ∃ t,
          (∀ i, i ≠ t → SameStamps (frameAt pm0.frames i) (frameAt pm1.frames i)) ∧
          (frameAt pm1.frames t).lastUsed = pm0.tick + 1 ∧
          ((frameAt pm1.frames t).fifoPos = pm0.tick + 1 ∨
            ((frameAt pm1.frames t).fifoPos = (frameAt pm0.frames t).fifoPos ∧
              (frameAt pm1.frames t).pageNum = (frameAt pm0.frames t).pageNum)))) := by
  by_cases hp : p < 0
  · rw [pin_negative bm page p pm0 hbm hp]
    exact ⟨pm0, hbm, rfl, rfl, fun _ => rfl, fun h => by omega,
      Or.inl (fun i => SameStamps.of_eq rfl)⟩
  · have hp0 : 0 ≤ p := by omega
    by_cases hit : 0 ≤ ptab_get pm0.ptab p
    · obtain ⟨_, r2, _, _⟩ := hw.resident hit
      rw [pin_hit bm page p pm0 hbm hp0 hit]
      refine ⟨_, rfl, rfl, rfl, fun h => absurd h hp, fun _ => rfl,
        Or.inr ⟨rfl, (ptab_get pm0.ptab p).toNat, fun i hi => ?_, ?_, Or.inr ⟨?_, ?_⟩⟩⟩
      · apply SameStamps.of_eq
        show frameAt (pm0.frames.set _ _) i = _
        rw [frameAt_set_other (fun e => hi e.symm)]
      · show (frameAt (pm0.frames.set _ _) _).lastUsed = _
        rw [frameAt_set_self r2]
      · show (frameAt (pm0.frames.set _ _) _).fifoPos = _
        rw [frameAt_set_self r2]
      · show (frameAt (pm0.frames.set _ _) _).pageNum = _
        rw [frameAt_set_self r2]
    · have miss : ptab_get pm0.ptab p < 0 := by omega
      have hwt := hw.tick
      obtain ⟨v1, v2, _, v4, _⟩ := victim_props hwt
      have hvc : (selectVictim ({ pm0 with tick := pm0.tick + 1 } : PoolMgmt)).2.capacity
          = pm0.capacity := by rw [v2]
      have hvp : (selectVictim ({ pm0 with tick := pm0.tick + 1 } : PoolMgmt)).2.ptab
          = pm0.ptab := by rw [v2]
      have hvt : (selectVictim ({ pm0 with tick := pm0.tick + 1 } : PoolMgmt)).2.tick
          = pm0.tick + 1 := by rw [v2]
      rcases pin_miss bm page p pm0 hbm hp0 miss with ⟨_, _, e⟩ | ⟨_, _, _, e⟩ | ⟨t, pmT, ht, e⟩
      · rw [e]
        exact ⟨_, rfl, hvc, by rw [hvp], fun h => absurd h hp, fun _ => hvt,
          Or.inl (fun i => (v4 i).flags.stamps)⟩
      · rw [e]
        obtain ⟨_, f2, _, f4, _⟩ := flush_props v1
          (selectVictim ({ pm0 with tick := pm0.tick + 1 } : PoolMgmt)).1.toNat
        refine ⟨_, rfl, ?_, ?_, fun h => absurd h hp, fun _ => ?_,
          Or.inl (fun i => ((v4 i).flags.trans (f4 i).1).stamps)⟩
        · rw [f2]; exact hvc
        · rw [f2]; show PageTable.cap (selectVictim _).2.ptab = _; rw [hvp]
        · rw [f2]; exact hvt
      · obtain ⟨a1, a2, a3, a4, a5, _, _, _, a9, _, _⟩ := target_props hwt ht
        have hcap := target_cap hwt ht
        have a4 : pmT.tick = pm0.tick + 1 := a4
        have a5 : pmT.capacity = pm0.capacity := a5
        have hcap : pmT.ptab.cap = pm0.ptab.cap := hcap
        have a9 : ∀ i, SameButFlags (frameAt pm0.frames i) (frameAt pmT.frames i) := a9
        have htl : t < pmT.frames.length := by rw [a3]; exact a2
        rw [e]
        rcases load_eq bm page p pmT t htl with ⟨rc, fh, _, b2, _⟩ | ⟨fh, reads, buf, b2, _, _⟩
        · rw [b2]
          exact ⟨_, rfl, a5, hcap, fun h => absurd h hp, fun _ => a4,
            Or.inl (fun i => (a9 i).stamps)⟩
        · rw [b2]
          refine ⟨_, rfl, a5, ?_, fun h => absurd h hp, fun _ => a4,
            Or.inr ⟨a4, t, fun i hi => ?_, ?_, Or.inl ?_⟩⟩
          · show (ptab_put pmT.ptab p (t : Int)).2.cap = _
            rw [put_cap, hcap]
          · have : frameAt (pmT.frames.set t
                { pageNum := p, data := buf, dirty := false, fixCount := 1,
                  lastUsed := pmT.tick, fifoPos := pmT.tick, refbit := true }) i
                = frameAt pmT.frames i := frameAt_set_other (fun e => hi e.symm) _
            show SameStamps _ (frameAt (pmT.frames.set t _) i)
            rw [this]
            exact (a9 i).stamps
          · show (frameAt (pmT.frames.set t _) t).lastUsed = _
            rw [frameAt_set_self htl]
            exact a4
          · show (frameAt (pmT.frames.set t _) t).fifoPos = _
            rw [frameAt_set_self htl]
            exact a4

theorem step_shape {bm bm2 : BM_BufferPool} {pm0 : PoolMgmt} (hs : Step bm bm2)
    (hbm : bm.mgmtData = some pm0) (hw : WInv pm0) :
    ∃ pm1, bm2.mgmtData = some pm1 ∧ pm1.capacity = pm0.capacity ∧ pm1.ptab.cap = pm0.ptab.cap ∧
      (pm1.tick = pm0.tick ∨
        (pm1.tick = pm0.tick + 1 ∧ ∃ page p, bm2 = (pinPage bm page p).2.1 ∧ 0 ≤ p)) ∧
      ((∀ i, SameStamps (frameAt pm0.frames i) (frameAt pm1.frames i)) ∨
        (pm1.tick = pm0.tick + 1 ∧ ∃ t,
          (∀ i, i ≠ t → SameStamps (frameAt pm0.frames i) (frameAt pm1.frames i)) ∧
          (frameAt pm1.frames t).lastUsed = pm0.tick + 1 ∧
          ((frameAt pm1.frames t).fifoPos = pm0.tick + 1 ∨
            ((frameAt pm1.frames t).fifoPos = (frameAt pm0.frames t).fifoPos ∧
              (frameAt pm1.frames t).pageNum = (frameAt pm0.frames t).pageNum)))) := by
  cases hs with
  | pin page p =>
    obtain ⟨pm1, e, a, b, c, d, f⟩ := pin_shape bm page p pm0 hbm hw
    refine ⟨pm1, e, a, b, ?_, f⟩
    by_cases hp : p < 0
    · exact Or.inl (c hp)
    · exact Or.inr ⟨d (by omega), page, p, rfl, by omega⟩
  | unpin page =>
    rw [unpin_eq bm page pm0 hbm]
    split
    · exact ⟨pm0, hbm, rfl, rfl, Or.inl rfl, Or.inl (fun i => SameStamps.of_eq rfl)⟩
    · split
      · refine ⟨_, rfl, rfl, rfl, Or.inl rfl, Or.inl (fun i => ?_)⟩
        show SameStamps _ (frameAt (pm0.frames.set _ _) i)
        rw [frameAt_set]
        split
        · rename_i h; rw [← h.1]; exact ⟨rfl, rfl, rfl⟩
        · exact ⟨rfl, rfl, rfl⟩
      · exact ⟨_, rfl, rfl, rfl, Or.inl rfl, Or.inl (fun i => SameStamps.of_eq rfl)⟩
  | dirty page =>
    rw [markDirty_eq bm page pm0 hbm]
    split
    · exact ⟨pm0, hbm, rfl, rfl, Or.inl rfl, Or.inl (fun i => SameStamps.of_eq rfl)⟩
    · refine ⟨_, rfl, rfl, rfl, Or.inl rfl, Or.inl (fun i => ?_)⟩
      show SameStamps _ (frameAt (pm0.frames.set _ _) i)
      rw [frameAt_set]
      split
      · rename_i h; rw [← h.1]; exact ⟨rfl, rfl, rfl⟩
      · exact ⟨rfl, rfl, rfl⟩
  | force page =>
    rw [forcePage_eq bm page pm0 hbm]
    split
    · exact ⟨pm0, hbm, rfl, rfl, Or.inl rfl, Or.inl (fun i => SameStamps.of_eq rfl)⟩
    · obtain ⟨_, f2, _, f4, _⟩ := flush_props hw (ptab_get pm0.ptab page.pageNum).toNat
      have h1 : (flushIfDirty pm0 (ptab_get pm0.ptab page.pageNum).toNat).2.capacity = pm0.capacity := by
        rw [f2]
      have h2 : (flushIfDirty pm0 (ptab_get pm0.ptab page.pageNum).toNat).2.ptab = pm0.ptab := by
        rw [f2]
      have h3 : (flushIfDirty pm0 (ptab_get pm0.ptab page.pageNum).toNat).2.tick = pm0.tick := by
        rw [f2]
      split
      · exact ⟨_, rfl, h1, congrArg PageTable.cap h2, Or.inl h3, Or.inl (fun i => (f4 i).1.stamps)⟩
      · exact ⟨_, rfl, h1, congrArg PageTable.cap h2, Or.inl h3, Or.inl (fun i => (f4 i).1.stamps)⟩
  | flush =>
    rw [forceFlushPool_eq bm pm0 hbm]
    have f2 := flushFrames_fields true (List.range pm0.capacity.toNat) pm0 hw
    have f4 := flushFrames_same true (List.range pm0.capacity.toNat) pm0 hw
    have h1 : (flushFrames true (List.range pm0.capacity.toNat) pm0).2.capacity = pm0.capacity := by
      rw [f2]
    have h2 : (flushFrames true (List.range pm0.capacity.toNat) pm0).2.ptab = pm0.ptab := by
      rw [f2]
    have h3 : (flushFrames true (List.range pm0.capacity.toNat) pm0).2.tick = pm0.tick := by
      rw [f2]
    split
    · exact ⟨_, rfl, h1, congrArg PageTable.cap h2, Or.inl h3, Or.inl (fun i => (f4 i).stamps)⟩
    · exact ⟨_, rfl, h1, congrArg PageTable.cap h2, Or.inl h3, Or.inl (fun i => (f4 i).stamps)⟩
  | contents =>
    exact ⟨refreshSnapshots pm0, by simp only [getFrameContents, hbm], rfl, rfl, Or.inl rfl,
      Or.inl (fun i => SameStamps.of_eq rfl)⟩
  | flags =>
    exact ⟨refreshSnapshots pm0, by simp only [getDirtyFlags, hbm], rfl, rfl, Or.inl rfl,
      Or.inl (fun i => SameStamps.of_eq rfl)⟩
  | counts =>
    exact ⟨refreshSnapshots pm0, by simp only [getFixCounts, hbm], rfl, rfl, Or.inl rfl,
      Or.inl (fun i => SameStamps.of_eq rfl)⟩
  | write page B =>
    cases hd : page.data with
    | none =>
      refine ⟨pm0, ?_, rfl, rfl, Or.inl rfl, Or.inl (fun i => SameStamps.of_eq rfl)⟩
      simp only [clientWrite, hbm, hd]
    | some k =>
      by_cases hk : k < pm0.frames.length
      · refine ⟨{ pm0 with frames := pm0.frames.set k { (frameAt pm0.frames k) with data := B } }, ?_,
          rfl, rfl, Or.inl rfl, Or.inl (fun i => ?_)⟩
        · simp only [clientWrite, hbm, hd, hk, if_true]
        · show SameStamps _ (frameAt (pm0.frames.set _ _) i)
          rw [frameAt_set]
          split
          · rename_i h; rw [← h.1]; exact ⟨rfl, rfl, rfl⟩
          · exact ⟨rfl, rfl, rfl⟩
      · refine ⟨pm0, ?_, rfl, rfl, Or.inl rfl, Or.inl (fun i => SameStamps.of_eq rfl)⟩
        simp only [clientWrite, hbm, hd, hk, if_false]

theorem aborted_shape {pm0 : PoolMgmt} (hw : WInv pm0) :
    (flushFrames false (List.range pm0.capacity.toNat) (releasePins pm0)).2.capacity = pm0.capacity ∧
      (flushFrames false (List.range pm0.capacity.toNat) (releasePins pm0)).2.ptab = pm0.ptab ∧
      (flushFrames false (List.range pm0.capacity.toNat) (releasePins pm0)).2.tick = pm0.tick ∧
      ∀ i, SameStamps (frameAt pm0.frames i)
        (frameAt (flushFrames false (List.range pm0.capacity.toNat) (releasePins pm0)).2.frames i) := by
  have hwr := releasePins_winv hw
  have f2 := flushFrames_fields false (List.range pm0.capacity.toNat) (releasePins pm0) hwr
  have f4 := flushFrames_same false (List.range pm0.capacity.toNat) (releasePins pm0) hwr
  refine ⟨by rw [f2]; rfl, by rw [f2]; rfl, by rw [f2]; rfl, fun i => ?_⟩
  have h := (f4 i).stamps
  obtain ⟨r1, _, _, r4, r5, _⟩ := releasePins_rel hw i
  exact ⟨h.1.trans r1, h.2.1.trans r5, h.2.2.trans r4⟩

theorem distinct_of_shape {pm0 pm1 : PoolMgmt} (hw : WInv pm0) (hd : DistinctStamps pm0.frames)
    (h : (∀ i, SameStamps (frameAt pm0.frames i) (frameAt pm1.frames i)) ∨
        (pm1.tick = pm0.tick + 1 ∧ ∃ t,
          (∀ i, i ≠ t → SameStamps (frameAt pm0.frames i) (frameAt pm1.frames i)) ∧
          (frameAt pm1.frames t).lastUsed = pm0.tick + 1 ∧
          ((frameAt pm1.frames t).fifoPos = pm0.tick + 1 ∨
            ((frameAt pm1.frames t).fifoPos = (frameAt pm0.frames t).fifoPos ∧
              (frameAt pm1.frames t).pageNum = (frameAt pm0.frames t).pageNum)))) :
    DistinctStamps pm1.frames := by
  intro i j hij hi hj
  rcases h with h | ⟨_, t, hs, hl, hf⟩
  · obtain ⟨a1, a2, a3⟩ := h i
    obtain ⟨b1, b2, b3⟩ := h j
    rw [a1] at hi
    rw [b1] at hj
    rw [a2, a3, b2, b3]
    exact hd i j hij hi hj
  · have key : ∀ a b, a ≠ b → b ≠ t → (frameAt pm1.frames a).pageNum ≠ NO_PAGE →
        (frameAt pm1.frames b).pageNum ≠ NO_PAGE →
        (frameAt pm1.frames a).fifoPos ≠ (frameAt pm1.frames b).fifoPos ∧
          (frameAt pm1.frames a).lastUsed ≠ (frameAt pm1.frames b).lastUsed := by
      intro a b hab hbt ha hb
      obtain ⟨b1, b2, b3⟩ := hs b hbt
      rw [b1] at hb
      rw [b2, b3]
      by_cases hat : a = t
      · subst hat
        have sb := hw.stamps b
        refine ⟨?_, by rw [hl]; omega⟩
        rcases hf with e | ⟨e1, e2⟩
        · rw [e]; omega
        · rw [e1]
          rw [e2] at ha
          exact (hd a b hab ha hb).1
      · obtain ⟨a1, a2, a3⟩ := hs a hat
        rw [a1] at ha
        rw [a2, a3]
        exact hd a b hab ha hb
    by_cases hjt : j = t
    · have hit : i ≠ t := fun e => hij (e.trans hjt.symm)
      obtain ⟨x, y⟩ := key j i (fun e => hij e.symm) hit hj hi
      exact ⟨fun e => x e.symm, fun e => y e.symm⟩
    · exact key i j hij hjt hi hj

theorem init_caps {bm0 : BM_BufferPool} {name : String} {file : OSFile} {n : Int}
    {strat : ReplacementStrategy} {heap : List Bool} {bm : BM_BufferPool}
    (h : initBufferPool bm0 name (some file) n strat heap = (RC.RC_OK, bm)) :
    ∃ pm, bm.mgmtData = some pm ∧ pm.capacity * 3 ≤ pm.ptab.cap ∧ pm.tick = 0 := by
  simp only [initBufferPool] at h
  split at h
  · simp at h
  · split at h
    · simp at h
    · split at h
      · rename_i rc hopen
        simp only [Prod.mk.injEq] at h
        exact absurd h.1 (openPageFile_none hopen)
      · split at h
        · simp at h
        · split at h
          · simp at h
          · split at h
            · simp at h
            · simp only [Prod.mk.injEq, true_and] at h
              subst h
              exact ⟨_, rfl, init_cap_ge n, rfl⟩

theorem reachableAny_inv {bm : BM_BufferPool} (h : ReachableAny bm) :
    ∃ pm, bm.mgmtData = some pm ∧ WInv pm ∧ DistinctStamps pm.frames ∧
      pm.capacity * 3 ≤ pm.ptab.cap := by
  induction h with
  | init bm0 name file n strat heap bm hinit =>
    obtain ⟨pm, a, b, _, d, _⟩ := init_winv hinit
    obtain ⟨pm2, a2, c, _⟩ := init_caps hinit
    rw [a] at a2
    simp only [Option.some.injEq] at a2
    subst a2
    exact ⟨pm, a, b, fun i _ _ hi _ => absurd (d i) hi, c⟩
  | step bm bm2 _ hs ih =>
    obtain ⟨pm, a, b, c, d⟩ := ih
    obtain ⟨pm1, e, w⟩ := step_winv hs ⟨pm, a, b⟩
    obtain ⟨pm2, e2, s1, s2, _, s4⟩ := step_shape hs a b
    rw [e] at e2
    simp only [Option.some.injEq] at e2
    subst e2
    exact ⟨pm1, e, w, distinct_of_shape b c s4, by rw [s1, s2]; exact d⟩
  | aborted bm _ hfail ih =>
    obtain ⟨pm, a, b, c, d⟩ := ih
    obtain ⟨_, s2, _⟩ := shutdown_general bm pm a b
    obtain ⟨t1, t2, _, t4⟩ := aborted_shape b
    exact ⟨_, s2 hfail, flushFrames_winv false _ _ (releasePins_winv b),
      distinct_of_shape b c (Or.inl t4), by rw [t1, t2]; exact d⟩

theorem Reachable.any {bm : BM_BufferPool} (h : Reachable bm) : ReachableAny bm := by
  obtain ⟨file, hf⟩ := h
  induction hf with
  | init bm0 name n strat heap bm hinit => exact ReachableAny.init bm0 name file n strat heap bm hinit
  | step bm bm2 _ hs ih => exact ReachableAny.step bm bm2 ih hs

/-- C1, evaluated where the code breaks it: in the reachable state `afterFailedLoad`
(a pin whose victim was already removed from the page table when growing the
file failed) frame 0 still holds page 0 although the index has no entry for
page 0, and after one more successful `pinPage` of page 0 both frames hold
page 0. -/
theorem C1_failed_load_breaks_index :
    Reachable afterFailedLoad ∧
      (frameAt (mgmtOf afterFailedLoad).frames 0).pageNum = 0 ∧
      ptab_get (mgmtOf afterFailedLoad).ptab 0 = -1 ∧
      (pinPage afterFailedLoad blankHandle 0).1 = RC.RC_OK ∧
      (frameAt (mgmtOf (pinPage afterFailedLoad blankHandle 0).2.1).frames 0).pageNum = 0 ∧
      (frameAt (mgmtOf (pinPage afterFailedLoad blankHandle 0).2.1).frames 1).pageNum = 0 := by
  refine ⟨⟨diskFullFile, ?_⟩, by decide, by decide, by decide, by decide, by decide⟩
  exact ReachableFrom.step _ _ (reach_pinUnpin (reach_pinUnpin
    (ReachableFrom.init blankPool "pages.bin" 2 ReplacementStrategy.RS_CLOCK [] _
      (Prod.ext (by decide) rfl)) 0) 1) (Step.pin _ blankHandle 2)

/-- C2: a pinned frame is never evicted.  For a `pinPage` call in any reachable
state (any strategy) and any frame `i`: if the page number of frame `i` differs
after the call, its `fixCount` was 0 before the call; equivalently, if its
`fixCount` was positive before the call it holds the same page number after it. -/
theorem C2_pinned_frame_never_evicted (bm : BM_BufferPool) (page : BM_PageHandle) (p : Int)
    (pm0 pm1 : PoolMgmt) (hr : Reachable bm) (hbm : bm.mgmtData = some pm0)
    (hres : (pinPage bm page p).2.1.mgmtData = some pm1) (i : Nat) :
    ((frameAt pm1.frames i).pageNum ≠ (frameAt pm0.frames i).pageNum →
        (frameAt pm0.frames i).fixCount = 0) ∧
      (0 < (frameAt pm0.frames i).fixCount →
        (frameAt pm1.frames i).pageNum = (frameAt pm0.frames i).pageNum) := by
  obtain ⟨pm, e, hw⟩ := reachable_winv hr
  rw [hbm] at e
  simp only [Option.some.injEq] at e
  subst e
  refine ⟨pin_pageNum_change page p hbm hw hres i, fun hpos => ?_⟩
  by_contra hne
  have := pin_pageNum_change page p hbm hw hres i hne
  omega

/-- Witness for C2 on `onePinned`, where `pinPage` of page 2 replaces page 1 in the
unpinned frame 1 and leaves the pinned frame 0 alone. -/
theorem C2_pinned_frame_never_evicted_witness :
    (frameAt (mgmtOf onePinned).frames 1).fixCount = 0 ∧
      (frameAt (mgmtOf (pinPage onePinned blankHandle 2).2.1).frames 0).pageNum
        = (frameAt (mgmtOf onePinned).frames 0).pageNum :=
  ⟨(C2_pinned_frame_never_evicted onePinned blankHandle 2 (mgmtOf onePinned)
      (mgmtOf (pinPage onePinned blankHandle 2).2.1) onePinned_reachable.reachable rfl rfl 1).1
      (by decide),
   (C2_pinned_frame_never_evicted onePinned blankHandle 2 (mgmtOf onePinned)
      (mgmtOf (pinPage onePinned blankHandle 2).2.1) onePinned_reachable.reachable rfl rfl 0).2
      (by decide)⟩
/-- C3 does not hold as stated: over a page file on which no library call fails,
the CLOCK pool `largeDirtyClock` holds page 2147483647 (`INT_MAX`) unpinned and
dirty. Page 0 is pinned with RC_OK, overwritten with `onesPage`, marked dirty and
unpinned; pages 1 and 2 are pinned and unpinned, after which page 0 is no longer
resident; yet the new `pinPage (0)` returns RC_WRITE_FAILED. Its victim is the
frame of page `INT_MAX`, whose write-back fails in the range check of
`writeBlock`: `ensurePageExists` computes `p + 1` in a 32-bit `int` and cannot
grow the file to cover that page. -/
theorem C3_large_page_blocks_eviction :
    ReachableReliable largeDirtyClock ∧
      (pinPage largeDirtyClock blankHandle 0).1 = RC.RC_OK ∧
      ptab_get (mgmtOf ([1, 2].foldl pinUnpin (writeBack largeDirtyClock 0 onesPage))).ptab 0 < 0 ∧
      (mgmtOf ([1, 2].foldl pinUnpin (writeBack largeDirtyClock 0 onesPage))).tick + 1
        < 0x7fffffffffffffff ∧
      (pinPage ([1, 2].foldl pinUnpin (writeBack largeDirtyClock 0 onesPage)) blankHandle 0).1
        = RC.RC_WRITE_FAILED :=
  ⟨largeDirtyClock_reachable, by decide, by decide, by decide, by decide⟩

/-- C3, amended: over a page file whose operations succeed, in a pool whose dirty
frames all hold pages below `INT_MAX`, for every page `0 ≤ P < INT_MAX` and
buffer `B`: after `pinPage (P)` has succeeded, the client has overwritten the
pinned buffer with `B`, and `markDirty` and `unpinPage` have been called, and
after any sequence of `pinPage (q); unpinPage (q)` on other pages `q ≠ P` below
`INT_MAX` at the end of which `P` is not resident, a new `pinPage (P)` returns
RC_OK and a handle on a frame whose buffer is `B`. (`tick` is a C `long long`;
the new tick is below `LLONG_MAX`.) -/
theorem C3_round_trip (bm : BM_BufferPool) (page : BM_PageHandle) (P : Int) (B : PageData)
    (qs : List Int) (hr : ReachableReliable bm) (hwr : Writable (mgmtOf bm)) (hP : 0 ≤ P)
    (hP2 : P < 2147483647)
    (hpin : (pinPage bm blankHandle P).1 = RC.RC_OK)
    (hqs : ∀ q, q ∈ qs → q ≠ P ∧ q < 2147483647)
    (hgone : ptab_get (mgmtOf (qs.foldl pinUnpin (writeBack bm P B))).ptab P < 0)
    (htick : (mgmtOf (qs.foldl pinUnpin (writeBack bm P B))).tick + 1 < 0x7fffffffffffffff) :
    (pinPage (qs.foldl pinUnpin (writeBack bm P B)) page P).1 = RC.RC_OK ∧
      ∃ t : Nat, (pinPage (qs.foldl pinUnpin (writeBack bm P B)) page P).2.2
          = { pageNum := P, data := some t } ∧
        (frameAt (mgmtOf (pinPage (qs.foldl pinUnpin (writeBack bm P B)) page P).2.1).frames t).data
          = B := by
  obtain ⟨pm0, e0, s0⟩ := reliable_sinv hr
  rw [mgmtOf_eq e0] at hwr
  obtain ⟨pm5, e5, s5, w5, k5⟩ := foldl_pinUnpin_kept P B hP qs (writeBack bm P B) hqs
    (writeBack_kept bm P B pm0 e0 s0 hwr hP hP2 hpin)
  rw [mgmtOf_eq e5] at hgone htick
  exact pin_kept _ page P B pm5 e5 s5 w5 hP hP2 k5 hgone htick

/-- Witness for C3: in a FIFO pool of two frames, page 0 is written with
`onesPage`, pages 1 and 2 are pinned and unpinned (the second evicts page 0), and
page 0 is pinned again. -/
theorem C3_round_trip_witness :
    (pinPage ([1, 2].foldl pinUnpin (writeBack (freshPool 2 ReplacementStrategy.RS_FIFO) 0 onesPage))
        blankHandle 0).1 = RC.RC_OK ∧
      ∃ t : Nat, (pinPage ([1, 2].foldl pinUnpin
            (writeBack (freshPool 2 ReplacementStrategy.RS_FIFO) 0 onesPage)) blankHandle 0).2.2
          = { pageNum := 0, data := some t } ∧
        (frameAt (mgmtOf (pinPage ([1, 2].foldl pinUnpin
            (writeBack (freshPool 2 ReplacementStrategy.RS_FIFO) 0 onesPage)) blankHandle 0).2.1).frames
          t).data = onesPage :=
  C3_round_trip (freshPool 2 ReplacementStrategy.RS_FIFO) blankHandle 0 onesPage [1, 2]
    (reach_freshPool 2 ReplacementStrategy.RS_FIFO (by decide)) (writable_of_all (by decide))
    (by decide) (by decide) (by decide) (by decide) (by decide) (by decide)
/-- C4: a successful `pinPage` of a page `p ≥ 0` that is not resident loads it into
a target frame `t` that is the lowest-index empty frame if there is one and the
victim of `selectVictim` otherwise; afterwards frame `t` has `pageNum = p`,
`dirty = false`, `fixCount = 1`, `lastUsed = fifoPos =` the new tick and
`refbit = true`, the page table maps `p` to `t`, the handle carries `p` and the
buffer of frame `t`, and every other frame keeps its `pageNum`, `dirty` and
`fixCount`. -/
theorem C4_pin_miss_postcondition (bm : BM_BufferPool) (page : BM_PageHandle) (p : Int)
    (pm0 pm1 : PoolMgmt) (hr : Reachable bm) (hbm : bm.mgmtData = some pm0) (hp : 0 ≤ p)
    (miss : ptab_get pm0.ptab p < 0) (hok : (pinPage bm page p).1 = RC.RC_OK)
    (hres : (pinPage bm page p).2.1.mgmtData = some pm1) :
    ∃ t : Nat, t < pm0.frames.length ∧
      (((frameAt pm0.frames t).pageNum = NO_PAGE ∧
          ∀ j, j < t → (frameAt pm0.frames j).pageNum ≠ NO_PAGE) ∨
        ((∀ j, j < pm0.frames.length → (frameAt pm0.frames j).pageNum ≠ NO_PAGE) ∧
          (selectVictim { pm0 with tick := pm0.tick + 1 }).1 = (t : Int))) ∧
      pm1.tick = pm0.tick + 1 ∧
      (frameAt pm1.frames t).pageNum = p ∧ (frameAt pm1.frames t).dirty = false ∧
      (frameAt pm1.frames t).fixCount = 1 ∧ (frameAt pm1.frames t).lastUsed = pm0.tick + 1 ∧
      (frameAt pm1.frames t).fifoPos = pm0.tick + 1 ∧ (frameAt pm1.frames t).refbit = true ∧
      ptab_get pm1.ptab p = (t : Int) ∧
      (pinPage bm page p).2.2 = { pageNum := p, data := some t } ∧
      ∀ i, i ≠ t → (frameAt pm1.frames i).pageNum = (frameAt pm0.frames i).pageNum ∧
        (frameAt pm1.frames i).dirty = (frameAt pm0.frames i).dirty ∧
        (frameAt pm1.frames i).fixCount = (frameAt pm0.frames i).fixCount := by
  obtain ⟨pm, e, hw⟩ := reachable_winv hr
  rw [hbm] at e
  simp only [Option.some.injEq] at e
  subst e
  have hwt := hw.tick
  rcases pin_miss bm page p pm0 hbm hp miss with ⟨_, _, e3⟩ | ⟨_, _, e3, e4⟩ | ⟨t, pmT, ht, e⟩
  · rw [e3] at hok; exact absurd hok (fun h => RC.noConfusion h)
  · rw [e4] at hok; exact absurd hok e3
  · obtain ⟨a1, a2, a3, a4, a5, a6, a7, a8, a9, a10, a11⟩ := target_props hwt ht
    have htT : t < pmT.frames.length := by rw [a3]; exact a2
    rcases load_eq bm page p pmT t htT with ⟨rc, fh, h1, h2, _⟩ | ⟨fh, reads, buf, h2, h3, h4⟩
    · rw [e, h2] at hok; exact absurd hok h1
    · obtain ⟨f1, f2, f3, f4⟩ := h4 a1.file
      have hreads : -2147483648 ≤ reads ∧ reads ≤ 2147483647 := by
        rcases h3 with e | e
        · rw [e]; exact a1.io.1
        · rw [e]; exact wrapInt_range _
      obtain ⟨l1, l2⟩ := a1.load htT hp (fun k v hkv _ => (a11 k v hkv).2) fh reads buf f1 f2 f4
        hreads
      rw [e, h2] at hres
      simp only [Option.some.injEq] at hres
      subst hres
      refine ⟨t, a2, target_choice hwt ht, a4, ?_, ?_, ?_, ?_, ?_, ?_, ?_, ?_, ?_⟩
      · show (frameAt (pmT.frames.set t _) t).pageNum = p
        rw [frameAt_set_self htT]
      · show (frameAt (pmT.frames.set t _) t).dirty = false
        rw [frameAt_set_self htT]
      · show (frameAt (pmT.frames.set t _) t).fixCount = 1
        rw [frameAt_set_self htT]
      · show (frameAt (pmT.frames.set t _) t).lastUsed = pm0.tick + 1
        rw [frameAt_set_self htT]; exact a4
      · show (frameAt (pmT.frames.set t _) t).fifoPos = pm0.tick + 1
        rw [frameAt_set_self htT]; exact a4
      · show (frameAt (pmT.frames.set t _) t).refbit = true
        rw [frameAt_set_self htT]
      · show ptab_get (ptab_put pmT.ptab p (t : Int)).2 p = (t : Int)
        exact get_of_has l1.pt ((l2 p t).2 (Or.inl ⟨rfl, rfl⟩))
      · rw [e, h2]
      · intro i hi
        have hset : frameAt (pmT.frames.set t
            { pageNum := p, data := buf, dirty := false, fixCount := 1,
              lastUsed := pmT.tick, fifoPos := pmT.tick, refbit := true }) i = frameAt pmT.frames i :=
          frameAt_set_other (fun e => hi e.symm) _
        refine ⟨?_, ?_, ?_⟩
        · show (frameAt (pmT.frames.set t _) i).pageNum = _
          rw [hset]; exact (a9 i).1
        · show (frameAt (pmT.frames.set t _) i).dirty = _
          rw [hset]; exact a10 i hi
        · show (frameAt (pmT.frames.set t _) i).fixCount = _
          rw [hset]; exact (a9 i).2.2.1

/-- Witness for C4: pinning page 2 in `onePinned` (page 0 pinned in frame 0, page 1
unpinned in frame 1, no empty frame) succeeds. -/
theorem C4_pin_miss_postcondition_witness :
    ∃ t : Nat, t < (mgmtOf onePinned).frames.length ∧
      (((frameAt (mgmtOf onePinned).frames t).pageNum = NO_PAGE ∧
          ∀ j, j < t → (frameAt (mgmtOf onePinned).frames j).pageNum ≠ NO_PAGE) ∨
        ((∀ j, j < (mgmtOf onePinned).frames.length →
            (frameAt (mgmtOf onePinned).frames j).pageNum ≠ NO_PAGE) ∧
          (selectVictim { (mgmtOf onePinned) with tick := (mgmtOf onePinned).tick + 1 }).1
            = (t : Int))) ∧
      (mgmtOf (pinPage onePinned blankHandle 2).2.1).tick = (mgmtOf onePinned).tick + 1 ∧
      (frameAt (mgmtOf (pinPage onePinned blankHandle 2).2.1).frames t).pageNum = 2 ∧
      (frameAt (mgmtOf (pinPage onePinned blankHandle 2).2.1).frames t).dirty = false ∧
      (frameAt (mgmtOf (pinPage onePinned blankHandle 2).2.1).frames t).fixCount = 1 ∧
      (frameAt (mgmtOf (pinPage onePinned blankHandle 2).2.1).frames t).lastUsed
        = (mgmtOf onePinned).tick + 1 ∧
      (frameAt (mgmtOf (pinPage onePinned blankHandle 2).2.1).frames t).fifoPos
        = (mgmtOf onePinned).tick + 1 ∧
      (frameAt (mgmtOf (pinPage onePinned blankHandle 2).2.1).frames t).refbit = true ∧
      ptab_get (mgmtOf (pinPage onePinned blankHandle 2).2.1).ptab 2 = (t : Int) ∧
      (pinPage onePinned blankHandle 2).2.2 = { pageNum := 2, data := some t } ∧
      ∀ i, i ≠ t →
        (frameAt (mgmtOf (pinPage onePinned blankHandle 2).2.1).frames i).pageNum
          = (frameAt (mgmtOf onePinned).frames i).pageNum ∧
        (frameAt (mgmtOf (pinPage onePinned blankHandle 2).2.1).frames i).dirty
          = (frameAt (mgmtOf onePinned).frames i).dirty ∧
        (frameAt (mgmtOf (pinPage onePinned blankHandle 2).2.1).frames i).fixCount
          = (frameAt (mgmtOf onePinned).frames i).fixCount :=
  C4_pin_miss_postcondition onePinned blankHandle 2 (mgmtOf onePinned)
    (mgmtOf (pinPage onePinned blankHandle 2).2.1) onePinned_reachable.reachable rfl (by decide)
    (by decide) (by decide) rfl

/-- C5 does not hold as stated: `fixCount` is a C `int` that `pinPage` increments
without a bound. In `maxPinned` (page 0 pinned `INT_MAX` times and never
unpinned) page 0 is resident in frame 0 with `fixCount = 2147483647`; one more
`pinPage (0)` returns RC_OK and leaves `fixCount = -2147483648` in that frame,
not `fixCount + 1`. -/
theorem C5_pin_count_wraps :
    ReachableReliable maxPinned ∧ ptab_get (mgmtOf maxPinned).ptab 0 = 0 ∧
      (frameAt (mgmtOf maxPinned).frames 0).fixCount = 2147483647 ∧
      (pinPage maxPinned blankHandle 0).1 = RC.RC_OK ∧
      (frameAt (mgmtOf (pinPage maxPinned blankHandle 0).2.1).frames 0).fixCount = -2147483648 := by
  obtain ⟨pm, e, h1, h2, h3, _⟩ := maxPinned_state
  obtain ⟨pm1, e1, ok, _, _, p3⟩ := pin_hit_frame blankHandle e (le_refl _) h1
    (by rw [h2]; decide)
  rw [mgmtOf_eq e, mgmtOf_eq e1, p3]
  refine ⟨maxPinned_reachable, h1, h3, ok, ?_⟩
  show wrapInt ((frameAt pm.frames 0).fixCount + 1) = _
  rw [h3]
  exact wrapInt_max

/-- C5, amended: a `pinPage` of a resident page (whatever the pin counts) returns
RC_OK and a handle on that frame's buffer; the frame's `fixCount` is incremented
as a 32-bit `int` (it grows by exactly 1 when it was below `INT_MAX`, and wraps
to `INT_MIN` otherwise), its `lastUsed` becomes the new tick and its `refbit`
true; its other fields (`fifoPos`, `dirty`, `pageNum`, `data`), every other
frame, the page table, `clockHand`, both I/O counters and the file handle are
unchanged. -/
theorem C5_pin_hit_effect (bm : BM_BufferPool) (page : BM_PageHandle) (p : Int) (pm0 : PoolMgmt)
    (hr : Reachable bm) (hbm : bm.mgmtData = some pm0) (hit : 0 ≤ ptab_get pm0.ptab p) :
    ∃ pm1, pinPage bm page p = (RC.RC_OK, { bm with mgmtData := some pm1 },
        { pageNum := p, data := some (ptab_get pm0.ptab p).toNat }) ∧
      (ptab_get pm0.ptab p).toNat < pm0.frames.length ∧
      frameAt pm1.frames (ptab_get pm0.ptab p).toNat =
        { (frameAt pm0.frames (ptab_get pm0.ptab p).toNat) with
          fixCount := wrapInt ((frameAt pm0.frames (ptab_get pm0.ptab p).toNat).fixCount + 1),
          lastUsed := pm0.tick + 1, refbit := true } ∧
      ((frameAt pm0.frames (ptab_get pm0.ptab p).toNat).fixCount < 2147483647 →
        (frameAt pm1.frames (ptab_get pm0.ptab p).toNat).fixCount =
          (frameAt pm0.frames (ptab_get pm0.ptab p).toNat).fixCount + 1) ∧
      ((frameAt pm0.frames (ptab_get pm0.ptab p).toNat).fixCount = 2147483647 →
        (frameAt pm1.frames (ptab_get pm0.ptab p).toNat).fixCount = -2147483648) ∧
      (∀ i, i ≠ (ptab_get pm0.ptab p).toNat → frameAt pm1.frames i = frameAt pm0.frames i) ∧
      pm1.frames.length = pm0.frames.length ∧ pm1.tick = pm0.tick + 1 ∧ pm1.ptab = pm0.ptab ∧
      pm1.clockHand = pm0.clockHand ∧ pm1.numReadIO = pm0.numReadIO ∧
      pm1.numWriteIO = pm0.numWriteIO ∧ pm1.fhandle = pm0.fhandle := by
  obtain ⟨pm, e, hw⟩ := reachable_winv hr
  rw [hbm] at e
  simp only [Option.some.injEq] at e
  subst e
  obtain ⟨hp0, r2, _, _⟩ := hw.resident hit
  have hfr : frameAt (pm0.frames.set (ptab_get pm0.ptab p).toNat
      { (frameAt pm0.frames (ptab_get pm0.ptab p).toNat) with
        fixCount := wrapInt ((frameAt pm0.frames (ptab_get pm0.ptab p).toNat).fixCount + 1),
        lastUsed := pm0.tick + 1, refbit := true }) (ptab_get pm0.ptab p).toNat = _ :=
    frameAt_set_self r2 _
  have hfix := hw.fix (ptab_get pm0.ptab p).toNat
  refine ⟨_, pin_hit bm page p pm0 hbm hp0 hit, r2, hfr, ?_, ?_, ?_, ?_, rfl, rfl, rfl, rfl, rfl, rfl⟩
  · intro hlt
    show (frameAt (pm0.frames.set _ _) _).fixCount = _
    rw [hfr]
    exact wrapInt_of_range (by omega) (by omega)
  · intro heq
    show (frameAt (pm0.frames.set _ _) _).fixCount = _
    rw [hfr]
    show wrapInt ((frameAt pm0.frames (ptab_get pm0.ptab p).toNat).fixCount + 1) = _
    rw [heq]
    exact wrapInt_max
  · intro i hi
    show frameAt (pm0.frames.set _ _) i = _
    rw [frameAt_set_other (fun e => hi e.symm)]
  · show (pm0.frames.set _ _).length = _
    rw [List.length_set]

/-- Witness for C5: page 0 is resident (and pinned) in `onePinned`. -/
theorem C5_pin_hit_effect_witness :
    ∃ pm1, pinPage onePinned blankHandle 0 = (RC.RC_OK, { onePinned with mgmtData := some pm1 },
        { pageNum := 0, data := some (ptab_get (mgmtOf onePinned).ptab 0).toNat }) ∧
      (ptab_get (mgmtOf onePinned).ptab 0).toNat < (mgmtOf onePinned).frames.length ∧
      frameAt pm1.frames (ptab_get (mgmtOf onePinned).ptab 0).toNat =
        { (frameAt (mgmtOf onePinned).frames (ptab_get (mgmtOf onePinned).ptab 0).toNat) with
          fixCount := wrapInt ((frameAt (mgmtOf onePinned).frames
            (ptab_get (mgmtOf onePinned).ptab 0).toNat).fixCount + 1),
          lastUsed := (mgmtOf onePinned).tick + 1, refbit := true } ∧
      ((frameAt (mgmtOf onePinned).frames (ptab_get (mgmtOf onePinned).ptab 0).toNat).fixCount
          < 2147483647 →
        (frameAt pm1.frames (ptab_get (mgmtOf onePinned).ptab 0).toNat).fixCount =
          (frameAt (mgmtOf onePinned).frames
            (ptab_get (mgmtOf onePinned).ptab 0).toNat).fixCount + 1) ∧
      ((frameAt (mgmtOf onePinned).frames (ptab_get (mgmtOf onePinned).ptab 0).toNat).fixCount
          = 2147483647 →
        (frameAt pm1.frames (ptab_get (mgmtOf onePinned).ptab 0).toNat).fixCount = -2147483648) ∧
      (∀ i, i ≠ (ptab_get (mgmtOf onePinned).ptab 0).toNat →
        frameAt pm1.frames i = frameAt (mgmtOf onePinned).frames i) ∧
      pm1.frames.length = (mgmtOf onePinned).frames.length ∧
      pm1.tick = (mgmtOf onePinned).tick + 1 ∧ pm1.ptab = (mgmtOf onePinned).ptab ∧
      pm1.clockHand = (mgmtOf onePinned).clockHand ∧
      pm1.numReadIO = PoolMgmt.numReadIO (mgmtOf onePinned) ∧
      pm1.numWriteIO = PoolMgmt.numWriteIO (mgmtOf onePinned) ∧
      pm1.fhandle = (mgmtOf onePinned).fhandle :=
  C5_pin_hit_effect onePinned blankHandle 0 (mgmtOf onePinned) onePinned_reachable.reachable rfl
    (by decide)
/-- C6 does not hold as stated: over a page file on which no library call fails,
the one frame of `largeDirty` holds page 2147483647 (`INT_MAX`) dirty with
`fixCount = 0`, and `pinPage` of the non-resident page 0 returns
`RC_WRITE_FAILED`, the code of the all-pinned error, although not every frame
has `fixCount > 0`: the frame is chosen as the victim and its write-back fails,
because the file cannot be grown to cover page `INT_MAX`. -/
theorem C6_unwritable_victim :
    ReachableReliable largeDirty ∧ ptab_get (mgmtOf largeDirty).ptab 0 < 0 ∧
      (pinPage largeDirty blankHandle 0).1 = RC.RC_WRITE_FAILED ∧
      (mgmtOf largeDirty).frames.length = 1 ∧
      (frameAt (mgmtOf largeDirty).frames 0).fixCount = 0 ∧
      (frameAt (mgmtOf largeDirty).frames 0).pageNum = 2147483647 ∧
      (frameAt (mgmtOf largeDirty).frames 0).dirty = true :=
  ⟨largeDirty_reachable, by decide, by decide, by decide, by decide, by decide, by decide⟩

/-- C6, amended: over a page file whose operations succeed, in every reachable
state whose dirty frames all hold pages below `INT_MAX`, and under every
strategy, `pinPage` of a page `p ≥ 0` that is not resident returns the
all-pinned error (`RC_WRITE_FAILED`) exactly when no frame has `fixCount = 0`,
which is to say that every frame has `fixCount > 0` when no pin count has
wrapped below zero; and when it returns that error the pool is as before except
for `tick`: every frame, the page table and both I/O counters are unchanged, and
so is the page handle. (`tick` is a C `long long`; the new tick is below
`LLONG_MAX`.) -/
theorem C6_all_pinned_error (bm : BM_BufferPool) (page : BM_PageHandle) (p : Int) (pm0 : PoolMgmt)
    (hr : ReachableReliable bm) (hbm : bm.mgmtData = some pm0) (hwr : Writable pm0) (hp : 0 ≤ p)
    (miss : ptab_get pm0.ptab p < 0) (htick : pm0.tick + 1 < 0x7fffffffffffffff) :
    ((pinPage bm page p).1 = RC.RC_WRITE_FAILED ↔
        ∀ i, i < pm0.frames.length → (frameAt pm0.frames i).fixCount ≠ 0) ∧
      ((∀ i, 0 ≤ (frameAt pm0.frames i).fixCount) →
        ((pinPage bm page p).1 = RC.RC_WRITE_FAILED ↔
          ∀ i, i < pm0.frames.length → 0 < (frameAt pm0.frames i).fixCount)) ∧
      ((pinPage bm page p).1 = RC.RC_WRITE_FAILED →
        pinPage bm page p =
          (RC.RC_WRITE_FAILED, { bm with mgmtData := some { pm0 with tick := pm0.tick + 1 } }, page)) := by
  obtain ⟨pm, e, hs⟩ := reliable_sinv hr
  rw [hbm] at e
  simp only [Option.some.injEq] at e
  subst e
  have hwt := hs.w.tick
  have key : ((pinPage bm page p).1 = RC.RC_WRITE_FAILED ↔
        ∀ i, i < pm0.frames.length → (frameAt pm0.frames i).fixCount ≠ 0) ∧
      ((pinPage bm page p).1 = RC.RC_WRITE_FAILED →
        pinPage bm page p =
          (RC.RC_WRITE_FAILED, { bm with mgmtData := some { pm0 with tick := pm0.tick + 1 } },
            page)) := by
    rcases pin_miss_rel bm page p pm0 hbm hs hp miss hwr with
      ⟨e1, e2, e3⟩ | ⟨t, pmT, fh, reads, buf, ht, e, _⟩
    · obtain ⟨n1, n2⟩ := all_pinned_of_no_victim hwt htick e1 e2
      rw [n1] at e3
      exact ⟨⟨fun _ => n2, fun _ => by rw [e3]⟩, fun _ => e3⟩
    · obtain ⟨_, a2, _, _, _, _, _, a8, _⟩ := target_props hwt ht
      have hne : (pinPage bm page p).1 ≠ RC.RC_WRITE_FAILED := by
        rw [e]; exact fun h => RC.noConfusion h
      exact ⟨⟨fun h => absurd h hne, fun h => absurd a8 (h t a2)⟩, fun h => absurd h hne⟩
  refine ⟨key.1, fun hnn => ?_, key.2⟩
  rw [key.1]
  constructor
  · intro h i hi
    have := h i hi
    have := hnn i
    omega
  · intro h i hi
    have := h i hi
    omega

/-- Witness for C6: both frames of `bothPinned` are pinned and `pinPage` of page 2
returns the error and changes only `tick`. -/
theorem C6_all_pinned_error_witness :
    (pinPage bothPinned blankHandle 2).1 = RC.RC_WRITE_FAILED ∧
      pinPage bothPinned blankHandle 2 =
        (RC.RC_WRITE_FAILED,
          { bothPinned with
            mgmtData := some { (mgmtOf bothPinned) with tick := (mgmtOf bothPinned).tick + 1 } },
          blankHandle) :=
  ⟨(C6_all_pinned_error bothPinned blankHandle 2 (mgmtOf bothPinned) bothPinned_reachable rfl
      (writable_of_all (by decide)) (by decide) (by decide) (by decide)).1.2 (by decide),
   (C6_all_pinned_error bothPinned blankHandle 2 (mgmtOf bothPinned) bothPinned_reachable rfl
      (writable_of_all (by decide)) (by decide) (by decide) (by decide)).2.2 (by decide)⟩
/-- C7 does not hold as stated: in `overPinned` (page 0 pinned `INT_MAX + 1` times,
so that the C `int` `fixCount` has wrapped) page 0 is resident in frame 0 with
`fixCount = -2147483648`; `unpinPage` returns RC_OK and leaves that value, where
`max (fixCount - 1) 0` is 0. -/
theorem C7_negative_count_kept :
    ReachableReliable overPinned ∧ ptab_get (mgmtOf overPinned).ptab 0 = 0 ∧
      (frameAt (mgmtOf overPinned).frames 0).fixCount = -2147483648 ∧
      (unpinPage overPinned { pageNum := 0, data := none }).1 = RC.RC_OK ∧
      (frameAt (mgmtOf (unpinPage overPinned { pageNum := 0, data := none }).2).frames 0).fixCount
        = -2147483648 := by
  obtain ⟨pm, e, h1, h2, h3, _⟩ := overPinned_state
  have hu := unpin_eq overPinned { pageNum := 0, data := none } pm e
  have h1 : ptab_get pm.ptab 0 = 0 := h1
  have hget : ¬ ptab_get pm.ptab ({ pageNum := 0, data := none } : BM_PageHandle).pageNum < 0 := by
    show ¬ ptab_get pm.ptab 0 < 0
    omega
  have hfix : ¬ (frameAt pm.frames
      (ptab_get pm.ptab ({ pageNum := 0, data := none } : BM_PageHandle).pageNum).toNat).fixCount
        > 0 := by
    show ¬ (frameAt pm.frames (ptab_get pm.ptab 0).toNat).fixCount > 0
    rw [h1]
    show ¬ (frameAt pm.frames 0).fixCount > 0
    omega
  rw [if_neg hget, if_neg hfix] at hu
  rw [hu, mgmtOf_eq e]
  exact ⟨overPinned_reachable, h1, h3, rfl, h3⟩

/-- C7, amended: `unpinPage` on a page that is not resident returns an error and
leaves the pool as it is; on a resident page it returns RC_OK, the frame's
`fixCount` is decremented if it is positive and left as it is otherwise (so it
becomes `max (fixCount - 1) 0` when it was not negative: an unpin at 0 is
clamped), and no other field of any frame, the page table, the file handle or
the I/O counters changes. -/
theorem C7_unpin (bm : BM_BufferPool) (page : BM_PageHandle) (pm0 : PoolMgmt)
    (hr : Reachable bm) (hbm : bm.mgmtData = some pm0) :
    (ptab_get pm0.ptab page.pageNum < 0 →
        unpinPage bm page = (RC.RC_READ_NON_EXISTING_PAGE, bm)) ∧
      (0 ≤ ptab_get pm0.ptab page.pageNum →
        ∃ pm1, unpinPage bm page = (RC.RC_OK, { bm with mgmtData := some pm1 }) ∧
          (ptab_get pm0.ptab page.pageNum).toNat < pm0.frames.length ∧
          frameAt pm1.frames (ptab_get pm0.ptab page.pageNum).toNat =
            { (frameAt pm0.frames (ptab_get pm0.ptab page.pageNum).toNat) with
              fixCount :=
                if (frameAt pm0.frames (ptab_get pm0.ptab page.pageNum).toNat).fixCount > 0
                then (frameAt pm0.frames (ptab_get pm0.ptab page.pageNum).toNat).fixCount - 1
                else (frameAt pm0.frames (ptab_get pm0.ptab page.pageNum).toNat).fixCount } ∧
          (0 ≤ (frameAt pm0.frames (ptab_get pm0.ptab page.pageNum).toNat).fixCount →
            (frameAt pm1.frames (ptab_get pm0.ptab page.pageNum).toNat).fixCount =
              max ((frameAt pm0.frames (ptab_get pm0.ptab page.pageNum).toNat).fixCount - 1) 0) ∧
          (∀ i, i ≠ (ptab_get pm0.ptab page.pageNum).toNat →
            frameAt pm1.frames i = frameAt pm0.frames i) ∧
          pm1.frames.length = pm0.frames.length ∧ pm1.tick = pm0.tick ∧ pm1.ptab = pm0.ptab ∧
          pm1.clockHand = pm0.clockHand ∧ pm1.numReadIO = pm0.numReadIO ∧
          pm1.numWriteIO = pm0.numWriteIO ∧ pm1.fhandle = pm0.fhandle) := by
  obtain ⟨pm, e, hw⟩ := reachable_winv hr
  rw [hbm] at e
  simp only [Option.some.injEq] at e
  subst e
  constructor
  · intro h
    rw [unpin_eq bm page pm0 hbm, if_pos h]
  · intro h
    obtain ⟨_, r2, _, _⟩ := hw.resident h
    rw [unpin_eq bm page pm0 hbm, if_neg (by omega)]
    by_cases hpos : (frameAt pm0.frames (ptab_get pm0.ptab page.pageNum).toNat).fixCount > 0
    · rw [if_pos hpos]
      refine ⟨_, rfl, r2, ?_, ?_, ?_, ?_, rfl, rfl, rfl, rfl, rfl, rfl⟩
      · show frameAt (pm0.frames.set _ _) _ = _
        rw [frameAt_set_self r2, if_pos hpos]
      · intro _
        show (frameAt (pm0.frames.set _ _) _).fixCount = _
        rw [frameAt_set_self r2]
        show (frameAt pm0.frames (ptab_get pm0.ptab page.pageNum).toNat).fixCount - 1 = _
        omega
      · intro i hi
        show frameAt (pm0.frames.set _ _) i = _
        rw [frameAt_set_other (fun e => hi e.symm)]
      · show (pm0.frames.set _ _).length = _
        rw [List.length_set]
    · rw [if_neg hpos]
      refine ⟨_, rfl, r2, ?_, ?_, fun _ _ => rfl, rfl, rfl, rfl, rfl, rfl, rfl, rfl⟩
      · show frameAt pm0.frames _ = _
        rw [if_neg hpos]
      · intro h0
        show (frameAt pm0.frames (ptab_get pm0.ptab page.pageNum).toNat).fixCount = _
        omega

/-- Witness for C7 on `onePinned`: page 7 is not resident, page 0 is resident with
`fixCount = 1` (the decrement) and page 1 is resident with `fixCount = 0` (the
clamped case). -/
theorem C7_unpin_witness :
    unpinPage onePinned { pageNum := 7, data := none } = (RC.RC_READ_NON_EXISTING_PAGE, onePinned) ∧
      (∃ pm1, unpinPage onePinned { pageNum := 0, data := none }
          = (RC.RC_OK, { onePinned with mgmtData := some pm1 }) ∧
        (frameAt (mgmtOf onePinned).frames (ptab_get (mgmtOf onePinned).ptab 0).toNat).fixCount = 1 ∧
        (frameAt pm1.frames (ptab_get (mgmtOf onePinned).ptab 0).toNat).fixCount = 0) ∧
      ∃ pm1, unpinPage onePinned { pageNum := 1, data := none }
          = (RC.RC_OK, { onePinned with mgmtData := some pm1 }) ∧
        (frameAt (mgmtOf onePinned).frames (ptab_get (mgmtOf onePinned).ptab 1).toNat).fixCount = 0 ∧
        (frameAt pm1.frames (ptab_get (mgmtOf onePinned).ptab 1).toNat).fixCount = 0 := by
  refine ⟨(C7_unpin onePinned { pageNum := 7, data := none } (mgmtOf onePinned)
      onePinned_reachable.reachable rfl).1 (by decide), ?_, ?_⟩
  · obtain ⟨pm1, a, _, _, c, _⟩ := (C7_unpin onePinned { pageNum := 0, data := none }
      (mgmtOf onePinned) onePinned_reachable.reachable rfl).2 (by decide)
    exact ⟨pm1, a, by decide, (c (by decide)).trans (by decide)⟩
  · obtain ⟨pm1, a, _, _, c, _⟩ := (C7_unpin onePinned { pageNum := 1, data := none }
      (mgmtOf onePinned) onePinned_reachable.reachable rfl).2 (by decide)
    exact ⟨pm1, a, by decide, (c (by decide)).trans (by decide)⟩
/-- C8 as stated fails on a clean frame: in `unmarkedWrite` (page 0 pinned, its
buffer overwritten with `onesPage`, unpinned without `markDirty`) the page file
never fails and `forceFlushPool` returns RC_OK, yet afterwards frame 0 has
`fixCount = 0`, is clean and holds page 0 with the buffer `onesPage`, while page
0 of the store is still the blank page: `flushIfDirty` skips clean frames. -/
theorem C8_clean_frame_not_written :
    ReachableReliable unmarkedWrite ∧
      (forceFlushPool unmarkedWrite).1 = RC.RC_OK ∧
      (frameAt (mgmtOf (forceFlushPool unmarkedWrite).2).frames 0).fixCount = 0 ∧
      (frameAt (mgmtOf (forceFlushPool unmarkedWrite).2).frames 0).dirty = false ∧
      (frameAt (mgmtOf (forceFlushPool unmarkedWrite).2).frames 0).pageNum = 0 ∧
      storePage (mgmtOf (forceFlushPool unmarkedWrite).2).fhandle
          (frameAt (mgmtOf (forceFlushPool unmarkedWrite).2).frames 0).pageNum
        ≠ some (frameAt (mgmtOf (forceFlushPool unmarkedWrite).2).frames 0).data := by
  refine ⟨unmarkedWrite_reachable, by decide, by decide, by decide, by decide, ?_⟩
  have h1 : storePage (mgmtOf (forceFlushPool unmarkedWrite).2).fhandle
      (frameAt (mgmtOf (forceFlushPool unmarkedWrite).2).frames 0).pageNum = some zeroPage := rfl
  have h2 : (frameAt (mgmtOf (forceFlushPool unmarkedWrite).2).frames 0).data = onesPage := rfl
  rw [h1, h2]
  intro h
  exact onesPage_ne_zeroPage (Option.some.inj h).symm

/-- C8, amended: over a page file whose operations succeed, and when every frame
that is dirty with `fixCount = 0` holds a page below `INT_MAX` (the file cannot
be grown to cover a larger page, and the write-back of such a frame fails),
`forceFlushPool` returns RC_OK; afterwards every frame with `fixCount = 0` is
clean, and for every frame that was dirty with `fixCount = 0` the store's page
at its `pageNum` equals its buffer; every frame with `fixCount ≠ 0` is unchanged
(it keeps its dirty flag) and the store changes at no page other than those of
the frames that were dirty with `fixCount = 0`; no frame's `pageNum`, `fixCount`
or buffer changes; and `numWriteIO` is incremented, as a 32-bit `int`, once for
each frame that was dirty with `fixCount = 0`. -/
theorem C8_forceFlushPool (bm : BM_BufferPool) (pm0 : PoolMgmt)
    (hr : ReachableReliable bm) (hbm : bm.mgmtData = some pm0)
    (hsm : ∀ i, (frameAt pm0.frames i).fixCount = 0 → (frameAt pm0.frames i).dirty = true →
      (frameAt pm0.frames i).pageNum < 2147483647) :
    ∃ pm1, forceFlushPool bm = (RC.RC_OK, { bm with mgmtData := some pm1 }) ∧
      (∀ i, i < pm0.frames.length → (frameAt pm0.frames i).fixCount = 0 →
        (frameAt pm1.frames i).dirty = false) ∧
      (∀ i, i < pm0.frames.length → (frameAt pm0.frames i).fixCount = 0 →
        (frameAt pm0.frames i).dirty = true →
        storePage pm1.fhandle (frameAt pm1.frames i).pageNum = some (frameAt pm1.frames i).data) ∧
      (∀ i, (frameAt pm0.frames i).fixCount ≠ 0 → frameAt pm1.frames i = frameAt pm0.frames i) ∧
      (∀ q, (∀ i, i < pm0.frames.length → (frameAt pm0.frames i).fixCount = 0 →
          (frameAt pm0.frames i).dirty = true → (frameAt pm0.frames i).pageNum ≠ q) →
        storePage pm1.fhandle q = storePage pm0.fhandle q) ∧
      (∀ i, (frameAt pm1.frames i).pageNum = (frameAt pm0.frames i).pageNum ∧
        (frameAt pm1.frames i).fixCount = (frameAt pm0.frames i).fixCount ∧
        (frameAt pm1.frames i).data = (frameAt pm0.frames i).data) ∧
      pm1.numWriteIO = wrapInt (pm0.numWriteIO +
        (((List.range pm0.frames.length).countP fun i =>
          decide ((frameAt pm0.frames i).fixCount = 0 ∧ (frameAt pm0.frames i).dirty = true)) : Nat)) := by
  obtain ⟨pm, e, hs⟩ := reliable_sinv hr
  rw [hbm] at e
  simp only [Option.some.injEq] at e
  subst e
  have hfl : ∀ i, Flushed true (frameAt pm0.frames i) ↔
      ((frameAt pm0.frames i).fixCount = 0 ∧ (frameAt pm0.frames i).dirty = true) := by
    intro i
    unfold Flushed
    simp only [Bool.true_eq_false, false_or]
  obtain ⟨t1, t2, t3, t4, t5, t6, t7, t8⟩ := flushFrames_spec true (List.range pm0.capacity.toNat) pm0
    (List.nodup_range _) hs.w hs.ok hs.unique
    (fun k hk => hsm k ((hfl k).1 hk).1 ((hfl k).1 hk).2)
  have hlen := hs.w.len
  refine ⟨refreshSnapshots (flushFrames true (List.range pm0.capacity.toNat) pm0).2, ?_, ?_, ?_, ?_,
    ?_, ?_, ?_⟩
  · rw [forceFlushPool_eq bm pm0 hbm, if_neg (fun h => h t1)]
  · intro i hi hf
    show (frameAt (flushFrames true (List.range pm0.capacity.toNat) pm0).2.frames i).dirty = false
    rw [t5 i, if_pos ⟨List.mem_range.mpr (by rw [← hlen]; exact hi), Or.inr hf⟩]
  · intro i hi hf hd
    show storePage (flushFrames true (List.range pm0.capacity.toNat) pm0).2.fhandle
      (frameAt (flushFrames true (List.range pm0.capacity.toNat) pm0).2.frames i).pageNum
      = some (frameAt (flushFrames true (List.range pm0.capacity.toNat) pm0).2.frames i).data
    rw [t5 i, if_pos ⟨List.mem_range.mpr (by rw [← hlen]; exact hi), Or.inr hf⟩]
    exact t6 i (List.mem_range.mpr (by rw [← hlen]; exact hi)) ((hfl i).2 ⟨hf, hd⟩)
  · intro i hi
    show frameAt (flushFrames true (List.range pm0.capacity.toNat) pm0).2.frames i = _
    rw [t5 i, if_neg (fun h => by
      rcases h.2 with h1 | h1
      · exact Bool.noConfusion h1
      · exact hi h1)]
  · intro q hq
    show storePage (flushFrames true (List.range pm0.capacity.toNat) pm0).2.fhandle q = _
    exact t7 q (fun k hk hf => hq k (by rw [hlen]; exact List.mem_range.mp hk) ((hfl k).1 hf).1
      ((hfl k).1 hf).2)
  · intro i
    show (frameAt (flushFrames true (List.range pm0.capacity.toNat) pm0).2.frames i).pageNum = _ ∧
      (frameAt (flushFrames true (List.range pm0.capacity.toNat) pm0).2.frames i).fixCount = _ ∧
      (frameAt (flushFrames true (List.range pm0.capacity.toNat) pm0).2.frames i).data = _
    rw [t5 i]
    split
    · exact ⟨rfl, rfl, rfl⟩
    · exact ⟨rfl, rfl, rfl⟩
  · show PoolMgmt.numWriteIO (flushFrames true (List.range pm0.capacity.toNat) pm0).2 = _
    rw [t8, hlen]
    congr 3
    apply List.countP_congr
    intro k _
    simp only [decide_eq_true_eq]
    exact hfl k

/-- Witness for the amended C8 on `twoDirty` (page 0 pinned and dirty, page 1
unpinned and dirty). -/
theorem C8_forceFlushPool_witness :
    ∃ pm1, forceFlushPool twoDirty = (RC.RC_OK, { twoDirty with mgmtData := some pm1 }) ∧
      (∀ i, i < (mgmtOf twoDirty).frames.length → (frameAt (mgmtOf twoDirty).frames i).fixCount = 0 →
        (frameAt pm1.frames i).dirty = false) ∧
      (∀ i, i < (mgmtOf twoDirty).frames.length → (frameAt (mgmtOf twoDirty).frames i).fixCount = 0 →
        (frameAt (mgmtOf twoDirty).frames i).dirty = true →
        storePage pm1.fhandle (frameAt pm1.frames i).pageNum = some (frameAt pm1.frames i).data) ∧
      (∀ i, (frameAt (mgmtOf twoDirty).frames i).fixCount ≠ 0 →
        frameAt pm1.frames i = frameAt (mgmtOf twoDirty).frames i) ∧
      (∀ q, (∀ i, i < (mgmtOf twoDirty).frames.length →
          (frameAt (mgmtOf twoDirty).frames i).fixCount = 0 →
          (frameAt (mgmtOf twoDirty).frames i).dirty = true →
          (frameAt (mgmtOf twoDirty).frames i).pageNum ≠ q) →
        storePage pm1.fhandle q = storePage (mgmtOf twoDirty).fhandle q) ∧
      (∀ i, (frameAt pm1.frames i).pageNum = (frameAt (mgmtOf twoDirty).frames i).pageNum ∧
        (frameAt pm1.frames i).fixCount = (frameAt (mgmtOf twoDirty).frames i).fixCount ∧
        (frameAt pm1.frames i).data = (frameAt (mgmtOf twoDirty).frames i).data) ∧
      pm1.numWriteIO = wrapInt (PoolMgmt.numWriteIO (mgmtOf twoDirty) +
        (((List.range (mgmtOf twoDirty).frames.length).countP fun i =>
          decide ((frameAt (mgmtOf twoDirty).frames i).fixCount = 0 ∧
            (frameAt (mgmtOf twoDirty).frames i).dirty = true)) : Nat)) :=
  C8_forceFlushPool twoDirty (mgmtOf twoDirty) twoDirty_reachable rfl
    (fun i _ hd => writable_of_all (by decide) i hd)

/-- C9 does not hold as stated: in `staleSnapshots`, reached over a page file on
which no library call fails, page 0 is resident and clean in frame 0, and
`forcePage` on it returns RC_OK and changes the pool: the snapshot array
`dirtyFlags`, left stale by a `forceFlushPool` that returned an error, is
refreshed. (That `forceFlushPool` failed on the dirty page `INT_MAX` of frame 1;
`forcePage` on that dirty page fails in the same way, with RC_WRITE_FAILED.) -/
theorem C9_clean_page_refreshes_snapshots :
    ReachableReliable staleSnapshots ∧ 0 ≤ ptab_get (mgmtOf staleSnapshots).ptab 0 ∧
      (frameAt (mgmtOf staleSnapshots).frames (ptab_get (mgmtOf staleSnapshots).ptab 0).toNat).dirty
        = false ∧
      (forcePage staleSnapshots { pageNum := 0, data := none }).1 = RC.RC_OK ∧
      (mgmtOf (forcePage staleSnapshots { pageNum := 0, data := none }).2).dirtyFlags
        ≠ (mgmtOf staleSnapshots).dirtyFlags ∧
      0 ≤ ptab_get (mgmtOf staleSnapshots).ptab 2147483647 ∧
      (frameAt (mgmtOf staleSnapshots).frames
        (ptab_get (mgmtOf staleSnapshots).ptab 2147483647).toNat).dirty = true ∧
      (forcePage staleSnapshots { pageNum := 2147483647, data := none }).1 = RC.RC_WRITE_FAILED :=
  ⟨staleSnapshots_reachable, by decide, by decide, by decide, by decide, by decide, by decide,
    by decide⟩

/-- C9, amended: in an initialised pool, `forcePage` on a page that is not
resident returns an error and leaves the pool as it is; on a resident dirty page
below `INT_MAX`, pinned or not, in a state reached over a page file whose
operations succeed, it returns RC_OK, the store then
holds the frame's buffer at the page number (the other pages of the store are as
before), `numWriteIO` is incremented once (as a 32-bit `int`), and the frame is
clean with every other field, every other frame, the page table and `numReadIO`
unchanged; on a resident clean page it returns RC_OK, nothing is written, and
nothing changes except that the three snapshot arrays are refreshed from the
frame table. -/
theorem C9_forcePage (bm : BM_BufferPool) (page : BM_PageHandle) (pm0 : PoolMgmt)
    (hbm : bm.mgmtData = some pm0) :
    (ptab_get pm0.ptab page.pageNum < 0 →
        forcePage bm page = (RC.RC_READ_NON_EXISTING_PAGE, bm)) ∧
      (ReachableReliable bm → 0 ≤ ptab_get pm0.ptab page.pageNum →
        (frameAt pm0.frames (ptab_get pm0.ptab page.pageNum).toNat).dirty = true →
        page.pageNum < 2147483647 →
        ∃ pm1, forcePage bm page = (RC.RC_OK, { bm with mgmtData := some pm1 }) ∧
          (frameAt pm0.frames (ptab_get pm0.ptab page.pageNum).toNat).pageNum = page.pageNum ∧
          storePage pm1.fhandle page.pageNum
            = some (frameAt pm0.frames (ptab_get pm0.ptab page.pageNum).toNat).data ∧
          (∀ q, q ≠ page.pageNum → storePage pm1.fhandle q = storePage pm0.fhandle q) ∧
          pm1.numWriteIO = wrapInt (pm0.numWriteIO + 1) ∧ pm1.numReadIO = pm0.numReadIO ∧
          frameAt pm1.frames (ptab_get pm0.ptab page.pageNum).toNat =
            { (frameAt pm0.frames (ptab_get pm0.ptab page.pageNum).toNat) with dirty := false } ∧
          (∀ i, i ≠ (ptab_get pm0.ptab page.pageNum).toNat →
            frameAt pm1.frames i = frameAt pm0.frames i) ∧
          pm1.ptab = pm0.ptab) ∧
      (0 ≤ ptab_get pm0.ptab page.pageNum →
        (frameAt pm0.frames (ptab_get pm0.ptab page.pageNum).toNat).dirty = false →
        forcePage bm page = (RC.RC_OK, { bm with mgmtData := some (refreshSnapshots pm0) })) := by
  refine ⟨fun h => ?_, fun hrel h hd hsmall => ?_, fun h hd => ?_⟩
  · rw [forcePage_eq bm page pm0 hbm, if_pos h]
  · obtain ⟨pm, e, hs⟩ := reliable_sinv hrel
    rw [hbm] at e
    simp only [Option.some.injEq] at e
    subst e
    obtain ⟨_, r2, r3, _⟩ := hs.w.resident h
    obtain ⟨x1, x2⟩ := flush_exact hs.w hs.ok (ptab_get pm0.ptab page.pageNum).toNat
      (fun _ => by rw [r3]; exact hsmall)
    obtain ⟨fh, g1, g2, g3, g4, g5, g6⟩ := x2 hd
    rw [forcePage_eq bm page pm0 hbm, if_neg (by omega), g1, if_neg (fun hh => hh rfl)]
    rw [r3] at g4 g5 g6
    rw [hs.ok.wf.len] at g6
    refine ⟨_, rfl, r3, storePage_set_self g5 g6 g4, fun q hq => storePage_set_other g5 hq g4,
      rfl, rfl, ?_, fun i hi => ?_, rfl⟩
    · show frameAt (pm0.frames.set _ _) _ = _
      rw [frameAt_set_self r2]
    · show frameAt (pm0.frames.set _ _) i = _
      rw [frameAt_set_other (fun e => hi e.symm)]
  · rw [forcePage_eq bm page pm0 hbm, if_neg (by omega),
      flushIfDirty_noop pm0 _ (Or.inr hd), if_neg (fun hh => hh rfl)]

/-- Witness for C9: page 7 is not resident in `onePinned`; page 0 is resident,
pinned and dirty in `dirtyPinned`; page 0 is resident and clean in `onePinned`. -/
theorem C9_forcePage_witness :
    forcePage onePinned { pageNum := 7, data := none } = (RC.RC_READ_NON_EXISTING_PAGE, onePinned) ∧
      (∃ pm1, forcePage dirtyPinned { pageNum := 0, data := none }
          = (RC.RC_OK, { dirtyPinned with mgmtData := some pm1 }) ∧
        (frameAt (mgmtOf dirtyPinned).frames (ptab_get (mgmtOf dirtyPinned).ptab 0).toNat).pageNum = 0 ∧
        storePage pm1.fhandle 0
          = some (frameAt (mgmtOf dirtyPinned).frames (ptab_get (mgmtOf dirtyPinned).ptab 0).toNat).data ∧
        (∀ q, q ≠ 0 → storePage pm1.fhandle q = storePage (mgmtOf dirtyPinned).fhandle q) ∧
        pm1.numWriteIO = wrapInt (PoolMgmt.numWriteIO (mgmtOf dirtyPinned) + 1) ∧
        pm1.numReadIO = PoolMgmt.numReadIO (mgmtOf dirtyPinned) ∧
        frameAt pm1.frames (ptab_get (mgmtOf dirtyPinned).ptab 0).toNat =
          { (frameAt (mgmtOf dirtyPinned).frames (ptab_get (mgmtOf dirtyPinned).ptab 0).toNat) with
            dirty := false } ∧
        (∀ i, i ≠ (ptab_get (mgmtOf dirtyPinned).ptab 0).toNat →
          frameAt pm1.frames i = frameAt (mgmtOf dirtyPinned).frames i) ∧
        pm1.ptab = (mgmtOf dirtyPinned).ptab) ∧
      forcePage onePinned { pageNum := 0, data := none }
        = (RC.RC_OK, { onePinned with mgmtData := some (refreshSnapshots (mgmtOf onePinned)) }) :=
  ⟨(C9_forcePage onePinned { pageNum := 7, data := none } (mgmtOf onePinned) rfl).1 (by decide),
   (C9_forcePage dirtyPinned { pageNum := 0, data := none } (mgmtOf dirtyPinned) rfl).2.1
      dirtyPinned_reachable (by decide) (by decide) (by decide),
   (C9_forcePage onePinned { pageNum := 0, data := none } (mgmtOf onePinned) rfl).2.2
      (by decide) (by decide)⟩
/-- C10 does not hold as stated: over a page file on which no library call
fails, the one frame of `largeDirty` holds page 2147483647 (`INT_MAX`) dirty,
and `shutdownBufferPool` returns RC_WRITE_FAILED and leaves the pool allocated:
the file cannot be grown to cover that page (`p + 1` wraps in
`ensurePageExists`), so the write-back is refused by the range check of
`writeBlock`. -/
theorem C10_shutdown_fails_on_large_page :
    ReachableReliable largeDirty ∧
      (frameAt (mgmtOf largeDirty).frames 0).dirty = true ∧
      (frameAt (mgmtOf largeDirty).frames 0).pageNum = 2147483647 ∧
      (shutdownBufferPool largeDirty).1 = RC.RC_WRITE_FAILED ∧
      (shutdownBufferPool largeDirty).2.1.mgmtData.isSome = true :=
  ⟨largeDirty_reachable, by decide, by decide, by decide, by decide⟩

/-- C10, amended: over a page file whose operations succeed, when every dirty
frame holds a page below `INT_MAX`, `shutdownBufferPool` on an initialised pool
returns RC_OK whatever the pin counts are, releases the pool and closes the
file; and for every frame that was dirty before the call, pinned or not, the
page of the file at that frame's `pageNum` is the frame's buffer. -/
theorem C10_defensive_shutdown (bm : BM_BufferPool) (pm0 : PoolMgmt)
    (hr : ReachableReliable bm) (hbm : bm.mgmtData = some pm0) (hwr : Writable pm0) :
    ∃ file, shutdownBufferPool bm = (RC.RC_OK, { bm with mgmtData := none }, some file) ∧
      ∀ i, (frameAt pm0.frames i).dirty = true →
        0 ≤ (frameAt pm0.frames i).pageNum ∧
        file.pages[(frameAt pm0.frames i).pageNum.toNat]? = some (frameAt pm0.frames i).data := by
  obtain ⟨pm, e, hs⟩ := reliable_sinv hr
  rw [hbm] at e
  simp only [Option.some.injEq] at e
  subst e
  have hf := releasePins_rel hs.w
  have hw1 := releasePins_winv hs.w
  have hu1 : UniquePages (releasePins pm0).frames := by
    intro a c hac ha
    rw [(hf a).1, (hf c).1] at hac
    rw [(hf a).1] at ha
    exact hs.unique a c hac ha
  obtain ⟨t1, _, t3, _, _, t6, _, _⟩ := flushFrames_spec false (List.range pm0.capacity.toNat)
    (releasePins pm0) (List.nodup_range _) hw1 hs.ok hu1
    (fun k hk => by rw [(hf k).1]; exact hwr k (by rw [← (hf k).2.2.1]; exact hk.2))
  obtain ⟨file, c1, c2⟩ := closePageFile_file t3
  refine ⟨file, ?_, fun i hd => ?_⟩
  · simp only [shutdownBufferPool, hbm]
    rw [if_neg (fun h => h t1), c1]
  · have hil : i < pm0.frames.length := by
      by_contra hc
      rw [frameAt_default (by omega)] at hd
      exact Bool.noConfusion hd
    have hne : (frameAt pm0.frames i).pageNum ≠ NO_PAGE := by
      intro h0
      have := (hs.w.empty i h0).2
      rw [hd] at this
      exact Bool.noConfusion this
    have hp0 : 0 ≤ (frameAt pm0.frames i).pageNum := by
      have := hs.w.pages i
      unfold NO_PAGE at hne
      omega
    have := t6 i (List.mem_range.mpr (by rw [← hs.w.len]; exact hil))
      ⟨Or.inl rfl, by rw [(hf i).2.2.1]; exact hd⟩
    rw [(hf i).1, (hf i).2.1] at this
    have hn : ¬ (frameAt pm0.frames i).pageNum < 0 := by omega
    simp only [storePage, hn, if_false] at this
    rw [c2]
    exact ⟨hp0, this⟩

/-- Witness for C10 on `twoDirty`: frame 0 is pinned and dirty, frame 1 is unpinned
and dirty. -/
theorem C10_defensive_shutdown_witness :
    ∃ file, shutdownBufferPool twoDirty = (RC.RC_OK, { twoDirty with mgmtData := none }, some file) ∧
      ∀ i, (frameAt (mgmtOf twoDirty).frames i).dirty = true →
        0 ≤ (frameAt (mgmtOf twoDirty).frames i).pageNum ∧
        file.pages[(frameAt (mgmtOf twoDirty).frames i).pageNum.toNat]?
          = some (frameAt (mgmtOf twoDirty).frames i).data :=
  C10_defensive_shutdown twoDirty (mgmtOf twoDirty) twoDirty_reachable rfl
    (writable_of_all (by decide))
/-- C11, the claim as worded fails: over `readFailsFile` the first `pinPage` of the
non-resident page 0 returns `RC_OK` (the `fseek` of `readBlock` fails, the buffer
is zeroed and the load proceeds), page 0 is resident afterwards, and `numReadIO`
is still 0. -/
theorem C11_failed_read_not_counted :
    Reachable overUnreadable ∧ ptab_get (mgmtOf overUnreadable).ptab 0 < 0 ∧
      (pinPage overUnreadable blankHandle 0).1 = RC.RC_OK ∧
      (getFrameContents (pinPage overUnreadable blankHandle 0).2.1).2 = [0] ∧
      getNumReadIO overUnreadable = 0 ∧
      getNumReadIO (pinPage overUnreadable blankHandle 0).2.1 = 0 :=
  ⟨overUnreadable_reachable, by decide, by decide, by decide, by decide, by decide⟩

/-- C11, amended: `numReadIO` and `numWriteIO` are C `int`s that the code
increments without a bound, so they are 32-bit values and an increment wraps at
`INT_MAX`. In every reachable pool, with or without storage failures, every
step of the client interface (`pinPage`, `unpinPage`, `markDirty`, `forcePage`,
`forceFlushPool`, the three getters, a write through a page handle) leaves
`numReadIO` unchanged or increments it once, and the latter only when the step
is a `pinPage` that returned `RC_OK` for a page that was not resident; it
increments `numWriteIO` once for each slot it took from dirty to clean. As long
as the increments stay within `INT_MAX` neither counter decreases: `numReadIO`
grows by 0 or 1 and `numWriteIO` by the number of slots cleaned. The flush loop
of `shutdownBufferPool` leaves `numReadIO` unchanged and increments `numWriteIO`
once for each slot it cleaned. A `pinPage` that returns `RC_OK` for a page that
was not resident increments `numReadIO` when the `readBlock` of the load
succeeds and leaves it unchanged when that read fails; over a page file on
which no call fails it increments it when the page is below `INT_MAX` (the read
of a larger page is refused). A `flushIfDirty` that succeeds on a dirty frame
increments `numWriteIO` once, and any other `flushIfDirty` leaves it
unchanged. -/
theorem C11_io_counters (bm : BM_BufferPool) (pm0 : PoolMgmt) (hr : Reachable bm)
    (hbm : bm.mgmtData = some pm0) :
    ((-2147483648 ≤ pm0.numReadIO ∧ pm0.numReadIO ≤ 2147483647) ∧
      (-2147483648 ≤ pm0.numWriteIO ∧ pm0.numWriteIO ≤ 2147483647)) ∧
    (∀ bm2, Step bm bm2 → ∃ pm1, bm2.mgmtData = some pm1 ∧
      (pm1.numReadIO = pm0.numReadIO ∨
        (pm1.numReadIO = wrapInt (pm0.numReadIO + 1) ∧ ∃ page p, bm2 = (pinPage bm page p).2.1 ∧
          (pinPage bm page p).1 = RC.RC_OK ∧ ptab_get pm0.ptab p < 0)) ∧
      pm1.numWriteIO = wrapInt (pm0.numWriteIO + (cleaned pm0 pm1 : Int)) ∧
      (pm0.numReadIO < 2147483647 →
        pm0.numReadIO ≤ pm1.numReadIO ∧ pm1.numReadIO ≤ pm0.numReadIO + 1) ∧
      (pm0.numWriteIO + (cleaned pm0 pm1 : Int) ≤ 2147483647 →
        pm1.numWriteIO = pm0.numWriteIO + (cleaned pm0 pm1 : Int))) ∧
    (PoolMgmt.numReadIO (flushFrames false (List.range pm0.capacity.toNat) (releasePins pm0)).2
        = pm0.numReadIO ∧
      PoolMgmt.numWriteIO (flushFrames false (List.range pm0.capacity.toNat) (releasePins pm0)).2
        = wrapInt (pm0.numWriteIO + (cleaned pm0
            (flushFrames false (List.range pm0.capacity.toNat) (releasePins pm0)).2 : Int))) ∧
    (∀ page p, (pinPage bm page p).1 = RC.RC_OK → ptab_get pm0.ptab p < 0 →
      ∃ pm1 t pmT, (pinPage bm page p).2.1.mgmtData = some pm1 ∧
        IsTarget { pm0 with tick := pm0.tick + 1 } t pmT ∧
        pm1.numReadIO =
          (if (readBlock p (ensurePageExists pmT.fhandle p).2 (frameAt pmT.frames t).data).1
              = RC.RC_OK
           then wrapInt (pm0.numReadIO + 1) else pm0.numReadIO) ∧
        (ReachableReliable bm → p < 2147483647 → pm1.numReadIO = wrapInt (pm0.numReadIO + 1))) ∧
    (∀ k, ((frameAt pm0.frames k).dirty = true ∧ (flushIfDirty pm0 k).1 = RC.RC_OK →
        PoolMgmt.numWriteIO (flushIfDirty pm0 k).2 = wrapInt (pm0.numWriteIO + 1)) ∧
      (¬ ((frameAt pm0.frames k).dirty = true ∧ (flushIfDirty pm0 k).1 = RC.RC_OK) →
        PoolMgmt.numWriteIO (flushIfDirty pm0 k).2 = pm0.numWriteIO)) := by
  obtain ⟨pm, e, hw⟩ := reachable_winv hr
  rw [hbm] at e
  simp only [Option.some.injEq] at e
  subst e
  have hio := hw.io
  refine ⟨hio, fun bm2 hs => ?_, shutdown_counters hw, fun page p hok miss => ?_, fun k => ?_⟩
  · obtain ⟨pm1, e, hrd, hwr⟩ := step_counters hs hbm hw
    refine ⟨pm1, e, hrd, hwr, fun hlt => ?_, fun hle => ?_⟩
    · rcases hrd with a | ⟨a, _⟩
      · rw [a]; omega
      · rw [a, wrapInt_of_range (by omega) (by omega)]; omega
    · rw [hwr, wrapInt_of_range (by omega) hle]
  · obtain ⟨pm1, e, _, _, hrd⟩ := pin_general bm page p pm0 hbm hw
    rcases hrd with ⟨_, _, _, t, pmT, ht, a⟩ | ⟨b, _⟩
    · exact ⟨pm1, t, pmT, e, ht, a,
        fun hrel hp2 => pin_reads_reliable bm page p pm0 pm1 hrel hbm e hok miss hp2⟩
    · exfalso
      rcases b with b | b
      · exact b hok
      · omega
  · obtain ⟨g1, g2⟩ := flush_general hw k
    exact ⟨fun h => (g1 h).2.2.1, fun h => (g2 h).2.1⟩

/-- Witness for the amended C11: the pool `overUnreadable`, whose first read of a
page fails. -/
theorem C11_io_counters_witness :
    ((-2147483648 ≤ PoolMgmt.numReadIO (mgmtOf overUnreadable) ∧
        PoolMgmt.numReadIO (mgmtOf overUnreadable) ≤ 2147483647) ∧
      (-2147483648 ≤ PoolMgmt.numWriteIO (mgmtOf overUnreadable) ∧
        PoolMgmt.numWriteIO (mgmtOf overUnreadable) ≤ 2147483647)) ∧
    (∀ bm2, Step overUnreadable bm2 → ∃ pm1, bm2.mgmtData = some pm1 ∧
      (pm1.numReadIO = PoolMgmt.numReadIO (mgmtOf overUnreadable) ∨
        (pm1.numReadIO = wrapInt (PoolMgmt.numReadIO (mgmtOf overUnreadable) + 1) ∧
          ∃ page p, bm2 = (pinPage overUnreadable page p).2.1 ∧
            (pinPage overUnreadable page p).1 = RC.RC_OK ∧
            ptab_get (mgmtOf overUnreadable).ptab p < 0)) ∧
      pm1.numWriteIO = wrapInt (PoolMgmt.numWriteIO (mgmtOf overUnreadable) +
        (cleaned (mgmtOf overUnreadable) pm1 : Int)) ∧
      (PoolMgmt.numReadIO (mgmtOf overUnreadable) < 2147483647 →
        PoolMgmt.numReadIO (mgmtOf overUnreadable) ≤ pm1.numReadIO ∧
        pm1.numReadIO ≤ PoolMgmt.numReadIO (mgmtOf overUnreadable) + 1) ∧
      (PoolMgmt.numWriteIO (mgmtOf overUnreadable) + (cleaned (mgmtOf overUnreadable) pm1 : Int)
          ≤ 2147483647 →
        pm1.numWriteIO = PoolMgmt.numWriteIO (mgmtOf overUnreadable) +
          (cleaned (mgmtOf overUnreadable) pm1 : Int))) ∧
    (PoolMgmt.numReadIO (flushFrames false (List.range (mgmtOf overUnreadable).capacity.toNat)
          (releasePins (mgmtOf overUnreadable))).2
        = PoolMgmt.numReadIO (mgmtOf overUnreadable) ∧
      PoolMgmt.numWriteIO (flushFrames false (List.range (mgmtOf overUnreadable).capacity.toNat)
          (releasePins (mgmtOf overUnreadable))).2
        = wrapInt (PoolMgmt.numWriteIO (mgmtOf overUnreadable) + (cleaned (mgmtOf overUnreadable)
            (flushFrames false (List.range (mgmtOf overUnreadable).capacity.toNat)
              (releasePins (mgmtOf overUnreadable))).2 : Int))) ∧
    (∀ page p, (pinPage overUnreadable page p).1 = RC.RC_OK →
      ptab_get (mgmtOf overUnreadable).ptab p < 0 →
      ∃ pm1 t pmT, (pinPage overUnreadable page p).2.1.mgmtData = some pm1 ∧
        IsTarget { (mgmtOf overUnreadable) with tick := (mgmtOf overUnreadable).tick + 1 } t pmT ∧
        pm1.numReadIO =
          (if (readBlock p (ensurePageExists pmT.fhandle p).2 (frameAt pmT.frames t).data).1
              = RC.RC_OK
           then wrapInt (PoolMgmt.numReadIO (mgmtOf overUnreadable) + 1)
           else PoolMgmt.numReadIO (mgmtOf overUnreadable)) ∧
        (ReachableReliable overUnreadable → p < 2147483647 →
          pm1.numReadIO = wrapInt (PoolMgmt.numReadIO (mgmtOf overUnreadable) + 1))) ∧
    (∀ k, ((frameAt (mgmtOf overUnreadable).frames k).dirty = true ∧
          (flushIfDirty (mgmtOf overUnreadable) k).1 = RC.RC_OK →
        PoolMgmt.numWriteIO (flushIfDirty (mgmtOf overUnreadable) k).2
          = wrapInt (PoolMgmt.numWriteIO (mgmtOf overUnreadable) + 1)) ∧
      (¬ ((frameAt (mgmtOf overUnreadable).frames k).dirty = true ∧
          (flushIfDirty (mgmtOf overUnreadable) k).1 = RC.RC_OK) →
        PoolMgmt.numWriteIO (flushIfDirty (mgmtOf overUnreadable) k).2
          = PoolMgmt.numWriteIO (mgmtOf overUnreadable))) :=
  C11_io_counters overUnreadable (mgmtOf overUnreadable) overUnreadable_reachable rfl
/-- C12: in every reachable pool, with or without storage failures, a dirty flag
is cleared exactly by a write-back.  After `pinPage` and after `forcePage`
(whatever they return) either nothing was written (`NoWrite`: every dirty flag,
`numWriteIO` and every page of the store are as before) or exactly one frame
was (`WroteOne`), and a slot goes from dirty to clean if and only if it is the
frame of that `WroteOne` event: its buffer is in the store at the page number it
held and `numWriteIO` was incremented once for it (`numWriteIO += 1` on a 32-bit
`int`); in particular a slot whose page `pinPage` replaced and that was dirty
was written back first.  After `forceFlushPool`, and for the flush loop of
`shutdownBufferPool` (run on the pool with its pins released, whose frames
differ from those of `pm0` in `fixCount` only: every positive `fixCount` is
reset), a slot goes from dirty to clean if and only if the loop wrote it back
(`WrittenBack`), no flag is set, and `numWriteIO` is incremented once for each
slot cleaned; a failed shutdown leaves the state of the loop in the handle, a
successful one leaves the store of that state in the closed file.  `markDirty`
and `unpinPage` never clear a dirty flag. -/
theorem C12_dirty_discipline (bm : BM_BufferPool) (pm0 : PoolMgmt) (hr : Reachable bm)
    (hbm : bm.mgmtData = some pm0) :
    (∀ page p, ∃ pm1, (pinPage bm page p).2.1.mgmtData = some pm1 ∧
      (NoWrite pm0 pm1 ∨ ∃ t, WroteOne pm0 pm1 t) ∧
      (∀ i, ((frameAt pm0.frames i).dirty = true ∧ (frameAt pm1.frames i).dirty = false) ↔
        WroteOne pm0 pm1 i) ∧
      (∀ i, (frameAt pm1.frames i).pageNum ≠ (frameAt pm0.frames i).pageNum →
        (frameAt pm0.frames i).dirty = true → WroteOne pm0 pm1 i)) ∧
    (∀ page, ∃ pm1, (forcePage bm page).2.mgmtData = some pm1 ∧
      (NoWrite pm0 pm1 ∨ ∃ t, WroteOne pm0 pm1 t) ∧
      (∀ i, ((frameAt pm0.frames i).dirty = true ∧ (frameAt pm1.frames i).dirty = false) ↔
        WroteOne pm0 pm1 i)) ∧
    (∃ pm1, (forceFlushPool bm).2.mgmtData = some pm1 ∧
      (∀ k, ((frameAt pm0.frames k).dirty = true ∧ (frameAt pm1.frames k).dirty = false) ↔
        WrittenBack true (List.range pm0.capacity.toNat) pm0 k) ∧
      (∀ k, (frameAt pm1.frames k).dirty = true → (frameAt pm0.frames k).dirty = true) ∧
      pm1.numWriteIO = wrapInt (pm0.numWriteIO + (cleaned pm0 pm1 : Int))) ∧
    (∃ pm1, flushFrames false (List.range pm0.capacity.toNat) (releasePins pm0) =
        ((shutdownBufferPool bm).1, pm1) ∧
      ((shutdownBufferPool bm).1 ≠ RC.RC_OK → (shutdownBufferPool bm).2.1.mgmtData = some pm1) ∧
      ((shutdownBufferPool bm).1 = RC.RC_OK →
        ∃ file, (shutdownBufferPool bm).2.2 = some file ∧ file.pages = storePages pm1.fhandle) ∧
      (∀ k, frameAt (releasePins pm0).frames k =
        if (frameAt pm0.frames k).fixCount > 0 then { (frameAt pm0.frames k) with fixCount := 0 }
        else frameAt pm0.frames k) ∧
      (∀ k, ((frameAt pm0.frames k).dirty = true ∧ (frameAt pm1.frames k).dirty = false) ↔
        WrittenBack false (List.range pm0.capacity.toNat) (releasePins pm0) k) ∧
      (∀ k, (frameAt pm1.frames k).dirty = true → (frameAt pm0.frames k).dirty = true) ∧
      pm1.numWriteIO = wrapInt (pm0.numWriteIO + (cleaned pm0 pm1 : Int))) ∧
    (∀ page, ∃ pm1, (markDirty bm page).2.mgmtData = some pm1 ∧
      ∀ i, (frameAt pm0.frames i).dirty = true → (frameAt pm1.frames i).dirty = true) ∧
    (∀ page, ∃ pm1, (unpinPage bm page).2.mgmtData = some pm1 ∧
      ∀ i, (frameAt pm1.frames i).dirty = (frameAt pm0.frames i).dirty) := by
  obtain ⟨pm, e, hw⟩ := reachable_winv hr
  rw [hbm] at e
  simp only [Option.some.injEq] at e
  subst e
  refine ⟨fun page p => ?_, fun page => ?_, ?_, ?_, fun page => ?_, fun page => ?_⟩
  · obtain ⟨pm1, e, hwr, hcl, _⟩ := pin_general bm page p pm0 hbm hw
    have hwr2 : NoWrite pm0 pm1 ∨ ∃ t, WroteOne pm0 pm1 t := by
      rcases hwr with n | ⟨t, w, _⟩
      · exact Or.inl n
      · exact Or.inr ⟨t, w⟩
    exact ⟨pm1, e, hwr2, fun i => ⟨fun h => wrote_of_cleaned hwr2 i h.1 h.2, fun w => ⟨w.1, w.2.1⟩⟩,
      fun i hne hd => wrote_of_cleaned hwr2 i hd (hcl i hne)⟩
  · obtain ⟨pm1, e, hwr, _⟩ := forcePage_general bm page pm0 hbm hw
    have hwr2 : NoWrite pm0 pm1 ∨ ∃ t, WroteOne pm0 pm1 t := by
      rcases hwr with n | ⟨w, _⟩
      · exact Or.inl n
      · exact Or.inr ⟨_, w⟩
    exact ⟨pm1, e, hwr2, fun i => ⟨fun h => wrote_of_cleaned hwr2 i h.1 h.2, fun w => ⟨w.1, w.2.1⟩⟩⟩
  · obtain ⟨pm1, e, a, _, _, c, _⟩ := forceFlushPool_general bm pm0 hbm hw
    obtain ⟨_, t2, _, _, t5, _⟩ := flushFrames_events true (List.range pm0.capacity.toNat) pm0
      (List.nodup_range _) hw
    refine ⟨pm1, e, fun k => ?_, fun k => ?_, ?_⟩
    · rw [a]
      exact flushFrames_written true _ pm0 (List.nodup_range _) hw k
    · rw [a]; exact t2 k
    · rw [c, t5]
      unfold cleaned
      rw [a]
  · obtain ⟨s1, s2, s3⟩ := shutdown_general bm pm0 hbm hw
    obtain ⟨_, c2⟩ := shutdown_counters hw
    obtain ⟨_, t2, _⟩ := flushFrames_events false (List.range pm0.capacity.toNat) (releasePins pm0)
      (List.nodup_range _) (releasePins_winv hw)
    have hd : ∀ k, (frameAt (releasePins pm0).frames k).dirty = (frameAt pm0.frames k).dirty :=
      fun k => (releasePins_rel hw k).2.2.1
    refine ⟨(flushFrames false (List.range pm0.capacity.toNat) (releasePins pm0)).2,
      Prod.ext s1.symm rfl, s2, fun h => (s3 h).2, releasePins_frames hw, fun k => ?_, fun k h => ?_, c2⟩
    · rw [← hd k]
      exact flushFrames_written false _ (releasePins pm0) (List.nodup_range _) (releasePins_winv hw) k
    · rw [← hd k]; exact t2 k h
  · obtain ⟨pm1, e, a, _⟩ := markDirty_general bm page pm0 hbm
    exact ⟨pm1, e, a⟩
  · obtain ⟨pm1, e, a, _⟩ := unpin_general bm page pm0 hbm
    exact ⟨pm1, e, a⟩

/-- Witness for C12: the pool `twoDirty`, in which page 0 is pinned and dirty in
frame 0 and page 1 is unpinned and dirty in frame 1. -/
theorem C12_dirty_discipline_witness :
    (∀ page p, ∃ pm1, (pinPage twoDirty page p).2.1.mgmtData = some pm1 ∧
      (NoWrite (mgmtOf twoDirty) pm1 ∨ ∃ t, WroteOne (mgmtOf twoDirty) pm1 t) ∧
      (∀ i, ((frameAt (mgmtOf twoDirty).frames i).dirty = true ∧ (frameAt pm1.frames i).dirty = false) ↔
        WroteOne (mgmtOf twoDirty) pm1 i) ∧
      (∀ i, (frameAt pm1.frames i).pageNum ≠ (frameAt (mgmtOf twoDirty).frames i).pageNum →
        (frameAt (mgmtOf twoDirty).frames i).dirty = true → WroteOne (mgmtOf twoDirty) pm1 i)) ∧
    (∀ page, ∃ pm1, (forcePage twoDirty page).2.mgmtData = some pm1 ∧
      (NoWrite (mgmtOf twoDirty) pm1 ∨ ∃ t, WroteOne (mgmtOf twoDirty) pm1 t) ∧
      (∀ i, ((frameAt (mgmtOf twoDirty).frames i).dirty = true ∧ (frameAt pm1.frames i).dirty = false) ↔
        WroteOne (mgmtOf twoDirty) pm1 i)) ∧
    (∃ pm1, (forceFlushPool twoDirty).2.mgmtData = some pm1 ∧
      (∀ k, ((frameAt (mgmtOf twoDirty).frames k).dirty = true ∧ (frameAt pm1.frames k).dirty = false) ↔
        WrittenBack true (List.range (mgmtOf twoDirty).capacity.toNat) (mgmtOf twoDirty) k) ∧
      (∀ k, (frameAt pm1.frames k).dirty = true → (frameAt (mgmtOf twoDirty).frames k).dirty = true) ∧
      pm1.numWriteIO = wrapInt (PoolMgmt.numWriteIO (mgmtOf twoDirty) +
        (cleaned (mgmtOf twoDirty) pm1 : Int))) ∧
    (∃ pm1, flushFrames false (List.range (mgmtOf twoDirty).capacity.toNat) (releasePins (mgmtOf twoDirty)) =
        ((shutdownBufferPool twoDirty).1, pm1) ∧
      ((shutdownBufferPool twoDirty).1 ≠ RC.RC_OK → (shutdownBufferPool twoDirty).2.1.mgmtData = some pm1) ∧
      ((shutdownBufferPool twoDirty).1 = RC.RC_OK →
        ∃ file, (shutdownBufferPool twoDirty).2.2 = some file ∧ file.pages = storePages pm1.fhandle) ∧
      (∀ k, frameAt (releasePins (mgmtOf twoDirty)).frames k =
        if (frameAt (mgmtOf twoDirty).frames k).fixCount > 0
        then { (frameAt (mgmtOf twoDirty).frames k) with fixCount := 0 }
        else frameAt (mgmtOf twoDirty).frames k) ∧
      (∀ k, ((frameAt (mgmtOf twoDirty).frames k).dirty = true ∧ (frameAt pm1.frames k).dirty = false) ↔
        WrittenBack false (List.range (mgmtOf twoDirty).capacity.toNat) (releasePins (mgmtOf twoDirty)) k) ∧
      (∀ k, (frameAt pm1.frames k).dirty = true → (frameAt (mgmtOf twoDirty).frames k).dirty = true) ∧
      pm1.numWriteIO = wrapInt (PoolMgmt.numWriteIO (mgmtOf twoDirty) +
        (cleaned (mgmtOf twoDirty) pm1 : Int))) ∧
    (∀ page, ∃ pm1, (markDirty twoDirty page).2.mgmtData = some pm1 ∧
      ∀ i, (frameAt (mgmtOf twoDirty).frames i).dirty = true → (frameAt pm1.frames i).dirty = true) ∧
    (∀ page, ∃ pm1, (unpinPage twoDirty page).2.mgmtData = some pm1 ∧
      ∀ i, (frameAt pm1.frames i).dirty = (frameAt (mgmtOf twoDirty).frames i).dirty) :=
  C12_dirty_discipline twoDirty (mgmtOf twoDirty) twoDirty_reachable.reachable rfl
/-- C13: in a reachable FIFO pool (with `tick` below `LLONG_MAX`), for a
`pinPage` miss of `p ≥ 0` that finds no empty frame: `selectVictim` reports no
victim exactly when no frame has `fixCount = 0` and a page, and then `pinPage`
returns the all-pinned error; otherwise its victim has `fixCount = 0` and a page
and the minimum `fifoPos` among such frames (the lowest index among equals), and
a successful `pinPage` loads `p` into that frame with `fifoPos` = the new tick
and leaves `pageNum` and `fifoPos` of the other frames alone.  A hit changes no
`fifoPos`.  And with three frames, `pinPage`/`unpinPage` of pages 0, 1, 2, 3, 0
leaves the frames holding pages 3, 0, 2 after 5 reads. -/
theorem C13_fifo_eviction :
    (∀ (bm : BM_BufferPool) (page : BM_PageHandle) (p : Int) (pm0 : PoolMgmt),
      Reachable bm → bm.mgmtData = some pm0 → pm0.strategy = ReplacementStrategy.RS_FIFO →
      pm0.tick < 0x7fffffffffffffff →
      (0 ≤ p → ptab_get pm0.ptab p < 0 →
        (∀ i, i < pm0.frames.length → (frameAt pm0.frames i).pageNum ≠ NO_PAGE) →
        ((selectVictim { pm0 with tick := pm0.tick + 1 }).1 = -1 ↔
          ∀ i, i < pm0.frames.length → ¬ Eligible (frameAt pm0.frames i)) ∧
        ((selectVictim { pm0 with tick := pm0.tick + 1 }).1 = -1 →
          pinPage bm page p = (RC.RC_WRITE_FAILED,
            { bm with mgmtData := some { pm0 with tick := pm0.tick + 1 } }, page)) ∧
        (∀ t : Nat, (selectVictim { pm0 with tick := pm0.tick + 1 }).1 = (t : Int) →
          t < pm0.frames.length ∧ Eligible (frameAt pm0.frames t) ∧
          (∀ j, j < pm0.frames.length → Eligible (frameAt pm0.frames j) →
            (frameAt pm0.frames t).fifoPos ≤ (frameAt pm0.frames j).fifoPos) ∧
          ∀ j, j < t → Eligible (frameAt pm0.frames j) →
            (frameAt pm0.frames t).fifoPos < (frameAt pm0.frames j).fifoPos) ∧
        (∀ pm1, (pinPage bm page p).1 = RC.RC_OK →
          (pinPage bm page p).2.1.mgmtData = some pm1 →
          ∃ t : Nat, (selectVictim { pm0 with tick := pm0.tick + 1 }).1 = (t : Int) ∧
            (frameAt pm1.frames t).pageNum = p ∧ (frameAt pm1.frames t).fifoPos = pm0.tick + 1 ∧
            ∀ i, i ≠ t → (frameAt pm1.frames i).pageNum = (frameAt pm0.frames i).pageNum ∧
              (frameAt pm1.frames i).fifoPos = (frameAt pm0.frames i).fifoPos)) ∧
      (0 ≤ ptab_get pm0.ptab p →
        ∀ pm1, (pinPage bm page p).2.1.mgmtData = some pm1 →
          ∀ i, (frameAt pm1.frames i).fifoPos = (frameAt pm0.frames i).fifoPos)) ∧
    ((List.range 3).map (fun i => (frameAt (mgmtOf ([0, 1, 2, 3, 0].foldl pinUnpin
        (freshPool 3 ReplacementStrategy.RS_FIFO))).frames i).pageNum) = [3, 0, 2] ∧
      getNumReadIO ([0, 1, 2, 3, 0].foldl pinUnpin (freshPool 3 ReplacementStrategy.RS_FIFO)) = 5) := by
  refine ⟨fun bm page p pm0 hr hbm hfifo htick => ?_, by decide, by decide⟩
  obtain ⟨pm, e, hw⟩ := reachable_winv hr
  rw [hbm] at e
  simp only [Option.some.injEq] at e
  subst e
  have hsel : selectVictim ({ pm0 with tick := pm0.tick + 1 } : PoolMgmt) =
      (selectVictim_FIFO { pm0 with tick := pm0.tick + 1 }, { pm0 with tick := pm0.tick + 1 }) := by
    simp only [selectVictim, hfifo]
  have hspec := selectVictim_FIFO_spec ({ pm0 with tick := pm0.tick + 1 } : PoolMgmt)
  have hlen : pm0.capacity.toNat = pm0.frames.length := hw.len.symm
  refine ⟨fun hp miss hfull => ⟨?_, ?_, ?_, ?_⟩, fun hit pm1 hres =>
    (pin_hit_stamps bm page p pm0 pm1 hbm hw hit hres).1⟩
  · rw [hsel]
    constructor
    · intro hv i hi hel
      rcases hspec with ⟨_, b⟩ | ⟨t, _, a, _⟩
      · have := b i (by show i < pm0.capacity.toNat; rw [hlen]; exact hi) hel
        have h2 := (hw.stamps i).1
        have : (0x7fffffffffffffff : Int) ≤ (frameAt pm0.frames i).fifoPos := this
        omega
      · have hv : selectVictim_FIFO ({ pm0 with tick := pm0.tick + 1 } : PoolMgmt) = -1 := hv
        rw [a] at hv; omega
    · intro hnone
      rcases hspec with ⟨a, _⟩ | ⟨t, ht, _, b, _⟩
      · exact a
      · exact absurd b (hnone t (by rw [← hlen]; exact ht))
  · intro hv
    have := pin_no_victim bm page p pm0 hbm hw hp miss hfull hv
    rw [hsel] at this
    exact this
  · intro t hv
    rw [hsel] at hv
    rcases hspec with ⟨a, _⟩ | ⟨u, hu, a, b, c, d⟩
    · have hv : selectVictim_FIFO ({ pm0 with tick := pm0.tick + 1 } : PoolMgmt) = (t : Int) := hv
      rw [a] at hv; omega
    · have hv : selectVictim_FIFO ({ pm0 with tick := pm0.tick + 1 } : PoolMgmt) = (t : Int) := hv
      have : u = t := by rw [a] at hv; omega
      subst this
      exact ⟨by rw [← hlen]; exact hu, b, fun j hj => c j (by show j < pm0.capacity.toNat; rw [hlen]; exact hj), d⟩
  · intro pm1 hok hres
    obtain ⟨t, h1, _, _, h4, h5, _, _, h8⟩ := pin_replaces_victim bm page p pm0 pm1 hbm hw hp miss
      hfull hok hres
    exact ⟨t, h1, h4, h5, fun i hi => ⟨(h8 i hi).1, (h8 i hi).2.1⟩⟩


/-- Witness for C13: in `threeLoaded` under FIFO the three frames are unpinned and
hold pages loaded at ticks 1, 2, 3; the miss on page 3 picks frame 0. -/
theorem C13_fifo_eviction_witness :
    0 < (mgmtOf (threeLoaded ReplacementStrategy.RS_FIFO)).frames.length ∧
      Eligible (frameAt (mgmtOf (threeLoaded ReplacementStrategy.RS_FIFO)).frames 0) ∧
      (∀ j, j < (mgmtOf (threeLoaded ReplacementStrategy.RS_FIFO)).frames.length →
        Eligible (frameAt (mgmtOf (threeLoaded ReplacementStrategy.RS_FIFO)).frames j) →
        (frameAt (mgmtOf (threeLoaded ReplacementStrategy.RS_FIFO)).frames 0).fifoPos
          ≤ (frameAt (mgmtOf (threeLoaded ReplacementStrategy.RS_FIFO)).frames j).fifoPos) ∧
      ∀ j, j < 0 → Eligible (frameAt (mgmtOf (threeLoaded ReplacementStrategy.RS_FIFO)).frames j) →
        (frameAt (mgmtOf (threeLoaded ReplacementStrategy.RS_FIFO)).frames 0).fifoPos
          < (frameAt (mgmtOf (threeLoaded ReplacementStrategy.RS_FIFO)).frames j).fifoPos :=
  ((C13_fifo_eviction.1 (threeLoaded ReplacementStrategy.RS_FIFO) blankHandle 3
      (mgmtOf (threeLoaded ReplacementStrategy.RS_FIFO))
      (threeLoaded_reachable ReplacementStrategy.RS_FIFO (by decide)).reachable rfl (by decide)
      (by decide)).1 (by decide) (by decide) (by decide)).2.2.1 0 (by decide)

/-- C14: in a reachable LRU pool (with `tick` below `LLONG_MAX`), for a
`pinPage` miss of `p ≥ 0` that finds no empty frame: `selectVictim` reports no
victim exactly when no frame has `fixCount = 0` and a page, and then `pinPage`
returns the all-pinned error; otherwise its victim has `fixCount = 0` and a page
and the minimum `lastUsed` among such frames (the lowest index among equals),
and a successful `pinPage` loads `p` into that frame with `lastUsed` = the new
tick and leaves `pageNum` and `lastUsed` of the other frames alone.  A hit sets
`lastUsed` of the frame it hits to the new tick and changes no other `lastUsed`.
And with three frames, `pinPage`/`unpinPage` of pages 0, 1, 2, 0 leaves the
frames holding pages 0, 1, 2, and the next one, of page 3, replaces page 1:
the frames hold pages 0, 3, 2. -/
theorem C14_lru_eviction :
    (∀ (bm : BM_BufferPool) (page : BM_PageHandle) (p : Int) (pm0 : PoolMgmt),
      Reachable bm → bm.mgmtData = some pm0 → pm0.strategy = ReplacementStrategy.RS_LRU →
      pm0.tick < 0x7fffffffffffffff →
      (0 ≤ p → ptab_get pm0.ptab p < 0 →
        (∀ i, i < pm0.frames.length → (frameAt pm0.frames i).pageNum ≠ NO_PAGE) →
        ((selectVictim { pm0 with tick := pm0.tick + 1 }).1 = -1 ↔
          ∀ i, i < pm0.frames.length → ¬ Eligible (frameAt pm0.frames i)) ∧
        ((selectVictim { pm0 with tick := pm0.tick + 1 }).1 = -1 →
          pinPage bm page p = (RC.RC_WRITE_FAILED,
            { bm with mgmtData := some { pm0 with tick := pm0.tick + 1 } }, page)) ∧
        (∀ t : Nat, (selectVictim { pm0 with tick := pm0.tick + 1 }).1 = (t : Int) →
          t < pm0.frames.length ∧ Eligible (frameAt pm0.frames t) ∧
          (∀ j, j < pm0.frames.length → Eligible (frameAt pm0.frames j) →
            (frameAt pm0.frames t).lastUsed ≤ (frameAt pm0.frames j).lastUsed) ∧
          ∀ j, j < t → Eligible (frameAt pm0.frames j) →
            (frameAt pm0.frames t).lastUsed < (frameAt pm0.frames j).lastUsed) ∧
        (∀ pm1, (pinPage bm page p).1 = RC.RC_OK →
          (pinPage bm page p).2.1.mgmtData = some pm1 →
          ∃ t : Nat, (selectVictim { pm0 with tick := pm0.tick + 1 }).1 = (t : Int) ∧
            (frameAt pm1.frames t).pageNum = p ∧ (frameAt pm1.frames t).lastUsed = pm0.tick + 1 ∧
            ∀ i, i ≠ t → (frameAt pm1.frames i).pageNum = (frameAt pm0.frames i).pageNum ∧
              (frameAt pm1.frames i).lastUsed = (frameAt pm0.frames i).lastUsed)) ∧
      (0 ≤ ptab_get pm0.ptab p →
        ∀ pm1, (pinPage bm page p).2.1.mgmtData = some pm1 →
          (frameAt pm1.frames (ptab_get pm0.ptab p).toNat).lastUsed = pm0.tick + 1 ∧
          ∀ i, i ≠ (ptab_get pm0.ptab p).toNat →
            (frameAt pm1.frames i).lastUsed = (frameAt pm0.frames i).lastUsed)) ∧
    ((List.range 3).map (fun i => (frameAt (mgmtOf ([0, 1, 2, 0].foldl pinUnpin
        (freshPool 3 ReplacementStrategy.RS_LRU))).frames i).pageNum) = [0, 1, 2] ∧
      (List.range 3).map (fun i => (frameAt (mgmtOf ([0, 1, 2, 0, 3].foldl pinUnpin
        (freshPool 3 ReplacementStrategy.RS_LRU))).frames i).pageNum) = [0, 3, 2]) := by
  refine ⟨fun bm page p pm0 hr hbm hlru htick => ?_, by decide, by decide⟩
  obtain ⟨pm, e, hw⟩ := reachable_winv hr
  rw [hbm] at e
  simp only [Option.some.injEq] at e
  subst e
  have hsel : selectVictim ({ pm0 with tick := pm0.tick + 1 } : PoolMgmt) =
      (selectVictim_LRU { pm0 with tick := pm0.tick + 1 }, { pm0 with tick := pm0.tick + 1 }) := by
    simp only [selectVictim, hlru]
  have hspec := selectVictim_LRU_spec ({ pm0 with tick := pm0.tick + 1 } : PoolMgmt)
  have hlen : pm0.capacity.toNat = pm0.frames.length := hw.len.symm
  refine ⟨fun hp miss hfull => ⟨?_, ?_, ?_, ?_⟩, fun hit pm1 hres =>
    ⟨(pin_hit_stamps bm page p pm0 pm1 hbm hw hit hres).2.1,
      fun i hi => ((pin_hit_stamps bm page p pm0 pm1 hbm hw hit hres).2.2.2 i hi).1⟩⟩
  · rw [hsel]
    constructor
    · intro hv i hi hel
      rcases hspec with ⟨_, b⟩ | ⟨t, _, a, _⟩
      · have := b i (by show i < pm0.capacity.toNat; rw [hlen]; exact hi) hel
        have h2 := (hw.stamps i).2
        have : (0x7fffffffffffffff : Int) ≤ (frameAt pm0.frames i).lastUsed := this
        omega
      · have hv : selectVictim_LRU ({ pm0 with tick := pm0.tick + 1 } : PoolMgmt) = -1 := hv
        rw [a] at hv; omega
    · intro hnone
      rcases hspec with ⟨a, _⟩ | ⟨t, ht, _, b, _⟩
      · exact a
      · exact absurd b (hnone t (by rw [← hlen]; exact ht))
  · intro hv
    have := pin_no_victim bm page p pm0 hbm hw hp miss hfull hv
    rw [hsel] at this
    exact this
  · intro t hv
    rw [hsel] at hv
    rcases hspec with ⟨a, _⟩ | ⟨u, hu, a, b, c, d⟩
    · have hv : selectVictim_LRU ({ pm0 with tick := pm0.tick + 1 } : PoolMgmt) = (t : Int) := hv
      rw [a] at hv; omega
    · have hv : selectVictim_LRU ({ pm0 with tick := pm0.tick + 1 } : PoolMgmt) = (t : Int) := hv
      have : u = t := by rw [a] at hv; omega
      subst this
      exact ⟨by rw [← hlen]; exact hu, b, fun j hj => c j (by show j < pm0.capacity.toNat; rw [hlen]; exact hj), d⟩
  · intro pm1 hok hres
    obtain ⟨t, h1, _, _, h4, _, h6, _, h8⟩ := pin_replaces_victim bm page p pm0 pm1 hbm hw hp miss
      hfull hok hres
    exact ⟨t, h1, h4, h6, fun i hi => ⟨(h8 i hi).1, (h8 i hi).2.2⟩⟩

/-- Witness for C14: after pages 0, 1, 2, 0 under LRU the three frames are
unpinned with `lastUsed` 4, 2, 3; the miss on page 3 picks frame 1. -/
theorem C14_lru_eviction_witness :
    1 < (mgmtOf (pinUnpin (threeLoaded ReplacementStrategy.RS_LRU) 0)).frames.length ∧
      Eligible (frameAt (mgmtOf (pinUnpin (threeLoaded ReplacementStrategy.RS_LRU) 0)).frames 1) ∧
      (∀ j, j < (mgmtOf (pinUnpin (threeLoaded ReplacementStrategy.RS_LRU) 0)).frames.length →
        Eligible (frameAt (mgmtOf (pinUnpin (threeLoaded ReplacementStrategy.RS_LRU) 0)).frames j) →
        (frameAt (mgmtOf (pinUnpin (threeLoaded ReplacementStrategy.RS_LRU) 0)).frames 1).lastUsed
          ≤ (frameAt (mgmtOf (pinUnpin (threeLoaded ReplacementStrategy.RS_LRU) 0)).frames j).lastUsed) ∧
      ∀ j, j < 1 →
        Eligible (frameAt (mgmtOf (pinUnpin (threeLoaded ReplacementStrategy.RS_LRU) 0)).frames j) →
        (frameAt (mgmtOf (pinUnpin (threeLoaded ReplacementStrategy.RS_LRU) 0)).frames 1).lastUsed
          < (frameAt (mgmtOf (pinUnpin (threeLoaded ReplacementStrategy.RS_LRU) 0)).frames j).lastUsed :=
  ((C14_lru_eviction.1 (pinUnpin (threeLoaded ReplacementStrategy.RS_LRU) 0) blankHandle 3
      (mgmtOf (pinUnpin (threeLoaded ReplacementStrategy.RS_LRU) 0))
      ((threeLoaded_reachable ReplacementStrategy.RS_LRU (by decide)).pinUnpin 0).reachable rfl
      (by decide) (by decide)).1 (by decide) (by decide) (by decide)).2.2.1 1 (by decide)

/-- C15: `selectVictim_CLOCK` on a pool with `capacity > 0` sweeps the frames
circularly from `clockHand % capacity` and stops after passing `s ≤ 2 * capacity`
frames.  Every frame it passes that has `fixCount = 0` and a page had its
`refbit` set and was met for the first time; such frames have their `refbit`
cleared and every other frame (empty, pinned, or not reached) is unchanged, as is
every field of the pool but `frames` and `clockHand`.  It stops at the first
frame with `fixCount = 0` and a page whose `refbit` is false when it is met,
returns it and sets `clockHand` to `(victim + 1) % capacity`, which is inside
`[0, capacity)`; or it returns -1 after `2 * capacity` steps, and then no frame
below `capacity` has `fixCount = 0` and a page, no frame is modified and
`clockHand` is unchanged.  So it returns a victim whenever such a frame exists.
And with two frames, `pinPage`/`unpinPage` of pages 0, 1, 0, 2 under CLOCK leaves
the frames holding pages 2, 1: page 0 is replaced. -/
theorem C15_clock_second_chance :
    (∀ pm : PoolMgmt, 0 < pm.capacity → 0 ≤ pm.clockHand →
      ∃ s, s ≤ 2 * pm.capacity.toNat ∧
        (∀ j, j < s →
          Eligible (frameAt pm.frames
            ((pm.clockHand.toNat % pm.capacity.toNat + j) % pm.capacity.toNat)) →
          (frameAt pm.frames
            ((pm.clockHand.toNat % pm.capacity.toNat + j) % pm.capacity.toNat)).refbit = true ∧
          j < pm.capacity.toNat) ∧
        (∀ i,
          ((Eligible (frameAt pm.frames i) ∧
              ∃ j, j < s ∧ (pm.clockHand.toNat % pm.capacity.toNat + j) % pm.capacity.toNat = i) →
            frameAt (selectVictim_CLOCK pm).2.frames i
              = { (frameAt pm.frames i) with refbit := false }) ∧
          (¬ (Eligible (frameAt pm.frames i) ∧
              ∃ j, j < s ∧ (pm.clockHand.toNat % pm.capacity.toNat + j) % pm.capacity.toNat = i) →
            frameAt (selectVictim_CLOCK pm).2.frames i = frameAt pm.frames i)) ∧
        (selectVictim_CLOCK pm).2 =
          { pm with frames := (selectVictim_CLOCK pm).2.frames,
                    clockHand := (selectVictim_CLOCK pm).2.clockHand } ∧
        ((s = 2 * pm.capacity.toNat ∧ (selectVictim_CLOCK pm).1 = -1 ∧
            (selectVictim_CLOCK pm).2.clockHand = pm.clockHand ∧
            (∀ i, i < pm.capacity.toNat → ¬ Eligible (frameAt pm.frames i)) ∧
            ∀ i, frameAt (selectVictim_CLOCK pm).2.frames i = frameAt pm.frames i) ∨
          (s < 2 * pm.capacity.toNat ∧
            (selectVictim_CLOCK pm).1 =
              (((pm.clockHand.toNat % pm.capacity.toNat + s) % pm.capacity.toNat : Nat) : Int) ∧
            Eligible (frameAt pm.frames
              ((pm.clockHand.toNat % pm.capacity.toNat + s) % pm.capacity.toNat)) ∧
            ((frameAt pm.frames
                ((pm.clockHand.toNat % pm.capacity.toNat + s) % pm.capacity.toNat)).refbit = false ∨
              pm.capacity.toNat ≤ s) ∧
            (selectVictim_CLOCK pm).2.clockHand =
              ((((pm.clockHand.toNat % pm.capacity.toNat + s) % pm.capacity.toNat + 1)
                % pm.capacity.toNat : Nat) : Int) ∧
            0 ≤ (selectVictim_CLOCK pm).2.clockHand ∧
            (selectVictim_CLOCK pm).2.clockHand < pm.capacity)) ∧
        ((∃ i, i < pm.capacity.toNat ∧ Eligible (frameAt pm.frames i)) →
          0 ≤ (selectVictim_CLOCK pm).1)) ∧
    ((List.range 2).map (fun i => (frameAt (mgmtOf ([0, 1, 0].foldl pinUnpin
        (freshPool 2 ReplacementStrategy.RS_CLOCK))).frames i).pageNum) = [0, 1] ∧
      (List.range 2).map (fun i => (frameAt (mgmtOf ([0, 1, 0, 2].foldl pinUnpin
        (freshPool 2 ReplacementStrategy.RS_CLOCK))).frames i).pageNum) = [2, 1]) := by
  refine ⟨fun pm hc hh => ?_, by decide, by decide⟩
  have hm : 0 < pm.capacity.toNat := by omega
  have hh0 : pm.clockHand.toNat % pm.capacity.toNat < pm.capacity.toNat := Nat.mod_lt _ hm
  obtain ⟨s, hs, hP, hF, hR⟩ := clock_sweep pm.capacity.toNat (2 * pm.capacity.toNat) pm
    (pm.clockHand.toNat % pm.capacity.toNat) hh0
  obtain ⟨cf, _, _⟩ := clock_frames pm.capacity.toNat (2 * pm.capacity.toNat) pm
    (pm.clockHand.toNat % pm.capacity.toNat)
  rw [← clock_args pm hc hh] at hF hR cf
  have hnone : s = 2 * pm.capacity.toNat → ∀ i, i < pm.capacity.toNat →
      ¬ Eligible (frameAt pm.frames i) := by
    intro hs2 i hi hel
    obtain ⟨d, hd, hdi⟩ := sweep_reaches hh0 hi
    have hj : (pm.clockHand.toNat % pm.capacity.toNat + (d + pm.capacity.toNat)) % pm.capacity.toNat
        = i := by
      rw [← Nat.add_assoc, Nat.add_mod_right]; exact hdi
    have := (hP (d + pm.capacity.toNat) (by omega) (by rw [hj]; exact hel)).2
    omega
  refine ⟨s, hs, hP, hF, cf, ?_, ?_⟩
  · rcases hR with ⟨a, b, c⟩ | ⟨a, b, c, d, e⟩
    · refine Or.inl ⟨a, b, c, hnone a, fun i => (hF i).2 (fun hc2 => ?_)⟩
      obtain ⟨hel, j, _, hji⟩ := hc2
      exact hnone a i (by rw [← hji]; exact Nat.mod_lt _ hm) hel
    · refine Or.inr ⟨a, b, c, d, e, by rw [e]; omega, ?_⟩
      rw [e]
      have := Nat.mod_lt ((pm.clockHand.toNat % pm.capacity.toNat + s) % pm.capacity.toNat + 1) hm
      omega
  · rintro ⟨i, hi, hel⟩
    rcases hR with ⟨a, _, _⟩ | ⟨_, b, _⟩
    · exact absurd hel (hnone a i hi)
    · rw [b]; omega

/-- Witness for C15: the sweep on the CLOCK pool of two frames that holds pages 0
and 1, both unpinned with `refbit` set. -/
theorem C15_clock_second_chance_witness :
    ∃ s, s ≤ 2 * (mgmtOf twoClock).capacity.toNat ∧
      (∀ j, j < s →
        Eligible (frameAt (mgmtOf twoClock).frames
          (((mgmtOf twoClock).clockHand.toNat % (mgmtOf twoClock).capacity.toNat + j)
            % (mgmtOf twoClock).capacity.toNat)) →
        (frameAt (mgmtOf twoClock).frames
          (((mgmtOf twoClock).clockHand.toNat % (mgmtOf twoClock).capacity.toNat + j)
            % (mgmtOf twoClock).capacity.toNat)).refbit = true ∧
        j < (mgmtOf twoClock).capacity.toNat) ∧
      (∀ i,
        ((Eligible (frameAt (mgmtOf twoClock).frames i) ∧
            ∃ j, j < s ∧ ((mgmtOf twoClock).clockHand.toNat % (mgmtOf twoClock).capacity.toNat + j)
              % (mgmtOf twoClock).capacity.toNat = i) →
          frameAt (selectVictim_CLOCK (mgmtOf twoClock)).2.frames i
            = { (frameAt (mgmtOf twoClock).frames i) with refbit := false }) ∧
        (¬ (Eligible (frameAt (mgmtOf twoClock).frames i) ∧
            ∃ j, j < s ∧ ((mgmtOf twoClock).clockHand.toNat % (mgmtOf twoClock).capacity.toNat + j)
              % (mgmtOf twoClock).capacity.toNat = i) →
          frameAt (selectVictim_CLOCK (mgmtOf twoClock)).2.frames i
            = frameAt (mgmtOf twoClock).frames i)) ∧
      (selectVictim_CLOCK (mgmtOf twoClock)).2 =
        { (mgmtOf twoClock) with frames := (selectVictim_CLOCK (mgmtOf twoClock)).2.frames,
                                 clockHand := (selectVictim_CLOCK (mgmtOf twoClock)).2.clockHand } ∧
      ((s = 2 * (mgmtOf twoClock).capacity.toNat ∧ (selectVictim_CLOCK (mgmtOf twoClock)).1 = -1 ∧
          (selectVictim_CLOCK (mgmtOf twoClock)).2.clockHand = (mgmtOf twoClock).clockHand ∧
          (∀ i, i < (mgmtOf twoClock).capacity.toNat →
            ¬ Eligible (frameAt (mgmtOf twoClock).frames i)) ∧
          ∀ i, frameAt (selectVictim_CLOCK (mgmtOf twoClock)).2.frames i
            = frameAt (mgmtOf twoClock).frames i) ∨
        (s < 2 * (mgmtOf twoClock).capacity.toNat ∧
          (selectVictim_CLOCK (mgmtOf twoClock)).1 =
            ((((mgmtOf twoClock).clockHand.toNat % (mgmtOf twoClock).capacity.toNat + s)
              % (mgmtOf twoClock).capacity.toNat : Nat) : Int) ∧
          Eligible (frameAt (mgmtOf twoClock).frames
            (((mgmtOf twoClock).clockHand.toNat % (mgmtOf twoClock).capacity.toNat + s)
              % (mgmtOf twoClock).capacity.toNat)) ∧
          ((frameAt (mgmtOf twoClock).frames
              (((mgmtOf twoClock).clockHand.toNat % (mgmtOf twoClock).capacity.toNat + s)
                % (mgmtOf twoClock).capacity.toNat)).refbit = false ∨
            (mgmtOf twoClock).capacity.toNat ≤ s) ∧
          (selectVictim_CLOCK (mgmtOf twoClock)).2.clockHand =
            (((((mgmtOf twoClock).clockHand.toNat % (mgmtOf twoClock).capacity.toNat + s)
              % (mgmtOf twoClock).capacity.toNat + 1) % (mgmtOf twoClock).capacity.toNat : Nat) : Int) ∧
          0 ≤ (selectVictim_CLOCK (mgmtOf twoClock)).2.clockHand ∧
          (selectVictim_CLOCK (mgmtOf twoClock)).2.clockHand < (mgmtOf twoClock).capacity)) ∧
      ((∃ i, i < (mgmtOf twoClock).capacity.toNat ∧ Eligible (frameAt (mgmtOf twoClock).frames i)) →
        0 ≤ (selectVictim_CLOCK (mgmtOf twoClock)).1) :=
  C15_clock_second_chance.1 (mgmtOf twoClock) (by decide) (by decide)

/-- C16: a pool initialised with strategy `RS_LRU_K` behaves as one initialised
with `RS_LRU` on the same file: `initBufferPool` returns the same code and the
same `PoolMgmt` (frame table, page table, counters, file handle), and after
every prefix of every client program (public operations with any arguments,
getters, writes through page handles, `shutdownBufferPool`) the two pools have
given the same answers and have the same `PoolMgmt`. -/
theorem C16_lru_k_is_lru (bm : BM_BufferPool) (name : String) (file : Option OSFile) (n : Int)
    (heap : List Bool) (ops : List Op) (k : Nat) :
    (initBufferPool bm name file n ReplacementStrategy.RS_LRU_K heap).1
        = (initBufferPool bm name file n ReplacementStrategy.RS_LRU heap).1 ∧
      (initBufferPool bm name file n ReplacementStrategy.RS_LRU_K heap).2.mgmtData
        = (initBufferPool bm name file n ReplacementStrategy.RS_LRU heap).2.mgmtData ∧
      (runOps (ops.take k) (initBufferPool bm name file n ReplacementStrategy.RS_LRU_K heap).2).2
        = (runOps (ops.take k) (initBufferPool bm name file n ReplacementStrategy.RS_LRU heap).2).2 ∧
      (runOps (ops.take k)
          (initBufferPool bm name file n ReplacementStrategy.RS_LRU_K heap).2).1.mgmtData
        = (runOps (ops.take k)
          (initBufferPool bm name file n ReplacementStrategy.RS_LRU heap).2).1.mgmtData := by
  obtain ⟨x, y⟩ := init_lru_k bm name file n heap
  obtain ⟨u, v⟩ := runOps_congr (ops.take k) _ _ y
  exact ⟨x, y, u, v⟩

/-- C17 as stated fails on an error path: in `dirtyOverFull` (one frame holding
page 0, dirty and unpinned) `pinPage` of page 1 writes the victim back, clears
its dirty flag, and then fails to grow the file; it returns the error without
`refreshSnapshots`, so `dirtyFlags` still says `true` for frame 0 while the
frame is clean. -/
theorem C17_stale_snapshot_after_error :
    Reachable dirtyOverFull ∧
      (pinPage dirtyOverFull blankHandle 1).1 = RC.RC_WRITE_FAILED ∧
      (frameAt (mgmtOf (pinPage dirtyOverFull blankHandle 1).2.1).frames 0).dirty = false ∧
      (mgmtOf (pinPage dirtyOverFull blankHandle 1).2.1).dirtyFlags = [true] ∧
      ¬ SnapshotsCurrent (mgmtOf (pinPage dirtyOverFull blankHandle 1).2.1) := by
  refine ⟨dirtyOverFull_reachable, by decide, by decide, by decide, fun h => ?_⟩
  have := (h.2.2.2 0 (by decide)).2.1
  exact absurd this (by decide)

/-- C17, amended: in every reachable state, after a mutating public call
(`pinPage`, `unpinPage`, `markDirty`, `forcePage`, `forceFlushPool`) that returns
RC_OK and after every getter (`getFrameContents`, `getDirtyFlags`,
`getFixCounts`) the three snapshot arrays have length `capacity` and equal,
element by element, the `pageNum`, `dirty` and `fixCount` fields of the frame
table, and the getter returns that array; a call that returns an error leaves
the three arrays as they were before the call. -/
theorem C17_snapshots (bm : BM_BufferPool) (pm0 : PoolMgmt)
    (hr : Reachable bm) (hbm : bm.mgmtData = some pm0) :
    (∀ page p,
        ((pinPage bm page p).1 = RC.RC_OK → SnapshotsCurrent (mgmtOf (pinPage bm page p).2.1)) ∧
        ((pinPage bm page p).1 ≠ RC.RC_OK →
          SnapshotsUnchanged pm0 (mgmtOf (pinPage bm page p).2.1))) ∧
      (∀ page,
        ((unpinPage bm page).1 = RC.RC_OK → SnapshotsCurrent (mgmtOf (unpinPage bm page).2)) ∧
        ((unpinPage bm page).1 ≠ RC.RC_OK → SnapshotsUnchanged pm0 (mgmtOf (unpinPage bm page).2))) ∧
      (∀ page,
        ((markDirty bm page).1 = RC.RC_OK → SnapshotsCurrent (mgmtOf (markDirty bm page).2)) ∧
        ((markDirty bm page).1 ≠ RC.RC_OK → SnapshotsUnchanged pm0 (mgmtOf (markDirty bm page).2))) ∧
      (∀ page,
        ((forcePage bm page).1 = RC.RC_OK → SnapshotsCurrent (mgmtOf (forcePage bm page).2)) ∧
        ((forcePage bm page).1 ≠ RC.RC_OK → SnapshotsUnchanged pm0 (mgmtOf (forcePage bm page).2))) ∧
      (((forceFlushPool bm).1 = RC.RC_OK → SnapshotsCurrent (mgmtOf (forceFlushPool bm).2)) ∧
        ((forceFlushPool bm).1 ≠ RC.RC_OK → SnapshotsUnchanged pm0 (mgmtOf (forceFlushPool bm).2))) ∧
      (SnapshotsCurrent (mgmtOf (getFrameContents bm).1) ∧
        (getFrameContents bm).2 = (mgmtOf (getFrameContents bm).1).frameContents) ∧
      (SnapshotsCurrent (mgmtOf (getDirtyFlags bm).1) ∧
        (getDirtyFlags bm).2 = (mgmtOf (getDirtyFlags bm).1).dirtyFlags) ∧
      (SnapshotsCurrent (mgmtOf (getFixCounts bm).1) ∧
        (getFixCounts bm).2 = (mgmtOf (getFixCounts bm).1).fixCounts) := by
  obtain ⟨pm, e, hw⟩ := reachable_winv hr
  rw [hbm] at e
  simp only [Option.some.injEq] at e
  subst e
  have same0 : SnapshotsUnchanged pm0 (mgmtOf bm) := by
    rw [mgmtOf_eq hbm]; exact ⟨rfl, rfl, rfl⟩
  refine ⟨fun page p => pin_snapshots bm page p pm0 hbm hw, fun page => ?_, fun page => ?_,
    fun page => ?_, ?_, ?_, ?_, ?_⟩
  · rw [unpin_eq bm page pm0 hbm]
    split
    · exact ⟨fun h => RC.noConfusion h, fun _ => same0⟩
    · exact ⟨fun _ => current_of_refresh _, fun h => absurd rfl h⟩
  · rw [markDirty_eq bm page pm0 hbm]
    split
    · exact ⟨fun h => RC.noConfusion h, fun _ => same0⟩
    · exact ⟨fun _ => current_of_refresh _, fun h => absurd rfl h⟩
  · rw [forcePage_eq bm page pm0 hbm]
    split
    · exact ⟨fun h => RC.noConfusion h, fun _ => same0⟩
    · split
      · rename_i hf
        refine ⟨fun h => absurd h hf, fun _ => ?_⟩
        obtain ⟨_, f2, _⟩ := flush_props hw (ptab_get pm0.ptab page.pageNum).toNat
        show SnapshotsUnchanged pm0 (flushIfDirty _ _).2
        unfold SnapshotsUnchanged
        rw [f2]
        exact ⟨rfl, rfl, rfl⟩
      · exact ⟨fun _ => current_of_refresh _, fun h => absurd rfl h⟩
  · rw [forceFlushPool_eq bm pm0 hbm]
    split
    · rename_i hf
      refine ⟨fun h => absurd h hf, fun _ => ?_⟩
      show SnapshotsUnchanged pm0 (flushFrames _ _ _).2
      unfold SnapshotsUnchanged
      rw [flushFrames_fields true _ pm0 hw]
      exact ⟨rfl, rfl, rfl⟩
    · exact ⟨fun _ => current_of_refresh _, fun h => absurd rfl h⟩
  · simp only [getFrameContents, hbm]
    exact ⟨current_of_refresh _, rfl⟩
  · simp only [getDirtyFlags, hbm]
    exact ⟨current_of_refresh _, rfl⟩
  · simp only [getFixCounts, hbm]
    exact ⟨current_of_refresh _, rfl⟩

/-- Witness for the amended C17: a successful `pinPage` on `onePinned`, the failing
`pinPage` on `dirtyOverFull`, and `getDirtyFlags` after it. -/
theorem C17_snapshots_witness :
    SnapshotsCurrent (mgmtOf (pinPage onePinned blankHandle 2).2.1) ∧
      SnapshotsUnchanged (mgmtOf dirtyOverFull) (mgmtOf (pinPage dirtyOverFull blankHandle 1).2.1) ∧
      SnapshotsCurrent (mgmtOf (getDirtyFlags (pinPage dirtyOverFull blankHandle 1).2.1).1) :=
  ⟨((C17_snapshots onePinned (mgmtOf onePinned) onePinned_reachable.reachable rfl).1
      blankHandle 2).1 (by decide),
   ((C17_snapshots dirtyOverFull (mgmtOf dirtyOverFull) dirtyOverFull_reachable rfl).1
      blankHandle 1).2 (by decide),
   (C17_snapshots (pinPage dirtyOverFull blankHandle 1).2.1
      (mgmtOf (pinPage dirtyOverFull blankHandle 1).2.1)
      ⟨growFailsFile, ReachableFrom.step _ _ (reach_writeBack (ReachableFrom.init blankPool
        "pages.bin" 1 ReplacementStrategy.RS_FIFO [] _ (Prod.ext (by decide) rfl)) 0 onesPage)
        (Step.pin _ blankHandle 1)⟩ rfl).2.2.2.2.2.2.1.1⟩


/-- C18, evaluated where the code breaks it: in `beforeFailedLoad` (CLOCK, two
frames holding pages 0 and 1, both unpinned, page table mapping 0 to frame 0)
`pinPage` of page 2 is a miss that chooses frame 0 as victim and fails while the
file is grown.  It returns that error, frame 0 still holds page 0 and the page
table has no entry for page 2, but the entry of page 0 is gone: `ptab_del` ran
before `loadIntoFrame` and is not undone, so the page table no longer maps the
chosen frame's page to that frame. -/
theorem C18_failed_load_unmaps_victim :
    Reachable beforeFailedLoad ∧
      ptab_get (mgmtOf beforeFailedLoad).ptab 2 < 0 ∧
      findEmptyFrame { (mgmtOf beforeFailedLoad) with tick := (mgmtOf beforeFailedLoad).tick + 1 } < 0 ∧
      (selectVictim { (mgmtOf beforeFailedLoad) with
        tick := (mgmtOf beforeFailedLoad).tick + 1 }).1 = 0 ∧
      (frameAt (mgmtOf beforeFailedLoad).frames 0).pageNum = 0 ∧
      ptab_get (mgmtOf beforeFailedLoad).ptab 0 = 0 ∧
      (ensurePageExists (mgmtOf beforeFailedLoad).fhandle 2).1 = RC.RC_WRITE_FAILED ∧
      (pinPage beforeFailedLoad blankHandle 2).1 = RC.RC_WRITE_FAILED ∧
      (frameAt (mgmtOf (pinPage beforeFailedLoad blankHandle 2).2.1).frames 0).pageNum = 0 ∧
      ptab_get (mgmtOf (pinPage beforeFailedLoad blankHandle 2).2.1).ptab 2 = -1 ∧
      ptab_get (mgmtOf (pinPage beforeFailedLoad blankHandle 2).2.1).ptab 0 = -1 :=
  ⟨beforeFailedLoad_reachable, by decide, by decide, by decide, by decide, by decide, by decide,
    by decide, by decide, by decide, by decide⟩


/-- C19: when a `pinPage` miss of a page `p ≥ 0` finds no empty frame, picks the
victim `v`, and the write-back of `v` fails, `pinPage` returns the error of the
flush and leaves the handle as it was; the victim still holds its page, is
still dirty and has `fixCount = 0`; every frame keeps its `pageNum`, `data`,
`dirty` and `fixCount`; the page table is unchanged (so it still maps the
victim's page wherever it did, and `p` is still not resident); and `numReadIO`
and `numWriteIO` are unchanged. -/
theorem C19_failed_eviction_flush (bm : BM_BufferPool) (page : BM_PageHandle) (p : Int)
    (pm0 : PoolMgmt) (v : Nat) (hr : Reachable bm) (hbm : bm.mgmtData = some pm0) (hp : 0 ≤ p)
    (miss : ptab_get pm0.ptab p < 0)
    (hfull : findEmptyFrame { pm0 with tick := pm0.tick + 1 } < 0)
    (hv : (selectVictim { pm0 with tick := pm0.tick + 1 }).1 = (v : Int))
    (hfail : (flushIfDirty (selectVictim { pm0 with tick := pm0.tick + 1 }).2 v).1 ≠ RC.RC_OK) :
    ∃ pm1, pinPage bm page p =
        ((flushIfDirty (selectVictim { pm0 with tick := pm0.tick + 1 }).2 v).1,
          { bm with mgmtData := some pm1 }, page) ∧
      (frameAt pm1.frames v).pageNum = (frameAt pm0.frames v).pageNum ∧
      (frameAt pm1.frames v).pageNum ≠ NO_PAGE ∧
      (frameAt pm0.frames v).dirty = true ∧ (frameAt pm1.frames v).dirty = true ∧
      (frameAt pm1.frames v).fixCount = 0 ∧
      (∀ i, (frameAt pm1.frames i).pageNum = (frameAt pm0.frames i).pageNum ∧
        (frameAt pm1.frames i).data = (frameAt pm0.frames i).data ∧
        (frameAt pm1.frames i).dirty = (frameAt pm0.frames i).dirty ∧
        (frameAt pm1.frames i).fixCount = (frameAt pm0.frames i).fixCount) ∧
      pm1.ptab = pm0.ptab ∧ ptab_get pm1.ptab p < 0 ∧
      pm1.numReadIO = pm0.numReadIO ∧ pm1.numWriteIO = pm0.numWriteIO := by
  obtain ⟨pm, e, hw⟩ := reachable_winv hr
  rw [hbm] at e
  simp only [Option.some.injEq] at e
  subst e
  have hwt := hw.tick
  obtain ⟨v1, v2, v3, v4, v5⟩ := victim_props hwt
  obtain ⟨f1, f2, f3, f4, f5, f6⟩ := flush_props v1 v
  obtain ⟨g1, g2⟩ := f6 hfail
  have hel : Eligible (frameAt pm0.frames v) := by
    rcases v5 with e | ⟨u, e, _, hel⟩
    · rw [e] at hv; omega
    · have : u = v := by rw [e] at hv; omega
      subst this; exact hel
  have hsame : ∀ i, (frameAt (flushIfDirty (selectVictim
      ({ pm0 with tick := pm0.tick + 1 } : PoolMgmt)).2 v).2.frames i).pageNum
        = (frameAt pm0.frames i).pageNum ∧
      (frameAt (flushIfDirty (selectVictim
        ({ pm0 with tick := pm0.tick + 1 } : PoolMgmt)).2 v).2.frames i).data
        = (frameAt pm0.frames i).data ∧
      (frameAt (flushIfDirty (selectVictim
        ({ pm0 with tick := pm0.tick + 1 } : PoolMgmt)).2 v).2.frames i).dirty
        = (frameAt pm0.frames i).dirty ∧
      (frameAt (flushIfDirty (selectVictim
        ({ pm0 with tick := pm0.tick + 1 } : PoolMgmt)).2 v).2.frames i).fixCount
        = (frameAt pm0.frames i).fixCount := by
    intro i
    rw [g1]
    exact ⟨(v4 i).1, (v4 i).2.1, (v4 i).2.2.1, (v4 i).2.2.2.1⟩
  have hdirty : (frameAt pm0.frames v).dirty = true := by
    cases hd : (frameAt pm0.frames v).dirty with
    | true => rfl
    | false =>
      exfalso
      apply hfail
      rw [flushIfDirty_noop _ v (Or.inr (by rw [(v4 v).2.2.1]; exact hd))]
  have hpt : (flushIfDirty (selectVictim ({ pm0 with tick := pm0.tick + 1 } : PoolMgmt)).2 v).2.ptab
      = pm0.ptab := by
    rw [f2]; show (selectVictim ({ pm0 with tick := pm0.tick + 1 } : PoolMgmt)).2.ptab = _
    rw [v2]
  rcases pin_miss bm page p pm0 hbm hp miss with ⟨_, e2, _⟩ | ⟨_, _, _, e4⟩ | ⟨t, pmT, ht, _⟩
  · rw [hv] at e2; omega
  · rw [hv, Int.toNat_natCast] at e4
    refine ⟨_, e4, (hsame v).1, ?_, hdirty, ?_, ?_, hsame, hpt, ?_, ?_, ?_⟩
    · rw [(hsame v).1]; exact hel.2
    · rw [(hsame v).2.2.1]; exact hdirty
    · rw [(hsame v).2.2.2]; exact hel.1
    · rw [hpt]; exact miss
    · rw [f2]; show PoolMgmt.numReadIO (selectVictim ({ pm0 with tick := pm0.tick + 1 } : PoolMgmt)).2 = _
      rw [v2]
    · rw [g2]; show PoolMgmt.numWriteIO (selectVictim ({ pm0 with tick := pm0.tick + 1 } : PoolMgmt)).2 = _
      rw [v2]
  · exfalso
    rcases ht with ⟨he, _⟩ | ⟨_, hv2, hf, _⟩
    · rw [he] at hfull; omega
    · have : t = v := by rw [hv] at hv2; omega
      subst this
      exact hfail hf

/-- Witness for C19: in `dirtyOverFailing` the only frame holds page 0, dirty and
unpinned, and the `fseek` of its write-back fails when page 1 is pinned. -/
theorem C19_failed_eviction_flush_witness :
    ∃ pm1, pinPage dirtyOverFailing blankHandle 1 =
        ((flushIfDirty (selectVictim { (mgmtOf dirtyOverFailing) with
            tick := (mgmtOf dirtyOverFailing).tick + 1 }).2 0).1,
          { dirtyOverFailing with mgmtData := some pm1 }, blankHandle) ∧
      (frameAt pm1.frames 0).pageNum = (frameAt (mgmtOf dirtyOverFailing).frames 0).pageNum ∧
      (frameAt pm1.frames 0).pageNum ≠ NO_PAGE ∧
      (frameAt (mgmtOf dirtyOverFailing).frames 0).dirty = true ∧
      (frameAt pm1.frames 0).dirty = true ∧
      (frameAt pm1.frames 0).fixCount = 0 ∧
      (∀ i, (frameAt pm1.frames i).pageNum = (frameAt (mgmtOf dirtyOverFailing).frames i).pageNum ∧
        (frameAt pm1.frames i).data = (frameAt (mgmtOf dirtyOverFailing).frames i).data ∧
        (frameAt pm1.frames i).dirty = (frameAt (mgmtOf dirtyOverFailing).frames i).dirty ∧
        (frameAt pm1.frames i).fixCount = (frameAt (mgmtOf dirtyOverFailing).frames i).fixCount) ∧
      pm1.ptab = (mgmtOf dirtyOverFailing).ptab ∧ ptab_get pm1.ptab 1 < 0 ∧
      pm1.numReadIO = PoolMgmt.numReadIO (mgmtOf dirtyOverFailing) ∧
      pm1.numWriteIO = PoolMgmt.numWriteIO (mgmtOf dirtyOverFailing) :=
  C19_failed_eviction_flush dirtyOverFailing blankHandle 1 (mgmtOf dirtyOverFailing) 0
    dirtyOverFailing_reachable rfl (by decide) (by decide) (by decide) (by decide) (by decide)


/-- C20: `markDirty` on a page that is not resident returns an error and leaves the
pool as it is; on a resident page it returns RC_OK and sets the `dirty` flag of
that frame to true, leaving every other field of the frame (`pageNum`,
`fixCount`, `data`, `lastUsed`, `fifoPos`, `refbit`), every other frame, the
page table, the file handle, `tick`, `clockHand` and both I/O counters
unchanged; and a second `markDirty` with the same handle returns the same code
and leaves the state of the first. -/
theorem C20_markDirty (bm : BM_BufferPool) (page : BM_PageHandle) (pm0 : PoolMgmt)
    (hr : Reachable bm) (hbm : bm.mgmtData = some pm0) :
    (ptab_get pm0.ptab page.pageNum < 0 →
        markDirty bm page = (RC.RC_READ_NON_EXISTING_PAGE, bm)) ∧
      (0 ≤ ptab_get pm0.ptab page.pageNum →
        ∃ pm1, markDirty bm page = (RC.RC_OK, { bm with mgmtData := some pm1 }) ∧
          (ptab_get pm0.ptab page.pageNum).toNat < pm0.frames.length ∧
          frameAt pm1.frames (ptab_get pm0.ptab page.pageNum).toNat =
            { (frameAt pm0.frames (ptab_get pm0.ptab page.pageNum).toNat) with dirty := true } ∧
          (∀ i, i ≠ (ptab_get pm0.ptab page.pageNum).toNat →
            frameAt pm1.frames i = frameAt pm0.frames i) ∧
          pm1.frames.length = pm0.frames.length ∧ pm1.tick = pm0.tick ∧ pm1.ptab = pm0.ptab ∧
          pm1.clockHand = pm0.clockHand ∧ pm1.numReadIO = pm0.numReadIO ∧
          pm1.numWriteIO = pm0.numWriteIO ∧ pm1.fhandle = pm0.fhandle) ∧
      markDirty (markDirty bm page).2 page = markDirty bm page := by
  obtain ⟨pm, e, hw⟩ := reachable_winv hr
  rw [hbm] at e
  simp only [Option.some.injEq] at e
  subst e
  refine ⟨fun h => ?_, fun h => ?_, ?_⟩
  · rw [markDirty_eq bm page pm0 hbm, if_pos h]
  · obtain ⟨_, r2, _, _⟩ := hw.resident h
    rw [markDirty_eq bm page pm0 hbm, if_neg (by omega)]
    refine ⟨_, rfl, r2, ?_, ?_, ?_, rfl, rfl, rfl, rfl, rfl, rfl⟩
    · show frameAt (pm0.frames.set _ _) _ = _
      rw [frameAt_set_self r2]
    · intro i hi
      show frameAt (pm0.frames.set _ _) i = _
      rw [frameAt_set_other (fun e => hi e.symm)]
    · show (pm0.frames.set _ _).length = _
      rw [List.length_set]
  · by_cases h : ptab_get pm0.ptab page.pageNum < 0
    · have e1 : markDirty bm page = (RC.RC_READ_NON_EXISTING_PAGE, bm) := by
        rw [markDirty_eq bm page pm0 hbm, if_pos h]
      rw [e1]
      exact e1
    · obtain ⟨_, r2, _, _⟩ := hw.resident (p := page.pageNum) (by omega)
      have e1 := markDirty_eq bm page pm0 hbm
      rw [if_neg h] at e1
      rw [e1]
      rw [markDirty_eq _ page _ rfl]
      show (if ptab_get pm0.ptab page.pageNum < 0 then _ else _) = _
      rw [if_neg h]
      simp only [refreshSnapshots, frameAt_set_self r2, List.set_set, List.length_set]

/-- Witness for C20 on `onePinned`: page 7 is not resident, page 1 is resident and
clean. -/
theorem C20_markDirty_witness :
    markDirty onePinned { pageNum := 7, data := none } = (RC.RC_READ_NON_EXISTING_PAGE, onePinned) ∧
      (∃ pm1, markDirty onePinned { pageNum := 1, data := none }
          = (RC.RC_OK, { onePinned with mgmtData := some pm1 }) ∧
        (ptab_get (mgmtOf onePinned).ptab 1).toNat < (mgmtOf onePinned).frames.length ∧
        frameAt pm1.frames (ptab_get (mgmtOf onePinned).ptab 1).toNat =
          { (frameAt (mgmtOf onePinned).frames (ptab_get (mgmtOf onePinned).ptab 1).toNat) with
            dirty := true } ∧
        (∀ i, i ≠ (ptab_get (mgmtOf onePinned).ptab 1).toNat →
          frameAt pm1.frames i = frameAt (mgmtOf onePinned).frames i) ∧
        pm1.frames.length = (mgmtOf onePinned).frames.length ∧
        pm1.tick = (mgmtOf onePinned).tick ∧ pm1.ptab = (mgmtOf onePinned).ptab ∧
        pm1.clockHand = (mgmtOf onePinned).clockHand ∧
        pm1.numReadIO = PoolMgmt.numReadIO (mgmtOf onePinned) ∧
        pm1.numWriteIO = PoolMgmt.numWriteIO (mgmtOf onePinned) ∧
        pm1.fhandle = (mgmtOf onePinned).fhandle) ∧
      markDirty (markDirty onePinned { pageNum := 1, data := none }).2 { pageNum := 1, data := none }
        = markDirty onePinned { pageNum := 1, data := none } :=
  ⟨(C20_markDirty onePinned { pageNum := 7, data := none } (mgmtOf onePinned)
      onePinned_reachable.reachable rfl).1 (by decide),
   (C20_markDirty onePinned { pageNum := 1, data := none } (mgmtOf onePinned)
      onePinned_reachable.reachable rfl).2.1 (by decide),
   (C20_markDirty onePinned { pageNum := 1, data := none } (mgmtOf onePinned)
      onePinned_reachable.reachable rfl).2.2⟩

/-- C22: the open-addressing page table refines the finite map of the spec.  For
every table size and every sequence of `ptab_put` / `ptab_del` on a table fresh
from `ptab_init` during which the number of occupied slots stays below `cap`:
`ptab_get (k)` returns what the spec says (`spec_get`: the value of the most
recent `ptab_put (k, v)` that no `ptab_del (k)` follows, and `-1` otherwise); a
further put or delete of another key does not change the result for `k`; a
further `ptab_put` returns RC_OK and is read back, a further `ptab_del` makes
`ptab_get` return `-1`; when no slot is empty and the key is absent, the put
overwrites a slot that was a tombstone; and `cap` is still at least three times
the size asked for.  In every reachable pool the page table has at most
`capacity` occupied slots and `cap ≥ 3 * capacity`, so the occupied slots stay
below `cap` and every `ptab_put` succeeds, after any number of evictions.
Example: a table of four slots after four load/evict rounds has four
tombstones, and the next `ptab_put` succeeds and is read back. -/
theorem C22_page_table_refines_map :
    (∀ (approx : Int) (ops : List PtabOp), staysBelow (ptab_init approx) ops = true →
      (∀ k, ptab_get (ptabRun (ptab_init approx) ops) k = spec_get ops k) ∧
      (∀ key val k, k ≠ key →
        ptab_get (ptab_put (ptabRun (ptab_init approx) ops) key val).2 k
            = ptab_get (ptabRun (ptab_init approx) ops) k ∧
          ptab_get (ptab_del (ptabRun (ptab_init approx) ops) key) k
            = ptab_get (ptabRun (ptab_init approx) ops) k) ∧
      (∀ key val, (ptab_put (ptabRun (ptab_init approx) ops) key val).1 = RC.RC_OK ∧
        ptab_get (ptab_put (ptabRun (ptab_init approx) ops) key val).2 key = val ∧
        ptab_get (ptab_del (ptabRun (ptab_init approx) ops) key) key = -1 ∧
        ((∀ s, s < (ptabRun (ptab_init approx) ops).cap.toNat →
            (ptabRun (ptab_init approx) ops).state.getD s 0 ≠ 0) →
          (ptab_find_slot (ptabRun (ptab_init approx) ops) key).2 < 0 →
          ∃ s, s < (ptabRun (ptab_init approx) ops).cap.toNat ∧
            (ptabRun (ptab_init approx) ops).state.getD s 0 = 2 ∧
            (ptab_put (ptabRun (ptab_init approx) ops) key val).2.state
              = (ptabRun (ptab_init approx) ops).state.set s 1 ∧
            (ptab_put (ptabRun (ptab_init approx) ops) key val).2.keys
              = (ptabRun (ptab_init approx) ops).keys.set s key)) ∧
      approx * 3 ≤ (ptabRun (ptab_init approx) ops).cap) ∧
    (∀ (bm : BM_BufferPool) (pm : PoolMgmt), ReachableAny bm → bm.mgmtData = some pm →
      ptab_occupied pm.ptab ≤ pm.capacity.toNat ∧ pm.capacity * 3 ≤ pm.ptab.cap ∧
      ptab_occupied pm.ptab < pm.ptab.cap.toNat ∧
      ∀ key val, (ptab_put pm.ptab key val).1 = RC.RC_OK ∧
        ptab_get (ptab_put pm.ptab key val).2 key = val) ∧
    (staysBelow (ptab_init 1) fourEvictions = true ∧
      (ptabRun (ptab_init 1) fourEvictions).state = [2, 2, 2, 2] ∧
      (ptab_put (ptabRun (ptab_init 1) fourEvictions) 7 0).1 = RC.RC_OK ∧
      (ptab_put (ptabRun (ptab_init 1) fourEvictions) 7 0).2.state = [2, 2, 1, 2] ∧
      ptab_get (ptab_put (ptabRun (ptab_init 1) fourEvictions) 7 0).2 7 = 0 ∧
      ptab_get (ptab_put (ptabRun (ptab_init 1) fourEvictions) 7 0).2 6 = -1) := by
  refine ⟨fun approx ops h => ?_, fun bm pm hr hbm => ?_,
    by decide, by decide, by decide, by decide, by decide, by decide⟩
  · have hi := ptabRun_inv ops (init_inv approx)
    have hroom := staysBelow_last ops _ h
    refine ⟨run_refines approx ops h, fun key val k hk => ⟨put_get_other hi key val k hk,
      del_get_other hi key k hk⟩, fun key val => ⟨(put_get_self hi key val hroom).1,
      (put_get_self hi key val hroom).2, del_get_self hi key, fun hfull habs => ?_⟩, ?_⟩
    · obtain ⟨s, hs, h2, e⟩ := put_reuses_tombstone hi key val hroom hfull habs
      exact ⟨s, hs, h2, by rw [e], by rw [e]⟩
    · rw [ptabRun_cap]
      exact init_cap_ge approx
  · obtain ⟨pm2, e, hw, _, hc⟩ := reachableAny_inv hr
    rw [hbm] at e
    simp only [Option.some.injEq] at e
    subst e
    have hocc := occupied_le_capacity hw
    have hpos := hw.cap_pos
    have hlt : ptab_occupied pm.ptab < pm.ptab.cap.toNat := by omega
    exact ⟨hocc, hc, hlt, fun key val => put_get_self hw.pt key val hlt⟩

/-- Witness for C22: the history `fourEvictions` on a table of four slots, during
which at most one slot is occupied, and the page table of the pool `twoDirty`. -/
theorem C22_page_table_refines_map_witness :
    (staysBelow (ptab_init 1) fourEvictions = true ∧
      (∀ k, ptab_get (ptabRun (ptab_init 1) fourEvictions) k = spec_get fourEvictions k) ∧
      (∀ key val, (ptab_put (ptabRun (ptab_init 1) fourEvictions) key val).1 = RC.RC_OK)) ∧
    (ptab_occupied (mgmtOf twoDirty).ptab ≤ (mgmtOf twoDirty).capacity.toNat ∧
      (mgmtOf twoDirty).capacity * 3 ≤ (mgmtOf twoDirty).ptab.cap ∧
      ptab_occupied (mgmtOf twoDirty).ptab < (mgmtOf twoDirty).ptab.cap.toNat) :=
  ⟨⟨by decide, (C22_page_table_refines_map.1 1 fourEvictions (by decide)).1,
      fun key val => ((C22_page_table_refines_map.1 1 fourEvictions (by decide)).2.2.1 key val).1⟩,
    (C22_page_table_refines_map.2.1 twoDirty (mgmtOf twoDirty)
      twoDirty_reachable.reachable.any rfl).1,
    (C22_page_table_refines_map.2.1 twoDirty (mgmtOf twoDirty)
      twoDirty_reachable.reachable.any rfl).2.1,
    (C22_page_table_refines_map.2.1 twoDirty (mgmtOf twoDirty)
      twoDirty_reachable.reachable.any rfl).2.2.1⟩

/-- C23: in every reachable pool (ticks are `long long` in the source and integers
here, so this is about runs of fewer than `2 ^ 63` pins), every `pinPage` with a
page number `≥ 0` increases `tick` by exactly 1 whatever it returns (hit, miss,
no replaceable frame, failed write-back or failed load), and a `pinPage` with a
negative page number leaves it unchanged; every step of the client interface
either leaves `tick` unchanged or is such a `pinPage` and increases it by 1; the
flush loop of `shutdownBufferPool` leaves it unchanged; no stamp of a frame
exceeds `tick`; and any two distinct resident frames have different `fifoPos`
and different `lastUsed`. -/
theorem C23_ticks_order_frames (bm : BM_BufferPool) (pm0 : PoolMgmt) (hr : ReachableAny bm)
    (hbm : bm.mgmtData = some pm0) :
    (∀ page p, ∃ pm1, (pinPage bm page p).2.1.mgmtData = some pm1 ∧
      (0 ≤ p → pm1.tick = pm0.tick + 1) ∧ (p < 0 → pm1.tick = pm0.tick)) ∧
    (∀ bm2, Step bm bm2 → ∃ pm1, bm2.mgmtData = some pm1 ∧
      (pm1.tick = pm0.tick ∨
        (pm1.tick = pm0.tick + 1 ∧ ∃ page p, bm2 = (pinPage bm page p).2.1 ∧ 0 ≤ p))) ∧
    (flushFrames false (List.range pm0.capacity.toNat) (releasePins pm0)).2.tick = pm0.tick ∧
    (∀ i, (frameAt pm0.frames i).fifoPos ≤ pm0.tick ∧ (frameAt pm0.frames i).lastUsed ≤ pm0.tick) ∧
    (∀ i j, i ≠ j → (frameAt pm0.frames i).pageNum ≠ NO_PAGE →
      (frameAt pm0.frames j).pageNum ≠ NO_PAGE →
      (frameAt pm0.frames i).fifoPos ≠ (frameAt pm0.frames j).fifoPos ∧
        (frameAt pm0.frames i).lastUsed ≠ (frameAt pm0.frames j).lastUsed) := by
  obtain ⟨pm, e, hw, hd, _⟩ := reachableAny_inv hr
  rw [hbm] at e
  simp only [Option.some.injEq] at e
  subst e
  refine ⟨fun page p => ?_, fun bm2 hs => ?_, (aborted_shape hw).2.2.1, hw.stamps, hd⟩
  · obtain ⟨pm1, e, _, _, c, d, _⟩ := pin_shape bm page p pm0 hbm hw
    exact ⟨pm1, e, d, c⟩
  · obtain ⟨pm1, e, _, _, c, _⟩ := step_shape hs hbm hw
    exact ⟨pm1, e, c⟩

/-- Witness for C23: the pool `twoDirty`, whose two frames are resident. -/
theorem C23_ticks_order_frames_witness :
    (∀ page p, ∃ pm1, (pinPage twoDirty page p).2.1.mgmtData = some pm1 ∧
      (0 ≤ p → pm1.tick = (mgmtOf twoDirty).tick + 1) ∧ (p < 0 → pm1.tick = (mgmtOf twoDirty).tick)) ∧
    (∀ bm2, Step twoDirty bm2 → ∃ pm1, bm2.mgmtData = some pm1 ∧
      (pm1.tick = (mgmtOf twoDirty).tick ∨
        (pm1.tick = (mgmtOf twoDirty).tick + 1 ∧ ∃ page p, bm2 = (pinPage twoDirty page p).2.1 ∧ 0 ≤ p))) ∧
    (flushFrames false (List.range (mgmtOf twoDirty).capacity.toNat) (releasePins (mgmtOf twoDirty))).2.tick = (mgmtOf twoDirty).tick ∧
    (∀ i, (frameAt (mgmtOf twoDirty).frames i).fifoPos ≤ (mgmtOf twoDirty).tick ∧ (frameAt (mgmtOf twoDirty).frames i).lastUsed ≤ (mgmtOf twoDirty).tick) ∧
    (∀ i j, i ≠ j → (frameAt (mgmtOf twoDirty).frames i).pageNum ≠ NO_PAGE →
      (frameAt (mgmtOf twoDirty).frames j).pageNum ≠ NO_PAGE →
      (frameAt (mgmtOf twoDirty).frames i).fifoPos ≠ (frameAt (mgmtOf twoDirty).frames j).fifoPos ∧
        (frameAt (mgmtOf twoDirty).frames i).lastUsed ≠ (frameAt (mgmtOf twoDirty).frames j).lastUsed) :=
  C23_ticks_order_frames twoDirty (mgmtOf twoDirty) twoDirty_reachable.reachable.any rfl

end BufferManager
